import Mathlib

/-!
# Brush-BSP construction (qbsp/brushbsp.cc): shallow embedding

The C++ `double` (`vec_t`) is modelled by exact rationals, so every comparison
of the source is a decidable comparison here; rounding and NaN are outside the
model.  Owning pointers (`std::unique_ptr`, `std::optional`) become `Option`,
`std::vector` becomes `List`, and the fatal `Error(...)` becomes `Except`
(as does the dereference of a null pointer).  A pointer to a side of a brush
in a list is the pair of the brush index and the side index.  Log output is
not modelled.

Functions of the repository that the translated code calls but whose bodies
are not among the translated sources (winding clip, base winding, area, flip,
bounds, plane comparison, texture flags, content flags, build options) are
collected in the structure `Ext`; every translated function takes an `Ext`
and the theorems hold for all of them.
-/

set_option autoImplicit false

namespace Qbsp

/-! ## Vectors, planes, boxes -/

/-- The source's `vec_t` (a double), as an exact rational. -/
abbrev vec_t := ℚ

/-- A point or direction, `qvec3d`. -/
structure qvec3d where
  x : vec_t
  y : vec_t
  z : vec_t
deriving DecidableEq, Repr

namespace qvec3d

/-- Component access `v[i]` for `i` in 0, 1, 2; other indices are outside the
array in the source and read as 0 here. -/
def get (v : qvec3d) : Int → vec_t
  | 0 => v.x
  | 1 => v.y
  | 2 => v.z
  | _ => 0

/-- Component assignment `v[i] = a`. -/
def set (v : qvec3d) (i : Nat) (a : vec_t) : qvec3d :=
  match i with
  | 0 => { v with x := a }
  | 1 => { v with y := a }
  | _ => { v with z := a }

/-- Unary minus on vectors. -/
def neg (v : qvec3d) : qvec3d := ⟨-v.x, -v.y, -v.z⟩

/-- Vector difference. -/
def sub (a b : qvec3d) : qvec3d := ⟨a.x - b.x, a.y - b.y, a.z - b.z⟩

end qvec3d

/-- The dot product `qv::dot`. -/
def qv.dot (a b : qvec3d) : vec_t := a.x * b.x + a.y * b.y + a.z * b.z

/-- The comparison `qv::length(delta) > size`, written without the square
root: a length is never negative, and for `size ≥ 0` the lengths compare as
their squares. -/
def qv.lengthGt (delta : qvec3d) (size : vec_t) : Bool :=
  decide (size < 0) || decide (size * size < qv.dot delta delta)

/-- An oriented plane `qplane3d`: the points `p` with `normal · p = dist`. -/
structure qplane3d where
  normal : qvec3d
  dist : vec_t
deriving DecidableEq, Repr

/-- The flipped plane, `qplane3d::operator-`. -/
def qplane3d.neg (p : qplane3d) : qplane3d := ⟨p.normal.neg, -p.dist⟩

/-- The type tag of a plane, `plane_type_t`. -/
inductive plane_type_t where
  | PLANE_INVALID
  | PLANE_X
  | PLANE_Y
  | PLANE_Z
  | PLANE_ANYX
  | PLANE_ANYY
  | PLANE_ANYZ
deriving DecidableEq, Repr

/-- Modelled from the spec: the numeric values of the `plane_type_t` tags,
whose declaration is not among the translated sources.  The axial tags are
the indices 0, 1, 2 of their axis (the code indexes bounds with them), the
dominant-axis tags follow, and the invalid tag is below all of them. -/
def plane_type_t.toInt : plane_type_t → Int
  | .PLANE_INVALID => -1
  | .PLANE_X => 0
  | .PLANE_Y => 1
  | .PLANE_Z => 2
  | .PLANE_ANYX => 3
  | .PLANE_ANYY => 4
  | .PLANE_ANYZ => 5

/-- A plane with its type tag, `qbsp_plane_t` (map.hh). -/
structure qbsp_plane_t extends qplane3d where
  type : plane_type_t := plane_type_t.PLANE_INVALID
deriving DecidableEq, Repr

/-- The flipped tagged plane, `qbsp_plane_t::operator-` (map.hh). -/
def qbsp_plane_t.neg (p : qbsp_plane_t) : qbsp_plane_t :=
  { toqplane3d := p.toqplane3d.neg, type := p.type }

/-- The tag given to an exactly axial normal on axis `i`. -/
def axisType : Nat → plane_type_t
  | 0 => plane_type_t.PLANE_X
  | 1 => plane_type_t.PLANE_Y
  | _ => plane_type_t.PLANE_Z

/-- One round of the first loop of `qbsp_plane_t::from_plane` (map.hh), for
axis `i`: `some` when the round returns, `none` when the loop goes on. -/
def from_plane_axis (p : qbsp_plane_t) (flip : Bool) (i : Nat) :
    Option (qbsp_plane_t × Bool) :=
  if p.normal.get i = 1 then
    some ({ normal := (p.normal.set ((i + 1) % 3) 0).set ((i + 2) % 3) 0,
            dist := p.dist, type := axisType i }, false)
  else if p.normal.get i = -1 then
    let n := if flip then p.normal.set i 1 else p.normal
    let d := if flip then -p.dist else p.dist
    some ({ normal := (n.set ((i + 1) % 3) 0).set ((i + 2) % 3) 0,
            dist := d, type := axisType i }, flip)
  else
    none

/-- The tail of `qbsp_plane_t::from_plane` (map.hh): dominant axis, then the
optional flip. -/
def from_plane_any (p : qbsp_plane_t) (flip : Bool) : qbsp_plane_t × Bool :=
  let ax := |p.normal.x|
  let ay := |p.normal.y|
  let az := |p.normal.z|
  let nearest : Nat := if ax ≥ ay ∧ ax ≥ az then 0 else if ay ≥ ax ∧ ay ≥ az then 1 else 2
  let t : plane_type_t :=
    if ax ≥ ay ∧ ax ≥ az then plane_type_t.PLANE_ANYX
    else if ay ≥ ax ∧ ay ≥ az then plane_type_t.PLANE_ANYY
    else plane_type_t.PLANE_ANYZ
  let q : qbsp_plane_t := { p with type := t }
  if flip ∧ q.normal.get nearest < 0 then (q.neg, true) else (q, false)

/-- The canonical form of a plane, `qbsp_plane_t::from_plane` (map.hh): the
plane and the `was_flipped` flag. -/
def from_plane (plane : qplane3d) (flip : Bool) : qbsp_plane_t × Bool :=
  let p : qbsp_plane_t := { toqplane3d := plane }
  match from_plane_axis p flip 0 with
  | some r => r
  | none =>
    match from_plane_axis p flip 1 with
    | some r => r
    | none =>
      match from_plane_axis p flip 2 with
      | some r => r
      | none => from_plane_any p flip

/-- The call `plane.set_plane(src, flip)` of brushbsp.cc, which stores the
canonical form of `src` and returns whether it was flipped.  Its declaration is
not among the translated sources; it is taken to be `from_plane` of map.hh. -/
def set_plane (src : qplane3d) (flip : Bool) : qbsp_plane_t × Bool :=
  from_plane src flip

/-- An axis-aligned box, `aabb3d`. -/
structure aabb3d where
  mins : qvec3d
  maxs : qvec3d
deriving DecidableEq, Repr

/-! ## Windings, sides, brushes -/

/-- A winding: the ring of points of a convex polygon. -/
abbrev winding_t := List qvec3d

/-- A pair indexed by plane side, `twosided<T>`: index 0 is `front`, index 1
is `back`. -/
structure twosided (α : Type) where
  front : α
  back : α
deriving DecidableEq, Repr

/-- Indexing `result[i]` of a `twosided`. -/
def twosided.get {α : Type} (t : twosided α) (i : Nat) : α :=
  if i = 0 then t.front else t.back

/-- Opaque content flags of a brush. -/
abbrev contentflags_t := Nat

/-- One face of a brush, `side_t`. -/
structure side_t where
  plane : qbsp_plane_t
  plane_flipped : Bool
  w : winding_t
  texinfo : Int
  bevel : Bool
  visible : Bool
  onnode : Bool
  tested : Bool
deriving DecidableEq, Repr

/-- The value-initialised side `side_t cs{}`. -/
def side_t.zero : side_t :=
  { plane := { normal := ⟨0, 0, 0⟩, dist := 0 }, plane_flipped := false, w := [],
    texinfo := 0, bevel := false, visible := false, onnode := false, tested := false }

/-- A convex brush, `bspbrush_t`.  `original` and `func_areaportal` are
non-owning references, kept as identifiers (`none` is the null pointer);
`side` and `testside` hold `PSIDE` bit sets. -/
structure bspbrush_t where
  original : Option Nat
  contents : contentflags_t
  lmshift : Int
  func_areaportal : Option Nat
  bounds : aabb3d
  sides : List side_t
  side : Nat
  testside : Nat
deriving DecidableEq, Repr

/-- The functions and settings the translated code uses whose bodies are not
among the translated sources. -/
structure Ext where
  /-- The function `BaseWindingForPlane` (declared in winding.hh). -/
  BaseWindingForPlane : qplane3d → winding_t
  /-- The method `winding_t::clip(plane, on_epsilon, keep_on)`: front and back piece. -/
  clip : winding_t → qplane3d → vec_t → Bool → twosided (Option winding_t)
  /-- The method `winding_t::area`. -/
  area : winding_t → vec_t
  /-- The method `winding_t::flip`. -/
  flip : winding_t → winding_t
  /-- The method `bspbrush_t::update_bounds`: the bounds of a list of sides. -/
  update_bounds : List side_t → aabb3d
  /-- The comparison `qv::epsilonEqual` on planes. -/
  epsilonEqual : qplane3d → qplane3d → Bool
  /-- The flag `side.get_texinfo().flags.is_hint`, by texinfo number. -/
  is_hint : Int → Bool
  /-- The flag `side.get_texinfo().flags.is_hintskip`, by texinfo number. -/
  is_hintskip : Int → Bool
  /-- The texinfo number `map.skip_texinfo`. -/
  skip_texinfo : Int
  /-- The contents of the original brush a brush refers to. -/
  original_contents : Nat → contentflags_t
  /-- The predicate `contentflags_t::is_any_detail` for the target game. -/
  is_any_detail : contentflags_t → Bool

/-- The constant `ON_EPSILON` (polylib.h), the default `on_epsilon` of a clip. -/
def ON_EPSILON : vec_t := 1 / 10

/-- The constant `PLANESIDE_EPSILON` (brushbsp.cc). -/
def PLANESIDE_EPSILON : vec_t := 1 / 1000

/-- The bit `PSIDE_FRONT`.  The `PSIDE` bit sets are never negative and are
kept as naturals. -/
def PSIDE_FRONT : Nat := 1
/-- The bit `PSIDE_BACK`. -/
def PSIDE_BACK : Nat := 2
/-- The value `PSIDE_BOTH`, the two bits together. -/
def PSIDE_BOTH : Nat := 3
/-- The bit `PSIDE_FACING`. -/
def PSIDE_FACING : Nat := 4

/-- Modelled from the spec: `Face_Plane(side)`, whose body is not among the
translated sources: the side's plane with the outward orientation, that is
the stored plane, negated when `plane_flipped` is set. -/
def Face_Plane (side : side_t) : qplane3d :=
  if side.plane_flipped then side.plane.toqplane3d.neg else side.plane.toqplane3d

/-- The outward normal of a side: the stored plane normal, negated when
`plane_flipped` is set. -/
def side_t.outwardNormal (side : side_t) : qvec3d :=
  if side.plane_flipped then side.plane.normal.neg else side.plane.normal

/-! ## BrushVolume, WindingIsTiny, BrushMostlyOnSide -/

/-- The first loop of `BrushVolume`: the first point of the last side with a
non-empty winding (the loop has no `break`). -/
def BrushVolume.corner (sides : List side_t) : Option qvec3d :=
  sides.foldl (fun found face =>
    match face.w with
    | [] => found
    | p :: _ => some p) none

/-- The function `BrushVolume`. -/
def BrushVolume (E : Ext) (brush : bspbrush_t) : vec_t :=
  match BrushVolume.corner brush.sides with
  | none => 0
  | some corner =>
    (brush.sides.foldl (fun volume side =>
      if side.w.length = 0 then volume
      else
        let plane := Face_Plane side
        let d := -(qv.dot corner plane.normal - plane.dist)
        let area := E.area side.w
        volume + d * area) 0) / 3

/-- The edge loop of `WindingIsTiny` from point `i` on, with `edges` long
edges counted so far; `fuel` bounds the remaining rounds. -/
def WindingIsTiny.loop (w : winding_t) (size : vec_t) : Nat → Nat → Nat → Bool
  | 0, _, _ => true
  | fuel + 1, i, edges =>
    if i < w.length then
      let j := (i + 1) % w.length
      let delta := (w.getD j ⟨0, 0, 0⟩).sub (w.getD i ⟨0, 0, 0⟩)
      if qv.lengthGt delta size then
        if edges + 1 = 3 then false
        else WindingIsTiny.loop w size fuel (i + 1) (edges + 1)
      else WindingIsTiny.loop w size fuel (i + 1) edges
    else true

/-- The function `WindingIsTiny`. -/
def WindingIsTiny (w : winding_t) (size : vec_t) : Bool :=
  WindingIsTiny.loop w size w.length 0 0

/-- The default `size` of `WindingIsTiny`, from the spec (0.2 world units). -/
def WindingIsTiny.defaultSize : vec_t := 2 / 10

/-- The constants `SIDE_FRONT` and `SIDE_BACK` of `planeside_t`. -/
inductive planeside_t where
  | SIDE_FRONT
  | SIDE_BACK
deriving DecidableEq, Repr

/-- One point of the loop of `BrushMostlyOnSide`. -/
def BrushMostlyOnSide.step (plane : qplane3d) (acc : vec_t × planeside_t) (pt : qvec3d) :
    vec_t × planeside_t :=
  let d := qv.dot pt plane.normal - plane.dist
  let acc1 := if d > acc.1 then (d, planeside_t.SIDE_FRONT) else acc
  if -d > acc1.1 then (-d, planeside_t.SIDE_BACK) else acc1

/-- The function `BrushMostlyOnSide`. -/
def BrushMostlyOnSide (brush : bspbrush_t) (plane : qplane3d) : planeside_t :=
  (brush.sides.foldl (fun acc face => face.w.foldl (BrushMostlyOnSide.step plane) acc)
    (0, planeside_t.SIDE_FRONT)).2

/-! ## SplitBrush -/

/-- One point of the first loop of `SplitBrush`: the running
`(d_front, d_back)`. -/
def SplitBrush.scan (split : qplane3d) (acc : vec_t × vec_t) (pt : qvec3d) : vec_t × vec_t :=
  let d := qv.dot pt split.normal - split.dist
  (if d > 0 ∧ d > acc.1 then d else acc.1, if d < 0 ∧ d < acc.2 then d else acc.2)

/-- The first loop of `SplitBrush`: `(d_front, d_back)` over all points of all
side windings. -/
def SplitBrush.dists (brush : bspbrush_t) (split : qplane3d) : vec_t × vec_t :=
  brush.sides.foldl (fun acc face => face.w.foldl (SplitBrush.scan split) acc) (0, 0)

/-- The second loop of `SplitBrush`: the base winding of the split plane,
clipped to the back of every side plane; stops once nothing is left. -/
def SplitBrush.clipMid (E : Ext) : List side_t → Option winding_t → Option winding_t
  | [], w => w
  | _ :: _, none => none
  | face :: rest, some w =>
    SplitBrush.clipMid E rest (E.clip w (Face_Plane face) ON_EPSILON false).back

/-- The third loop of `SplitBrush`: the sides of child `j` (0 front, 1 back),
a copy of each side whose winding has a piece on that side, with the piece as
its winding. -/
def SplitBrush.childSides (E : Ext) (split : qplane3d) (j : Nat) : List side_t → List side_t
  | [] => []
  | face :: rest =>
    match (E.clip face.w split 0 false).get j with
    | none => SplitBrush.childSides E split j rest
    | some cw => { face with w := cw } :: SplitBrush.childSides E split j rest

/-- The test `bogus` of `SplitBrush`: a bound coordinate outside ±4096. -/
def SplitBrush.bogus (b : aabb3d) : Bool :=
  decide (b.mins.x < -4096 ∨ b.maxs.x > 4096) ||
  decide (b.mins.y < -4096 ∨ b.maxs.y > 4096) ||
  decide (b.mins.z < -4096 ∨ b.maxs.z > 4096)

/-- A fresh child brush of `SplitBrush` with the given sides: it shares
`original`, `contents`, `lmshift` and `func_areaportal` with the input, and its
bounds are the recomputed ones (`update_bounds` overwrites those of a fresh
brush before they are read). -/
def SplitBrush.child (E : Ext) (brush : bspbrush_t) (sides : List side_t) : bspbrush_t :=
  { original := brush.original, contents := brush.contents, lmshift := brush.lmshift,
    func_areaportal := brush.func_areaportal, bounds := E.update_bounds sides,
    sides := sides, side := 0, testside := 0 }

/-- The fourth loop of `SplitBrush` for one child: bounds are recomputed and
the child is dropped when it has fewer than 3 sides or bogus bounds. -/
def SplitBrush.checked (E : Ext) (brush : bspbrush_t) (sides : List side_t) :
    Option bspbrush_t :=
  let child := SplitBrush.child E brush sides
  if sides.length < 3 ∨ SplitBrush.bogus child.bounds then none else some child

/-- The cap side of child `i` (0 front, 1 back) on the split plane. -/
def SplitBrush.cap (E : Ext) (split : qplane3d) (midwinding : winding_t) (i : Nat) : side_t :=
  let brushOnFront := decide (i = 0)
  let r := set_plane (if brushOnFront then split.neg else split) true
  { side_t.zero with
    plane := r.1, plane_flipped := r.2, texinfo := E.skip_texinfo,
    visible := false, tested := false, onnode := true,
    w := if brushOnFront then E.flip midwinding else midwinding }

/-- A child with its cap appended as the last side. -/
def SplitBrush.withCap (E : Ext) (split : qplane3d) (midwinding : winding_t) (i : Nat)
    (child : bspbrush_t) : bspbrush_t :=
  { child with sides := child.sides ++ [SplitBrush.cap E split midwinding i] }

/-- The last loop of `SplitBrush` for one child: the cap is appended and the
child is dropped when its volume is below 1. -/
def SplitBrush.capped (E : Ext) (split : qplane3d) (midwinding : winding_t) (i : Nat)
    (child : bspbrush_t) : Option bspbrush_t :=
  let c := SplitBrush.withCap E split midwinding i child
  if BrushVolume E c < 1 then none else some c

/-- The part of `SplitBrush` after the mid-winding test ("split it for
real"). -/
def SplitBrush.real (E : Ext) (brush : bspbrush_t) (split : qplane3d) (midwinding : winding_t) :
    twosided (Option bspbrush_t) :=
  let r0 := SplitBrush.checked E brush (SplitBrush.childSides E split 0 brush.sides)
  let r1 := SplitBrush.checked E brush (SplitBrush.childSides E split 1 brush.sides)
  match r0, r1 with
  | some c0, some c1 =>
    { front := SplitBrush.capped E split midwinding 0 c0,
      back := SplitBrush.capped E split midwinding 1 c1 }
  | _, _ =>
    { front := if r0.isSome then some brush else none,
      back := if r1.isSome then some brush else none }

/-- The mid-winding of `SplitBrush`, `some` when the function gets past the
mid-winding test (the winding exists and is not tiny). -/
def SplitBrush.midwinding (E : Ext) (brush : bspbrush_t) (split : qplane3d) : Option winding_t :=
  match SplitBrush.clipMid E brush.sides (some (E.BaseWindingForPlane split)) with
  | none => none
  | some w => if WindingIsTiny w WindingIsTiny.defaultSize then none else some w

/-- The function `SplitBrush`. -/
def SplitBrush (E : Ext) (brush : bspbrush_t) (split : qplane3d) : twosided (Option bspbrush_t) :=
  let d := SplitBrush.dists brush split
  if d.1 < 1 / 10 then
    { front := none, back := some brush }
  else if d.2 > -(1 / 10) then
    { front := some brush, back := none }
  else
    match SplitBrush.midwinding E brush split with
    | none =>
      match BrushMostlyOnSide brush split with
      | planeside_t.SIDE_FRONT => { front := some brush, back := none }
      | planeside_t.SIDE_BACK => { front := none, back := some brush }
    | some midwinding => SplitBrush.real E brush split midwinding

/-! ## BoxOnPlaneSide, TestBrushToPlanenum -/

/-- The function `BoxOnPlaneSide`. -/
def BoxOnPlaneSide (bounds : aabb3d) (plane : qbsp_plane_t) : Nat :=
  if plane.type.toInt < plane_type_t.PLANE_ANYX.toInt then
    let side0 : Nat := 0
    let side1 :=
      if bounds.maxs.get plane.type.toInt > plane.dist + PLANESIDE_EPSILON then
        side0 ||| PSIDE_FRONT
      else side0
    let side2 :=
      if bounds.mins.get plane.type.toInt < plane.dist - PLANESIDE_EPSILON then
        side1 ||| PSIDE_BACK
      else side1
    side2
  else
    let c0 : qvec3d :=
      ⟨if plane.normal.x < 0 then bounds.mins.x else bounds.maxs.x,
       if plane.normal.y < 0 then bounds.mins.y else bounds.maxs.y,
       if plane.normal.z < 0 then bounds.mins.z else bounds.maxs.z⟩
    let c1 : qvec3d :=
      ⟨if plane.normal.x < 0 then bounds.maxs.x else bounds.mins.x,
       if plane.normal.y < 0 then bounds.maxs.y else bounds.mins.y,
       if plane.normal.z < 0 then bounds.maxs.z else bounds.mins.z⟩
    let dist1 := qv.dot plane.normal c0 - plane.dist
    let dist2 := qv.dot plane.normal c1 - plane.dist
    let side1 : Nat := if dist1 ≥ PLANESIDE_EPSILON then PSIDE_FRONT else 0
    let side2 := if dist2 < PLANESIDE_EPSILON then side1 ||| PSIDE_BACK else side1
    side2

/-- What `TestBrushToPlanenum` returns and writes through its pointers. -/
structure TestResult where
  s : Nat
  numsplits : Int
  hintsplit : Bool
  epsilonbrush : Int
deriving DecidableEq, Repr

/-- The first loop of `TestBrushToPlanenum`: the classification given by the
first side whose plane is epsilon-equal to the plane, if there is one. -/
def TestBrushToPlanenum.facing (E : Ext) (plane : qbsp_plane_t) : List side_t → Option Nat
  | [] => none
  | side :: rest =>
    if E.epsilonEqual side.plane.toqplane3d plane.toqplane3d then
      if side.plane_flipped = false then some (PSIDE_BACK ||| PSIDE_FACING)
      else some (PSIDE_FRONT ||| PSIDE_FACING)
    else TestBrushToPlanenum.facing E plane rest

/-- The running values of the second loop of `TestBrushToPlanenum`. -/
structure TestScan where
  d_front : vec_t
  d_back : vec_t
  numsplits : Int
  hintsplit : Bool
deriving DecidableEq, Repr

/-- One point of the inner loop of `TestBrushToPlanenum`: the running
`d_front`, `d_back` and the `front` and `back` marks of the side. -/
def TestBrushToPlanenum.point (plane : qbsp_plane_t)
    (acc : (vec_t × vec_t) × (Bool × Bool)) (pt : qvec3d) : (vec_t × vec_t) × (Bool × Bool) :=
  let d := qv.dot pt plane.normal - plane.dist
  ((if d > acc.1.1 then d else acc.1.1, if d < acc.1.2 then d else acc.1.2),
   (if d > 1 / 10 then true else acc.2.1, if d < -(1 / 10) then true else acc.2.2))

/-- One side of the second loop of `TestBrushToPlanenum`. -/
def TestBrushToPlanenum.side (E : Ext) (plane : qbsp_plane_t) (acc : TestScan) (side : side_t) :
    TestScan :=
  if side.onnode then acc
  else if !side.visible then acc
  else if side.w.length = 0 then acc
  else
    let r := side.w.foldl (TestBrushToPlanenum.point plane)
      ((acc.d_front, acc.d_back), (false, false))
    let acc1 : TestScan := { acc with d_front := r.1.1, d_back := r.1.2 }
    if r.2.1 && r.2.2 then
      if !(E.is_hintskip side.texinfo) then
        { acc1 with
          numsplits := acc1.numsplits + 1,
          hintsplit := if E.is_hint side.texinfo then true else acc1.hintsplit }
      else acc1
    else acc1

/-- The function `TestBrushToPlanenum`; `epsilonbrush` is the value of the
caller's counter on entry. -/
def TestBrushToPlanenum (E : Ext) (brush : bspbrush_t) (plane : qbsp_plane_t)
    (epsilonbrush : Int) : TestResult :=
  match TestBrushToPlanenum.facing E plane brush.sides with
  | some s => { s := s, numsplits := 0, hintsplit := false, epsilonbrush := epsilonbrush }
  | none =>
    let s := BoxOnPlaneSide brush.bounds plane
    if s ≠ PSIDE_BOTH then
      { s := s, numsplits := 0, hintsplit := false, epsilonbrush := epsilonbrush }
    else
      let r := brush.sides.foldl (TestBrushToPlanenum.side E plane)
        { d_front := 0, d_back := 0, numsplits := 0, hintsplit := false }
      { s := s, numsplits := r.numsplits, hintsplit := r.hintsplit,
        epsilonbrush :=
          if (r.d_front > 0 ∧ r.d_front < 1) ∨ (r.d_back < 0 ∧ r.d_back > -1) then
            epsilonbrush + 1
          else epsilonbrush }

/-! ## SelectSplitSide -/

/-- The part of a `node_t` that the splitter search and the partition read and
write: the planes of its ancestors from the parent upwards (the `parent`
chain), its own plane, its volume and the `detail_separator` flag. -/
structure node_t where
  parents : List qbsp_plane_t
  plane : qbsp_plane_t
  volume : Option bspbrush_t
  detail_separator : Bool
deriving DecidableEq, Repr

/-- The function `CheckPlaneAgainstParents`: `true` when it raises the fatal
error "Tried parent". -/
def CheckPlaneAgainstParents (E : Ext) (plane : qbsp_plane_t) (node : node_t) : Bool :=
  node.parents.any (fun p => E.epsilonEqual p.toqplane3d plane.toqplane3d)

/-- The function `CheckPlaneAgainstVolume` on the node's volume. -/
def CheckPlaneAgainstVolume (E : Ext) (plane : qbsp_plane_t) (volume : bspbrush_t) : Bool :=
  let r := SplitBrush E volume plane.toqplane3d
  r.front.isSome && r.back.isSome

/-- The counters of one candidate in `SelectSplitSide`. -/
structure TestAcc where
  front : Int
  back : Int
  both : Int
  facing : Int
  splits : Int
  epsilonbrush : Int
  hintsplit : Bool
deriving DecidableEq, Repr

/-- The counters at the start of a candidate's test loop. -/
def TestAcc.zero : TestAcc :=
  { front := 0, back := 0, both := 0, facing := 0, splits := 0, epsilonbrush := 0,
    hintsplit := false }

/-- The marking of a brush that has the candidate plane: every side whose
plane is epsilon-equal to it gets `tested`. -/
def SelectSplitSide.markTested (E : Ext) (plane : qbsp_plane_t) (sides : List side_t) :
    List side_t :=
  sides.map (fun ts =>
    if E.epsilonEqual ts.plane.toqplane3d plane.toqplane3d then { ts with tested := true }
    else ts)

/-- One round of the test loop of `SelectSplitSide` for the brush `test`: the
new counters and the brush with `testside` (and `tested` marks) written. -/
def SelectSplitSide.testBrush (E : Ext) (plane : qbsp_plane_t) (acc : TestAcc)
    (test : bspbrush_t) : Except String (TestAcc × bspbrush_t) :=
  let r := TestBrushToPlanenum E test plane acc.epsilonbrush
  if r.numsplits ≠ 0 ∧ r.s &&& PSIDE_FACING ≠ 0 then
    Except.error "PSIDE_FACING with splits"
  else
    let isFacing := decide (r.s &&& PSIDE_FACING ≠ 0)
    Except.ok
      ({ front := if r.s &&& PSIDE_FRONT ≠ 0 then acc.front + 1 else acc.front,
         back := if r.s &&& PSIDE_BACK ≠ 0 then acc.back + 1 else acc.back,
         both := if r.s = PSIDE_BOTH then acc.both + 1 else acc.both,
         facing := if isFacing then acc.facing + 1 else acc.facing,
         splits := acc.splits + r.numsplits,
         epsilonbrush := r.epsilonbrush,
         hintsplit := r.hintsplit },
       { test with
         testside := r.s,
         sides := if isFacing then SelectSplitSide.markTested E plane test.sides
                  else test.sides })

/-- The test loop of `SelectSplitSide` over all brushes. -/
def SelectSplitSide.testAll (E : Ext) (plane : qbsp_plane_t) :
    List bspbrush_t → TestAcc → Except String (TestAcc × List bspbrush_t)
  | [], acc => Except.ok (acc, [])
  | test :: rest, acc =>
    match SelectSplitSide.testBrush E plane acc test with
    | Except.error e => Except.error e
    | Except.ok (acc1, test1) =>
      match SelectSplitSide.testAll E plane rest acc1 with
      | Except.error e => Except.error e
      | Except.ok (acc2, rest1) => Except.ok (acc2, test1 :: rest1)

/-- The value estimate of a candidate from its counters.  The source computes
it in `int`; the counters are bounded by the number of brushes and of their
sides, far from where 32-bit arithmetic would wrap, and the value is kept as
an unbounded integer. -/
def SelectSplitSide.value (E : Ext) (plane : qbsp_plane_t) (side : side_t) (acc : TestAcc) :
    Int :=
  let value0 := 5 * acc.facing - 5 * acc.splits - |acc.front - acc.back|
  let value1 :=
    if plane.type.toInt < plane_type_t.PLANE_ANYX.toInt then value0 + 5 else value0
  let value2 := value1 - acc.epsilonbrush * 1000
  if acc.hintsplit ∧ ¬ E.is_hint side.texinfo then -9999999 else value2

/-- A record of one scored candidate: the pass, the brush and side index, and
the value it got. -/
structure Scored where
  pass : Nat
  bi : Nat
  si : Nat
  value : Int
deriving DecidableEq, Repr

/-- The state of the search in `SelectSplitSide`: the brushes (whose `tested`,
`testside` and `side` fields the search writes), the best side so far as a
brush and side index, its value and split count.  `scored` is a history
variable that the search never reads: the candidates scored so far, in
order. -/
structure SelectState where
  brushes : List bspbrush_t
  bestside : Option (Nat × Nat)
  bestvalue : Int
  bestsplits : Int
  scored : List Scored
deriving DecidableEq, Repr

/-- The checks of `SelectSplitSide` that skip a side without looking at the
node: bevel, no winding, on node, tested, hintskip, or of the other
visibility than the pass wants. -/
def SelectSplitSide.skips (E : Ext) (pass : Nat) (side : side_t) : Bool :=
  side.bevel || decide (side.w.length = 0) || side.onnode || side.tested ||
    E.is_hintskip side.texinfo || xor side.visible (decide (pass < 2))

/-- The end of the body of the side loop of `SelectSplitSide`: the candidate
side `si` of brush `bi`, scored `value` with `splits` splits, is recorded, and
kept as the best side when its value is above the best so far (the stored
classifications are then saved from `testside` to `side`); `tested` are the
brushes as the test loop left them. -/
def SelectSplitSide.score (pass bi si : Nat) (value splits : Int) (tested : List bspbrush_t)
    (st : SelectState) : SelectState :=
  let entry : Scored := { pass := pass, bi := bi, si := si, value := value }
  if value > st.bestvalue then
    { brushes := tested.map (fun t => { t with side := t.testside }),
      bestside := some (bi, si), bestvalue := value, bestsplits := splits,
      scored := st.scored ++ [entry] }
  else
    { st with brushes := tested, scored := st.scored ++ [entry] }

/-- The body of the side loop of `SelectSplitSide` for side `si` of brush
`bi` in pass `pass`. -/
def SelectSplitSide.trySide (E : Ext) (node : node_t) (pass bi si : Nat) (st : SelectState) :
    Except String SelectState :=
  match st.brushes[bi]? with
  | none => Except.ok st
  | some brush =>
    match brush.sides[si]? with
    | none => Except.ok st
    | some side =>
      if SelectSplitSide.skips E pass side then Except.ok st
      else
        let plane := (from_plane side.plane.toqplane3d true).1
        if CheckPlaneAgainstParents E plane node then Except.error "Tried parent"
        else
          match node.volume with
          | none => Except.error "null volume"
          | some volume =>
            if !CheckPlaneAgainstVolume E plane volume then Except.ok st
            else
              match SelectSplitSide.testAll E plane st.brushes TestAcc.zero with
              | Except.error e => Except.error e
              | Except.ok (acc, tested) =>
                Except.ok (SelectSplitSide.score pass bi si
                  (SelectSplitSide.value E plane side acc) acc.splits tested st)

/-- The side loop of `SelectSplitSide` over the side indices `sis` of brush
`bi`. -/
def SelectSplitSide.sideLoop (E : Ext) (node : node_t) (pass bi : Nat) :
    List Nat → SelectState → Except String SelectState
  | [], st => Except.ok st
  | si :: rest, st =>
    match SelectSplitSide.trySide E node pass bi si st with
    | Except.error e => Except.error e
    | Except.ok st1 => SelectSplitSide.sideLoop E node pass bi rest st1

/-- The body of the brush loop of `SelectSplitSide` for brush `bi`: brushes of
the other detail class than the pass wants are skipped. -/
def SelectSplitSide.tryBrush (E : Ext) (node : node_t) (pass bi : Nat) (st : SelectState) :
    Except String SelectState :=
  match st.brushes[bi]? with
  | none => Except.ok st
  | some brush =>
    match brush.original with
    | none => Except.error "null original"
    | some o =>
      let detail := E.is_any_detail (E.original_contents o)
      if (pass % 2 = 1 ∧ detail = false) ∨ (pass % 2 ≠ 1 ∧ detail = true) then Except.ok st
      else SelectSplitSide.sideLoop E node pass bi (List.range brush.sides.length) st

/-- The brush loop of `SelectSplitSide` over the brush indices `bis`. -/
def SelectSplitSide.brushLoop (E : Ext) (node : node_t) (pass : Nat) :
    List Nat → SelectState → Except String SelectState
  | [], st => Except.ok st
  | bi :: rest, st =>
    match SelectSplitSide.tryBrush E node pass bi st with
    | Except.error e => Except.error e
    | Except.ok st1 => SelectSplitSide.brushLoop E node pass rest st1

/-- The pass loop of `SelectSplitSide` over the passes `passes`: the state
after the loop and the pass in which it stopped with a side, if any. -/
def SelectSplitSide.passLoop (E : Ext) (node : node_t) :
    List Nat → SelectState → Except String (SelectState × Option Nat)
  | [], st => Except.ok (st, none)
  | pass :: rest, st =>
    match SelectSplitSide.brushLoop E node pass (List.range st.brushes.length) st with
    | Except.error e => Except.error e
    | Except.ok st1 =>
      if st1.bestside.isSome then Except.ok (st1, some pass)
      else SelectSplitSide.passLoop E node rest st1

/-- The last loop of `SelectSplitSide`: every `tested` flag is cleared. -/
def SelectSplitSide.clearTested (brushes : List bspbrush_t) : List bspbrush_t :=
  brushes.map (fun b => { b with sides := b.sides.map (fun s => { s with tested := false }) })

/-- What `SelectSplitSide` returns and leaves behind: the chosen side as a
brush and side index into `brushes` (`none` for the null pointer), the
brushes and the node after the call, and the history of scored candidates. -/
structure SelectResult where
  bestside : Option (Nat × Nat)
  brushes : List bspbrush_t
  node : node_t
  scored : List Scored
deriving DecidableEq, Repr

/-- The function `SelectSplitSide`. -/
def SelectSplitSide (E : Ext) (brushes : List bspbrush_t) (node : node_t) :
    Except String SelectResult :=
  match SelectSplitSide.passLoop E node [0, 1, 2, 3]
      { brushes := brushes, bestside := none, bestvalue := -99999, bestsplits := 0,
        scored := [] } with
  | Except.error e => Except.error e
  | Except.ok (st, found) =>
    Except.ok
      { bestside := st.bestside,
        brushes := SelectSplitSide.clearTested st.brushes,
        node :=
          match found with
          | some pass => if pass > 0 then { node with detail_separator := true } else node
          | none => node,
        scored := st.scored }

/-! ## SplitBrushList -/

/-- The marking of `SplitBrushList` for a brush that has the node plane:
every side whose plane is epsilon-equal to it gets `onnode`. -/
def SplitBrushList.markOnNode (E : Ext) (plane : qbsp_plane_t) (sides : List side_t) :
    List side_t :=
  sides.map (fun s =>
    if E.epsilonEqual s.plane.toqplane3d plane.toqplane3d then { s with onnode := true }
    else s)

/-- One round of the loop of `SplitBrushList`: the two result lists after the
brush `brush`. -/
def SplitBrushList.step (E : Ext) (node : node_t) (result : twosided (List bspbrush_t))
    (brush : bspbrush_t) : twosided (List bspbrush_t) :=
  let sides := brush.side
  if sides = PSIDE_BOTH then
    let r := SplitBrush E brush node.plane.toqplane3d
    { front := match r.front with
        | some f => result.front ++ [f]
        | none => result.front,
      back := match r.back with
        | some k => result.back ++ [k]
        | none => result.back }
  else
    let brush1 : bspbrush_t :=
      if sides &&& PSIDE_FACING ≠ 0 then
        { brush with sides := SplitBrushList.markOnNode E node.plane brush.sides }
      else brush
    if sides &&& PSIDE_FRONT ≠ 0 then { result with front := result.front ++ [brush1] }
    else if sides &&& PSIDE_BACK ≠ 0 then { result with back := result.back ++ [brush1] }
    else result

/-- The function `SplitBrushList`: index 0 (`front`) and 1 (`back`) of the
returned array. -/
def SplitBrushList (E : Ext) (brushes : List bspbrush_t) (node : node_t) :
    twosided (List bspbrush_t) :=
  brushes.foldl (SplitBrushList.step E node) { front := [], back := [] }

/-! ## Static views and the claim-side value of a candidate -/

/-- A side without its transient `tested` flag. -/
def side_t.static (s : side_t) : side_t := { s with tested := false }

/-- A brush without its transient fields: `side`, `testside` and the `tested`
flags of its sides. -/
def bspbrush_t.static (b : bspbrush_t) : bspbrush_t :=
  { b with side := 0, testside := 0, sides := b.sides.map side_t.static }

/-- The classification of a brush against a plane: the value returned by
`TestBrushToPlanenum`. -/
def classification (E : Ext) (plane : qbsp_plane_t) (b : bspbrush_t) : Nat :=
  (TestBrushToPlanenum E b plane 0).s

/-- The value of a candidate plane in the words of the claim:
`5·facing − 5·splits − |front − back|`, plus 5 if the plane is axial, minus
`1000·epsilonbrush`, where `facing`, `front` and `back` count the brushes
whose classification has that bit, `splits` sums the split counts and
`epsilonbrush` counts the brushes that raise it. -/
def claimValue (E : Ext) (brushes : List bspbrush_t) (plane : qbsp_plane_t) : Int :=
  let facing : Int := brushes.countP (fun b => classification E plane b &&& PSIDE_FACING ≠ 0)
  let front : Int := brushes.countP (fun b => classification E plane b &&& PSIDE_FRONT ≠ 0)
  let back : Int := brushes.countP (fun b => classification E plane b &&& PSIDE_BACK ≠ 0)
  let splits : Int := (brushes.map (fun b => (TestBrushToPlanenum E b plane 0).numsplits)).sum
  let eps : Int := (brushes.map (fun b => (TestBrushToPlanenum E b plane 0).epsilonbrush)).sum
  5 * facing - 5 * splits - |front - back|
    + (if plane.type.toInt < plane_type_t.PLANE_ANYX.toInt then 5 else 0) - 1000 * eps

/-- A valid candidate in the words of the claim: side `si` of brush `bi` is
not bevel, has a non-empty winding, is not onnode, is not hintskip-textured,
and its positive plane splits the node's volume into two non-empty parts. -/
def validCandidate (E : Ext) (node : node_t) (brushes : List bspbrush_t) (bi si : Nat) : Prop :=
  ∃ brush side volume,
    brushes[bi]? = some brush ∧ brush.sides[si]? = some side ∧
    side.bevel = false ∧ side.w ≠ [] ∧ side.onnode = false ∧
    E.is_hintskip side.texinfo = false ∧
    node.volume = some volume ∧
    CheckPlaneAgainstVolume E (from_plane side.plane.toqplane3d true).1 volume = true

/-- The positive plane of side `si` of brush `bi`, the plane a candidate is
scored with. -/
def candidatePlane (brushes : List bspbrush_t) (bi si : Nat) : qbsp_plane_t :=
  (from_plane (((brushes.getD bi
    { original := none, contents := 0, lmshift := 0, func_areaportal := none,
      bounds := ⟨⟨0, 0, 0⟩, ⟨0, 0, 0⟩⟩, sides := [], side := 0, testside := 0 }).sides.getD si
    side_t.zero).plane.toqplane3d) true).1

/-- What the search has established about a scored candidate `e`, in terms of
the brushes `bs0` given to `SelectSplitSide`: it is side `e.si` of brush
`e.bi`, which passed the checks of the search, and its value is the value in
the words of the claim unless the hint clamp was applied to it. -/
def scoredOk (E : Ext) (node : node_t) (bs0 : List bspbrush_t) (e : Scored) : Prop :=
  ∃ brush side volume,
    bs0[e.bi]? = some brush ∧ brush.sides[e.si]? = some side ∧
    side.bevel = false ∧ side.w ≠ [] ∧ side.onnode = false ∧
    E.is_hintskip side.texinfo = false ∧
    node.volume = some volume ∧
    CheckPlaneAgainstVolume E (from_plane side.plane.toqplane3d true).1 volume = true ∧
    (e.value = claimValue E bs0 (from_plane side.plane.toqplane3d true).1 ∨
      (e.value = -9999999 ∧ E.is_hint side.texinfo = false ∧
        ∃ b ∈ bs0, (TestBrushToPlanenum E b (from_plane side.plane.toqplane3d true).1
          0).hintsplit = true))

/-- The invariant of the search in pass `p`, for the brushes `bs0` given to
`SelectSplitSide`: the brushes of the state are those brushes up to transient
fields; every scored value is at most `bestvalue`; without a best side
`bestvalue` is still −99999; with a best side, `bestvalue` is above −99999,
the side was scored in pass `p` with that value, everything scored before it
has a smaller value and everything after it was scored in pass `p`; and every
scored candidate is as `scoredOk` says. -/
def SelectSplitSide.Inv (E : Ext) (node : node_t) (bs0 : List bspbrush_t) (p : Nat)
    (st : SelectState) : Prop :=
  st.brushes.map bspbrush_t.static = bs0.map bspbrush_t.static ∧
  (∀ e ∈ st.scored, e.value ≤ st.bestvalue) ∧
  (st.bestside = none → st.bestvalue = -99999) ∧
  (∀ bi si, st.bestside = some (bi, si) →
    -99999 < st.bestvalue ∧
    ∃ pre post, st.scored = pre ++ { pass := p, bi := bi, si := si, value := st.bestvalue } :: post ∧
      (∀ e ∈ pre, e.value < st.bestvalue) ∧ (∀ e ∈ post, e.pass = p)) ∧
  (∀ e ∈ st.scored, scoredOk E node bs0 e)

/-! ## BrushFromBounds -/

/-- The inner loop of `CreateBrushWindings` for side `i`: the winding is
clipped to the front of the negated plane of every other side that is not a
bevel; `j` is the index of the head of the list. -/
def CreateBrushWindings.clipSide (E : Ext) (i : Nat) :
    List side_t → Nat → Option winding_t → Option winding_t
  | [], _, w => w
  | _ :: _, _, none => none
  | sj :: rest, j, some w =>
    if i = j then CreateBrushWindings.clipSide E i rest (j + 1) (some w)
    else if sj.bevel then CreateBrushWindings.clipSide E i rest (j + 1) (some w)
    else
      CreateBrushWindings.clipSide E i rest (j + 1)
        (E.clip w (Face_Plane sj).neg 0 false).front

/-- The outer loop of `CreateBrushWindings` from side `i` on: `all` is the
side list of the brush, whose planes the loop reads. -/
def CreateBrushWindings.loop (E : Ext) (all : List side_t) : List side_t → Nat → List side_t
  | [], _ => []
  | side :: rest, i =>
    let w := CreateBrushWindings.clipSide E i all 0 (some (E.BaseWindingForPlane (Face_Plane side)))
    { side with w := w.getD [] } :: CreateBrushWindings.loop E all rest (i + 1)

/-- The function `CreateBrushWindings`. -/
def CreateBrushWindings (E : Ext) (brush : bspbrush_t) : bspbrush_t :=
  let sides := CreateBrushWindings.loop E brush.sides brush.sides 0
  { brush with sides := sides, bounds := E.update_bounds sides }

/-- The unit vector of axis `i` scaled by `a`. -/
def axisVec (i : Nat) (a : vec_t) : qvec3d := (⟨0, 0, 0⟩ : qvec3d).set i a

/-- The side that `BrushFromBounds` builds from a plane, starting from the
value-initialised side that `resize` makes. -/
def BrushFromBounds.side (plane : qplane3d) : side_t :=
  let r := set_plane plane true
  { side_t.zero with plane := r.1, plane_flipped := r.2 }

/-- The function `BrushFromBounds`: the axial brush of a box.  Side `i` is the
face at `maxs[i]`, side `3 + i` the face at `mins[i]`. -/
def BrushFromBounds (E : Ext) (bounds : aabb3d) : bspbrush_t :=
  let hi := (List.range 3).map (fun i =>
    BrushFromBounds.side { normal := axisVec i 1, dist := bounds.maxs.get i })
  let lo := (List.range 3).map (fun i =>
    BrushFromBounds.side { normal := axisVec i (-1), dist := -(bounds.mins.get i) })
  CreateBrushWindings E
    { original := none, contents := 0, lmshift := 0, func_areaportal := none,
      bounds := ⟨⟨0, 0, 0⟩, ⟨0, 0, 0⟩⟩, sides := hi ++ lo, side := 0, testside := 0 }

/-! ## A reference instance of the external functions

The definitions below give one concrete `Ext`, used to evaluate the translated
code on concrete brushes.  They follow the spec's description of the winding
primitive (§4.2) and of plane equality (§4.1) in exact arithmetic. -/

/-- Vector sum. -/
def qvec3d.add (a b : qvec3d) : qvec3d := ⟨a.x + b.x, a.y + b.y, a.z + b.z⟩

/-- Scaling of a vector. -/
def qvec3d.scale (a : qvec3d) (k : vec_t) : qvec3d := ⟨a.x * k, a.y * k, a.z * k⟩

/-- The cross product. -/
def qv.cross (a b : qvec3d) : qvec3d :=
  ⟨a.y * b.z - a.z * b.y, a.z * b.x - a.x * b.z, a.x * b.y - a.y * b.x⟩

/-- Newton's iteration for the integer square root of `n` from the guess `g`,
for at most `fuel` rounds. -/
def natSqrtLoop (n : Nat) : Nat → Nat → Nat
  | 0, g => g
  | fuel + 1, g =>
    let next := (g + n / g) / 2
    if next < g then natSqrtLoop n fuel next else g

/-- The integer square root. -/
def natSqrt (n : Nat) : Nat :=
  if n ≤ 1 then n else natSqrtLoop n n (n / 2)

/-- The square root of a rational whose numerator and denominator are perfect
squares (the integer square roots are taken otherwise). -/
def ratSqrt (q : ℚ) : ℚ := (natSqrt q.num.toNat : ℚ) / (natSqrt q.den : ℚ)

/-- The world extent used by the reference instance (the spec's default). -/
def refWorldExtent : vec_t := 65536

/-- Modelled from the spec: `BaseWindingForPlane`, whose body is not among the
translated sources: a large square on the plane, built around the point
`normal * dist` from an up vector orthogonal to the normal and their cross
product, each scaled to the world extent.  The up vector is not rescaled to
unit length, so the square is exact for axial planes. -/
def refBaseWinding (p : qplane3d) : winding_t :=
  let ax := |p.normal.x|
  let ay := |p.normal.y|
  let az := |p.normal.z|
  let vup0 : qvec3d := if az > ax ∧ az > ay then ⟨1, 0, 0⟩ else ⟨0, 0, 1⟩
  let v := qv.dot vup0 p.normal
  let vup1 := vup0.add (p.normal.scale (-v))
  let org := p.normal.scale p.dist
  let vright1 := qv.cross vup1 p.normal
  let vup := vup1.scale refWorldExtent
  let vright := vright1.scale refWorldExtent
  [ (org.sub vright).add vup, (org.add vright).add vup,
    (org.add vright).sub vup, (org.sub vright).sub vup ]

/-- The side of a point in a clip: 0 front, 1 back, 2 on. -/
def refSideOf (plane : qplane3d) (eps : vec_t) (pt : qvec3d) : Nat :=
  let d := qv.dot pt plane.normal - plane.dist
  if d > eps then 0 else if d < -eps then 1 else 2

/-- The point where the edge from `p1` to `p2` crosses the plane. -/
def refMid (plane : qplane3d) (p1 p2 : qvec3d) : qvec3d :=
  let d1 := qv.dot p1 plane.normal - plane.dist
  let d2 := qv.dot p2 plane.normal - plane.dist
  let t := d1 / (d1 - d2)
  let c := fun (n a b : vec_t) =>
    if n = 1 then plane.dist else if n = -1 then -plane.dist else a + t * (b - a)
  ⟨c plane.normal.x p1.x p2.x, c plane.normal.y p1.y p2.y, c plane.normal.z p1.z p2.z⟩

/-- The edge walk of a clip: for each point with its successor, the points it
contributes to piece `j` (0 front, 1 back). -/
def refClipWalk (plane : qplane3d) (eps : vec_t) (j : Nat) : List (qvec3d × qvec3d) → winding_t
  | [] => []
  | (p1, p2) :: rest =>
    let s1 := refSideOf plane eps p1
    let s2 := refSideOf plane eps p2
    let tail := refClipWalk plane eps j rest
    if s1 = 2 then p1 :: tail
    else
      let own := if s1 = j then [p1] else []
      if s2 = 2 ∨ s2 = s1 then own ++ tail
      else own ++ refMid plane p1 p2 :: tail

/-- Modelled from the spec: `winding_t::clip`, whose body is not among the
translated sources: each vertex is classified front, back or on with the
epsilon; a winding wholly on one side is returned whole on that side and
nothing on the other; otherwise the edges are walked and a vertex is emitted
on the cut for each edge that changes side. -/
def refClip (w : winding_t) (plane : qplane3d) (eps : vec_t) (keepon : Bool) :
    twosided (Option winding_t) :=
  let sides := w.map (refSideOf plane eps)
  let nfront := sides.count 0
  let nback := sides.count 1
  if keepon ∧ nfront = 0 ∧ nback = 0 then { front := some w, back := none }
  else if nfront = 0 then { front := none, back := some w }
  else if nback = 0 then { front := some w, back := none }
  else
    let edges := w.zip (w.rotate 1)
    { front := some (refClipWalk plane eps 0 edges),
      back := some (refClipWalk plane eps 1 edges) }

/-- The triangle fan of `winding_t::area` from the first point. -/
def refAreaFan (p0 : qvec3d) : List qvec3d → vec_t
  | a :: b :: rest =>
    let c := qv.cross (a.sub p0) (b.sub p0)
    ratSqrt (qv.dot c c) / 2 + refAreaFan p0 (b :: rest)
  | _ => 0

/-- Modelled from the spec: `winding_t::area`, whose body is not among the
translated sources: the sum of the areas of the triangles of the fan from the
first point.  The square root is exact for axis-aligned rectangles. -/
def refArea (w : winding_t) : vec_t :=
  match w with
  | [] => 0
  | p0 :: rest => refAreaFan p0 rest

/-- Modelled from the spec: `bspbrush_t::update_bounds`, whose body is not
among the translated sources: the smallest box holding every winding point of
every side (the zero box when there is no point). -/
def refBounds (sides : List side_t) : aabb3d :=
  match sides.flatMap (fun s => s.w) with
  | [] => ⟨⟨0, 0, 0⟩, ⟨0, 0, 0⟩⟩
  | p :: rest =>
    rest.foldl (fun b q =>
      ⟨⟨min b.mins.x q.x, min b.mins.y q.y, min b.mins.z q.z⟩,
       ⟨max b.maxs.x q.x, max b.maxs.y q.y, max b.maxs.z q.z⟩⟩) ⟨p, p⟩

/-- Modelled from the spec: `qv::epsilonEqual` on planes, whose body is not
among the translated sources: normals equal within 0.000001 in every
component and distances within 0.0001. -/
def refEpsilonEqual (p q : qplane3d) : Bool :=
  decide (|p.normal.x - q.normal.x| ≤ 1 / 1000000) &&
  decide (|p.normal.y - q.normal.y| ≤ 1 / 1000000) &&
  decide (|p.normal.z - q.normal.z| ≤ 1 / 1000000) &&
  decide (|p.dist - q.dist| ≤ 1 / 10000)

/-- The reference instance: texinfo 0 is the skip texture, 1 a hint texture,
2 a hintskip texture, every other number an ordinary texture; an original
brush has its identifier as contents, and contents 1 is detail. -/
def refExt : Ext :=
  { BaseWindingForPlane := refBaseWinding
    clip := refClip
    area := refArea
    flip := List.reverse
    update_bounds := refBounds
    epsilonEqual := refEpsilonEqual
    is_hint := fun t => decide (t = 1)
    is_hintskip := fun t => decide (t = 2)
    skip_texinfo := 0
    original_contents := fun o => o
    is_any_detail := fun c => decide (c = 1) }

/-- A side of an axial box: the stored plane is the positive plane of its
axis at `dist`, and `flipped` tells that the side faces the negative
direction. -/
def boxSide (axis : Nat) (dist : vec_t) (flipped : Bool) (w : winding_t) : side_t :=
  { side_t.zero with
    plane := { normal := axisVec axis 1, dist := dist, type := axisType axis },
    plane_flipped := flipped, w := w }

/-- The axial box brush with the given corners, written out: the six sides in
the order of `BrushFromBounds` (the faces at the maxima of x, y, z, then at
the minima), each with its rectangular winding. -/
def refBox (x0 y0 z0 x1 y1 z1 : vec_t) : bspbrush_t :=
  { original := none, contents := 0, lmshift := 0, func_areaportal := none,
    bounds := ⟨⟨x0, y0, z0⟩, ⟨x1, y1, z1⟩⟩,
    sides :=
      [ boxSide 0 x1 false [⟨x1, y1, z1⟩, ⟨x1, y1, z0⟩, ⟨x1, y0, z0⟩, ⟨x1, y0, z1⟩],
        boxSide 1 y1 false [⟨x1, y1, z0⟩, ⟨x1, y1, z1⟩, ⟨x0, y1, z1⟩, ⟨x0, y1, z0⟩],
        boxSide 2 z1 false [⟨x0, y0, z1⟩, ⟨x0, y1, z1⟩, ⟨x1, y1, z1⟩, ⟨x1, y0, z1⟩],
        boxSide 0 x0 true [⟨x0, y1, z0⟩, ⟨x0, y1, z1⟩, ⟨x0, y0, z1⟩, ⟨x0, y0, z0⟩],
        boxSide 1 y0 true [⟨x1, y0, z1⟩, ⟨x1, y0, z0⟩, ⟨x0, y0, z0⟩, ⟨x0, y0, z1⟩],
        boxSide 2 z0 true [⟨x1, y0, z0⟩, ⟨x1, y1, z0⟩, ⟨x0, y1, z0⟩, ⟨x0, y0, z0⟩] ],
    side := 0, testside := 0 }

/-! ## Concrete inputs -/

/-- The plane `x = d`, facing +x. -/
def planeX (d : vec_t) : qplane3d := ⟨⟨1, 0, 0⟩, d⟩

/-- The cube (0,0,0)–(16,16,16). -/
def cube16 : bspbrush_t := refBox 0 0 0 16 16 16

/-- The front piece of the cube (0,0,0)–(16,16,16) split at `x = 8`. -/
def cube16Front : bspbrush_t := (SplitBrush refExt cube16 (planeX 8)).front.getD cube16

/-- The back piece of the cube (0,0,0)–(16,16,16) split at `x = 8`. -/
def cube16Back : bspbrush_t := (SplitBrush refExt cube16 (planeX 8)).back.getD cube16

/-- The bar (0,0,0)–(3,1,1), of volume 3. -/
def bar3 : bspbrush_t := refBox 0 0 0 3 1 1

/-- The mid-winding of the bar (0,0,0)–(3,1,1) for the plane `x = 1/2`. -/
def bar3Mid : winding_t := (SplitBrush.midwinding refExt bar3 (planeX (1 / 2))).getD []

/-- A brush for the search: the brush `b` with original `orig`, and side `i`
textured `tex i`, visible when `vis i` and on node when `onn i`. -/
def dressed (b : bspbrush_t) (orig : Nat) (tex : Nat → Int) (vis : Nat → Bool)
    (onn : Nat → Bool) : bspbrush_t :=
  { b with
    original := some orig,
    sides := b.sides.enum.map (fun is =>
      { is.2 with texinfo := tex is.1, visible := vis is.1, onnode := onn is.1 }) }

/-- A node without ancestors whose volume is the given brush. -/
def rootOf (volume : bspbrush_t) : node_t :=
  { parents := [], plane := { normal := ⟨0, 0, 0⟩, dist := 0 }, volume := some volume,
    detail_separator := false }

/-- The hint brush: the cube (0,0,0)–(16,16,16) whose top side (side 2, on
`z = 16`) is hint-textured and visible; its other sides are hintskip-textured
and not visible. -/
def hintBrush : bspbrush_t :=
  dressed (refBox 0 0 0 16 16 16) 0 (fun i => if i = 2 then 1 else 2) (fun i => decide (i = 2))
    (fun _ => false)

/-- An ordinary brush (4,-20,4)–(8,-10,8) whose only visible side is side 0,
on `x = 8`. -/
def plainX : bspbrush_t :=
  dressed (refBox 4 (-20) 4 8 (-10) 8) 0 (fun _ => 3) (fun i => decide (i = 0)) (fun _ => false)

/-- An ordinary brush (8,30,0)–(12,40,8) whose only visible side is side 3,
on `x = 8`. -/
def plainY : bspbrush_t :=
  dressed (refBox 8 30 0 12 40 8) 0 (fun _ => 3) (fun i => decide (i = 3)) (fun _ => false)

/-- The brush `plainX` deeper in a tree: every side but side 0 is already on
a node. -/
def plainXon : bspbrush_t :=
  dressed (refBox 4 (-20) 4 8 (-10) 8) 0 (fun _ => 3) (fun i => decide (i = 0))
    (fun i => decide (i ≠ 0))

/-- A node whose volume is the box (-64,-64,-64)–(64,64,64). -/
def rootNode : node_t := rootOf (refBox (-64) (-64) (-64) 64 64 64)

/-- A node whose volume is the box (-64,-64,-64)–(64,64,16), which ends on the
plane of the hint side of `hintBrush`. -/
def lowNode : node_t := rootOf (refBox (-64) (-64) (-64) 64 64 16)

/-- A node whose volume is the box (-4000,-4000,-4000)–(4000,4000,4000). -/
def bigNode : node_t := rootOf (refBox (-4000) (-4000) (-4000) 4000 4000 4000)

/-- A thin slab (-0.0005,0,0)–(0.0005,1024,1024), of volume about 1048, with
no visible side. -/
def slab : bspbrush_t :=
  dressed (refBox (-1 / 2000) 0 0 (1 / 2000) 1024 1024) 0 (fun _ => 3) (fun _ => false)
    (fun _ => false)

/-- An ordinary brush (0,2000,0)–(16,2016,16) whose only visible side is side
3, on `x = 0`. -/
def slabMate : bspbrush_t :=
  dressed (refBox 0 2000 0 16 2016 16) 0 (fun _ => 3) (fun i => decide (i = 3)) (fun _ => false)

/-- The node `bigNode` after `BuildTree_r` has set its plane from the side on
`x = 0`. -/
def slabNode : node_t := { bigNode with plane := (set_plane (planeX 0) true).1 }

/-- The result of the search on `plainXon`, hint brush at the node `lowNode`. -/
def searchLow : SelectResult :=
  (SelectSplitSide refExt [plainXon, hintBrush] lowNode).toOption.getD
    { bestside := none, brushes := [], node := lowNode, scored := [] }

/-- The result of the search on `plainX`, `plainY`, hint brush at the node
`rootNode`. -/
def searchRoot : SelectResult :=
  (SelectSplitSide refExt [plainX, plainY, hintBrush] rootNode).toOption.getD
    { bestside := none, brushes := [], node := rootNode, scored := [] }

/-! ## The claims about TestBrushToPlanenum in their own words -/

/-- The signed distance of a point from a plane, `point · normal − dist`. -/
def planeDist (plane : qbsp_plane_t) (pt : qvec3d) : vec_t :=
  qv.dot pt plane.normal - plane.dist

/-- A side that the plane splits, in the words of the claim: visible, not
onnode, with a non-empty winding, not hintskip-textured, with a vertex more
than 0.1 in front of the plane and a vertex more than 0.1 behind it. -/
def splitsSide (E : Ext) (plane : qbsp_plane_t) (s : side_t) : Bool :=
  s.visible && !s.onnode && decide (s.w ≠ []) && !E.is_hintskip s.texinfo &&
    s.w.any (fun pt => decide (planeDist plane pt > 1 / 10)) &&
    s.w.any (fun pt => decide (planeDist plane pt < -(1 / 10)))

/-- The vertices that the second loop of `TestBrushToPlanenum` scans: those of
the windings of the sides that are not onnode and are visible. -/
def scannedPoints (sides : List side_t) : List qvec3d :=
  (sides.filter (fun s => !s.onnode && s.visible)).flatMap (fun s => s.w)

/-- What the search has checked about a scored candidate `e` beyond
`scoredOk`, in terms of the brushes `bs0` given to `SelectSplitSide`: its
positive plane passed `CheckPlaneAgainstParents`, and the side is visible
exactly when it was scored in one of the first two passes. -/
def scoredChecks (E : Ext) (node : node_t) (bs0 : List bspbrush_t) (e : Scored) : Prop :=
  ∃ brush side,
    bs0[e.bi]? = some brush ∧ brush.sides[e.si]? = some side ∧
    CheckPlaneAgainstParents E (from_plane side.plane.toqplane3d true).1 node = false ∧
    side.visible = decide (e.pass < 2)

/-- The second invariant of the search, for the brushes `bs0` given to
`SelectSplitSide`: every scored candidate is as `scoredChecks` says, and while
there is a best side, the stored classification `side` of every brush of the
state is what `TestBrushToPlanenum` returns for it and the positive plane of
the best side. -/
def SelectSplitSide.Inv2 (E : Ext) (node : node_t) (bs0 : List bspbrush_t)
    (st : SelectState) : Prop :=
  (∀ e ∈ st.scored, scoredChecks E node bs0 e) ∧
  (∀ bi si, st.bestside = some (bi, si) →
    ∃ brush side, bs0[bi]? = some brush ∧ brush.sides[si]? = some side ∧
      ∀ b ∈ st.brushes,
        b.side = classification E (from_plane side.plane.toqplane3d true).1 b)

/-- The state in which the search of `SelectSplitSide` starts. -/
def SelectSplitSide.init (brushes : List bspbrush_t) : SelectState :=
  { brushes := brushes, bestside := none, bestvalue := -99999, bestsplits := 0, scored := [] }


/-- Where a fatal error of the search comes from: a round of the side loop,
or the dereference of a null `original` in the brush loop. -/
def SelectSplitSide.ErrAt (E : Ext) (node : node_t) (P : Nat → SelectState → Prop)
    (e : String) (p : Nat) : Prop :=
  ∃ st bi, P p st ∧
    ((∃ si, SelectSplitSide.trySide E node p bi si st = Except.error e) ∨
     (∃ brush, st.brushes[bi]? = some brush ∧ brush.original = none ∧ e = "null original"))

/-! ## LeafNode, BuildTree_r -/

/-- The functions of the target game (`qbsp_options.target_game`) that
`LeafNode` calls; their bodies are not among the translated sources. -/
structure gamedef_t where
  /-- The method `create_empty_contents`. -/
  create_empty_contents : contentflags_t
  /-- The method `combine_contents`. -/
  combine_contents : contentflags_t → contentflags_t → contentflags_t

/-- The counters of a build, `bspstats_t`.  `leafstats` keeps the contents
handed to `count_contents_in_stats`, in order; the source counters are `int`
and are kept as unbounded integers. -/
structure bspstats_t where
  leafstats : List contentflags_t
  c_nodes : Int
  c_nonvis : Int
  c_leafs : Int
deriving DecidableEq, Repr

/-- The tree of `node_t` that `BuildTree_r` builds below a node.  A leaf has
the contents and the original brushes that `LeafNode` writes; `brushes` is a
history field, the brush list the leaf was made from.  An interior node has
the side that `node->side` points to, as the search returned it, and its two
children, front then back. -/
inductive nodetree where
  | leaf (node : node_t) (contents : contentflags_t) (original_brushes : List Nat)
      (brushes : List bspbrush_t)
  | interior (node : node_t) (side : side_t) (front back : nodetree)
deriving DecidableEq, Repr

/-- The second loop of `LeafNode`: the originals of the brushes, in order; the
assertion `brush->original != nullptr` is fatal. -/
def LeafNode.originals : List bspbrush_t → List Nat → Except String (List Nat)
  | [], acc => Except.ok acc
  | brush :: rest, acc =>
    match brush.original with
    | none => Except.error "null original"
    | some o => LeafNode.originals rest (acc ++ [o])

/-- The function `LeafNode`: the leaf and the counters after the call. -/
def LeafNode (G : gamedef_t) (leafnode : node_t) (brushes : List bspbrush_t)
    (stats : bspstats_t) : Except String (nodetree × bspstats_t) :=
  let contents :=
    brushes.foldl (fun c brush => G.combine_contents c brush.contents) G.create_empty_contents
  match LeafNode.originals brushes [] with
  | Except.error e => Except.error e
  | Except.ok originals =>
    Except.ok (nodetree.leaf leafnode contents originals brushes,
      { stats with leafstats := stats.leafstats ++ [contents] })

/-- The side that the pointer returned by `SelectSplitSide` points to. -/
def SelectResult.side (r : SelectResult) : Option side_t :=
  match r.bestside with
  | none => none
  | some (bi, si) =>
    match r.brushes[bi]? with
    | none => none
    | some brush => brush.sides[si]?

/-- A fresh child node, `std::make_unique<node_t>()` with `parent` and
`volume` set: its ancestors are the parent and the parent's ancestors. -/
def BuildTree_r.newnode (node : node_t) (volume : Option bspbrush_t) : node_t :=
  { parents := node.plane :: node.parents, plane := { normal := ⟨0, 0, 0⟩, dist := 0 },
    volume := volume, detail_separator := false }

/-- What the body of `BuildTree_r` does at a splitplane node before it
recurses: the node with its plane set, the chosen side, and the two child
nodes with the brush lists they are built from. -/
structure BuildTree_r.Split where
  node : node_t
  side : side_t
  front : node_t × List bspbrush_t
  back : node_t × List bspbrush_t
deriving DecidableEq, Repr

/-- The body of `BuildTree_r` for a node where the search returned the side
`bestside`, up to the recursive calls; dereferencing a null `node->volume` is
fatal. -/
def BuildTree_r.split (E : Ext) (r : SelectResult) (bestside : side_t) :
    Except String BuildTree_r.Split :=
  let node : node_t := { r.node with plane := (set_plane bestside.plane.toqplane3d true).1 }
  let children := SplitBrushList E r.brushes node
  match node.volume with
  | none => Except.error "null volume"
  | some volume =>
    let children_volumes := SplitBrush E volume node.plane.toqplane3d
    Except.ok
      { node := node, side := bestside,
        front := (BuildTree_r.newnode node children_volumes.front, children.front),
        back := (BuildTree_r.newnode node children_volumes.back, children.back) }

/-- How a call of `BuildTree_r` ends: with the tree below the node and the
counters, with a fatal error, or not within the given number of nested
calls. -/
inductive BuildResult where
  | done (tree : nodetree) (stats : bspstats_t)
  | fatal (msg : String)
  | outOfFuel
deriving DecidableEq, Repr

/-- The function `BuildTree_r`, with a bound `fuel` on the depth of the
recursion.  The two child calls, which the source runs as parallel tasks on
disjoint nodes and brush lists with atomic counters, are made front first. -/
def BuildTree_r (E : Ext) (G : gamedef_t) :
    Nat → node_t → List bspbrush_t → bspstats_t → BuildResult
  | 0, _, _, _ => BuildResult.outOfFuel
  | fuel + 1, node, brushes, stats =>
    match SelectSplitSide E brushes node with
    | Except.error e => BuildResult.fatal e
    | Except.ok r =>
      match r.side with
      | none =>
        match LeafNode G r.node r.brushes { stats with c_leafs := stats.c_leafs + 1 } with
        | Except.error e => BuildResult.fatal e
        | Except.ok (leaf, stats1) => BuildResult.done leaf stats1
      | some bestside =>
        let stats1 : bspstats_t :=
          { stats with
            c_nodes := stats.c_nodes + 1,
            c_nonvis := if !bestside.visible then stats.c_nonvis + 1 else stats.c_nonvis }
        match BuildTree_r.split E r bestside with
        | Except.error e => BuildResult.fatal e
        | Except.ok s =>
          match BuildTree_r E G fuel s.front.1 s.front.2 stats1 with
          | BuildResult.done front stats2 =>
            match BuildTree_r E G fuel s.back.1 s.back.2 stats2 with
            | BuildResult.done back stats3 =>
              BuildResult.done (nodetree.interior s.node s.side front back) stats3
            | other => other
          | other => other

/-- The calls of `BuildTree_r` made, directly or through other calls, by the
call for `node` and `brushes`: the call itself, and the calls made by the two
child calls of a splitplane node. -/
inductive BuildTree_r.Calls (E : Ext) :
    node_t → List bspbrush_t → node_t → List bspbrush_t → Prop where
  | self (node : node_t) (brushes : List bspbrush_t) : BuildTree_r.Calls E node brushes node brushes
  | front (node : node_t) (brushes : List bspbrush_t) (r : SelectResult) (bestside : side_t)
      (s : BuildTree_r.Split) (node1 : node_t) (brushes1 : List bspbrush_t) :
      SelectSplitSide E brushes node = Except.ok r → r.side = some bestside →
      BuildTree_r.split E r bestside = Except.ok s →
      BuildTree_r.Calls E s.front.1 s.front.2 node1 brushes1 →
      BuildTree_r.Calls E node brushes node1 brushes1
  | back (node : node_t) (brushes : List bspbrush_t) (r : SelectResult) (bestside : side_t)
      (s : BuildTree_r.Split) (node1 : node_t) (brushes1 : List bspbrush_t) :
      SelectSplitSide E brushes node = Except.ok r → r.side = some bestside →
      BuildTree_r.split E r bestside = Except.ok s →
      BuildTree_r.Calls E s.back.1 s.back.2 node1 brushes1 →
      BuildTree_r.Calls E node brushes node1 brushes1

/-- The interior nodes of a tree, each with the planes of its ancestors from
its parent upwards, given the planes `above` of the ancestors of the root. -/
def nodetree.interiors : nodetree → List qbsp_plane_t → List (node_t × side_t × List qbsp_plane_t)
  | nodetree.leaf _ _ _ _, _ => []
  | nodetree.interior node side front back, above =>
    (node, side, above) :: (front.interiors (node.plane :: above) ++
      back.interiors (node.plane :: above))

/-- The leaves of a tree, front to back: contents, original brushes and the
brush list of each. -/
def nodetree.leaves : nodetree → List (contentflags_t × List Nat × List bspbrush_t)
  | nodetree.leaf _ contents originals brushes => [(contents, originals, brushes)]
  | nodetree.interior _ _ front back => front.leaves ++ back.leaves

/-- A plane stored in canonical positive form: canonicalisation with flip
leaves it as it is. -/
def qbsp_plane_t.canonical (p : qbsp_plane_t) : Prop :=
  (from_plane p.toqplane3d true).1 = p

/-- The brush that `SplitBrushList` passes on when it does not split it: its
sides on the node plane are marked when the classification has the FACING
bit. -/
def SplitBrushList.marked (E : Ext) (node : node_t) (brush : bspbrush_t) : bspbrush_t :=
  if brush.side &&& PSIDE_FACING ≠ 0 then
    { brush with sides := SplitBrushList.markOnNode E node.plane brush.sides }
  else brush

/-- The property of a call that keeps "Tried parent" away: every side that is
not onnode has a canonical plane that is not epsilon-equal to the plane of
any ancestor of the node. -/
def BuildTree_r.freshPlanes (E : Ext) (node : node_t) (bs : List bspbrush_t) : Prop :=
  ∀ b ∈ bs, ∀ s ∈ b.sides, s.onnode = false →
    s.plane.canonical ∧
    ∀ a ∈ node.parents, E.epsilonEqual a.toqplane3d s.plane.toqplane3d = false


/-- A side without the two flags that the build writes, `onnode` and
`tested`. -/
def side_t.shape (s : side_t) : side_t := { s with onnode := false, tested := false }

/-- The brush `b1` is the brush `b`, not split: it has the bounds, the
original and the contents of `b`, and its sides are the sides of `b`, with
their windings, up to the flags `onnode` and `tested`. -/
def bspbrush_t.unsplitOf (b1 b : bspbrush_t) : Prop :=
  b1.bounds = b.bounds ∧ b1.original = b.original ∧ b1.contents = b.contents ∧
  b1.sides.map side_t.shape = b.sides.map side_t.shape

/-- The number of sides of a brush that are not onnode. -/
def bspbrush_t.freeSides (b : bspbrush_t) : Nat := b.sides.countP (fun s => !s.onnode)

instance (p : qbsp_plane_t) : Decidable p.canonical := by
  unfold qbsp_plane_t.canonical
  infer_instance

/-- The reference game: the empty contents are 0 and contents combine to the
larger one. -/
def refGame : gamedef_t :=
  { create_empty_contents := 0, combine_contents := fun a b => max a b }

/-- The counters at the start of a build. -/
def bspstats_t.zero : bspstats_t := { leafstats := [], c_nodes := 0, c_nonvis := 0, c_leafs := 0 }

/-- An ordinary brush (4,-20,4)–(8,-10,8) of contents 7 whose sides 0 and 1,
on `x = 8` and `y = -10`, are visible and not on a node; the other sides are
already on a node. -/
def twoSide : bspbrush_t :=
  { dressed (refBox 4 (-20) 4 8 (-10) 8) 0 (fun _ => 3) (fun i => decide (i ≤ 1))
      (fun i => decide (1 < i)) with contents := 7 }

/-- The tree and the counters of a completed build, with a fallback for a
build that does not complete. -/
def BuildResult.get (r : BuildResult) : nodetree × bspstats_t :=
  match r with
  | BuildResult.done tree stats => (tree, stats)
  | _ => (nodetree.leaf (rootOf (refBox 0 0 0 0 0 0)) 0 [] [], bspstats_t.zero)

/-- The build of `twoSide` at the node `rootNode`. -/
def builtTwo : nodetree × bspstats_t :=
  (BuildTree_r refExt refGame 3 rootNode [twoSide] bspstats_t.zero).get

/-- The plane with normal (3/5, 4/5, 0) at distance 123/10. -/
def slantPlane : qbsp_plane_t :=
  { normal := ⟨3 / 5, 4 / 5, 0⟩, dist := 123 / 10, type := plane_type_t.PLANE_ANYY }

/-- The cube (0,0,0)–(16,16,16) with every side visible and ordinary. -/
def visCube : bspbrush_t :=
  dressed (refBox 0 0 0 16 16 16) 0 (fun _ => 3) (fun _ => true) (fun _ => false)

/-- The plane `x = 31/2`, half a unit inside the face `x = 16` of `visCube`. -/
def nearPlane : qbsp_plane_t :=
  { normal := ⟨1, 0, 0⟩, dist := 31 / 2, type := plane_type_t.PLANE_X }

/-- The plane `x = 8` in canonical form. -/
def planeX8 : qbsp_plane_t := { normal := ⟨1, 0, 0⟩, dist := 8, type := plane_type_t.PLANE_X }

/-- Whether a build completed. -/
def BuildResult.isDone (r : BuildResult) : Bool :=
  match r with
  | BuildResult.done _ _ => true
  | _ => false

/-! ## The claims about canonicalisation in their own words -/

/-- The dominant axis of a normal, in the words of the claim: the first axis,
in X, Y, Z order, whose component has the largest magnitude. -/
def dominantAxis (n : qvec3d) : Int :=
  (([0, 1, 2] : List Int).find? (fun i =>
    decide (∀ j ∈ ([0, 1, 2] : List Int), |n.get j| ≤ |n.get i|))).getD 2

/-- A normal within 10⁻⁶ of the coordinate axis `i` in the direction `s`
(1 or −1), in the words of the claim: its component on the axis differs from
`s` by at most 10⁻⁶ and its other components are at most 10⁻⁶ in magnitude. -/
def nearAxis (n : qvec3d) (i : Int) (s : vec_t) : Prop :=
  |n.get i - s| ≤ 1 / 1000000 ∧
  ∀ j ∈ ([0, 1, 2] : List Int), j ≠ i → |n.get j| ≤ 1 / 1000000

/-- The plane with the unit normal ((10¹⁴ − 1)/(10¹⁴ + 1), 2·10⁷/(10¹⁴ + 1), 0),
which is within 10⁻⁶ of the X axis, at distance 5. -/
def tiltedPlane : qplane3d :=
  { normal := ⟨99999999999999 / 100000000000001, 20000000 / 100000000000001, 0⟩, dist := 5 }

instance (n : qvec3d) (i : Int) (s : vec_t) : Decidable (nearAxis n i s) := by
  unfold nearAxis
  infer_instance

/-! ## The claims about WindingIsTiny and BrushMostlyOnSide in their own words -/

/-- Whether the edge of a winding from point `i` to the next point, taken
cyclically, is longer than `size`. -/
def edgeLonger (w : winding_t) (size : vec_t) (i : Nat) : Bool :=
  qv.lengthGt ((w.getD ((i + 1) % w.length) ⟨0, 0, 0⟩).sub (w.getD i ⟨0, 0, 0⟩)) size

/-- The number of edges of a winding, taken cyclically between consecutive
points, that are longer than `size`. -/
def longEdges (w : winding_t) (size : vec_t) : Nat :=
  (List.range w.length).countP (edgeLonger w size)

/-- The winding vertices of a brush, in side, then point order. -/
def brushPoints (brush : bspbrush_t) : List qvec3d := brush.sides.flatMap (fun face => face.w)

/-- The signed distance of a point from a plane, `point · normal − dist`. -/
def pointDist (plane : qplane3d) (pt : qvec3d) : vec_t := qv.dot pt plane.normal - plane.dist

/-- The largest positive distance of the points from the plane, 0 when no
point lies in front of it. -/
def frontExtent (plane : qplane3d) (pts : List qvec3d) : vec_t :=
  (pts.map (fun pt => pointDist plane pt)).foldl max 0

/-- The largest distance of the points behind the plane, 0 when no point lies
behind it. -/
def backExtent (plane : qplane3d) (pts : List qvec3d) : vec_t :=
  (pts.map (fun pt => -pointDist plane pt)).foldl max 0

/-- The brush `bi` of the list `bs0` has an original and is of the detail
class that pass `p` of the search looks at: detail in the passes 1 and 3, not
detail in the passes 0 and 2. -/
def passBrush (E : Ext) (bs0 : List bspbrush_t) (p bi : Nat) : Prop :=
  ∃ brush o, bs0[bi]? = some brush ∧ brush.original = some o ∧
    E.is_any_detail (E.original_contents o) = decide (p % 2 = 1)

/-- The third invariant of the search, for the brushes `bs0` given to
`SelectSplitSide`: every scored candidate was scored in a pass that looks at
the detail class of its brush. -/
def SelectSplitSide.Inv3 (E : Ext) (bs0 : List bspbrush_t) (st : SelectState) : Prop :=
  ∀ e ∈ st.scored, passBrush E bs0 e.pass e.bi

/-- The element that the brush `b` contributes to the front list of
`SplitBrushList`, if any: the front piece of `SplitBrush` when it is
classified BOTH, else the brush itself, marked, when its classification has
the FRONT bit. -/
def SplitBrushList.frontOf (E : Ext) (node : node_t) (b : bspbrush_t) : Option bspbrush_t :=
  if b.side = PSIDE_BOTH then (SplitBrush E b node.plane.toqplane3d).front
  else if b.side &&& PSIDE_FRONT ≠ 0 then some (SplitBrushList.marked E node b) else none

/-- The element that the brush `b` contributes to the back list of
`SplitBrushList`, if any: the back piece of `SplitBrush` when it is classified
BOTH, else the brush itself, marked, when its classification has the BACK bit
and not the FRONT bit. -/
def SplitBrushList.backOf (E : Ext) (node : node_t) (b : bspbrush_t) : Option bspbrush_t :=
  if b.side = PSIDE_BOTH then (SplitBrush E b node.plane.toqplane3d).back
  else if b.side &&& PSIDE_FRONT ≠ 0 then none
  else if b.side &&& PSIDE_BACK ≠ 0 then some (SplitBrushList.marked E node b) else none

/-- A detail brush: the box of `plainXon` with the original 1, whose contents
are detail in the reference instance; its only side that is not on a node is
the visible side 0, on `x = 8`. -/
def detailX : bspbrush_t :=
  dressed (refBox 4 (-20) 4 8 (-10) 8) 1 (fun _ => 3) (fun i => decide (i = 0))
    (fun i => decide (i ≠ 0))

/-- The result of the search on `detailX` at the node `rootNode`. -/
def searchDetail : SelectResult :=
  (SelectSplitSide refExt [detailX] rootNode).toOption.getD
    { bestside := none, brushes := [], node := rootNode, scored := [] }

/-! ## BrushBSP -/

/-- The operations on `aabb3d` that `BrushBSP` uses and the constant
`SIDESPACE`; their definitions are not among the translated sources. -/
structure BoundsExt where
  /-- The value-initialised `aabb3d`, the bounds of a fresh `tree_t`. -/
  empty : aabb3d
  /-- The operator `aabb3d::operator+=`. -/
  add : aabb3d → aabb3d → aabb3d
  /-- The method `aabb3d::grow`. -/
  grow : aabb3d → vec_t → aabb3d
  /-- The constant `SIDESPACE`. -/
  SIDESPACE : vec_t

/-- The head node of the tree that `BrushBSP` returns.  For an empty brush
list it is the node that `BrushBSP` makes itself (`stub`): not a leaf, without
side, with the bounds and the plane it is given and two children.  Otherwise
it is the root of the tree that `BuildTree_r` has built (`built`). -/
inductive headnode_t where
  | stub (node : node_t) (bounds : aabb3d) (front back : nodetree)
  | built (tree : nodetree)
deriving DecidableEq, Repr

/-- The part of `tree_t` that `BrushBSP` writes: the bounds and the head
node. -/
structure tree_t where
  bounds : aabb3d
  headnode : headnode_t
deriving DecidableEq, Repr

/-- How a call of `BrushBSP` ends: with the tree, with a fatal error of the
build, or not within the given number of nested calls of `BuildTree_r`. -/
inductive BrushBSP.Result where
  | done (tree : tree_t)
  | fatal (msg : String)
  | outOfFuel
deriving DecidableEq, Repr

/-- The head node that `BrushBSP` makes for an empty brush list, before its
children are attached: no parent, the plane with normal (0,0,1) and distance
0, no volume. -/
def BrushBSP.stubnode : node_t :=
  { parents := [], plane := { normal := ⟨0, 0, 1⟩, dist := 0 }, volume := none,
    detail_separator := false }

/-- The function `BrushBSP(entity, brushlist)`, with the bounds of the entity
as `entity_bounds` and a bound `fuel` on the depth of the recursion of
`BuildTree_r`.  The first loop only counts faces and warns about
microbrushes, which changes nothing, apart from adding the bounds of the
brushes to the bounds of the tree. -/
def BrushBSP (E : Ext) (G : gamedef_t) (B : BoundsExt) (fuel : Nat) (entity_bounds : aabb3d)
    (brushlist : List bspbrush_t) : BrushBSP.Result :=
  let bounds := brushlist.foldl (fun acc b => B.add acc b.bounds) B.empty
  if brushlist.isEmpty then
    let child := BuildTree_r.newnode BrushBSP.stubnode none
    BrushBSP.Result.done
      { bounds := entity_bounds,
        headnode := headnode_t.stub BrushBSP.stubnode entity_bounds
          (nodetree.leaf child G.create_empty_contents [] [])
          (nodetree.leaf child G.create_empty_contents [] []) }
  else
    let node : node_t :=
      { parents := [], plane := { normal := ⟨0, 0, 0⟩, dist := 0 },
        volume := some (BrushFromBounds E (B.grow bounds B.SIDESPACE)),
        detail_separator := false }
    match BuildTree_r E G fuel node brushlist
        { leafstats := [], c_nodes := 0, c_nonvis := 0, c_leafs := 0 } with
    | BuildResult.done tree _ =>
      BrushBSP.Result.done { bounds := bounds, headnode := headnode_t.built tree }
    | BuildResult.fatal e => BrushBSP.Result.fatal e
    | BuildResult.outOfFuel => BrushBSP.Result.outOfFuel

/-! ## clamp_texcoord (light/trace.cc) -/

/-- The conversion `(uint32_t)x` of a `vec_t`: the value is truncated towards
zero; the behaviour is undefined when the truncated value does not fit in 32
bits without sign, which is `none` here. -/
def toUint32 (x : vec_t) : Option Nat :=
  let t : Int := if 0 ≤ x then ⌊x⌋ else ⌈x⌉
  if 0 ≤ t ∧ t < 4294967296 then some t.toNat else none

/-- The function `clamp_texcoord` (light/trace.cc), with the texture
coordinate `in` of the source as `inp`.  `width` is a `uint32_t`; the
remainder by a zero width is undefined, and so is the result when a conversion
to `uint32_t` is.  `width - in_abs_mod` does not wrap, as the remainder is
below `width`. -/
def clamp_texcoord (inp : vec_t) (width : Nat) : Option Nat :=
  if width = 0 then none
  else if inp ≥ 0 then
    (toUint32 inp).map (fun n => n % width)
  else
    let in_abs : vec_t := ((⌈|inp|⌉ : Int) : vec_t)
    (toUint32 in_abs).map (fun n =>
      let in_abs_mod := n % width
      (width - in_abs_mod) % width)

/-- The pixel index in the words of the claim: `floor(in) mod width`, the
remainder that is not negative. -/
def floorMod (inp : vec_t) (width : Nat) : Nat := (⌊inp⌋ % (width : Int)).toNat

/-! ## The two parts of BoxOnPlaneSide -/

/-- The axial shortcut of `BoxOnPlaneSide`: the body of its first `if`. -/
def BoxOnPlaneSide.axial (bounds : aabb3d) (plane : qbsp_plane_t) : Nat :=
  let side0 : Nat := 0
  let side1 :=
    if bounds.maxs.get plane.type.toInt > plane.dist + PLANESIDE_EPSILON then
      side0 ||| PSIDE_FRONT
    else side0
  let side2 :=
    if bounds.mins.get plane.type.toInt < plane.dist - PLANESIDE_EPSILON then
      side1 ||| PSIDE_BACK
    else side1
  side2

/-- The two corners that `BoxOnPlaneSide` selects for a plane: `corners[0]`
and `corners[1]`. -/
def BoxOnPlaneSide.corners (bounds : aabb3d) (plane : qbsp_plane_t) : qvec3d × qvec3d :=
  (⟨if plane.normal.x < 0 then bounds.mins.x else bounds.maxs.x,
    if plane.normal.y < 0 then bounds.mins.y else bounds.maxs.y,
    if plane.normal.z < 0 then bounds.mins.z else bounds.maxs.z⟩,
   ⟨if plane.normal.x < 0 then bounds.maxs.x else bounds.mins.x,
    if plane.normal.y < 0 then bounds.maxs.y else bounds.mins.y,
    if plane.normal.z < 0 then bounds.maxs.z else bounds.mins.z⟩)

/-- The general two-corner computation of `BoxOnPlaneSide`: the code after
the axial shortcut. -/
def BoxOnPlaneSide.general (bounds : aabb3d) (plane : qbsp_plane_t) : Nat :=
  let corners := BoxOnPlaneSide.corners bounds plane
  let dist1 := qv.dot plane.normal corners.1 - plane.dist
  let dist2 := qv.dot plane.normal corners.2 - plane.dist
  let side1 : Nat := if dist1 ≥ PLANESIDE_EPSILON then PSIDE_FRONT else 0
  let side2 := if dist2 < PLANESIDE_EPSILON then side1 ||| PSIDE_BACK else side1
  side2

/-- A point of a box: every coordinate lies between the minimum and the
maximum of the box. -/
def aabb3d.contains (b : aabb3d) (pt : qvec3d) : Prop :=
  b.mins.x ≤ pt.x ∧ pt.x ≤ b.maxs.x ∧ b.mins.y ≤ pt.y ∧ pt.y ≤ b.maxs.y ∧
  b.mins.z ≤ pt.z ∧ pt.z ≤ b.maxs.z

/-- The bounds of the cube (0,0,0)–(16,16,16). -/
def cube16Bounds : aabb3d := ⟨⟨0, 0, 0⟩, ⟨16, 16, 16⟩⟩

/-- The plane `x = 0` in canonical form, of the axial type `PLANE_X`. -/
def planeX0 : qbsp_plane_t := { normal := ⟨1, 0, 0⟩, dist := 0, type := plane_type_t.PLANE_X }

/-! ## The claims about BrushVolume in their own words -/

/-- The reference corner in the words of the claim: the first vertex of the
first side that has a non-empty winding. -/
def BrushVolume.firstCorner (sides : List side_t) : Option qvec3d :=
  (sides.find? (fun face => decide (face.w ≠ []))).bind (fun face => face.w.head?)

/-- One third of the sum, over the sides with non-empty windings, of
`area(side) · (plane.dist − corner · plane.normal)`, for the outward plane of
each side. -/
def BrushVolume.tetraSum (E : Ext) (sides : List side_t) (corner : qvec3d) : vec_t :=
  ((sides.filter (fun side => decide (side.w ≠ []))).map (fun side =>
    E.area side.w * ((Face_Plane side).dist - qv.dot corner (Face_Plane side).normal))).sum / 3

/-- The volume in the words of the claim: the tetrahedron sum for the first
vertex of the first side with a non-empty winding, and 0 when no side has a
winding. -/
def claimVolume (E : Ext) (brush : bspbrush_t) : vec_t :=
  match BrushVolume.firstCorner brush.sides with
  | none => 0
  | some corner => BrushVolume.tetraSum E brush.sides corner

/-- The length of an edge that is parallel to a coordinate axis: the sum of
the magnitudes of its components. -/
def axialLength (d : qvec3d) : vec_t := |d.x| + |d.y| + |d.z|

/-- The area of a rectangle with axis-parallel edges, from its first three
corners: the product of the lengths of two adjacent edges. -/
def rectArea (w : winding_t) : vec_t :=
  match w with
  | a :: b :: c :: _ => axialLength (b.sub a) * axialLength (c.sub b)
  | _ => 0

/-- The cube (0,0,0)–(16,16,16) without the winding of its side 1, the face
on `y = 16`. -/
def openCube : bspbrush_t :=
  { cube16 with sides := cube16.sides.enum.map (fun is =>
      if is.1 = 1 then { is.2 with w := [] } else is.2) }

/-- A wide bar (-5000,0,0)–(5000,16,16): each half of it on either side of
the plane `x = 0` reaches beyond the coordinate limit 4096. -/
def wideBar : bspbrush_t := { refBox (-5000) 0 0 5000 16 16 with side := PSIDE_BOTH }

/-- The mid-winding of `wideBar` for the plane `x = 0`. -/
def wideBarMid : winding_t := (SplitBrush.midwinding refExt wideBar (planeX 0)).getD []

/-! ## Shape of the built tree, size of a brush list -/

/-- The node at the root of a tree. -/
def nodetree.root : nodetree → node_t
  | nodetree.leaf node _ _ _ => node
  | nodetree.interior node _ _ _ => node

/-- Every child in the tree has its parent above it: the ancestors of the
root of each child of an interior node are that node and the node's
ancestors. -/
def nodetree.parented : nodetree → Prop
  | nodetree.leaf _ _ _ _ => True
  | nodetree.interior node _ front back =>
    front.root.parents = node.plane :: node.parents ∧
    back.root.parents = node.plane :: node.parents ∧
    front.parented ∧ back.parented

/-- The number of interior nodes of a tree. -/
def nodetree.numNodes : nodetree → Nat
  | nodetree.leaf _ _ _ _ => 0
  | nodetree.interior _ _ front back => 1 + front.numNodes + back.numNodes

/-- The number of leaves of a tree. -/
def nodetree.numLeafs : nodetree → Nat
  | nodetree.leaf _ _ _ _ => 1
  | nodetree.interior _ _ front back => front.numLeafs + back.numLeafs

/-- The number of interior nodes of a tree whose chosen side is not
visible. -/
def nodetree.numNonvis : nodetree → Nat
  | nodetree.leaf _ _ _ _ => 0
  | nodetree.interior _ side front back =>
    (if !side.visible then 1 else 0) + front.numNonvis + back.numNonvis

/-- The largest number of interior nodes on a path from the root of a tree to
a leaf. -/
def nodetree.depth : nodetree → Nat
  | nodetree.leaf _ _ _ _ => 0
  | nodetree.interior _ _ front back => 1 + max front.depth back.depth

/-- The number of sides of the brushes of a list that are not onnode. -/
def freeTotal (bs : List bspbrush_t) : Nat := (bs.map bspbrush_t.freeSides).sum

/-- Every side of the brushes of a list that is not onnode has its plane
stored in canonical positive form, as `set_plane` with flip stores it. -/
def canonSides (bs : List bspbrush_t) : Prop :=
  ∀ b ∈ bs, ∀ s ∈ b.sides, s.onnode = false → s.plane.canonical

/-- The head node that `BrushBSP` makes for a brush list that is not empty
and hands to `BuildTree_r`: a fresh node whose volume is the brush of the
bounds of the brushes, grown by `SIDESPACE`. -/
def BrushBSP.rootnode (E : Ext) (B : BoundsExt) (brushlist : List bspbrush_t) : node_t :=
  { parents := [], plane := { normal := ⟨0, 0, 0⟩, dist := 0 },
    volume := some (BrushFromBounds E
      (B.grow (brushlist.foldl (fun acc b => B.add acc b.bounds) B.empty) B.SIDESPACE)),
    detail_separator := false }

instance (bs : List bspbrush_t) : Decidable (canonSides bs) := by
  unfold canonSides
  infer_instance

/-! ## The planes a build can still try -/

/-- The canonical positive planes of the sides of a brush list that are not
onnode: the planes that the search of `SelectSplitSide` can try at a node
with these brushes, one for each such side. -/
def freePlanes (bs : List bspbrush_t) : List qbsp_plane_t :=
  bs.flatMap (fun b =>
    (b.sides.filter (fun s => !s.onnode)).map (fun s => (from_plane s.plane.toqplane3d true).1))

/-- The number of different planes among `freePlanes` that are not the plane
of an ancestor of the node. -/
def BuildTree_r.untried (node : node_t) (bs : List bspbrush_t) : Nat :=
  ((freePlanes bs).toFinset \ node.parents.toFinset).card

/-- The brush `plainXon` with the plane of its side 0 stored in the negative
form, normal (-1,0,0) at distance -8, instead of the canonical positive form
of the plane `x = 8`. -/
def flipX : bspbrush_t :=
  { plainXon with sides := plainXon.sides.enum.map (fun is =>
      if is.1 = 0 then
        { is.2 with plane := { normal := ⟨-1, 0, 0⟩, dist := -8, type := plane_type_t.PLANE_X } }
      else is.2) }

/-- The result of the search on `flipX` at the node `rootNode`. -/
def searchFlip : SelectResult :=
  (SelectSplitSide refExt [flipX] rootNode).toOption.getD
    { bestside := none, brushes := [], node := rootNode, scored := [] }

/-- The side that the search on `flipX` at the node `rootNode` returns. -/
def flipSide : side_t := searchFlip.side.getD side_t.zero

/-- The step of `BuildTree_r` at the node `rootNode` with the brush `flipX`:
the node with its plane set and the two children with their brush lists. -/
def flipSplit : BuildTree_r.Split :=
  (BuildTree_r.split refExt searchFlip flipSide).toOption.getD
    { node := rootNode, side := side_t.zero, front := (rootNode, []), back := (rootNode, []) }

/-! ## The claim about the volumes of the pieces in its own words -/

/-- The sides bound a closed surface: the outward normals of the sides,
weighted by the areas of their windings, sum to zero in each coordinate. -/
def closedSides (E : Ext) (sides : List side_t) : Prop :=
  (sides.map (fun s => E.area s.w * (Face_Plane s).normal.x)).sum = 0 ∧
  (sides.map (fun s => E.area s.w * (Face_Plane s).normal.y)).sum = 0 ∧
  (sides.map (fun s => E.area s.w * (Face_Plane s).normal.z)).sum = 0

instance (E : Ext) (sides : List side_t) : Decidable (closedSides E sides) := by
  unfold closedSides
  infer_instance

/-- The area of the piece of the winding of a face on side `j` (0 front,
1 back) of the split plane, as `SplitBrush` clips it; 0 when there is no
piece. -/
def SplitBrush.pieceArea (E : Ext) (split : qplane3d) (j : Nat) (face : side_t) : vec_t :=
  match (E.clip face.w split 0 false).get j with
  | none => 0
  | some cw => E.area cw

/-- The cube (0,0,0)–(16,16,16) with its side 0, the face on `x = 16`, listed
a second time as a seventh side: its sides do not bound a closed surface. -/
def dupCube : bspbrush_t :=
  { cube16 with sides := cube16.sides ++ cube16.sides.take 1 }

/-- The front piece of `dupCube` split at `x = 8`. -/
def dupFront : bspbrush_t := (SplitBrush refExt dupCube (planeX 8)).front.getD dupCube

/-- The back piece of `dupCube` split at `x = 8`. -/
def dupBack : bspbrush_t := (SplitBrush refExt dupCube (planeX 8)).back.getD dupCube

/-- The mid-winding of the cube (0,0,0)–(16,16,16) for the plane `x = 8`. -/
def cube16Mid : winding_t := (SplitBrush.midwinding refExt cube16 (planeX 8)).getD []

/-! ## The candidates that the search accounts for -/

/-- Side `si` of brush `bi` of the list has its `tested` flag set. -/
def entryTested (bs : List bspbrush_t) (bi si : Nat) : Prop :=
  ∃ brush side, bs[bi]? = some brush ∧ brush.sides[si]? = some side ∧ side.tested = true

/-- The plane of side `si` of brush `bi` has been scored: the stored plane of
the side is epsilon-equal to the positive plane of a scored candidate (then
the side is marked `tested` and the search does not score it again). -/
def planeScored (E : Ext) (bs0 : List bspbrush_t) (scored : List Scored) (bi si : Nat) : Prop :=
  ∃ e ∈ scored, ∃ brush side, bs0[bi]? = some brush ∧ brush.sides[si]? = some side ∧
    E.epsilonEqual side.plane.toqplane3d (candidatePlane bs0 e.bi e.si).toqplane3d = true

/-- Side `si` of brush `bi` is accounted for by the scored candidate `e`: it
is that candidate, or its stored plane is epsilon-equal to the positive plane
of that candidate. -/
def accountedBy (E : Ext) (bs0 : List bspbrush_t) (e : Scored) (bi si : Nat) : Prop :=
  (e.bi = bi ∧ e.si = si) ∨
  ∃ brush side, bs0[bi]? = some brush ∧ brush.sides[si]? = some side ∧
    E.epsilonEqual side.plane.toqplane3d (candidatePlane bs0 e.bi e.si).toqplane3d = true

/-- Side `si` of brush `bi` is accounted for by the scored candidates. -/
def accounted (E : Ext) (bs0 : List bspbrush_t) (scored : List Scored) (bi si : Nat) : Prop :=
  ∃ e ∈ scored, accountedBy E bs0 e bi si

/-- The fourth invariant of the search, for the brushes `bs0` given to
`SelectSplitSide`: the brushes of the state are those brushes up to transient
fields, and a side is marked `tested` only if it was on entry or its plane has
been scored. -/
def SelectSplitSide.Inv4 (E : Ext) (bs0 : List bspbrush_t) (st : SelectState) : Prop :=
  st.brushes.map bspbrush_t.static = bs0.map bspbrush_t.static ∧
  ∀ bi si brush side, st.brushes[bi]? = some brush → brush.sides[si]? = some side →
    side.tested = true → entryTested bs0 bi si ∨ planeScored E bs0 st.scored bi si

/-- Side `si` of brush `bi` of the list `bs0` is a side that pass `p` of the
search scores when it comes to it unmarked: the brush is of the detail class
of the pass, the side is not bevel, has a winding, is not onnode, is not
hintskip-textured, is visible exactly in the passes 0 and 1, and its positive
plane splits the volume of the node into two parts. -/
def SelectSplitSide.wanted (E : Ext) (node : node_t) (bs0 : List bspbrush_t) (p bi si : Nat) :
    Prop :=
  ∃ brush side volume o,
    bs0[bi]? = some brush ∧ brush.sides[si]? = some side ∧ brush.original = some o ∧
    E.is_any_detail (E.original_contents o) = decide (p % 2 = 1) ∧
    side.bevel = false ∧ side.w ≠ [] ∧ side.onnode = false ∧
    E.is_hintskip side.texinfo = false ∧ side.visible = decide (p < 2) ∧
    node.volume = some volume ∧
    CheckPlaneAgainstVolume E (from_plane side.plane.toqplane3d true).1 volume = true

/-! # Theorems -/

set_option maxRecDepth 100000 in
/-- The written-out box brushes are what `BrushFromBounds` builds under the
reference instance, here for the cube (0,0,0)–(16,16,16) and for a box with
negative and fractional corners. -/
theorem BrushFromBounds_refBox :
    BrushFromBounds refExt ⟨⟨0, 0, 0⟩, ⟨16, 16, 16⟩⟩ = refBox 0 0 0 16 16 16 ∧
    BrushFromBounds refExt ⟨⟨-1 / 2000, -20, -64⟩, ⟨1 / 2000, 1024, 16⟩⟩ =
      refBox (-1 / 2000) (-20) (-64) (1 / 2000) 1024 16 := by
  refine ⟨by decide!, by decide!⟩

/-! ## The first loop of SplitBrush -/

theorem SplitBrush.scan_front_lt (split : qplane3d) (c : vec_t) (hc : 0 < c)
    (acc : vec_t × vec_t) (pt : qvec3d) :
    (SplitBrush.scan split acc pt).1 < c ↔
      acc.1 < c ∧ qv.dot pt split.normal - split.dist < c := by
  unfold SplitBrush.scan
  simp only
  split_ifs with h
  · constructor
    · intro h1; exact ⟨lt_trans h.2 h1, h1⟩
    · intro h1; exact h1.2
  · constructor
    · intro h1
      refine ⟨h1, ?_⟩
      by_contra hd
      push_neg at hd
      exact h ⟨lt_of_lt_of_le hc hd, lt_of_lt_of_le h1 hd⟩
    · intro h1; exact h1.1

theorem SplitBrush.scan_back_gt (split : qplane3d) (c : vec_t) (hc : c < 0)
    (acc : vec_t × vec_t) (pt : qvec3d) :
    c < (SplitBrush.scan split acc pt).2 ↔
      c < acc.2 ∧ c < qv.dot pt split.normal - split.dist := by
  unfold SplitBrush.scan
  simp only
  split_ifs with h
  · constructor
    · intro h1; exact ⟨lt_trans h1 h.2, h1⟩
    · intro h1; exact h1.2
  · constructor
    · intro h1
      refine ⟨h1, ?_⟩
      by_contra hd
      push_neg at hd
      exact h ⟨lt_of_le_of_lt hd hc, lt_of_le_of_lt hd h1⟩
    · intro h1; exact h1.1

theorem SplitBrush.foldl_scan_front_lt (split : qplane3d) (c : vec_t) (hc : 0 < c)
    (w : winding_t) (acc : vec_t × vec_t) :
    (w.foldl (SplitBrush.scan split) acc).1 < c ↔
      acc.1 < c ∧ ∀ pt ∈ w, qv.dot pt split.normal - split.dist < c := by
  induction w generalizing acc with
  | nil => simp
  | cons pt rest ih =>
    simp only [List.foldl_cons, ih, SplitBrush.scan_front_lt split c hc, List.mem_cons,
      forall_eq_or_imp]
    tauto

theorem SplitBrush.foldl_scan_back_gt (split : qplane3d) (c : vec_t) (hc : c < 0)
    (w : winding_t) (acc : vec_t × vec_t) :
    c < (w.foldl (SplitBrush.scan split) acc).2 ↔
      c < acc.2 ∧ ∀ pt ∈ w, c < qv.dot pt split.normal - split.dist := by
  induction w generalizing acc with
  | nil => simp
  | cons pt rest ih =>
    simp only [List.foldl_cons, ih, SplitBrush.scan_back_gt split c hc, List.mem_cons,
      forall_eq_or_imp]
    tauto

theorem SplitBrush.sides_front_lt (split : qplane3d) (c : vec_t) (hc : 0 < c)
    (sides : List side_t) (acc : vec_t × vec_t) :
    (sides.foldl (fun acc face => face.w.foldl (SplitBrush.scan split) acc) acc).1 < c ↔
      acc.1 < c ∧ ∀ face ∈ sides, ∀ pt ∈ face.w, qv.dot pt split.normal - split.dist < c := by
  induction sides generalizing acc with
  | nil => simp
  | cons face rest ih =>
    simp only [List.foldl_cons, ih, SplitBrush.foldl_scan_front_lt split c hc, List.mem_cons,
      forall_eq_or_imp]
    tauto

theorem SplitBrush.sides_back_gt (split : qplane3d) (c : vec_t) (hc : c < 0)
    (sides : List side_t) (acc : vec_t × vec_t) :
    c < (sides.foldl (fun acc face => face.w.foldl (SplitBrush.scan split) acc) acc).2 ↔
      c < acc.2 ∧ ∀ face ∈ sides, ∀ pt ∈ face.w, c < qv.dot pt split.normal - split.dist := by
  induction sides generalizing acc with
  | nil => simp
  | cons face rest ih =>
    simp only [List.foldl_cons, ih, SplitBrush.foldl_scan_back_gt split c hc, List.mem_cons,
      forall_eq_or_imp]
    tauto

/-- After the first loop, `d_front < 0.1` says that every vertex is less than
0.1 in front of the plane. -/
theorem SplitBrush.dists_front_lt (brush : bspbrush_t) (split : qplane3d) :
    (SplitBrush.dists brush split).1 < 1 / 10 ↔
      ∀ face ∈ brush.sides, ∀ pt ∈ face.w, qv.dot pt split.normal - split.dist < 1 / 10 := by
  unfold SplitBrush.dists
  rw [SplitBrush.sides_front_lt split (1 / 10) (by norm_num)]
  simp

/-- After the first loop, `d_back > -0.1` says that every vertex is less than
0.1 behind the plane. -/
theorem SplitBrush.dists_back_gt (brush : bspbrush_t) (split : qplane3d) :
    -(1 / 10) < (SplitBrush.dists brush split).2 ↔
      ∀ face ∈ brush.sides, ∀ pt ∈ face.w, -(1 / 10) < qv.dot pt split.normal - split.dist := by
  unfold SplitBrush.dists
  rw [SplitBrush.sides_back_gt split (-(1 / 10)) (by norm_num)]
  simp

/-- C1: with `d = vertex · normal − dist` over the vertices of all side
windings, if every vertex has `d < 0.1` (also when there is no vertex)
`SplitBrush` returns the input brush itself as the back result and nothing as
the front result; otherwise, if every vertex has `d > −0.1`, it returns the
input brush as the front result and nothing as the back result. -/
theorem SplitBrush_wholly_one_side (E : Ext) (brush : bspbrush_t) (split : qplane3d) :
    ((∀ face ∈ brush.sides, ∀ pt ∈ face.w, qv.dot pt split.normal - split.dist < 1 / 10) →
      SplitBrush E brush split = { front := none, back := some brush }) ∧
    (¬ (∀ face ∈ brush.sides, ∀ pt ∈ face.w, qv.dot pt split.normal - split.dist < 1 / 10) →
      (∀ face ∈ brush.sides, ∀ pt ∈ face.w, -(1 / 10) < qv.dot pt split.normal - split.dist) →
      SplitBrush E brush split = { front := some brush, back := none }) := by
  constructor
  · intro h
    have h1 := (SplitBrush.dists_front_lt brush split).2 h
    simp only [SplitBrush]
    rw [if_pos h1]
  · intro hn h
    have h1 : ¬ (SplitBrush.dists brush split).1 < 1 / 10 :=
      fun hlt => hn ((SplitBrush.dists_front_lt brush split).1 hlt)
    have h2 := (SplitBrush.dists_back_gt brush split).2 h
    simp only [SplitBrush]
    rw [if_neg h1, if_pos h2]

set_option maxRecDepth 100000 in
/-- Witness of C1: the cube (0,0,0)–(16,16,16) is wholly behind `x = 32` and
wholly in front of `x = -8`. -/
theorem SplitBrush_wholly_one_side_witness :
    SplitBrush refExt cube16 (planeX 32) = { front := none, back := some cube16 } ∧
    SplitBrush refExt cube16 (planeX (-8)) = { front := some cube16, back := none } :=
  ⟨(SplitBrush_wholly_one_side refExt cube16 (planeX 32)).1 (by decide!),
   (SplitBrush_wholly_one_side refExt cube16 (planeX (-8))).2 (by decide!) (by decide!)⟩

/-! ## The real split of SplitBrush -/

theorem sq_sum_zero_left (a b : ℚ) (h : a ^ 2 + b ^ 2 = 0) : a = 0 := by
  have := sq_nonneg a; have := sq_nonneg b
  have h0 : a ^ 2 = 0 := by linarith
  exact pow_eq_zero_iff (two_ne_zero) |>.1 h0

theorem sq_sum_zero_right (a b : ℚ) (h : a ^ 2 + b ^ 2 = 0) : b = 0 := by
  have := sq_nonneg a; have := sq_nonneg b
  have h0 : b ^ 2 = 0 := by linarith
  exact pow_eq_zero_iff (two_ne_zero) |>.1 h0

/-- The outward plane of the canonical form of a unit-normal plane is the plane itself. -/
theorem from_plane_unit (q : qplane3d)
    (h : q.normal.x ^ 2 + q.normal.y ^ 2 + q.normal.z ^ 2 = 1) :
    (if (from_plane q true).2 then (from_plane q true).1.toqplane3d.neg
      else (from_plane q true).1.toqplane3d) = q := by
  obtain ⟨⟨x, y, z⟩, d⟩ := q
  simp only at h
  unfold from_plane
  simp only [from_plane_axis, Nat.cast_ofNat, Nat.cast_zero, Nat.cast_one, qvec3d.get]
  by_cases hx1 : x = 1
  · have hy : y = 0 := sq_sum_zero_left y z (by rw [hx1] at h; linarith)
    have hz : z = 0 := sq_sum_zero_right y z (by rw [hx1] at h; linarith)
    subst hx1 hy hz
    simp [qvec3d.set]
  by_cases hx2 : x = -1
  · have hy : y = 0 := sq_sum_zero_left y z (by rw [hx2] at h; linarith)
    have hz : z = 0 := sq_sum_zero_right y z (by rw [hx2] at h; linarith)
    subst hx2 hy hz
    simp [qvec3d.set, qplane3d.neg, qvec3d.neg]
    norm_num
  by_cases hy1 : y = 1
  · have hx : x = 0 := sq_sum_zero_left x z (by rw [hy1] at h; linarith)
    have hz : z = 0 := sq_sum_zero_right x z (by rw [hy1] at h; linarith)
    subst hy1 hx hz
    simp [qvec3d.set]
  by_cases hy2 : y = -1
  · have hx : x = 0 := sq_sum_zero_left x z (by rw [hy2] at h; linarith)
    have hz : z = 0 := sq_sum_zero_right x z (by rw [hy2] at h; linarith)
    subst hy2 hx hz
    simp [qvec3d.set, qplane3d.neg, qvec3d.neg]
    norm_num
  by_cases hz1 : z = 1
  · have hx : x = 0 := sq_sum_zero_left x y (by rw [hz1] at h; linarith)
    have hy : y = 0 := sq_sum_zero_right x y (by rw [hz1] at h; linarith)
    subst hz1 hx hy
    simp [qvec3d.set]
  by_cases hz2 : z = -1
  · have hx : x = 0 := sq_sum_zero_left x y (by rw [hz2] at h; linarith)
    have hy : y = 0 := sq_sum_zero_right x y (by rw [hz2] at h; linarith)
    subst hz2 hx hy
    simp [qvec3d.set, qplane3d.neg, qvec3d.neg]
    norm_num
  simp only [hx1, hx2, hy1, hy2, hz1, hz2, if_false]
  unfold from_plane_any
  simp only
  split_ifs <;> simp_all [qbsp_plane_t.neg, qplane3d.neg, qvec3d.neg]

/-- When `SplitBrush` returns a brush on both sides, it went through the real
split: the mid-winding passed its test, both children passed the side and
bounds check, received their cap and have a volume of at least 1. -/
theorem SplitBrush.both_some (E : Ext) (brush : bspbrush_t) (split : qplane3d)
    (f k : bspbrush_t)
    (hf : (SplitBrush E brush split).front = some f)
    (hk : (SplitBrush E brush split).back = some k) :
    ∃ mid c0 c1,
      SplitBrush.midwinding E brush split = some mid ∧
      SplitBrush.checked E brush (SplitBrush.childSides E split 0 brush.sides) = some c0 ∧
      SplitBrush.checked E brush (SplitBrush.childSides E split 1 brush.sides) = some c1 ∧
      f = SplitBrush.withCap E split mid 0 c0 ∧
      k = SplitBrush.withCap E split mid 1 c1 ∧
      ¬ BrushVolume E f < 1 ∧ ¬ BrushVolume E k < 1 := by
  unfold SplitBrush at hf hk
  simp only at hf hk
  by_cases h1 : (SplitBrush.dists brush split).1 < 1 / 10
  · rw [if_pos h1] at hf; simp at hf
  rw [if_neg h1] at hf hk
  by_cases h2 : (SplitBrush.dists brush split).2 > -(1 / 10)
  · rw [if_pos h2] at hk; simp at hk
  rw [if_neg h2] at hf hk
  · cases hm : SplitBrush.midwinding E brush split with
    | none =>
      rw [hm] at hf hk
      simp only at hf hk
      cases hs : BrushMostlyOnSide brush split <;> rw [hs] at hf hk <;> simp at hf hk
    | some mid =>
      rw [hm] at hf hk
      simp only at hf hk
      unfold SplitBrush.real at hf hk
      simp only at hf hk
      cases h0 : SplitBrush.checked E brush (SplitBrush.childSides E split 0 brush.sides) with
      | none =>
        rw [h0] at hf
        simp at hf
      | some c0 =>
        cases h1 : SplitBrush.checked E brush (SplitBrush.childSides E split 1 brush.sides) with
        | none =>
          rw [h0, h1] at hk
          simp at hk
        | some c1 =>
          rw [h0, h1] at hf hk
          simp only [SplitBrush.capped] at hf hk
          split_ifs at hf with hvf
          split_ifs at hk with hvk
          simp only [Option.some.injEq] at hf hk
          refine ⟨mid, c0, c1, rfl, rfl, rfl, hf.symm, hk.symm, ?_, ?_⟩
          · rw [← hf]; exact hvf
          · rw [← hk]; exact hvk

theorem SplitBrush.checked_some (E : Ext) (brush : bspbrush_t) (sides : List side_t)
    (c : bspbrush_t) (h : SplitBrush.checked E brush sides = some c) :
    c.original = brush.original ∧ c.contents = brush.contents ∧ c.lmshift = brush.lmshift ∧
    c.func_areaportal = brush.func_areaportal ∧ c.sides = sides ∧
    c.bounds = E.update_bounds sides ∧
    3 ≤ sides.length ∧ SplitBrush.bogus (E.update_bounds sides) = false := by
  unfold SplitBrush.checked SplitBrush.child at h
  simp only at h
  split_ifs at h with hc
  simp only [Option.some.injEq] at h
  subst h
  push_neg at hc
  refine ⟨rfl, rfl, rfl, rfl, rfl, rfl, by omega, by simpa using hc.2⟩

theorem neg_unit (p : qplane3d) (h : p.normal.x ^ 2 + p.normal.y ^ 2 + p.normal.z ^ 2 = 1) :
    p.neg.normal.x ^ 2 + p.neg.normal.y ^ 2 + p.neg.normal.z ^ 2 = 1 := by
  simp only [qplane3d.neg, qvec3d.neg, neg_sq]
  exact h

theorem Face_Plane_cap (E : Ext) (p : qplane3d) (mid : winding_t) (i : Nat)
    (h : p.normal.x ^ 2 + p.normal.y ^ 2 + p.normal.z ^ 2 = 1) :
    Face_Plane (SplitBrush.cap E p mid i) = if i = 0 then p.neg else p := by
  unfold SplitBrush.cap Face_Plane set_plane
  simp only
  by_cases hi : i = 0
  · simp only [hi, decide_True, if_true]
    exact from_plane_unit p.neg (neg_unit p h)
  · simp only [hi, decide_False, if_false]
    simpa using from_plane_unit p h

theorem outwardNormal_eq (s : side_t) : s.outwardNormal = (Face_Plane s).normal := by
  unfold side_t.outwardNormal Face_Plane
  split_ifs <;> simp [qplane3d.neg]

/-- C2: whenever `SplitBrush` with a unit-normal plane `p` returns two
children, the last side of each child is the cap on `p`: its outward plane is
`-p` on the front child and `p` on the back child, so its outward normal (the
stored normal, negated when `plane_flipped` is set) is `-p.normal` on the
front child and `p.normal` on the back child; the front cap carries the
flipped mid-winding and the back cap the unflipped one. -/
theorem SplitBrush_cap_orientation (E : Ext) (brush : bspbrush_t) (p : qplane3d)
    (f k : bspbrush_t)
    (hunit : p.normal.x ^ 2 + p.normal.y ^ 2 + p.normal.z ^ 2 = 1)
    (hf : (SplitBrush E brush p).front = some f)
    (hk : (SplitBrush E brush p).back = some k) :
    ∃ mid capF capK,
      SplitBrush.midwinding E brush p = some mid ∧
      f.sides.getLast? = some capF ∧ k.sides.getLast? = some capK ∧
      Face_Plane capF = p.neg ∧ Face_Plane capK = p ∧
      capF.outwardNormal = p.normal.neg ∧ capK.outwardNormal = p.normal ∧
      capF.w = E.flip mid ∧ capK.w = mid := by
  obtain ⟨mid, c0, c1, hm, -, -, rfl, rfl, -, -⟩ := SplitBrush.both_some E brush p f k hf hk
  refine ⟨mid, SplitBrush.cap E p mid 0, SplitBrush.cap E p mid 1, hm,
    by simp [SplitBrush.withCap], by simp [SplitBrush.withCap], ?_, ?_, ?_, ?_, ?_, ?_⟩
  · simpa using Face_Plane_cap E p mid 0 hunit
  · simpa using Face_Plane_cap E p mid 1 hunit
  · rw [outwardNormal_eq, Face_Plane_cap E p mid 0 hunit]; simp [qplane3d.neg]
  · rw [outwardNormal_eq, Face_Plane_cap E p mid 1 hunit]; simp
  · simp [SplitBrush.cap]
  · simp [SplitBrush.cap]

set_option maxRecDepth 100000 in
/-- Witness of C2: the cube (0,0,0)–(16,16,16) split at `x = 8`. -/
theorem SplitBrush_cap_orientation_witness :
    ∃ mid capF capK,
      SplitBrush.midwinding refExt cube16 (planeX 8) = some mid ∧
      cube16Front.sides.getLast? = some capF ∧ cube16Back.sides.getLast? = some capK ∧
      Face_Plane capF = (planeX 8).neg ∧ Face_Plane capK = planeX 8 ∧
      capF.outwardNormal = (planeX 8).normal.neg ∧ capK.outwardNormal = (planeX 8).normal ∧
      capF.w = refExt.flip mid ∧ capK.w = mid :=
  SplitBrush_cap_orientation refExt cube16 (planeX 8) cube16Front cube16Back
    (by decide!) (by decide!) (by decide!)

theorem SplitBrush.childSides_eq_filterMap (E : Ext) (split : qplane3d) (j : Nat)
    (sides : List side_t) :
    SplitBrush.childSides E split j sides =
      sides.filterMap (fun face =>
        ((E.clip face.w split 0 false).get j).map (fun cw => { face with w := cw })) := by
  induction sides with
  | nil => rfl
  | cons face rest ih =>
    unfold SplitBrush.childSides
    cases hc : (E.clip face.w split 0 false).get j with
    | none => simp [List.filterMap_cons, hc, ih]
    | some cw => simp [List.filterMap_cons, hc, ih]

/-- C3: whenever `SplitBrush` returns two children, each child has the
`original`, `contents`, `lmshift` and `func_areaportal` of the input brush,
and its sides other than the final cap are, in the input's side order, copies
of exactly those input sides whose winding has a piece on that child's side of
the plane (the clip with epsilon 0 returned one), each copy differing from the
input side only in its winding, which is that piece. -/
theorem SplitBrush_children_sides (E : Ext) (brush : bspbrush_t) (p : qplane3d)
    (f k : bspbrush_t)
    (hf : (SplitBrush E brush p).front = some f)
    (hk : (SplitBrush E brush p).back = some k) :
    (f.original = brush.original ∧ f.contents = brush.contents ∧
      f.lmshift = brush.lmshift ∧ f.func_areaportal = brush.func_areaportal) ∧
    (k.original = brush.original ∧ k.contents = brush.contents ∧
      k.lmshift = brush.lmshift ∧ k.func_areaportal = brush.func_areaportal) ∧
    f.sides.dropLast = brush.sides.filterMap (fun face =>
      (E.clip face.w p 0 false).front.map (fun cw => { face with w := cw })) ∧
    k.sides.dropLast = brush.sides.filterMap (fun face =>
      (E.clip face.w p 0 false).back.map (fun cw => { face with w := cw })) := by
  obtain ⟨mid, c0, c1, -, h0, h1, rfl, rfl, -, -⟩ := SplitBrush.both_some E brush p f k hf hk
  obtain ⟨a0, b0, d0, e0, s0, -, -, -⟩ := SplitBrush.checked_some E brush _ c0 h0
  obtain ⟨a1, b1, d1, e1, s1, -, -, -⟩ := SplitBrush.checked_some E brush _ c1 h1
  refine ⟨⟨a0, b0, d0, e0⟩, ⟨a1, b1, d1, e1⟩, ?_, ?_⟩
  · simp only [SplitBrush.withCap, List.dropLast_concat, s0,
      SplitBrush.childSides_eq_filterMap]
    simp [twosided.get]
  · simp only [SplitBrush.withCap, List.dropLast_concat, s1,
      SplitBrush.childSides_eq_filterMap]
    simp [twosided.get]

set_option maxRecDepth 100000 in
/-- Witness of C3: the cube (0,0,0)–(16,16,16) split at `x = 8`. -/
theorem SplitBrush_children_sides_witness :
    (cube16Front.original = cube16.original ∧ cube16Front.contents = cube16.contents ∧
      cube16Front.lmshift = cube16.lmshift ∧
      cube16Front.func_areaportal = cube16.func_areaportal) ∧
    (cube16Back.original = cube16.original ∧ cube16Back.contents = cube16.contents ∧
      cube16Back.lmshift = cube16.lmshift ∧
      cube16Back.func_areaportal = cube16.func_areaportal) ∧
    cube16Front.sides.dropLast = cube16.sides.filterMap (fun face =>
      (refExt.clip face.w (planeX 8) 0 false).front.map (fun cw => { face with w := cw })) ∧
    cube16Back.sides.dropLast = cube16.sides.filterMap (fun face =>
      (refExt.clip face.w (planeX 8) 0 false).back.map (fun cw => { face with w := cw })) :=
  SplitBrush_children_sides refExt cube16 (planeX 8) cube16Front cube16Back
    (by decide!) (by decide!)

/-- The side and bounds check of a child fails exactly when the child has
fewer than 3 sides or a bound coordinate outside ±4096. -/
theorem SplitBrush.checked_eq (E : Ext) (brush : bspbrush_t) (sides : List side_t) :
    SplitBrush.checked E brush sides =
      if sides.length < 3 ∨ SplitBrush.bogus (E.update_bounds sides) = true then none
      else some (SplitBrush.child E brush sides) := by
  simp [SplitBrush.checked, SplitBrush.child]

/-- Past the early returns and the mid-winding test, `SplitBrush` is its real
split. -/
theorem SplitBrush.eq_real (E : Ext) (brush : bspbrush_t) (p : qplane3d) (mid : winding_t)
    (h1 : ¬ (SplitBrush.dists brush p).1 < 1 / 10)
    (h2 : ¬ (SplitBrush.dists brush p).2 > -(1 / 10))
    (hm : SplitBrush.midwinding E brush p = some mid) :
    SplitBrush E brush p = SplitBrush.real E brush p mid := by
  unfold SplitBrush
  simp only
  rw [if_neg h1, if_neg h2, hm]

/-- C4 (amended): past the early returns and the mid-winding test, with the
two children built from the clipped sides: if exactly one child fails the side
and bounds check (fewer than 3 sides, or a bound coordinate outside ±4096),
the result holds the input brush itself on the side of the other child and
nothing on the failing side; if both pass that check and exactly one capped
child has a volume below 1, the result holds the other capped child (a newly
built brush, not the input) on its side and nothing on the side of the small
one. -/
theorem SplitBrush_one_child_rejected (E : Ext) (brush : bspbrush_t) (p : qplane3d)
    (mid : winding_t)
    (h1 : ¬ (SplitBrush.dists brush p).1 < 1 / 10)
    (h2 : ¬ (SplitBrush.dists brush p).2 > -(1 / 10))
    (hm : SplitBrush.midwinding E brush p = some mid) :
    (((SplitBrush.childSides E p 0 brush.sides).length < 3 ∨
        SplitBrush.bogus (E.update_bounds (SplitBrush.childSides E p 0 brush.sides)) = true) →
      ¬ ((SplitBrush.childSides E p 1 brush.sides).length < 3 ∨
        SplitBrush.bogus (E.update_bounds (SplitBrush.childSides E p 1 brush.sides)) = true) →
      SplitBrush E brush p = { front := none, back := some brush }) ∧
    (¬ ((SplitBrush.childSides E p 0 brush.sides).length < 3 ∨
        SplitBrush.bogus (E.update_bounds (SplitBrush.childSides E p 0 brush.sides)) = true) →
      ((SplitBrush.childSides E p 1 brush.sides).length < 3 ∨
        SplitBrush.bogus (E.update_bounds (SplitBrush.childSides E p 1 brush.sides)) = true) →
      SplitBrush E brush p = { front := some brush, back := none }) ∧
    (¬ ((SplitBrush.childSides E p 0 brush.sides).length < 3 ∨
        SplitBrush.bogus (E.update_bounds (SplitBrush.childSides E p 0 brush.sides)) = true) →
      ¬ ((SplitBrush.childSides E p 1 brush.sides).length < 3 ∨
        SplitBrush.bogus (E.update_bounds (SplitBrush.childSides E p 1 brush.sides)) = true) →
      (BrushVolume E (SplitBrush.withCap E p mid 0
          (SplitBrush.child E brush (SplitBrush.childSides E p 0 brush.sides))) < 1 →
        ¬ BrushVolume E (SplitBrush.withCap E p mid 1
          (SplitBrush.child E brush (SplitBrush.childSides E p 1 brush.sides))) < 1 →
        SplitBrush E brush p =
          { front := none,
            back := some (SplitBrush.withCap E p mid 1
              (SplitBrush.child E brush (SplitBrush.childSides E p 1 brush.sides))) }) ∧
      (¬ BrushVolume E (SplitBrush.withCap E p mid 0
          (SplitBrush.child E brush (SplitBrush.childSides E p 0 brush.sides))) < 1 →
        BrushVolume E (SplitBrush.withCap E p mid 1
          (SplitBrush.child E brush (SplitBrush.childSides E p 1 brush.sides))) < 1 →
        SplitBrush E brush p =
          { front := some (SplitBrush.withCap E p mid 0
              (SplitBrush.child E brush (SplitBrush.childSides E p 0 brush.sides))),
            back := none })) := by
  rw [SplitBrush.eq_real E brush p mid h1 h2 hm]
  unfold SplitBrush.real
  simp only [SplitBrush.checked_eq]
  refine ⟨?_, ?_, ?_⟩
  · intro b0 b1
    rw [if_pos b0, if_neg b1]
    simp
  · intro b0 b1
    rw [if_neg b0, if_pos b1]
    simp
  · intro b0 b1
    rw [if_neg b0, if_neg b1]
    simp only [SplitBrush.capped]
    constructor
    · intro v0 v1
      rw [if_pos v0, if_neg v1]
    · intro v0 v1
      rw [if_neg v0, if_pos v1]

set_option maxRecDepth 100000 in
/-- Witness of C4 (amended): the bar (0,0,0)–(3,1,1) and the plane `x = 1/2`
get past the mid-winding test, both children pass the side and bounds check,
and only the back child is below volume 1: the front result is the capped
front child. -/
theorem SplitBrush_one_child_rejected_witness :
    SplitBrush refExt bar3 (planeX (1 / 2)) =
      { front := some (SplitBrush.withCap refExt (planeX (1 / 2)) bar3Mid 0
          (SplitBrush.child refExt bar3
            (SplitBrush.childSides refExt (planeX (1 / 2)) 0 bar3.sides))),
        back := none } :=
  ((SplitBrush_one_child_rejected refExt bar3 (planeX (1 / 2)) bar3Mid
      (by decide!) (by decide!) (by decide!)).2.2 (by decide!) (by decide!)).2
    (by decide!) (by decide!)

set_option maxRecDepth 100000 in
/-- C4 as stated fails: the bar (0,0,0)–(3,1,1) split at `x = 1/2` gets past
the mid-winding test; its front child is kept (5 clipped sides, bounds within
±4096, volume of the capped child at least 1) and its back child is rejected
for its volume (below 1); yet the front result is not the input brush (it is
the newly built front child). -/
theorem SplitBrush_one_child_rejected_counterexample :
    (¬ (SplitBrush.dists bar3 (planeX (1 / 2))).1 < 1 / 10 ∧
      ¬ (SplitBrush.dists bar3 (planeX (1 / 2))).2 > -(1 / 10) ∧
      SplitBrush.midwinding refExt bar3 (planeX (1 / 2)) = some bar3Mid) ∧
    (3 ≤ (SplitBrush.childSides refExt (planeX (1 / 2)) 0 bar3.sides).length ∧
      SplitBrush.bogus (refExt.update_bounds
        (SplitBrush.childSides refExt (planeX (1 / 2)) 0 bar3.sides)) = false ∧
      ¬ BrushVolume refExt (SplitBrush.withCap refExt (planeX (1 / 2)) bar3Mid 0
        (SplitBrush.child refExt bar3
          (SplitBrush.childSides refExt (planeX (1 / 2)) 0 bar3.sides))) < 1) ∧
    BrushVolume refExt (SplitBrush.withCap refExt (planeX (1 / 2)) bar3Mid 1
      (SplitBrush.child refExt bar3
        (SplitBrush.childSides refExt (planeX (1 / 2)) 1 bar3.sides))) < 1 ∧
    (SplitBrush refExt bar3 (planeX (1 / 2))).back = none ∧
    (SplitBrush refExt bar3 (planeX (1 / 2))).front ≠ some bar3 ∧
    (SplitBrush refExt bar3 (planeX (1 / 2))).front =
      some (SplitBrush.withCap refExt (planeX (1 / 2)) bar3Mid 0
        (SplitBrush.child refExt bar3
          (SplitBrush.childSides refExt (planeX (1 / 2)) 0 bar3.sides))) := by
  refine ⟨⟨by decide!, by decide!, by decide!⟩, ⟨by decide!, by decide!, by decide!⟩,
    by decide!, by decide!, by decide!, by decide!⟩

/-! ## BoxOnPlaneSide -/

theorem mul_corner_le (n lo hi : ℚ) (h : lo ≤ hi) :
    n * (if n < 0 then hi else lo) ≤ n * (if n < 0 then lo else hi) := by
  by_cases hn : n < 0
  · simp only [hn, if_true]
    exact mul_le_mul_of_nonpos_left h (le_of_lt hn)
  · simp only [hn, if_false]
    exact mul_le_mul_of_nonneg_left h (not_lt.1 hn)

theorem BoxOnPlaneSide.bits (d1 d2 : ℚ) (h : d2 ≤ d1) :
    (if d2 < PLANESIDE_EPSILON then
        (if d1 ≥ PLANESIDE_EPSILON then PSIDE_FRONT else 0) ||| PSIDE_BACK
      else (if d1 ≥ PLANESIDE_EPSILON then PSIDE_FRONT else 0)) = PSIDE_FRONT ∨
    (if d2 < PLANESIDE_EPSILON then
        (if d1 ≥ PLANESIDE_EPSILON then PSIDE_FRONT else 0) ||| PSIDE_BACK
      else (if d1 ≥ PLANESIDE_EPSILON then PSIDE_FRONT else 0)) = PSIDE_BACK ∨
    (if d2 < PLANESIDE_EPSILON then
        (if d1 ≥ PLANESIDE_EPSILON then PSIDE_FRONT else 0) ||| PSIDE_BACK
      else (if d1 ≥ PLANESIDE_EPSILON then PSIDE_FRONT else 0)) = PSIDE_BOTH := by
  by_cases hf : d1 ≥ PLANESIDE_EPSILON
  · by_cases hb : d2 < PLANESIDE_EPSILON
    · rw [if_pos hb, if_pos hf]; right; right; rfl
    · rw [if_neg hb, if_pos hf]; left; rfl
  · have hb : d2 < PLANESIDE_EPSILON := lt_of_le_of_lt h (not_le.1 hf)
    rw [if_pos hb, if_neg hf]; right; left; rfl

/-- The general branch of `BoxOnPlaneSide` always sets a bit: for a plane of
a non-axial type and a box with `mins ≤ maxs` the result is FRONT, BACK or
BOTH. -/
theorem BoxOnPlaneSide_general_ne_zero (bounds : aabb3d) (plane : qbsp_plane_t)
    (ht : ¬ plane.type.toInt < plane_type_t.PLANE_ANYX.toInt)
    (hx : bounds.mins.x ≤ bounds.maxs.x) (hy : bounds.mins.y ≤ bounds.maxs.y)
    (hz : bounds.mins.z ≤ bounds.maxs.z) :
    BoxOnPlaneSide bounds plane = PSIDE_FRONT ∨ BoxOnPlaneSide bounds plane = PSIDE_BACK ∨
      BoxOnPlaneSide bounds plane = PSIDE_BOTH := by
  unfold BoxOnPlaneSide
  rw [if_neg ht]
  have h1 := mul_corner_le plane.normal.x _ _ hx
  have h2 := mul_corner_le plane.normal.y _ _ hy
  have h3 := mul_corner_le plane.normal.z _ _ hz
  exact BoxOnPlaneSide.bits _ _ (by simp only [qv.dot]; linarith)

/-! ## Evaluations of the splitter search and the partition -/

set_option maxRecDepth 100000 in
/-- C6 (the code at the failing input): in the list hint brush, `plainX`,
`plainY`, side 0 of `plainX` is not hint-textured and its positive plane
`x = 8` splits the visible hint side of the hint brush (the test of that brush
sets `hintsplit`); yet the candidate is scored 10, not −9999999, and it is
the side that `SelectSplitSide` returns. -/
theorem SelectSplitSide_hint_split_selected :
    refExt.is_hint (plainX.sides.getD 0 side_t.zero).texinfo = false ∧
    (from_plane (plainX.sides.getD 0 side_t.zero).plane.toqplane3d true).1.toqplane3d
      = planeX 8 ∧
    (TestBrushToPlanenum refExt hintBrush (from_plane (planeX 8) true).1 0).hintsplit = true ∧
    (SelectSplitSide refExt [hintBrush, plainX, plainY] rootNode).toOption.map
        (fun r => (r.bestside, r.scored)) =
      some (some (1, 0),
        [{ pass := 0, bi := 0, si := 2, value := 7 },
         { pass := 0, bi := 1, si := 0, value := 10 }]) := by
  refine ⟨by decide!, by decide!, by decide!, by decide!⟩

set_option maxRecDepth 100000 in
/-- C8 (the code at the failing input): for the bounds of the thin slab and
the axial plane `x = 0`, `BoxOnPlaneSide` returns 0. -/
theorem BoxOnPlaneSide_slab_zero :
    BoxOnPlaneSide ⟨⟨-1 / 2000, 0, 0⟩, ⟨1 / 2000, 1024, 1024⟩⟩
      { normal := ⟨1, 0, 0⟩, dist := 0, type := plane_type_t.PLANE_X } = 0 := by
  decide!

set_option maxRecDepth 100000 in
/-- C7 (the code at the failing input): in the list `slabMate`, `slab` the
search picks side 3 of `slabMate` (plane `x = 0`) and stores the
classifications 5 (FRONT and FACING) and 0; the slab, whose classification is
not BOTH, is then in neither list of `SplitBrushList`: the front list has one
brush, the back list none, and no brush of either list has the slab's
bounds. -/
theorem SplitBrushList_drops_slab :
    (TestBrushToPlanenum refExt slab (from_plane (planeX 0) true).1 0).s = 0 ∧
    (SelectSplitSide refExt [slabMate, slab] bigNode).toOption.map
        (fun r => (r.bestside, r.brushes.map (fun b => b.side))) =
      some (some (0, 3), [5, 0]) ∧
    (SelectSplitSide refExt [slabMate, slab] bigNode).toOption.map
        (fun r =>
          ((SplitBrushList refExt r.brushes slabNode).front.map (fun b => b.bounds),
           (SplitBrushList refExt r.brushes slabNode).back.map (fun b => b.bounds))) =
      some ([slabMate.bounds], []) ∧
    slabMate.bounds ≠ slab.bounds := by
  refine ⟨by decide!, by decide!, by decide!, by decide!⟩

/-! ## The test loop of SelectSplitSide -/

theorem TestBrushToPlanenum.facing_static (E : Ext) (plane : qbsp_plane_t) (sides : List side_t) :
    TestBrushToPlanenum.facing E plane (sides.map side_t.static) =
      TestBrushToPlanenum.facing E plane sides := by
  induction sides with
  | nil => rfl
  | cons s rest ih =>
    simp only [List.map_cons, TestBrushToPlanenum.facing, ih, side_t.static]

theorem TestBrushToPlanenum.side_static (E : Ext) (plane : qbsp_plane_t) (acc : TestScan)
    (s : side_t) :
    TestBrushToPlanenum.side E plane acc s.static = TestBrushToPlanenum.side E plane acc s := by
  simp only [TestBrushToPlanenum.side, side_t.static]

theorem TestBrushToPlanenum.foldl_static (E : Ext) (plane : qbsp_plane_t) (sides : List side_t)
    (acc : TestScan) :
    (sides.map side_t.static).foldl (TestBrushToPlanenum.side E plane) acc =
      sides.foldl (TestBrushToPlanenum.side E plane) acc := by
  induction sides generalizing acc with
  | nil => rfl
  | cons s rest ih =>
    simp only [List.map_cons, List.foldl_cons, TestBrushToPlanenum.side_static, ih]

/-- The result of `TestBrushToPlanenum` does not depend on the transient
fields of the brush. -/
theorem TestBrushToPlanenum_static (E : Ext) (b : bspbrush_t) (plane : qbsp_plane_t)
    (eb : Int) :
    TestBrushToPlanenum E b.static plane eb = TestBrushToPlanenum E b plane eb := by
  simp only [TestBrushToPlanenum, bspbrush_t.static, TestBrushToPlanenum.facing_static,
    TestBrushToPlanenum.foldl_static]

theorem TestBrushToPlanenum_congr (E : Ext) (b1 b2 : bspbrush_t) (plane : qbsp_plane_t)
    (eb : Int) (h : b1.static = b2.static) :
    TestBrushToPlanenum E b1 plane eb = TestBrushToPlanenum E b2 plane eb := by
  rw [← TestBrushToPlanenum_static E b1, ← TestBrushToPlanenum_static E b2, h]

/-- The counter `epsilonbrush` is only ever raised by what the brush adds
from 0; the other results do not depend on it. -/
theorem TestBrushToPlanenum_eps (E : Ext) (b : bspbrush_t) (plane : qbsp_plane_t) (eb : Int) :
    TestBrushToPlanenum E b plane eb =
      { TestBrushToPlanenum E b plane 0 with
        epsilonbrush := eb + (TestBrushToPlanenum E b plane 0).epsilonbrush } := by
  unfold TestBrushToPlanenum
  cases TestBrushToPlanenum.facing E plane b.sides with
  | some s => simp
  | none =>
    simp only
    split_ifs <;> simp

theorem markTested_static (E : Ext) (plane : qbsp_plane_t) (sides : List side_t) :
    (SelectSplitSide.markTested E plane sides).map side_t.static = sides.map side_t.static := by
  simp only [SelectSplitSide.markTested, List.map_map]
  apply List.map_congr_left
  intro s _
  simp only [Function.comp]
  split_ifs <;> rfl

theorem testBrush_static (E : Ext) (plane : qbsp_plane_t) (acc acc1 : TestAcc)
    (test test1 : bspbrush_t)
    (h : SelectSplitSide.testBrush E plane acc test = Except.ok (acc1, test1)) :
    test1.static = test.static := by
  unfold SelectSplitSide.testBrush at h
  simp only at h
  by_cases hc : (TestBrushToPlanenum E test plane acc.epsilonbrush).numsplits ≠ 0 ∧
      (TestBrushToPlanenum E test plane acc.epsilonbrush).s &&& PSIDE_FACING ≠ 0
  · rw [if_pos hc] at h; simp at h
  · rw [if_neg hc] at h
    simp only [Except.ok.injEq, Prod.mk.injEq] at h
    obtain ⟨-, rfl⟩ := h
    simp only [bspbrush_t.static]
    by_cases hf : decide ((TestBrushToPlanenum E test plane acc.epsilonbrush).s &&& PSIDE_FACING ≠ 0) = true
    · rw [if_pos hf, markTested_static]
    · rw [if_neg hf]

theorem testAll_static (E : Ext) (plane : qbsp_plane_t) (bs : List bspbrush_t)
    (acc acc1 : TestAcc) (bs1 : List bspbrush_t)
    (h : SelectSplitSide.testAll E plane bs acc = Except.ok (acc1, bs1)) :
    bs1.map bspbrush_t.static = bs.map bspbrush_t.static := by
  induction bs generalizing acc acc1 bs1 with
  | nil =>
    simp only [SelectSplitSide.testAll, Except.ok.injEq, Prod.mk.injEq] at h
    rw [← h.2]
  | cons test rest ih =>
    unfold SelectSplitSide.testAll at h
    cases h1 : SelectSplitSide.testBrush E plane acc test with
    | error e => rw [h1] at h; simp at h
    | ok r1 =>
      obtain ⟨a1, t1⟩ := r1
      rw [h1] at h
      simp only at h
      cases h2 : SelectSplitSide.testAll E plane rest a1 with
      | error e => rw [h2] at h; simp at h
      | ok r2 =>
        obtain ⟨a2, rest1⟩ := r2
        rw [h2] at h
        simp only [Except.ok.injEq, Prod.mk.injEq] at h
        obtain ⟨-, rfl⟩ := h
        simp only [List.map_cons, ih a1 a2 rest1 h2, testBrush_static E plane acc a1 test t1 h1]

theorem testBrush_counts (E : Ext) (plane : qbsp_plane_t) (acc acc1 : TestAcc)
    (test test1 : bspbrush_t)
    (h : SelectSplitSide.testBrush E plane acc test = Except.ok (acc1, test1)) :
    acc1.facing = acc.facing +
        (if classification E plane test &&& PSIDE_FACING ≠ 0 then 1 else 0) ∧
    acc1.front = acc.front +
        (if classification E plane test &&& PSIDE_FRONT ≠ 0 then 1 else 0) ∧
    acc1.back = acc.back +
        (if classification E plane test &&& PSIDE_BACK ≠ 0 then 1 else 0) ∧
    acc1.splits = acc.splits + (TestBrushToPlanenum E test plane 0).numsplits ∧
    acc1.epsilonbrush = acc.epsilonbrush + (TestBrushToPlanenum E test plane 0).epsilonbrush ∧
    acc1.hintsplit = (TestBrushToPlanenum E test plane 0).hintsplit := by
  unfold SelectSplitSide.testBrush at h
  simp only at h
  rw [TestBrushToPlanenum_eps E test plane acc.epsilonbrush] at h
  simp only at h
  by_cases hc : (TestBrushToPlanenum E test plane 0).numsplits ≠ 0 ∧
      (TestBrushToPlanenum E test plane 0).s &&& PSIDE_FACING ≠ 0
  · rw [if_pos hc] at h; simp at h
  · rw [if_neg hc] at h
    simp only [Except.ok.injEq, Prod.mk.injEq] at h
    obtain ⟨rfl, -⟩ := h
    refine ⟨?_, ?_, ?_, rfl, rfl, rfl⟩
    · by_cases hf : (TestBrushToPlanenum E test plane 0).s &&& PSIDE_FACING ≠ 0
      · simp [classification, hf]
      · simp [classification, hf]
    · by_cases hf : (TestBrushToPlanenum E test plane 0).s &&& PSIDE_FRONT ≠ 0
      · simp [classification, hf]
      · simp [classification, hf]
    · by_cases hf : (TestBrushToPlanenum E test plane 0).s &&& PSIDE_BACK ≠ 0
      · simp [classification, hf]
      · simp [classification, hf]

theorem countP_cons_int {α : Type} (p : α → Bool) (a : α) (l : List α) :
    ((List.countP p (a :: l) : Nat) : Int) = (if p a = true then 1 else 0) + (List.countP p l : Int) := by
  rw [List.countP_cons]
  split_ifs
  · simp; ring
  · simp

theorem testAll_counts (E : Ext) (plane : qbsp_plane_t) (bs : List bspbrush_t)
    (acc acc1 : TestAcc) (bs1 : List bspbrush_t)
    (h : SelectSplitSide.testAll E plane bs acc = Except.ok (acc1, bs1)) :
    acc1.facing = acc.facing +
        (bs.countP (fun b => classification E plane b &&& PSIDE_FACING ≠ 0) : Int) ∧
    acc1.front = acc.front +
        (bs.countP (fun b => classification E plane b &&& PSIDE_FRONT ≠ 0) : Int) ∧
    acc1.back = acc.back +
        (bs.countP (fun b => classification E plane b &&& PSIDE_BACK ≠ 0) : Int) ∧
    acc1.splits = acc.splits +
        (bs.map (fun b => (TestBrushToPlanenum E b plane 0).numsplits)).sum ∧
    acc1.epsilonbrush = acc.epsilonbrush +
        (bs.map (fun b => (TestBrushToPlanenum E b plane 0).epsilonbrush)).sum ∧
    (acc1.hintsplit = true →
      acc.hintsplit = true ∨ ∃ b ∈ bs, (TestBrushToPlanenum E b plane 0).hintsplit = true) := by
  induction bs generalizing acc acc1 bs1 with
  | nil =>
    simp only [SelectSplitSide.testAll, Except.ok.injEq, Prod.mk.injEq] at h
    obtain ⟨rfl, -⟩ := h
    simp
  | cons test rest ih =>
    unfold SelectSplitSide.testAll at h
    cases h1 : SelectSplitSide.testBrush E plane acc test with
    | error e => rw [h1] at h; simp at h
    | ok r1 =>
      obtain ⟨a1, t1⟩ := r1
      rw [h1] at h
      simp only at h
      cases h2 : SelectSplitSide.testAll E plane rest a1 with
      | error e => rw [h2] at h; simp at h
      | ok r2 =>
        obtain ⟨a2, rest1⟩ := r2
        rw [h2] at h
        simp only [Except.ok.injEq, Prod.mk.injEq] at h
        obtain ⟨rfl, -⟩ := h
        obtain ⟨f1, f2, f3, f4, f5, f6⟩ := testBrush_counts E plane acc a1 test t1 h1
        obtain ⟨g1, g2, g3, g4, g5, g6⟩ := ih a1 a2 rest1 h2
        refine ⟨?_, ?_, ?_, ?_, ?_, ?_⟩
        · rw [g1, f1, countP_cons_int]; simp only [decide_eq_true_eq]; ring
        · rw [g2, f2, countP_cons_int]; simp only [decide_eq_true_eq]; ring
        · rw [g3, f3, countP_cons_int]; simp only [decide_eq_true_eq]; ring
        · rw [g4, f4, List.map_cons, List.sum_cons]; ring
        · rw [g5, f5, List.map_cons, List.sum_cons]; ring
        · intro hh
          rcases g6 hh with h3 | ⟨b, hb, hb2⟩
          · right
            exact ⟨test, List.mem_cons_self _ _, by rw [← f6]; exact h3⟩
          · right
            exact ⟨b, List.mem_cons_of_mem _ hb, hb2⟩

/-- After the test loop the flag `hintsplit` is the one of the last brush
tested: `TestBrushToPlanenum` resets it at every call. -/
theorem testAll_hintsplit_last (E : Ext) (plane : qbsp_plane_t) (bs : List bspbrush_t)
    (last : bspbrush_t) (acc acc1 : TestAcc) (bs1 : List bspbrush_t)
    (h : SelectSplitSide.testAll E plane (bs ++ [last]) acc = Except.ok (acc1, bs1)) :
    acc1.hintsplit = (TestBrushToPlanenum E last plane 0).hintsplit := by
  induction bs generalizing acc acc1 bs1 with
  | nil =>
    simp only [List.nil_append] at h
    unfold SelectSplitSide.testAll at h
    cases h1 : SelectSplitSide.testBrush E plane acc last with
    | error e => rw [h1] at h; simp at h
    | ok r1 =>
      obtain ⟨a1, t1⟩ := r1
      rw [h1] at h
      simp only [SelectSplitSide.testAll, Except.ok.injEq, Prod.mk.injEq] at h
      obtain ⟨rfl, -⟩ := h
      exact (testBrush_counts E plane acc a1 last t1 h1).2.2.2.2.2
  | cons test rest ih =>
    simp only [List.cons_append] at h
    unfold SelectSplitSide.testAll at h
    cases h1 : SelectSplitSide.testBrush E plane acc test with
    | error e => rw [h1] at h; simp at h
    | ok r1 =>
      obtain ⟨a1, t1⟩ := r1
      rw [h1] at h
      simp only at h
      cases h2 : SelectSplitSide.testAll E plane (rest ++ [last]) a1 with
      | error e => rw [h2] at h; simp at h
      | ok r2 =>
        obtain ⟨a2, rest1⟩ := r2
        rw [h2] at h
        simp only [Except.ok.injEq, Prod.mk.injEq] at h
        obtain ⟨rfl, -⟩ := h
        exact ih a1 a2 rest1 h2

/-- The value the code gives a candidate is the value in the words of the
claim, unless the hint clamp was applied; the clamp is only applied to a
candidate that is not hint-textured and whose plane splits a hint side of some
brush. -/
theorem value_eq_claimValue (E : Ext) (plane : qbsp_plane_t) (side : side_t)
    (bs bs1 : List bspbrush_t) (acc : TestAcc)
    (h : SelectSplitSide.testAll E plane bs TestAcc.zero = Except.ok (acc, bs1)) :
    SelectSplitSide.value E plane side acc = claimValue E bs plane ∨
    (SelectSplitSide.value E plane side acc = -9999999 ∧ E.is_hint side.texinfo = false ∧
      ∃ b ∈ bs, (TestBrushToPlanenum E b plane 0).hintsplit = true) := by
  obtain ⟨g1, g2, g3, g4, g5, g6⟩ := testAll_counts E plane bs TestAcc.zero acc bs1 h
  unfold SelectSplitSide.value
  simp only
  by_cases hc : acc.hintsplit = true ∧ ¬ E.is_hint side.texinfo = true
  · right
    rw [if_pos hc]
    refine ⟨rfl, by simpa using hc.2, ?_⟩
    rcases g6 hc.1 with h0 | h1
    · simp [TestAcc.zero] at h0
    · exact h1
  · left
    rw [if_neg hc, g1, g2, g3, g4, g5]
    unfold claimValue
    simp only [TestAcc.zero, zero_add]
    split_ifs <;> ring

/-! ## The search of SelectSplitSide -/

/-- What a round of the side loop does when it does not fail: nothing, or it
scores the side. -/
theorem SelectSplitSide.trySide_ok (E : Ext) (node : node_t) (p bi si : Nat)
    (st st1 : SelectState)
    (h : SelectSplitSide.trySide E node p bi si st = Except.ok st1) :
    st1 = st ∨
    ∃ brush side volume acc tested,
      st.brushes[bi]? = some brush ∧ brush.sides[si]? = some side ∧
      SelectSplitSide.skips E p side = false ∧
      node.volume = some volume ∧
      CheckPlaneAgainstVolume E (from_plane side.plane.toqplane3d true).1 volume = true ∧
      SelectSplitSide.testAll E (from_plane side.plane.toqplane3d true).1 st.brushes
        TestAcc.zero = Except.ok (acc, tested) ∧
      st1 = SelectSplitSide.score p bi si
        (SelectSplitSide.value E (from_plane side.plane.toqplane3d true).1 side acc)
        acc.splits tested st := by
  unfold SelectSplitSide.trySide at h
  cases hb : st.brushes[bi]? with
  | none => rw [hb] at h; simp only [Except.ok.injEq] at h; exact Or.inl h.symm
  | some brush =>
    rw [hb] at h
    simp only at h
    cases hs : brush.sides[si]? with
    | none => rw [hs] at h; simp only [Except.ok.injEq] at h; exact Or.inl h.symm
    | some side =>
      rw [hs] at h
      simp only at h
      by_cases hk : SelectSplitSide.skips E p side = true
      · rw [if_pos hk] at h; simp only [Except.ok.injEq] at h; exact Or.inl h.symm
      rw [if_neg hk] at h
      by_cases hp : CheckPlaneAgainstParents E (from_plane side.plane.toqplane3d true).1 node = true
      · rw [if_pos hp] at h; simp at h
      rw [if_neg hp] at h
      cases hv : node.volume with
      | none => rw [hv] at h; simp at h
      | some volume =>
        rw [hv] at h
        simp only at h
        by_cases hc : CheckPlaneAgainstVolume E (from_plane side.plane.toqplane3d true).1 volume = true
        · rw [hc] at h
          simp only [Bool.not_true, Bool.false_eq_true, if_false] at h
          cases ht : SelectSplitSide.testAll E (from_plane side.plane.toqplane3d true).1
              st.brushes TestAcc.zero with
          | error e => rw [ht] at h; simp at h
          | ok r =>
            obtain ⟨acc, tested⟩ := r
            rw [ht] at h
            simp only at h
            right
            simp only [Except.ok.injEq] at h
            exact ⟨brush, side, volume, acc, tested, rfl, hs, by simpa using hk, rfl, hc, ht,
              h.symm⟩
        · have hc2 : CheckPlaneAgainstVolume E (from_plane side.plane.toqplane3d true).1 volume = false := by
            simpa using hc
          rw [hc2] at h
          simp only [Bool.not_false, if_true, Except.ok.injEq] at h
          exact Or.inl h.symm

theorem static_lookup (bs bs0 : List bspbrush_t)
    (h : bs.map bspbrush_t.static = bs0.map bspbrush_t.static) (bi : Nat) (brush : bspbrush_t)
    (hb : bs[bi]? = some brush) :
    ∃ brush0, bs0[bi]? = some brush0 ∧ brush0.static = brush.static := by
  have h1 : (bs.map bspbrush_t.static)[bi]? = some brush.static := by
    rw [List.getElem?_map, hb]; rfl
  rw [h, List.getElem?_map] at h1
  cases h0 : bs0[bi]? with
  | none => rw [h0] at h1; simp at h1
  | some brush0 =>
    rw [h0] at h1
    simp only [Option.map_some', Option.some.injEq] at h1
    exact ⟨brush0, rfl, h1⟩

theorem static_side_lookup (brush brush0 : bspbrush_t) (h : brush0.static = brush.static)
    (si : Nat) (side : side_t) (hs : brush.sides[si]? = some side) :
    ∃ side0, brush0.sides[si]? = some side0 ∧ side0.static = side.static := by
  have hsides : brush0.sides.map side_t.static = brush.sides.map side_t.static := by
    have := congrArg bspbrush_t.sides h
    simpa [bspbrush_t.static] using this
  have h1 : (brush.sides.map side_t.static)[si]? = some side.static := by
    rw [List.getElem?_map, hs]; rfl
  rw [← hsides, List.getElem?_map] at h1
  cases h0 : brush0.sides[si]? with
  | none => rw [h0] at h1; simp at h1
  | some side0 =>
    rw [h0] at h1
    simp only [Option.map_some', Option.some.injEq] at h1
    exact ⟨side0, rfl, h1⟩

theorem static_side_fields (side side0 : side_t) (h : side0.static = side.static) :
    side0.plane = side.plane ∧ side0.bevel = side.bevel ∧ side0.w = side.w ∧
    side0.onnode = side.onnode ∧ side0.texinfo = side.texinfo ∧
    side0.visible = side.visible ∧ side0.plane_flipped = side.plane_flipped := by
  simp only [side_t.static, side_t.mk.injEq] at h
  obtain ⟨h1, h2, h3, h4, h5, h6, h7, -⟩ := h
  exact ⟨h1, h5, h3, h7, h4, h6, h2⟩

theorem claimValue_static (E : Ext) (bs : List bspbrush_t) (plane : qbsp_plane_t) :
    claimValue E (bs.map bspbrush_t.static) plane = claimValue E bs plane := by
  simp only [claimValue, List.countP_map, List.map_map, Function.comp_def, classification,
    TestBrushToPlanenum_static]

theorem claimValue_congr (E : Ext) (bs bs0 : List bspbrush_t) (plane : qbsp_plane_t)
    (h : bs.map bspbrush_t.static = bs0.map bspbrush_t.static) :
    claimValue E bs plane = claimValue E bs0 plane := by
  rw [← claimValue_static E bs, ← claimValue_static E bs0, h]

theorem hintsplit_congr (E : Ext) (bs bs0 : List bspbrush_t) (plane : qbsp_plane_t)
    (h : bs.map bspbrush_t.static = bs0.map bspbrush_t.static)
    (hb : ∃ b ∈ bs, (TestBrushToPlanenum E b plane 0).hintsplit = true) :
    ∃ b ∈ bs0, (TestBrushToPlanenum E b plane 0).hintsplit = true := by
  obtain ⟨b, hmem, hh⟩ := hb
  have h1 : b.static ∈ bs0.map bspbrush_t.static := by
    rw [← h]; exact List.mem_map_of_mem _ hmem
  obtain ⟨b0, hmem0, hb0⟩ := List.mem_map.1 h1
  refine ⟨b0, hmem0, ?_⟩
  rw [TestBrushToPlanenum_congr E b0 b plane 0 hb0]
  exact hh

theorem skips_false (E : Ext) (p : Nat) (side : side_t)
    (h : SelectSplitSide.skips E p side = false) :
    side.bevel = false ∧ side.w ≠ [] ∧ side.onnode = false ∧ side.tested = false ∧
    E.is_hintskip side.texinfo = false ∧ side.visible = decide (p < 2) := by
  simp only [SelectSplitSide.skips, Bool.or_eq_false_iff, decide_eq_false_iff_not] at h
  obtain ⟨⟨⟨⟨⟨h1, h2⟩, h3⟩, h4⟩, h5⟩, h6⟩ := h
  refine ⟨h1, ?_, h3, h4, h5, ?_⟩
  · intro hw; apply h2; rw [hw]; rfl
  · cases hv : side.visible <;> cases hd : decide (p < 2) <;> simp_all

theorem map_side_static (tested : List bspbrush_t) :
    (tested.map (fun t => { t with side := t.testside })).map bspbrush_t.static =
      tested.map bspbrush_t.static := by
  rw [List.map_map]
  apply List.map_congr_left
  intro t _
  rfl

/-- A round of the side loop keeps the invariant of the search. -/
theorem SelectSplitSide.trySide_inv (E : Ext) (node : node_t) (bs0 : List bspbrush_t)
    (p bi si : Nat) (st st1 : SelectState)
    (hinv : SelectSplitSide.Inv E node bs0 p st)
    (h : SelectSplitSide.trySide E node p bi si st = Except.ok st1) :
    SelectSplitSide.Inv E node bs0 p st1 := by
  rcases SelectSplitSide.trySide_ok E node p bi si st st1 h with rfl |
    ⟨brush, side, volume, acc, tested, hb, hs, hk, hv, hc, ht, rfl⟩
  · exact hinv
  obtain ⟨i1, i2, i3, i4, i5⟩ := hinv
  obtain ⟨brush0, hb0, hbs⟩ := static_lookup st.brushes bs0 i1 bi brush hb
  obtain ⟨side0, hs0, hss⟩ := static_side_lookup brush brush0 hbs si side hs
  obtain ⟨f1, f2, f3, f4, f5, f6, f7⟩ := static_side_fields side side0 hss
  obtain ⟨k1, k2, k3, k4, k5, k6⟩ := skips_false E p side hk
  have hstat := testAll_static E _ st.brushes TestAcc.zero acc tested ht
  have hval := value_eq_claimValue E (from_plane side.plane.toqplane3d true).1 side
    st.brushes tested acc ht
  have hok : scoredOk E node bs0
      { pass := p, bi := bi, si := si,
        value := SelectSplitSide.value E (from_plane side.plane.toqplane3d true).1 side acc } := by
    refine ⟨brush0, side0, volume, hb0, hs0, by rw [f2, k1], by rw [f3]; exact k2,
      by rw [f4, k3], by rw [f5, k5], hv, by rw [f1]; exact hc, ?_⟩
    rw [f1, f5]
    rcases hval with hv1 | ⟨hv1, hv2, hv3⟩
    · left
      rw [hv1]
      exact claimValue_congr E st.brushes bs0 _ i1
    · right
      exact ⟨hv1, hv2, hintsplit_congr E st.brushes bs0 _ i1 hv3⟩
  unfold SelectSplitSide.score
  simp only
  by_cases hgt : SelectSplitSide.value E (from_plane side.plane.toqplane3d true).1 side acc
      > st.bestvalue
  · rw [if_pos hgt]
    refine ⟨?_, ?_, ?_, ?_, ?_⟩
    · simp only [map_side_static, hstat, i1]
    · intro e he
      simp only [List.mem_append, List.mem_singleton] at he
      rcases he with he | rfl
      · exact le_of_lt (lt_of_le_of_lt (i2 e he) hgt)
      · exact le_refl _
    · intro hn; simp at hn
    · intro bi1 si1 hbest
      simp only [Option.some.injEq, Prod.mk.injEq] at hbest
      obtain ⟨rfl, rfl⟩ := hbest
      refine ⟨?_, st.scored, [], rfl, ?_, ?_⟩
      · have hlow : -99999 ≤ st.bestvalue := by
          cases hbs : st.bestside with
          | none => exact le_of_eq (i3 hbs).symm
          | some bsi => exact le_of_lt (i4 bsi.1 bsi.2 hbs).1
        exact lt_of_le_of_lt hlow hgt
      · intro e he
        exact lt_of_le_of_lt (i2 e he) hgt
      · intro e he; simp at he
    · intro e he
      simp only [List.mem_append, List.mem_singleton] at he
      rcases he with he | rfl
      · exact i5 e he
      · exact hok
  · rw [if_neg hgt]
    push_neg at hgt
    refine ⟨?_, ?_, ?_, ?_, ?_⟩
    · simp only [hstat, i1]
    · intro e he
      simp only [List.mem_append, List.mem_singleton] at he
      rcases he with he | rfl
      · exact i2 e he
      · exact hgt
    · exact i3
    · intro bi1 si1 hbest
      obtain ⟨j1, pre, post, j2, j3, j4⟩ := i4 bi1 si1 hbest
      refine ⟨j1, pre, post ++ [Scored.mk p bi si
        (SelectSplitSide.value E (from_plane side.plane.toqplane3d true).1 side acc)],
        ?_, j3, ?_⟩
      · simp only [j2, List.append_assoc, List.cons_append]
      · intro e he
        simp only [List.mem_append, List.mem_singleton] at he
        rcases he with he | rfl
        · exact j4 e he
        · rfl
    · intro e he
      simp only [List.mem_append, List.mem_singleton] at he
      rcases he with he | rfl
      · exact i5 e he
      · exact hok

theorem SelectSplitSide.sideLoop_inv (E : Ext) (node : node_t) (bs0 : List bspbrush_t)
    (p bi : Nat) (sis : List Nat) (st st1 : SelectState)
    (hinv : SelectSplitSide.Inv E node bs0 p st)
    (h : SelectSplitSide.sideLoop E node p bi sis st = Except.ok st1) :
    SelectSplitSide.Inv E node bs0 p st1 := by
  induction sis generalizing st with
  | nil =>
    simp only [SelectSplitSide.sideLoop, Except.ok.injEq] at h
    rw [← h]; exact hinv
  | cons si rest ih =>
    unfold SelectSplitSide.sideLoop at h
    cases h1 : SelectSplitSide.trySide E node p bi si st with
    | error e => rw [h1] at h; simp at h
    | ok st2 =>
      rw [h1] at h
      exact ih st2 (SelectSplitSide.trySide_inv E node bs0 p bi si st st2 hinv h1) h

theorem SelectSplitSide.tryBrush_inv (E : Ext) (node : node_t) (bs0 : List bspbrush_t)
    (p bi : Nat) (st st1 : SelectState)
    (hinv : SelectSplitSide.Inv E node bs0 p st)
    (h : SelectSplitSide.tryBrush E node p bi st = Except.ok st1) :
    SelectSplitSide.Inv E node bs0 p st1 := by
  unfold SelectSplitSide.tryBrush at h
  cases hb : st.brushes[bi]? with
  | none => rw [hb] at h; simp only [Except.ok.injEq] at h; rw [← h]; exact hinv
  | some brush =>
    rw [hb] at h
    simp only at h
    cases ho : brush.original with
    | none => rw [ho] at h; simp at h
    | some o =>
      rw [ho] at h
      simp only at h
      split_ifs at h with hd
      · simp only [Except.ok.injEq] at h; rw [← h]; exact hinv
      · exact SelectSplitSide.sideLoop_inv E node bs0 p bi _ st st1 hinv h

theorem SelectSplitSide.brushLoop_inv (E : Ext) (node : node_t) (bs0 : List bspbrush_t)
    (p : Nat) (bis : List Nat) (st st1 : SelectState)
    (hinv : SelectSplitSide.Inv E node bs0 p st)
    (h : SelectSplitSide.brushLoop E node p bis st = Except.ok st1) :
    SelectSplitSide.Inv E node bs0 p st1 := by
  induction bis generalizing st with
  | nil =>
    simp only [SelectSplitSide.brushLoop, Except.ok.injEq] at h
    rw [← h]; exact hinv
  | cons bi rest ih =>
    unfold SelectSplitSide.brushLoop at h
    cases h1 : SelectSplitSide.tryBrush E node p bi st with
    | error e => rw [h1] at h; simp at h
    | ok st2 =>
      rw [h1] at h
      exact ih st2 (SelectSplitSide.tryBrush_inv E node bs0 p bi st st2 hinv h1) h

/-- While there is no best side, the invariant does not depend on the pass. -/
theorem SelectSplitSide.Inv_pass (E : Ext) (node : node_t) (bs0 : List bspbrush_t)
    (p q : Nat) (st : SelectState) (hinv : SelectSplitSide.Inv E node bs0 p st)
    (hn : st.bestside = none) : SelectSplitSide.Inv E node bs0 q st := by
  obtain ⟨i1, i2, i3, -, i5⟩ := hinv
  refine ⟨i1, i2, i3, ?_, i5⟩
  intro bi si hb
  rw [hn] at hb
  simp at hb

theorem SelectSplitSide.passLoop_inv (E : Ext) (node : node_t) (bs0 : List bspbrush_t)
    (passes : List Nat) (p0 : Nat) (st st1 : SelectState) (found : Option Nat)
    (hinv : SelectSplitSide.Inv E node bs0 p0 st) (hn : st.bestside = none)
    (h : SelectSplitSide.passLoop E node passes st = Except.ok (st1, found)) :
    ∃ p, SelectSplitSide.Inv E node bs0 p st1 := by
  induction passes generalizing st p0 with
  | nil =>
    simp only [SelectSplitSide.passLoop, Except.ok.injEq, Prod.mk.injEq] at h
    rw [← h.1]; exact ⟨p0, hinv⟩
  | cons p rest ih =>
    unfold SelectSplitSide.passLoop at h
    cases h1 : SelectSplitSide.brushLoop E node p (List.range st.brushes.length) st with
    | error e => rw [h1] at h; simp at h
    | ok st2 =>
      rw [h1] at h
      simp only at h
      have hinv2 := SelectSplitSide.brushLoop_inv E node bs0 p _ st st2
        (SelectSplitSide.Inv_pass E node bs0 p0 p st hinv hn) h1
      split_ifs at h with hs
      · simp only [Except.ok.injEq, Prod.mk.injEq] at h
        rw [← h.1]; exact ⟨p, hinv2⟩
      · have hn2 : st2.bestside = none := by
          cases hb : st2.bestside with
          | none => rfl
          | some x => rw [hb] at hs; simp at hs
        exact ih p st2 hinv2 hn2 h

/-- The search ends in a state that satisfies the invariant, and the result
carries the best side and the history of that state. -/
theorem SelectSplitSide_inv (E : Ext) (bs : List bspbrush_t) (node : node_t)
    (r : SelectResult) (h : SelectSplitSide E bs node = Except.ok r) :
    ∃ p st, SelectSplitSide.Inv E node bs p st ∧ r.bestside = st.bestside ∧
      r.scored = st.scored := by
  unfold SelectSplitSide at h
  cases h1 : SelectSplitSide.passLoop E node [0, 1, 2, 3]
      { brushes := bs, bestside := none, bestvalue := -99999, bestsplits := 0, scored := [] } with
  | error e => rw [h1] at h; simp at h
  | ok res =>
    obtain ⟨st, found⟩ := res
    rw [h1] at h
    simp only [Except.ok.injEq] at h
    have hinit : SelectSplitSide.Inv E node bs 0
        { brushes := bs, bestside := none, bestvalue := -99999, bestsplits := 0, scored := [] } := by
      refine ⟨rfl, ?_, ?_, ?_, ?_⟩
      · intro e he; simp at he
      · intro _; rfl
      · intro bi si hb; simp at hb
      · intro e he; simp at he
    obtain ⟨p, hp⟩ := SelectSplitSide.passLoop_inv E node bs _ 0 _ st found hinit rfl h1
    refine ⟨p, st, hp, ?_, ?_⟩
    · rw [← h]
    · rw [← h]

theorem scoredOk_valid (E : Ext) (node : node_t) (bs : List bspbrush_t) (e : Scored)
    (h : scoredOk E node bs e) : validCandidate E node bs e.bi e.si := by
  obtain ⟨brush, side, volume, h1, h2, h3, h4, h5, h6, h7, h8, -⟩ := h
  exact ⟨brush, side, volume, h1, h2, h3, h4, h5, h6, h7, h8⟩

theorem except_ok_of_toOption {α : Type} (e : Except String α) (r : α)
    (h : e.toOption = some r) : e = Except.ok r := by
  cases e with
  | error s => simp [Except.toOption] at h
  | ok a =>
    simp only [Except.toOption, Option.some.injEq] at h
    rw [h]

/-- The search returns no side exactly when none of the candidates it scores
gets a value above −99999; every candidate it scores is a valid candidate, so
it returns no side when there is no valid candidate. -/
theorem SelectSplitSide.none_iff_scored (E : Ext) (bs : List bspbrush_t) (node : node_t)
    (r : SelectResult) (h : SelectSplitSide E bs node = Except.ok r) :
    (r.bestside = none ↔ ∀ e ∈ r.scored, e.value ≤ -99999) ∧
    (∀ e ∈ r.scored, validCandidate E node bs e.bi e.si) ∧
    ((∀ bi si, ¬ validCandidate E node bs bi si) → r.bestside = none) := by
  obtain ⟨p, st, ⟨i1, i2, i3, i4, i5⟩, hb, hs⟩ := SelectSplitSide_inv E bs node r h
  have hiff : r.bestside = none ↔ ∀ e ∈ r.scored, e.value ≤ -99999 := by
    rw [hb, hs]
    constructor
    · intro hn e he
      have := i2 e he
      rw [i3 hn] at this
      exact this
    · intro hall
      cases hbest : st.bestside with
      | none => rfl
      | some bsi =>
        obtain ⟨j1, pre, post, j2, -, -⟩ := i4 bsi.1 bsi.2 hbest
        have hmem : Scored.mk p bsi.1 bsi.2 st.bestvalue ∈ st.scored := by
          rw [j2]; simp
        have := hall _ hmem
        simp only at this
        omega
  have hvalid : ∀ e ∈ r.scored, validCandidate E node bs e.bi e.si := by
    intro e he
    rw [hs] at he
    exact scoredOk_valid E node bs e (i5 e he)
  refine ⟨hiff, hvalid, ?_⟩
  intro hno
  rw [hiff]
  intro e he
  exact absurd (hvalid e he) (hno e.bi e.si)

/-- C10 (amended): the side returned by `SelectSplitSide` has the highest
value among all candidates scored in its pass, and among candidates of equal
value it is the one scored first: everything scored before it has a smaller
value, everything scored after it was scored in the same pass and has at most
its value.  The value of a scored candidate is
`5·facing − 5·splits − |front − back|`, plus 5 if the plane is axial, minus
`1000·epsilonbrush` (`claimValue`), or else the floor −9999999 of the hint
clamp, which is only given to a candidate that is not hint-textured and whose
plane splits a hint side of some brush. -/
theorem SelectSplitSide_best_value (E : Ext) (bs : List bspbrush_t) (node : node_t)
    (r : SelectResult) (bi si : Nat)
    (h : SelectSplitSide E bs node = Except.ok r) (hbest : r.bestside = some (bi, si)) :
    (∃ pass v pre post,
      r.scored = pre ++ Scored.mk pass bi si v :: post ∧
      (∀ e ∈ pre, e.value < v) ∧ (∀ e ∈ post, e.pass = pass ∧ e.value ≤ v)) ∧
    (∀ e ∈ r.scored, scoredOk E node bs e) := by
  obtain ⟨p, st, ⟨i1, i2, i3, i4, i5⟩, hb, hs⟩ := SelectSplitSide_inv E bs node r h
  rw [hb] at hbest
  obtain ⟨j1, pre, post, j2, j3, j4⟩ := i4 bi si hbest
  refine ⟨⟨p, st.bestvalue, pre, post, by rw [hs, j2], j3, ?_⟩, by rw [hs]; exact i5⟩
  intro e he
  refine ⟨j4 e he, i2 e ?_⟩
  rw [j2]
  simp [he]


set_option maxRecDepth 100000 in
/-- C9 as stated fails: at the node `lowNode`, with the brushes `plainXon` and
the hint brush, side 0 of `plainXon` is a valid candidate (not bevel, with a
winding, not onnode, not hintskip-textured, its plane `x = 8` splits the
node's volume into two non-empty parts), yet `SelectSplitSide` returns no
side: the candidate splits the hint side of the last brush and is scored
−9999999. -/
theorem SelectSplitSide_none_iff_counterexample :
    validCandidate refExt lowNode [plainXon, hintBrush] 0 0 ∧
    (SelectSplitSide refExt [plainXon, hintBrush] lowNode).toOption.map
        (fun r => (r.bestside, r.scored)) =
      some (none, [{ pass := 0, bi := 0, si := 0, value := -9999999 }]) := by
  refine ⟨⟨plainXon, plainXon.sides.getD 0 side_t.zero,
    refBox (-64) (-64) (-64) 64 64 16, by decide!, by decide!, by decide!, by decide!,
    by decide!, by decide!, by decide!, by decide!⟩, by decide!⟩

set_option maxRecDepth 100000 in
/-- Witness of C10 (amended): the search on `plainX`, `plainY`, hint brush at
the node `rootNode` returns side 2 of brush 2. -/
theorem SelectSplitSide_best_value_witness :
    (∃ pass v pre post,
      searchRoot.scored = pre ++ Scored.mk pass 2 2 v :: post ∧
      (∀ e ∈ pre, e.value < v) ∧ (∀ e ∈ post, e.pass = pass ∧ e.value ≤ v)) ∧
    (∀ e ∈ searchRoot.scored, scoredOk refExt rootNode [plainX, plainY, hintBrush] e) :=
  SelectSplitSide_best_value refExt [plainX, plainY, hintBrush] rootNode searchRoot 2 2
    (except_ok_of_toOption _ _ (by decide!)) (by decide!)

set_option maxRecDepth 100000 in
/-- C10 as stated fails: on `plainX`, `plainY`, hint brush at the node
`rootNode`, two candidates are scored in pass 0: side 0 of brush 0 and side 2
of brush 2.  The search returns side 2 of brush 2, whose value by the claim's
formula is 7, although side 0 of brush 0 has the value 10 by that formula (the
code clamps it to −9999999). -/
theorem SelectSplitSide_best_value_counterexample :
    (SelectSplitSide refExt [plainX, plainY, hintBrush] rootNode).toOption.map
        (fun r => (r.bestside, r.scored)) =
      some (some (2, 2),
        [{ pass := 0, bi := 0, si := 0, value := -9999999 },
         { pass := 0, bi := 2, si := 2, value := 7 }]) ∧
    claimValue refExt [plainX, plainY, hintBrush]
      (candidatePlane [plainX, plainY, hintBrush] 2 2) = 7 ∧
    claimValue refExt [plainX, plainY, hintBrush]
      (candidatePlane [plainX, plainY, hintBrush] 0 0) = 10 := by
  refine ⟨by decide!, by decide!, by decide!⟩

/-! ## TestBrushToPlanenum -/

theorem TestBrushToPlanenum.facing_eq_find (E : Ext) (plane : qbsp_plane_t)
    (sides : List side_t) :
    TestBrushToPlanenum.facing E plane sides =
      (sides.find? (fun s => E.epsilonEqual s.plane.toqplane3d plane.toqplane3d)).map
        (fun s => if s.plane_flipped = false then PSIDE_BACK ||| PSIDE_FACING
          else PSIDE_FRONT ||| PSIDE_FACING) := by
  induction sides with
  | nil => rfl
  | cons s rest ih =>
    unfold TestBrushToPlanenum.facing
    by_cases h : E.epsilonEqual s.plane.toqplane3d plane.toqplane3d = true
    · rw [if_pos h]
      simp only [List.find?_cons, h, Option.map_some']
      split_ifs <;> rfl
    · rw [if_neg h]
      simp only [List.find?_cons, h]
      exact ih

theorem TestBrushToPlanenum.facing_none (E : Ext) (plane : qbsp_plane_t) (sides : List side_t)
    (h : ∀ s ∈ sides, E.epsilonEqual s.plane.toqplane3d plane.toqplane3d = false) :
    TestBrushToPlanenum.facing E plane sides = none := by
  rw [TestBrushToPlanenum.facing_eq_find]
  have : sides.find? (fun s => E.epsilonEqual s.plane.toqplane3d plane.toqplane3d) = none := by
    rw [List.find?_eq_none]
    intro s hs
    rw [h s hs]
    simp
  rw [this]
  rfl

/-- The result of `TestBrushToPlanenum` when a side of the brush is
epsilon-equal to the plane: the first such side decides. -/
theorem TestBrushToPlanenum.facing_result (E : Ext) (brush : bspbrush_t)
    (plane : qbsp_plane_t) (eb : Int) (side : side_t)
    (h : brush.sides.find? (fun s => E.epsilonEqual s.plane.toqplane3d plane.toqplane3d)
      = some side) :
    TestBrushToPlanenum E brush plane eb =
      { s := if side.plane_flipped = true then PSIDE_FRONT ||| PSIDE_FACING
          else PSIDE_BACK ||| PSIDE_FACING,
        numsplits := 0, hintsplit := false, epsilonbrush := eb } ∧
    PSIDE_FRONT ||| PSIDE_FACING = 5 ∧ PSIDE_BACK ||| PSIDE_FACING = 6 := by
  refine ⟨?_, by decide, by decide⟩
  unfold TestBrushToPlanenum
  rw [TestBrushToPlanenum.facing_eq_find, h]
  simp only [Option.map_some']
  cases side.plane_flipped <;> simp

/-- C18: if some side's plane is epsilon-equal to the plane, then with `side`
the first such side `TestBrushToPlanenum` returns `BACK | FACING` (6) when
`side.plane_flipped` is unset and `FRONT | FACING` (5) when it is set, with
`numsplits = 0` and `hintsplit = false`, and leaves `epsilonbrush` as it
was.  With `plane_flipped` unset the outward normal of the side is the normal
of its stored plane, the plane that is epsilon-equal to the tested plane. -/
theorem TestBrushToPlanenum_first_equal_side (E : Ext) (brush : bspbrush_t)
    (plane : qbsp_plane_t) (eb : Int) (side : side_t)
    (h : brush.sides.find? (fun s => E.epsilonEqual s.plane.toqplane3d plane.toqplane3d)
      = some side) :
    TestBrushToPlanenum E brush plane eb =
      { s := if side.plane_flipped = true then PSIDE_FRONT ||| PSIDE_FACING
          else PSIDE_BACK ||| PSIDE_FACING,
        numsplits := 0, hintsplit := false, epsilonbrush := eb } ∧
    PSIDE_FRONT ||| PSIDE_FACING = 5 ∧ PSIDE_BACK ||| PSIDE_FACING = 6 ∧
    E.epsilonEqual side.plane.toqplane3d plane.toqplane3d = true ∧
    (side.plane_flipped = false → side.outwardNormal = side.plane.normal) := by
  obtain ⟨h1, h2, h3⟩ := TestBrushToPlanenum.facing_result E brush plane eb side h
  refine ⟨h1, h2, h3, ?_, ?_⟩
  · have := List.find?_some h
    simpa using this
  · intro hf
    simp [side_t.outwardNormal, hf]

theorem TestBrushToPlanenum.foldl_point (plane : qbsp_plane_t) (w : winding_t)
    (acc : (vec_t × vec_t) × (Bool × Bool)) :
    (w.foldl (TestBrushToPlanenum.point plane) acc).2.1 =
        (acc.2.1 || w.any (fun pt => decide (planeDist plane pt > 1 / 10))) ∧
    (w.foldl (TestBrushToPlanenum.point plane) acc).2.2 =
        (acc.2.2 || w.any (fun pt => decide (planeDist plane pt < -(1 / 10)))) ∧
    (∀ c, (w.foldl (TestBrushToPlanenum.point plane) acc).1.1 < c ↔
        acc.1.1 < c ∧ ∀ pt ∈ w, planeDist plane pt < c) ∧
    (∀ c, c < (w.foldl (TestBrushToPlanenum.point plane) acc).1.2 ↔
        c < acc.1.2 ∧ ∀ pt ∈ w, c < planeDist plane pt) := by
  induction w generalizing acc with
  | nil => simp
  | cons pt rest ih =>
    simp only [List.foldl_cons]
    obtain ⟨h1, h2, h3, h4⟩ := ih (TestBrushToPlanenum.point plane acc pt)
    refine ⟨?_, ?_, ?_, ?_⟩
    · rw [h1]
      simp only [TestBrushToPlanenum.point, planeDist, List.any_cons]
      by_cases hd : qv.dot pt plane.normal - plane.dist > 1 / 10
      · cases acc.2.1 <;> simp [hd]
      · cases acc.2.1 <;> simp [hd]
    · rw [h2]
      simp only [TestBrushToPlanenum.point, planeDist, List.any_cons]
      by_cases hd : qv.dot pt plane.normal - plane.dist < -(1 / 10)
      · cases acc.2.2 <;> simp [hd]
      · cases acc.2.2 <;> simp [hd]
    · intro c
      rw [h3 c]
      simp only [TestBrushToPlanenum.point, planeDist, List.mem_cons, forall_eq_or_imp]
      by_cases hd : qv.dot pt plane.normal - plane.dist > acc.1.1
      · rw [if_pos hd]
        constructor
        · intro ⟨a, b⟩; exact ⟨lt_trans hd a, a, b⟩
        · intro ⟨_, a, b⟩; exact ⟨a, b⟩
      · rw [if_neg hd]
        constructor
        · intro ⟨a, b⟩; exact ⟨a, lt_of_le_of_lt (not_lt.1 hd) a, b⟩
        · intro ⟨a, _, b⟩; exact ⟨a, b⟩
    · intro c
      rw [h4 c]
      simp only [TestBrushToPlanenum.point, planeDist, List.mem_cons, forall_eq_or_imp]
      by_cases hd : qv.dot pt plane.normal - plane.dist < acc.1.2
      · rw [if_pos hd]
        constructor
        · intro ⟨a, b⟩; exact ⟨lt_trans a hd, a, b⟩
        · intro ⟨_, a, b⟩; exact ⟨a, b⟩
      · rw [if_neg hd]
        constructor
        · intro ⟨a, b⟩; exact ⟨a, lt_of_lt_of_le a (not_lt.1 hd), b⟩
        · intro ⟨a, _, b⟩; exact ⟨a, b⟩

/-- What one round of the second loop of `TestBrushToPlanenum` does to the
running values. -/
theorem TestBrushToPlanenum.side_spec (E : Ext) (plane : qbsp_plane_t) (acc : TestScan)
    (s : side_t) :
    (TestBrushToPlanenum.side E plane acc s).numsplits =
        acc.numsplits + (if splitsSide E plane s = true then 1 else 0) ∧
    (TestBrushToPlanenum.side E plane acc s).hintsplit =
        (acc.hintsplit || (splitsSide E plane s && E.is_hint s.texinfo)) ∧
    (∀ c, (TestBrushToPlanenum.side E plane acc s).d_front < c ↔
        acc.d_front < c ∧ ∀ pt ∈ scannedPoints [s], planeDist plane pt < c) ∧
    (∀ c, c < (TestBrushToPlanenum.side E plane acc s).d_back ↔
        c < acc.d_back ∧ ∀ pt ∈ scannedPoints [s], c < planeDist plane pt) := by
  unfold TestBrushToPlanenum.side
  by_cases h1 : s.onnode = true
  · simp [h1, splitsSide, scannedPoints]
  by_cases h2 : s.visible = true
  swap
  · simp [h1, h2, splitsSide, scannedPoints]
  by_cases h3 : s.w.length = 0
  · have h3' : s.w = [] := List.length_eq_zero.1 h3
    simp [h1, h2, h3', splitsSide, scannedPoints]
  have h3' : s.w ≠ [] := fun h => h3 (by rw [h]; rfl)
  obtain ⟨p1, p2, p3, p4⟩ := TestBrushToPlanenum.foldl_point plane s.w
    ((acc.d_front, acc.d_back), (false, false))
  have hsc : scannedPoints [s] = s.w := by
    simp [scannedPoints, h1, h2]
  simp only [h1, h2, h3, Bool.not_true, Bool.false_eq_true, if_false, hsc]
  simp only [Bool.false_or] at p1 p2
  have hsplit : splitsSide E plane s =
      (!E.is_hintskip s.texinfo &&
        s.w.any (fun pt => decide (planeDist plane pt > 1 / 10)) &&
        s.w.any (fun pt => decide (planeDist plane pt < -(1 / 10)))) := by
    simp [splitsSide, h1, h2, h3']
  rw [hsplit, ← p1, ← p2]
  cases hf : (s.w.foldl (TestBrushToPlanenum.point plane)
      ((acc.d_front, acc.d_back), (false, false))).2.1 <;>
  cases hb : (s.w.foldl (TestBrushToPlanenum.point plane)
      ((acc.d_front, acc.d_back), (false, false))).2.2 <;>
  cases hk : E.is_hintskip s.texinfo <;>
  cases hh : E.is_hint s.texinfo <;>
  simp [p3, p4]

theorem scannedPoints_cons (s : side_t) (rest : List side_t) :
    scannedPoints (s :: rest) = scannedPoints [s] ++ scannedPoints rest := by
  simp only [scannedPoints, List.filter_cons]
  split_ifs <;> simp

theorem mem_scannedPoints_cons (pt : qvec3d) (s : side_t) (rest : List side_t) :
    pt ∈ scannedPoints (s :: rest) ↔ pt ∈ scannedPoints [s] ∨ pt ∈ scannedPoints rest := by
  rw [scannedPoints_cons, List.mem_append]

theorem TestBrushToPlanenum.foldl_side_spec (E : Ext) (plane : qbsp_plane_t)
    (sides : List side_t) (acc : TestScan) :
    (sides.foldl (TestBrushToPlanenum.side E plane) acc).numsplits =
        acc.numsplits + (sides.countP (splitsSide E plane) : Int) ∧
    (sides.foldl (TestBrushToPlanenum.side E plane) acc).hintsplit =
        (acc.hintsplit || sides.any (fun s => splitsSide E plane s && E.is_hint s.texinfo)) ∧
    (∀ c, (sides.foldl (TestBrushToPlanenum.side E plane) acc).d_front < c ↔
        acc.d_front < c ∧ ∀ pt ∈ scannedPoints sides, planeDist plane pt < c) ∧
    (∀ c, c < (sides.foldl (TestBrushToPlanenum.side E plane) acc).d_back ↔
        c < acc.d_back ∧ ∀ pt ∈ scannedPoints sides, c < planeDist plane pt) := by
  induction sides generalizing acc with
  | nil => simp [scannedPoints]
  | cons s rest ih =>
    simp only [List.foldl_cons]
    obtain ⟨h1, h2, h3, h4⟩ := ih (TestBrushToPlanenum.side E plane acc s)
    obtain ⟨g1, g2, g3, g4⟩ := TestBrushToPlanenum.side_spec E plane acc s
    refine ⟨?_, ?_, ?_, ?_⟩
    · rw [h1, g1, countP_cons_int]
      ring
    · rw [h2, g2, List.any_cons, Bool.or_assoc]
    · intro c
      rw [h3 c, g3 c]
      constructor
      · intro ⟨⟨a, b⟩, d⟩
        exact ⟨a, fun pt hpt => ((mem_scannedPoints_cons pt s rest).1 hpt).elim (b pt) (d pt)⟩
      · intro ⟨a, b⟩
        exact ⟨⟨a, fun pt hpt => b pt ((mem_scannedPoints_cons pt s rest).2 (Or.inl hpt))⟩,
          fun pt hpt => b pt ((mem_scannedPoints_cons pt s rest).2 (Or.inr hpt))⟩
    · intro c
      rw [h4 c, g4 c]
      constructor
      · intro ⟨⟨a, b⟩, d⟩
        exact ⟨a, fun pt hpt => ((mem_scannedPoints_cons pt s rest).1 hpt).elim (b pt) (d pt)⟩
      · intro ⟨a, b⟩
        exact ⟨⟨a, fun pt hpt => b pt ((mem_scannedPoints_cons pt s rest).2 (Or.inl hpt))⟩,
          fun pt hpt => b pt ((mem_scannedPoints_cons pt s rest).2 (Or.inr hpt))⟩

/-- A value that is below exactly the bounds that are above `a` and above all
of a list of values is above exactly the bounds that are below `a` or below
one of the values: it is their maximum. -/
theorem lt_max_char {α : Type} (r a : ℚ) (w : List α) (f : α → ℚ)
    (h : ∀ c, r < c ↔ a < c ∧ ∀ pt ∈ w, f pt < c) (c : ℚ) :
    c < r ↔ c < a ∨ ∃ pt ∈ w, c < f pt := by
  have ha : a ≤ r := by
    by_contra hlt
    push_neg at hlt
    exact lt_irrefl a ((h a).1 hlt).1
  have hf : ∀ pt ∈ w, f pt ≤ r := by
    intro pt hpt
    by_contra hlt
    push_neg at hlt
    exact lt_irrefl (f pt) (((h (f pt)).1 hlt).2 pt hpt)
  constructor
  · intro hc
    by_contra hn
    push_neg at hn
    have : r < r := by
      rw [h r]
      refine ⟨?_, ?_⟩
      · by_contra hra
        push_neg at hra
        exact absurd (lt_of_lt_of_le hc hra) (not_lt.2 hn.1)
      · intro pt hpt
        by_contra hrf
        push_neg at hrf
        exact absurd (lt_of_lt_of_le hc hrf) (not_lt.2 (hn.2 pt hpt))
    exact lt_irrefl r this
  · rintro (hc | ⟨pt, hpt, hc⟩)
    · exact lt_of_lt_of_le hc ha
    · exact lt_of_lt_of_le hc (hf pt hpt)

theorem gt_min_char {α : Type} (r a : ℚ) (w : List α) (f : α → ℚ)
    (h : ∀ c, c < r ↔ c < a ∧ ∀ pt ∈ w, c < f pt) (c : ℚ) :
    r < c ↔ a < c ∨ ∃ pt ∈ w, f pt < c := by
  have h' : ∀ c', -r < c' ↔ -a < c' ∧ ∀ pt ∈ w, -f pt < c' := by
    intro c'
    have := h (-c')
    constructor
    · intro hc
      have h1 := this.1 (by linarith)
      exact ⟨by linarith [h1.1], fun pt hpt => by linarith [h1.2 pt hpt]⟩
    · intro ⟨h1, h2⟩
      have := this.2 ⟨by linarith, fun pt hpt => by linarith [h2 pt hpt]⟩
      linarith
  have := lt_max_char (-r) (-a) w (fun pt => -f pt) h' (-c)
  constructor
  · intro hc
    rcases this.1 (by linarith) with h1 | ⟨pt, hpt, h1⟩
    · left; linarith
    · right; exact ⟨pt, hpt, by linarith⟩
  · intro hc
    have h2 : -c < -r := this.2 (by
      rcases hc with h1 | ⟨pt, hpt, h1⟩
      · left; linarith
      · right; exact ⟨pt, hpt, by linarith⟩)
    linarith

/-- In the BOTH case `TestBrushToPlanenum` is its second loop. -/
theorem TestBrushToPlanenum.eq_scan (E : Ext) (brush : bspbrush_t) (plane : qbsp_plane_t)
    (eb : Int)
    (hno : ∀ s ∈ brush.sides, E.epsilonEqual s.plane.toqplane3d plane.toqplane3d = false)
    (hb : BoxOnPlaneSide brush.bounds plane = PSIDE_BOTH) :
    TestBrushToPlanenum E brush plane eb =
      { s := PSIDE_BOTH,
        numsplits := (brush.sides.foldl (TestBrushToPlanenum.side E plane)
          { d_front := 0, d_back := 0, numsplits := 0, hintsplit := false }).numsplits,
        hintsplit := (brush.sides.foldl (TestBrushToPlanenum.side E plane)
          { d_front := 0, d_back := 0, numsplits := 0, hintsplit := false }).hintsplit,
        epsilonbrush :=
          if ((brush.sides.foldl (TestBrushToPlanenum.side E plane)
                { d_front := 0, d_back := 0, numsplits := 0, hintsplit := false }).d_front > 0 ∧
              (brush.sides.foldl (TestBrushToPlanenum.side E plane)
                { d_front := 0, d_back := 0, numsplits := 0, hintsplit := false }).d_front < 1) ∨
             ((brush.sides.foldl (TestBrushToPlanenum.side E plane)
                { d_front := 0, d_back := 0, numsplits := 0, hintsplit := false }).d_back < 0 ∧
              (brush.sides.foldl (TestBrushToPlanenum.side E plane)
                { d_front := 0, d_back := 0, numsplits := 0, hintsplit := false }).d_back > -1)
          then eb + 1 else eb } := by
  unfold TestBrushToPlanenum
  rw [TestBrushToPlanenum.facing_none E plane brush.sides hno]
  simp only [hb, ne_eq, not_true_eq_false, if_false]

/-- C19: for every brush that has no side with a plane epsilon-equal to the
plane and whose bounds test BOTH, `TestBrushToPlanenum` returns BOTH with
`numsplits` the number of sides that are visible, not onnode, have a non-empty
winding, are not hintskip-textured and have both a vertex more than 0.1 in
front of the plane and a vertex more than 0.1 behind it (`splitsSide`);
`hintsplit` is true exactly when one of those counted sides is
hint-textured. -/
theorem TestBrushToPlanenum_both (E : Ext) (brush : bspbrush_t) (plane : qbsp_plane_t)
    (eb : Int)
    (hno : ∀ s ∈ brush.sides, E.epsilonEqual s.plane.toqplane3d plane.toqplane3d = false)
    (hb : BoxOnPlaneSide brush.bounds plane = PSIDE_BOTH) :
    (TestBrushToPlanenum E brush plane eb).s = PSIDE_BOTH ∧
    (TestBrushToPlanenum E brush plane eb).numsplits =
      (brush.sides.countP (splitsSide E plane) : Int) ∧
    ((TestBrushToPlanenum E brush plane eb).hintsplit = true ↔
      ∃ s ∈ brush.sides, splitsSide E plane s = true ∧ E.is_hint s.texinfo = true) := by
  rw [TestBrushToPlanenum.eq_scan E brush plane eb hno hb]
  obtain ⟨h1, h2, -, -⟩ := TestBrushToPlanenum.foldl_side_spec E plane brush.sides
    { d_front := 0, d_back := 0, numsplits := 0, hintsplit := false }
  refine ⟨rfl, ?_, ?_⟩
  · simp only [h1, zero_add]
  · simp only [h2, Bool.false_or, List.any_eq_true, Bool.and_eq_true]

/-- C20 (amended): in the BOTH case of `TestBrushToPlanenum`, `epsilonbrush`
is incremented by one exactly when, over the vertices of the scanned sides
(those that are visible and not onnode), some vertex lies in front of the
plane and every vertex lies less than 1 in front of it, or some vertex lies
behind the plane and every vertex lies less than 1 behind it; otherwise it is
left as it was.  When it is incremented, some scanned vertex lies at a signed
distance strictly between 0 and 1 or strictly between −1 and 0. -/
theorem TestBrushToPlanenum_epsilonbrush (E : Ext) (brush : bspbrush_t)
    (plane : qbsp_plane_t) (eb : Int)
    (hno : ∀ s ∈ brush.sides, E.epsilonEqual s.plane.toqplane3d plane.toqplane3d = false)
    (hb : BoxOnPlaneSide brush.bounds plane = PSIDE_BOTH) :
    ((((∃ pt ∈ scannedPoints brush.sides, 0 < planeDist plane pt) ∧
          ∀ pt ∈ scannedPoints brush.sides, planeDist plane pt < 1) ∨
        ((∃ pt ∈ scannedPoints brush.sides, planeDist plane pt < 0) ∧
          ∀ pt ∈ scannedPoints brush.sides, -1 < planeDist plane pt)) →
      (TestBrushToPlanenum E brush plane eb).epsilonbrush = eb + 1) ∧
    (¬ (((∃ pt ∈ scannedPoints brush.sides, 0 < planeDist plane pt) ∧
          ∀ pt ∈ scannedPoints brush.sides, planeDist plane pt < 1) ∨
        ((∃ pt ∈ scannedPoints brush.sides, planeDist plane pt < 0) ∧
          ∀ pt ∈ scannedPoints brush.sides, -1 < planeDist plane pt)) →
      (TestBrushToPlanenum E brush plane eb).epsilonbrush = eb) ∧
    ((TestBrushToPlanenum E brush plane eb).epsilonbrush = eb + 1 →
      ∃ pt ∈ scannedPoints brush.sides,
        (0 < planeDist plane pt ∧ planeDist plane pt < 1) ∨
        (-1 < planeDist plane pt ∧ planeDist plane pt < 0)) := by
  rw [TestBrushToPlanenum.eq_scan E brush plane eb hno hb]
  obtain ⟨-, -, h3, h4⟩ := TestBrushToPlanenum.foldl_side_spec E plane brush.sides
    { d_front := 0, d_back := 0, numsplits := 0, hintsplit := false }
  have g3 := lt_max_char _ _ _ _ h3
  have g4 := gt_min_char _ _ _ _ h4
  simp only at h3 h4 g3 g4
  have e1 : (brush.sides.foldl (TestBrushToPlanenum.side E plane)
      { d_front := 0, d_back := 0, numsplits := 0, hintsplit := false }).d_front > 0 ↔
      ∃ pt ∈ scannedPoints brush.sides, 0 < planeDist plane pt := by
    rw [gt_iff_lt, g3 0]; simp
  have e2 : (brush.sides.foldl (TestBrushToPlanenum.side E plane)
      { d_front := 0, d_back := 0, numsplits := 0, hintsplit := false }).d_front < 1 ↔
      ∀ pt ∈ scannedPoints brush.sides, planeDist plane pt < 1 := by
    rw [h3 1]; simp
  have e3 : (brush.sides.foldl (TestBrushToPlanenum.side E plane)
      { d_front := 0, d_back := 0, numsplits := 0, hintsplit := false }).d_back < 0 ↔
      ∃ pt ∈ scannedPoints brush.sides, planeDist plane pt < 0 := by
    rw [g4 0]; simp
  have e4 : (brush.sides.foldl (TestBrushToPlanenum.side E plane)
      { d_front := 0, d_back := 0, numsplits := 0, hintsplit := false }).d_back > -1 ↔
      ∀ pt ∈ scannedPoints brush.sides, -1 < planeDist plane pt := by
    rw [gt_iff_lt, h4 (-1)]; simp
  simp only [e1, e2, e3, e4]
  refine ⟨fun hc => by rw [if_pos hc], fun hc => by rw [if_neg hc], ?_⟩
  intro hinc
  by_cases hc : ((∃ pt ∈ scannedPoints brush.sides, 0 < planeDist plane pt) ∧
          ∀ pt ∈ scannedPoints brush.sides, planeDist plane pt < 1) ∨
        ((∃ pt ∈ scannedPoints brush.sides, planeDist plane pt < 0) ∧
          ∀ pt ∈ scannedPoints brush.sides, -1 < planeDist plane pt)
  · rcases hc with ⟨⟨pt, hpt, h0⟩, hall⟩ | ⟨⟨pt, hpt, h0⟩, hall⟩
    · exact ⟨pt, hpt, Or.inl ⟨h0, hall pt hpt⟩⟩
    · exact ⟨pt, hpt, Or.inr ⟨hall pt hpt, h0⟩⟩
  · rw [if_neg hc] at hinc
    omega

/-! ## An induction principle for the search -/

theorem SelectSplitSide.sideLoop_induct (E : Ext) (node : node_t)
    (P : Nat → SelectState → Prop)
    (hstep : ∀ p bi si st st1, P p st →
      SelectSplitSide.trySide E node p bi si st = Except.ok st1 → P p st1)
    (p bi : Nat) (sis : List Nat) (st st1 : SelectState) (hP : P p st)
    (h : SelectSplitSide.sideLoop E node p bi sis st = Except.ok st1) : P p st1 := by
  induction sis generalizing st with
  | nil =>
    simp only [SelectSplitSide.sideLoop, Except.ok.injEq] at h
    rw [← h]; exact hP
  | cons si rest ih =>
    unfold SelectSplitSide.sideLoop at h
    cases h1 : SelectSplitSide.trySide E node p bi si st with
    | error e => rw [h1] at h; simp at h
    | ok st2 =>
      rw [h1] at h
      exact ih st2 (hstep p bi si st st2 hP h1) h

theorem SelectSplitSide.tryBrush_induct (E : Ext) (node : node_t)
    (P : Nat → SelectState → Prop)
    (hstep : ∀ p bi si st st1, P p st →
      SelectSplitSide.trySide E node p bi si st = Except.ok st1 → P p st1)
    (p bi : Nat) (st st1 : SelectState) (hP : P p st)
    (h : SelectSplitSide.tryBrush E node p bi st = Except.ok st1) : P p st1 := by
  unfold SelectSplitSide.tryBrush at h
  cases hb : st.brushes[bi]? with
  | none => rw [hb] at h; simp only [Except.ok.injEq] at h; rw [← h]; exact hP
  | some brush =>
    rw [hb] at h
    simp only at h
    cases ho : brush.original with
    | none => rw [ho] at h; simp at h
    | some o =>
      rw [ho] at h
      simp only at h
      split_ifs at h with hd
      · simp only [Except.ok.injEq] at h; rw [← h]; exact hP
      · exact SelectSplitSide.sideLoop_induct E node P hstep p bi _ st st1 hP h

theorem SelectSplitSide.brushLoop_induct (E : Ext) (node : node_t)
    (P : Nat → SelectState → Prop)
    (hstep : ∀ p bi si st st1, P p st →
      SelectSplitSide.trySide E node p bi si st = Except.ok st1 → P p st1)
    (p : Nat) (bis : List Nat) (st st1 : SelectState) (hP : P p st)
    (h : SelectSplitSide.brushLoop E node p bis st = Except.ok st1) : P p st1 := by
  induction bis generalizing st with
  | nil =>
    simp only [SelectSplitSide.brushLoop, Except.ok.injEq] at h
    rw [← h]; exact hP
  | cons bi rest ih =>
    unfold SelectSplitSide.brushLoop at h
    cases h1 : SelectSplitSide.tryBrush E node p bi st with
    | error e => rw [h1] at h; simp at h
    | ok st2 =>
      rw [h1] at h
      exact ih st2 (SelectSplitSide.tryBrush_induct E node P hstep p bi st st2 hP h1) h

theorem SelectSplitSide.passLoop_induct (E : Ext) (node : node_t)
    (P : Nat → SelectState → Prop)
    (hpass : ∀ p q st, P p st → st.bestside = none → P q st)
    (hstep : ∀ p bi si st st1, P p st →
      SelectSplitSide.trySide E node p bi si st = Except.ok st1 → P p st1)
    (passes : List Nat) (p0 : Nat) (st st1 : SelectState) (found : Option Nat)
    (hP : P p0 st) (hn : st.bestside = none)
    (h : SelectSplitSide.passLoop E node passes st = Except.ok (st1, found)) :
    (found = none ∧ st1.bestside = none ∧ P p0 st1) ∨
    (∃ p ∈ passes, found = some p ∧ st1.bestside ≠ none ∧ P p st1) := by
  induction passes generalizing st with
  | nil =>
    simp only [SelectSplitSide.passLoop, Except.ok.injEq, Prod.mk.injEq] at h
    left
    rw [← h.1, ← h.2]
    exact ⟨rfl, hn, hP⟩
  | cons p rest ih =>
    unfold SelectSplitSide.passLoop at h
    cases h1 : SelectSplitSide.brushLoop E node p (List.range st.brushes.length) st with
    | error e => rw [h1] at h; simp at h
    | ok st2 =>
      rw [h1] at h
      simp only at h
      have hP2 := SelectSplitSide.brushLoop_induct E node P hstep p _ st st2
        (hpass p0 p st hP hn) h1
      by_cases hs : st2.bestside.isSome = true
      · rw [if_pos hs] at h
        simp only [Except.ok.injEq, Prod.mk.injEq] at h
        right
        refine ⟨p, List.mem_cons_self _ _, h.2.symm, ?_, ?_⟩
        · rw [← h.1]
          intro hnone
          rw [hnone] at hs
          simp at hs
        · rw [← h.1]; exact hP2
      · rw [if_neg hs] at h
        have hn2 : st2.bestside = none := by
          cases hb : st2.bestside with
          | none => rfl
          | some x => rw [hb] at hs; simp at hs
        rcases ih st2 (hpass p p0 st2 hP2 hn2) hn2 h with h3 | ⟨q, hq, h3⟩
        · exact Or.inl h3
        · exact Or.inr ⟨q, List.mem_cons_of_mem _ hq, h3⟩

/-- The induction principle of the search: a property of the state that holds
at the start, that every scoring round keeps, and that does not depend on the
pass while there is no best side, holds of the state the search ends in; the
result is read off that state. -/
theorem SelectSplitSide_induct (E : Ext) (node : node_t) (P : Nat → SelectState → Prop)
    (hpass : ∀ p q st, P p st → st.bestside = none → P q st)
    (hstep : ∀ p bi si st st1, P p st →
      SelectSplitSide.trySide E node p bi si st = Except.ok st1 → P p st1)
    (bs : List bspbrush_t) (r : SelectResult)
    (h : SelectSplitSide E bs node = Except.ok r)
    (h0 : P 0 (SelectSplitSide.init bs)) :
    ∃ p st, P p st ∧ r.bestside = st.bestside ∧ r.scored = st.scored ∧
      r.brushes = SelectSplitSide.clearTested st.brushes ∧
      ((st.bestside = none ∧ r.node = node) ∨
       (st.bestside ≠ none ∧ p ∈ [0, 1, 2, 3] ∧
        r.node = if p > 0 then { node with detail_separator := true } else node)) := by
  unfold SelectSplitSide at h
  cases h1 : SelectSplitSide.passLoop E node [0, 1, 2, 3]
      { brushes := bs, bestside := none, bestvalue := -99999, bestsplits := 0, scored := [] } with
  | error e => rw [h1] at h; simp at h
  | ok res =>
    obtain ⟨st, found⟩ := res
    rw [h1] at h
    simp only [Except.ok.injEq] at h
    rcases SelectSplitSide.passLoop_induct E node P hpass hstep _ 0 _ st found h0 rfl h1 with
      ⟨hf, hn, hP⟩ | ⟨p, hp, hf, hn, hP⟩
    · refine ⟨0, st, hP, ?_, ?_, ?_, Or.inl ⟨hn, ?_⟩⟩
      · rw [← h]
      · rw [← h]
      · rw [← h]
      · rw [← h, hf]
    · refine ⟨p, st, hP, ?_, ?_, ?_, Or.inr ⟨hn, hp, ?_⟩⟩
      · rw [← h]
      · rw [← h]
      · rw [← h]
      · rw [← h, hf]

theorem SelectSplitSide.sideLoop_errAt (E : Ext) (node : node_t)
    (P : Nat → SelectState → Prop)
    (hstep : ∀ p bi si st st1, P p st →
      SelectSplitSide.trySide E node p bi si st = Except.ok st1 → P p st1)
    (p bi : Nat) (sis : List Nat) (st : SelectState) (e : String) (hP : P p st)
    (h : SelectSplitSide.sideLoop E node p bi sis st = Except.error e) :
    SelectSplitSide.ErrAt E node P e p := by
  induction sis generalizing st with
  | nil => simp [SelectSplitSide.sideLoop] at h
  | cons si rest ih =>
    unfold SelectSplitSide.sideLoop at h
    cases h1 : SelectSplitSide.trySide E node p bi si st with
    | error e1 =>
      rw [h1] at h
      simp only [Except.error.injEq] at h
      rw [h] at h1
      exact ⟨st, bi, hP, Or.inl ⟨si, h1⟩⟩
    | ok st2 =>
      rw [h1] at h
      exact ih st2 (hstep p bi si st st2 hP h1) h

theorem SelectSplitSide.tryBrush_errAt (E : Ext) (node : node_t)
    (P : Nat → SelectState → Prop)
    (hstep : ∀ p bi si st st1, P p st →
      SelectSplitSide.trySide E node p bi si st = Except.ok st1 → P p st1)
    (p bi : Nat) (st : SelectState) (e : String) (hP : P p st)
    (h : SelectSplitSide.tryBrush E node p bi st = Except.error e) :
    SelectSplitSide.ErrAt E node P e p := by
  unfold SelectSplitSide.tryBrush at h
  cases hb : st.brushes[bi]? with
  | none => rw [hb] at h; simp at h
  | some brush =>
    rw [hb] at h
    simp only at h
    cases ho : brush.original with
    | none =>
      rw [ho] at h
      simp only [Except.error.injEq] at h
      exact ⟨st, bi, hP, Or.inr ⟨brush, hb, ho, h.symm⟩⟩
    | some o =>
      rw [ho] at h
      simp only at h
      split_ifs at h with hd
      exact SelectSplitSide.sideLoop_errAt E node P hstep p bi _ st e hP h

theorem SelectSplitSide.brushLoop_errAt (E : Ext) (node : node_t)
    (P : Nat → SelectState → Prop)
    (hstep : ∀ p bi si st st1, P p st →
      SelectSplitSide.trySide E node p bi si st = Except.ok st1 → P p st1)
    (p : Nat) (bis : List Nat) (st : SelectState) (e : String) (hP : P p st)
    (h : SelectSplitSide.brushLoop E node p bis st = Except.error e) :
    SelectSplitSide.ErrAt E node P e p := by
  induction bis generalizing st with
  | nil => simp [SelectSplitSide.brushLoop] at h
  | cons bi rest ih =>
    unfold SelectSplitSide.brushLoop at h
    cases h1 : SelectSplitSide.tryBrush E node p bi st with
    | error e1 =>
      rw [h1] at h
      simp only [Except.error.injEq] at h
      rw [h] at h1
      exact SelectSplitSide.tryBrush_errAt E node P hstep p bi st e hP h1
    | ok st2 =>
      rw [h1] at h
      exact ih st2 (SelectSplitSide.tryBrush_induct E node P hstep p bi st st2 hP h1) h

theorem SelectSplitSide.passLoop_errAt (E : Ext) (node : node_t)
    (P : Nat → SelectState → Prop)
    (hpass : ∀ p q st, P p st → st.bestside = none → P q st)
    (hstep : ∀ p bi si st st1, P p st →
      SelectSplitSide.trySide E node p bi si st = Except.ok st1 → P p st1)
    (passes : List Nat) (p0 : Nat) (st : SelectState) (e : String)
    (hP : P p0 st) (hn : st.bestside = none)
    (h : SelectSplitSide.passLoop E node passes st = Except.error e) :
    ∃ p ∈ passes, SelectSplitSide.ErrAt E node P e p := by
  induction passes generalizing st p0 with
  | nil => simp [SelectSplitSide.passLoop] at h
  | cons p rest ih =>
    unfold SelectSplitSide.passLoop at h
    cases h1 : SelectSplitSide.brushLoop E node p (List.range st.brushes.length) st with
    | error e1 =>
      rw [h1] at h
      simp only [Except.error.injEq] at h
      rw [h] at h1
      exact ⟨p, List.mem_cons_self _ _,
        SelectSplitSide.brushLoop_errAt E node P hstep p _ st e (hpass p0 p st hP hn) h1⟩
    | ok st2 =>
      rw [h1] at h
      simp only at h
      have hP2 := SelectSplitSide.brushLoop_induct E node P hstep p _ st st2
        (hpass p0 p st hP hn) h1
      by_cases hs : st2.bestside.isSome = true
      · rw [if_pos hs] at h; simp at h
      · rw [if_neg hs] at h
        have hn2 : st2.bestside = none := by
          cases hb : st2.bestside with
          | none => rfl
          | some x => rw [hb] at hs; simp at hs
        obtain ⟨q, hq, h3⟩ := ih p st2 hP2 hn2 h
        exact ⟨q, List.mem_cons_of_mem _ hq, h3⟩

/-- The induction principle of the search for a fatal error: the error is
raised in a state that satisfies every property that holds at the start and
that every scoring round keeps. -/
theorem SelectSplitSide_error_induct (E : Ext) (node : node_t)
    (P : Nat → SelectState → Prop)
    (hpass : ∀ p q st, P p st → st.bestside = none → P q st)
    (hstep : ∀ p bi si st st1, P p st →
      SelectSplitSide.trySide E node p bi si st = Except.ok st1 → P p st1)
    (bs : List bspbrush_t) (e : String)
    (h : SelectSplitSide E bs node = Except.error e)
    (h0 : P 0 (SelectSplitSide.init bs)) :
    ∃ p st bi, P p st ∧ p ∈ [0, 1, 2, 3] ∧
      ((∃ si, SelectSplitSide.trySide E node p bi si st = Except.error e) ∨
       (∃ brush, st.brushes[bi]? = some brush ∧ brush.original = none ∧
         e = "null original")) := by
  unfold SelectSplitSide at h
  cases h1 : SelectSplitSide.passLoop E node [0, 1, 2, 3]
      { brushes := bs, bestside := none, bestvalue := -99999, bestsplits := 0, scored := [] } with
  | error e1 =>
    rw [h1] at h
    simp only [Except.error.injEq] at h
    rw [h] at h1
    obtain ⟨p, hp, st, bi, hP, hc⟩ :=
      SelectSplitSide.passLoop_errAt E node P hpass hstep _ 0 _ e h0 rfl h1
    exact ⟨p, st, bi, hP, hp, hc⟩
  | ok res =>
    rw [h1] at h
    simp at h

/-- What a round of the side loop has checked when it scores the side. -/
theorem SelectSplitSide.trySide_scored (E : Ext) (node : node_t) (p bi si : Nat)
    (st st1 : SelectState)
    (h : SelectSplitSide.trySide E node p bi si st = Except.ok st1) :
    st1 = st ∨
    ∃ brush side volume acc tested,
      st.brushes[bi]? = some brush ∧ brush.sides[si]? = some side ∧
      SelectSplitSide.skips E p side = false ∧
      CheckPlaneAgainstParents E (from_plane side.plane.toqplane3d true).1 node = false ∧
      node.volume = some volume ∧
      CheckPlaneAgainstVolume E (from_plane side.plane.toqplane3d true).1 volume = true ∧
      SelectSplitSide.testAll E (from_plane side.plane.toqplane3d true).1 st.brushes
        TestAcc.zero = Except.ok (acc, tested) ∧
      st1 = SelectSplitSide.score p bi si
        (SelectSplitSide.value E (from_plane side.plane.toqplane3d true).1 side acc)
        acc.splits tested st := by
  rcases SelectSplitSide.trySide_ok E node p bi si st st1 h with h1 |
    ⟨brush, side, volume, acc, tested, hb, hs, hk, hv, hc, ht, hst⟩
  · exact Or.inl h1
  · right
    refine ⟨brush, side, volume, acc, tested, hb, hs, hk, ?_, hv, hc, ht, hst⟩
    unfold SelectSplitSide.trySide at h
    rw [hb] at h
    simp only at h
    rw [hs] at h
    simp only [hk, Bool.false_eq_true, if_false] at h
    by_cases hp : CheckPlaneAgainstParents E (from_plane side.plane.toqplane3d true).1 node = true
    · rw [if_pos hp] at h; simp at h
    · simpa using hp

theorem classification_congr (E : Ext) (plane : qbsp_plane_t) (b1 b2 : bspbrush_t)
    (h : b1.static = b2.static) : classification E plane b1 = classification E plane b2 := by
  unfold classification
  rw [TestBrushToPlanenum_congr E b1 b2 plane 0 h]

theorem testBrush_fields (E : Ext) (plane : qbsp_plane_t) (acc acc1 : TestAcc)
    (test test1 : bspbrush_t)
    (h : SelectSplitSide.testBrush E plane acc test = Except.ok (acc1, test1)) :
    test1.side = test.side ∧ test1.testside = classification E plane test := by
  unfold SelectSplitSide.testBrush at h
  simp only at h
  rw [TestBrushToPlanenum_eps E test plane acc.epsilonbrush] at h
  simp only at h
  by_cases hc : (TestBrushToPlanenum E test plane 0).numsplits ≠ 0 ∧
      (TestBrushToPlanenum E test plane 0).s &&& PSIDE_FACING ≠ 0
  · rw [if_pos hc] at h; simp at h
  · rw [if_neg hc] at h
    simp only [Except.ok.injEq, Prod.mk.injEq] at h
    obtain ⟨-, rfl⟩ := h
    exact ⟨rfl, rfl⟩

/-- Every brush that the test loop leaves behind is one of the brushes it was
given, up to transient fields, with its `side` untouched and with `testside`
its classification against the plane. -/
theorem testAll_mem (E : Ext) (plane : qbsp_plane_t) (bs : List bspbrush_t)
    (acc acc1 : TestAcc) (bs1 : List bspbrush_t)
    (h : SelectSplitSide.testAll E plane bs acc = Except.ok (acc1, bs1)) :
    ∀ t1 ∈ bs1, ∃ t ∈ bs, t1.static = t.static ∧ t1.side = t.side ∧
      t1.testside = classification E plane t := by
  induction bs generalizing acc acc1 bs1 with
  | nil =>
    simp only [SelectSplitSide.testAll, Except.ok.injEq, Prod.mk.injEq] at h
    rw [← h.2]
    intro t1 ht1
    simp at ht1
  | cons test rest ih =>
    unfold SelectSplitSide.testAll at h
    cases h1 : SelectSplitSide.testBrush E plane acc test with
    | error e => rw [h1] at h; simp at h
    | ok r1 =>
      obtain ⟨a1, t1⟩ := r1
      rw [h1] at h
      simp only at h
      cases h2 : SelectSplitSide.testAll E plane rest a1 with
      | error e => rw [h2] at h; simp at h
      | ok r2 =>
        obtain ⟨a2, rest1⟩ := r2
        rw [h2] at h
        simp only [Except.ok.injEq, Prod.mk.injEq] at h
        obtain ⟨-, rfl⟩ := h
        intro x hx
        rcases List.mem_cons.1 hx with rfl | hx
        · obtain ⟨f1, f2⟩ := testBrush_fields E plane acc a1 test x h1
          exact ⟨test, List.mem_cons_self _ _, testBrush_static E plane acc a1 test x h1, f1, f2⟩
        · obtain ⟨t, ht, g⟩ := ih a1 a2 rest1 h2 x hx
          exact ⟨t, List.mem_cons_of_mem _ ht, g⟩

/-- A round of the side loop keeps both invariants of the search. -/
theorem SelectSplitSide.trySide_inv2 (E : Ext) (node : node_t) (bs0 : List bspbrush_t)
    (p bi si : Nat) (st st1 : SelectState)
    (hinv : SelectSplitSide.Inv E node bs0 p st ∧ SelectSplitSide.Inv2 E node bs0 st)
    (h : SelectSplitSide.trySide E node p bi si st = Except.ok st1) :
    SelectSplitSide.Inv E node bs0 p st1 ∧ SelectSplitSide.Inv2 E node bs0 st1 := by
  refine ⟨SelectSplitSide.trySide_inv E node bs0 p bi si st st1 hinv.1 h, ?_⟩
  rcases SelectSplitSide.trySide_scored E node p bi si st st1 h with rfl |
    ⟨brush, side, volume, acc, tested, hb, hs, hk, hp, hv, hc, ht, rfl⟩
  · exact hinv.2
  obtain ⟨⟨i1, -, -, -, -⟩, ⟨q1, q2⟩⟩ := hinv
  obtain ⟨brush0, hb0, hbs⟩ := static_lookup st.brushes bs0 i1 bi brush hb
  obtain ⟨side0, hs0, hss⟩ := static_side_lookup brush brush0 hbs si side hs
  obtain ⟨f1, f2, f3, f4, f5, f6, f7⟩ := static_side_fields side side0 hss
  obtain ⟨k1, k2, k3, k4, k5, k6⟩ := skips_false E p side hk
  have hmem := testAll_mem E _ st.brushes TestAcc.zero acc tested ht
  have hok : scoredChecks E node bs0
      (Scored.mk p bi si
        (SelectSplitSide.value E (from_plane side.plane.toqplane3d true).1 side acc)) :=
    ⟨brush0, side0, hb0, hs0, by rw [f1]; exact hp, by rw [f6]; exact k6⟩
  unfold SelectSplitSide.score
  simp only
  by_cases hgt : SelectSplitSide.value E (from_plane side.plane.toqplane3d true).1 side acc
      > st.bestvalue
  · rw [if_pos hgt]
    refine ⟨?_, ?_⟩
    · intro e he
      simp only [List.mem_append, List.mem_singleton] at he
      rcases he with he | rfl
      · exact q1 e he
      · exact hok
    · intro bi1 si1 hbest
      simp only [Option.some.injEq, Prod.mk.injEq] at hbest
      obtain ⟨rfl, rfl⟩ := hbest
      refine ⟨brush0, side0, hb0, hs0, ?_⟩
      intro b hbm
      simp only [List.mem_map] at hbm
      obtain ⟨t1, ht1, rfl⟩ := hbm
      obtain ⟨t, -, g1, -, g3⟩ := hmem t1 ht1
      simp only
      rw [g3, f1]
      exact classification_congr E _ _ _ g1.symm
  · rw [if_neg hgt]
    refine ⟨?_, ?_⟩
    · intro e he
      simp only [List.mem_append, List.mem_singleton] at he
      rcases he with he | rfl
      · exact q1 e he
      · exact hok
    · intro bi1 si1 hbest
      obtain ⟨brush1, side1, hb1, hs1, hall⟩ := q2 bi1 si1 hbest
      refine ⟨brush1, side1, hb1, hs1, ?_⟩
      intro t1 ht1
      obtain ⟨t, htm, g1, g2, -⟩ := hmem t1 ht1
      rw [g2, hall t htm]
      exact classification_congr E _ _ _ g1.symm

/-- Both invariants hold of the state the search ends in. -/
theorem SelectSplitSide_inv2 (E : Ext) (bs : List bspbrush_t) (node : node_t)
    (r : SelectResult) (h : SelectSplitSide E bs node = Except.ok r) :
    ∃ p st, (SelectSplitSide.Inv E node bs p st ∧ SelectSplitSide.Inv2 E node bs st) ∧
      r.bestside = st.bestside ∧ r.scored = st.scored ∧
      r.brushes = SelectSplitSide.clearTested st.brushes ∧
      ((st.bestside = none ∧ r.node = node) ∨
       (st.bestside ≠ none ∧ p ∈ [0, 1, 2, 3] ∧
        r.node = if p > 0 then { node with detail_separator := true } else node)) := by
  apply SelectSplitSide_induct E node
    (fun p st => SelectSplitSide.Inv E node bs p st ∧ SelectSplitSide.Inv2 E node bs st)
    ?_ ?_ bs r h ?_
  · intro p q st hP hn
    exact ⟨SelectSplitSide.Inv_pass E node bs p q st hP.1 hn, hP.2⟩
  · intro p bi si st st1 hP hs
    exact SelectSplitSide.trySide_inv2 E node bs p bi si st st1 hP hs
  · refine ⟨⟨rfl, ?_, ?_, ?_, ?_⟩, ?_, ?_⟩
    · intro e he; simp [SelectSplitSide.init] at he
    · intro _; rfl
    · intro bi si hb; simp [SelectSplitSide.init] at hb
    · intro e he; simp [SelectSplitSide.init] at he
    · intro e he; simp [SelectSplitSide.init] at he
    · intro bi si hb; simp [SelectSplitSide.init] at hb

/-- The result of `BoxOnPlaneSide` never has the FACING bit. -/
theorem BoxOnPlaneSide_no_facing (bounds : aabb3d) (plane : qbsp_plane_t) :
    BoxOnPlaneSide bounds plane &&& PSIDE_FACING = 0 := by
  unfold BoxOnPlaneSide
  simp only
  split_ifs <;> decide

theorem TestBrushToPlanenum_facing_numsplits (E : Ext) (brush : bspbrush_t)
    (plane : qbsp_plane_t) (eb : Int)
    (h : (TestBrushToPlanenum E brush plane eb).s &&& PSIDE_FACING ≠ 0) :
    (TestBrushToPlanenum E brush plane eb).numsplits = 0 := by
  unfold TestBrushToPlanenum at h ⊢
  cases hf : TestBrushToPlanenum.facing E plane brush.sides with
  | some s => rfl
  | none =>
    rw [hf] at h
    simp only at h ⊢
    by_cases hb : BoxOnPlaneSide brush.bounds plane ≠ PSIDE_BOTH
    · rw [if_pos hb]
    · rw [if_neg hb] at h
      simp only at h
      exact absurd (BoxOnPlaneSide_no_facing brush.bounds plane) h

theorem SelectSplitSide.testBrush_no_error (E : Ext) (plane : qbsp_plane_t) (acc : TestAcc)
    (test : bspbrush_t) (e : String) :
    SelectSplitSide.testBrush E plane acc test ≠ Except.error e := by
  unfold SelectSplitSide.testBrush
  simp only
  by_cases hc : (TestBrushToPlanenum E test plane acc.epsilonbrush).numsplits ≠ 0 ∧
      (TestBrushToPlanenum E test plane acc.epsilonbrush).s &&& PSIDE_FACING ≠ 0
  · exact absurd (TestBrushToPlanenum_facing_numsplits E test plane acc.epsilonbrush hc.2) hc.1
  · rw [if_neg hc]
    simp

theorem SelectSplitSide.testAll_no_error (E : Ext) (plane : qbsp_plane_t)
    (bs : List bspbrush_t) (acc : TestAcc) (e : String) :
    SelectSplitSide.testAll E plane bs acc ≠ Except.error e := by
  induction bs generalizing acc e with
  | nil => simp [SelectSplitSide.testAll]
  | cons test rest ih =>
    unfold SelectSplitSide.testAll
    cases h1 : SelectSplitSide.testBrush E plane acc test with
    | error e1 => exact absurd h1 (SelectSplitSide.testBrush_no_error E plane acc test e1)
    | ok r1 =>
      obtain ⟨a1, t1⟩ := r1
      simp only
      cases h2 : SelectSplitSide.testAll E plane rest a1 with
      | error e2 => exact absurd h2 (ih a1 e2)
      | ok r2 => simp

/-- The fatal errors that the search can raise. -/
theorem SelectSplitSide.trySide_error (E : Ext) (node : node_t) (p bi si : Nat)
    (st : SelectState) (e : String)
    (h : SelectSplitSide.trySide E node p bi si st = Except.error e) :
    e = "Tried parent" ∨ e = "null volume" := by
  unfold SelectSplitSide.trySide at h
  cases hb : st.brushes[bi]? with
  | none => rw [hb] at h; simp at h
  | some brush =>
    rw [hb] at h
    simp only at h
    cases hs : brush.sides[si]? with
    | none => rw [hs] at h; simp at h
    | some side =>
      rw [hs] at h
      simp only at h
      by_cases hk : SelectSplitSide.skips E p side = true
      · rw [if_pos hk] at h; simp at h
      rw [if_neg hk] at h
      by_cases hp : CheckPlaneAgainstParents E (from_plane side.plane.toqplane3d true).1 node = true
      · rw [if_pos hp] at h
        simp only [Except.error.injEq] at h
        exact Or.inl h.symm
      rw [if_neg hp] at h
      cases hv : node.volume with
      | none =>
        rw [hv] at h
        simp only [Except.error.injEq] at h
        exact Or.inr h.symm
      | some volume =>
        rw [hv] at h
        simp only at h
        by_cases hc : (!CheckPlaneAgainstVolume E (from_plane side.plane.toqplane3d true).1 volume) = true
        · rw [if_pos hc] at h; simp at h
        rw [if_neg hc] at h
        cases ht : SelectSplitSide.testAll E (from_plane side.plane.toqplane3d true).1
            st.brushes TestAcc.zero with
        | error e1 => exact absurd ht (SelectSplitSide.testAll_no_error E _ _ _ e1)
        | ok r =>
          rw [ht] at h
          simp at h

/-- The only fatal errors that `SelectSplitSide` can raise are "Tried parent"
and the dereference of a null volume or of a null original. -/
theorem SelectSplitSide_error (E : Ext) (bs : List bspbrush_t) (node : node_t) (e : String)
    (h : SelectSplitSide E bs node = Except.error e) :
    e = "Tried parent" ∨ e = "null volume" ∨ e = "null original" := by
  obtain ⟨p, st, bi, -, -, h1⟩ := SelectSplitSide_error_induct E node (fun _ _ => True)
    (fun _ _ _ _ _ => trivial) (fun _ _ _ _ _ _ _ => trivial) bs e h trivial
  rcases h1 with ⟨si, h2⟩ | ⟨brush, -, -, h2⟩
  · rcases SelectSplitSide.trySide_error E node p bi si st e h2 with h3 | h3
    · exact Or.inl h3
    · exact Or.inr (Or.inl h3)
  · exact Or.inr (Or.inr h2)

/-- C14: whenever `TestBrushToPlanenum` returns a value with the FACING bit
set it reports `numsplits = 0`, and `SelectSplitSide` never raises the fatal
error "PSIDE_FACING with splits". -/
theorem TestBrushToPlanenum_facing_no_splits (E : Ext) :
    (∀ (brush : bspbrush_t) (plane : qbsp_plane_t) (eb : Int),
      (TestBrushToPlanenum E brush plane eb).s &&& PSIDE_FACING ≠ 0 →
      (TestBrushToPlanenum E brush plane eb).numsplits = 0) ∧
    (∀ (bs : List bspbrush_t) (node : node_t),
      SelectSplitSide E bs node ≠ Except.error "PSIDE_FACING with splits") := by
  refine ⟨fun brush plane eb h => TestBrushToPlanenum_facing_numsplits E brush plane eb h, ?_⟩
  intro bs node h
  rcases SelectSplitSide_error E bs node _ h with h1 | h1 | h1 <;> simp at h1

/-- What a fatal error of a round of the side loop says about the side. -/
theorem SelectSplitSide.trySide_error_cases (E : Ext) (node : node_t) (p bi si : Nat)
    (st : SelectState) (e : String)
    (h : SelectSplitSide.trySide E node p bi si st = Except.error e) :
    ∃ brush side, st.brushes[bi]? = some brush ∧ brush.sides[si]? = some side ∧
      SelectSplitSide.skips E p side = false ∧
      ((e = "Tried parent" ∧
        CheckPlaneAgainstParents E (from_plane side.plane.toqplane3d true).1 node = true) ∨
       (e = "null volume" ∧ node.volume = none)) := by
  unfold SelectSplitSide.trySide at h
  cases hb : st.brushes[bi]? with
  | none => rw [hb] at h; simp at h
  | some brush =>
    rw [hb] at h
    simp only at h
    cases hs : brush.sides[si]? with
    | none => rw [hs] at h; simp at h
    | some side =>
      rw [hs] at h
      simp only at h
      by_cases hk : SelectSplitSide.skips E p side = true
      · rw [if_pos hk] at h; simp at h
      rw [if_neg hk] at h
      have hk2 : SelectSplitSide.skips E p side = false := by simpa using hk
      refine ⟨brush, side, rfl, hs, hk2, ?_⟩
      by_cases hp : CheckPlaneAgainstParents E (from_plane side.plane.toqplane3d true).1 node = true
      · rw [if_pos hp] at h
        simp only [Except.error.injEq] at h
        exact Or.inl ⟨h.symm, hp⟩
      rw [if_neg hp] at h
      cases hv : node.volume with
      | none =>
        rw [hv] at h
        simp only [Except.error.injEq] at h
        exact Or.inr ⟨h.symm, rfl⟩
      | some volume =>
        rw [hv] at h
        simp only at h
        by_cases hc : (!CheckPlaneAgainstVolume E (from_plane side.plane.toqplane3d true).1 volume) = true
        · rw [if_pos hc] at h; simp at h
        rw [if_neg hc] at h
        cases ht : SelectSplitSide.testAll E (from_plane side.plane.toqplane3d true).1
            st.brushes TestAcc.zero with
        | error e1 => exact absurd ht (SelectSplitSide.testAll_no_error E _ _ _ e1)
        | ok r =>
          rw [ht] at h
          simp at h

/-- Where the fatal errors of `SelectSplitSide` come from, in terms of the
brushes it is given: "null original" from a brush without original, "null
volume" from a node without volume, and "Tried parent" from a side that is
not onnode and whose positive plane is epsilon-equal to the plane of an
ancestor of the node. -/
theorem SelectSplitSide_error_cases (E : Ext) (bs : List bspbrush_t) (node : node_t)
    (e : String) (h : SelectSplitSide E bs node = Except.error e) :
    (e = "null original" ∧ ∃ b ∈ bs, b.original = none) ∨
    (e = "null volume" ∧ node.volume = none) ∨
    (e = "Tried parent" ∧ ∃ b ∈ bs, ∃ s ∈ b.sides, s.onnode = false ∧
      CheckPlaneAgainstParents E (from_plane s.plane.toqplane3d true).1 node = true) := by
  obtain ⟨p, st, bi, hP, -, hc⟩ := SelectSplitSide_error_induct E node
    (fun p st => SelectSplitSide.Inv E node bs p st)
    (fun p q st hP hn => SelectSplitSide.Inv_pass E node bs p q st hP hn)
    (fun p bi si st st1 hP hs => SelectSplitSide.trySide_inv E node bs p bi si st st1 hP hs)
    bs e h
    (by
      refine ⟨rfl, ?_, ?_, ?_, ?_⟩
      · intro e he; simp [SelectSplitSide.init] at he
      · intro _; rfl
      · intro bi si hb; simp [SelectSplitSide.init] at hb
      · intro e he; simp [SelectSplitSide.init] at he)
  obtain ⟨i1, -⟩ := hP
  rcases hc with ⟨si, h2⟩ | ⟨brush, hb, ho, he⟩
  · obtain ⟨brush, side, hb, hs, hk, hcase⟩ :=
      SelectSplitSide.trySide_error_cases E node p bi si st e h2
    rcases hcase with ⟨he, hp⟩ | ⟨he, hv⟩
    · right; right
      obtain ⟨brush0, hb0, hbs⟩ := static_lookup st.brushes bs i1 bi brush hb
      obtain ⟨side0, hs0, hss⟩ := static_side_lookup brush brush0 hbs si side hs
      obtain ⟨f1, -, -, f4, -, -, -⟩ := static_side_fields side side0 hss
      obtain ⟨-, -, k3, -, -, -⟩ := skips_false E p side hk
      refine ⟨he, brush0, List.getElem?_mem hb0, side0, List.getElem?_mem hs0, ?_, ?_⟩
      · rw [f4]; exact k3
      · rw [f1]; exact hp
    · right; left
      exact ⟨he, hv⟩
  · left
    obtain ⟨brush0, hb0, hbs⟩ := static_lookup st.brushes bs i1 bi brush hb
    refine ⟨he, brush0, List.getElem?_mem hb0, ?_⟩
    have := congrArg bspbrush_t.original hbs
    simp only [bspbrush_t.static] at this
    rw [this]; exact ho

theorem clearTested_lookup (bs : List bspbrush_t) (bi : Nat) (brush : bspbrush_t)
    (h : bs[bi]? = some brush) :
    (SelectSplitSide.clearTested bs)[bi]? =
      some { brush with sides := brush.sides.map (fun s => { s with tested := false }) } := by
  unfold SelectSplitSide.clearTested
  rw [List.getElem?_map, h]
  rfl

theorem clearTested_mem (bs : List bspbrush_t) (b : bspbrush_t)
    (h : b ∈ SelectSplitSide.clearTested bs) :
    ∃ b0 ∈ bs, b.static = b0.static ∧ b.side = b0.side := by
  unfold SelectSplitSide.clearTested at h
  obtain ⟨b0, hb0, rfl⟩ := List.mem_map.1 h
  refine ⟨b0, hb0, ?_, rfl⟩
  simp only [bspbrush_t.static, List.map_map]
  congr 1

/-- The best side of the final state of the search, looked up in the brushes
that the search returns: it is the side of the input list at the same
position with its `tested` flag cleared. -/
theorem returned_side_lookup (bs0 bs : List bspbrush_t) (bi si : Nat)
    (brush0 : bspbrush_t) (side0 : side_t)
    (h : bs.map bspbrush_t.static = bs0.map bspbrush_t.static)
    (hb : bs0[bi]? = some brush0) (hs : brush0.sides[si]? = some side0) :
    ∃ brush, (SelectSplitSide.clearTested bs)[bi]? = some brush ∧
      brush.sides[si]? = some side0.static := by
  obtain ⟨b1, hb1, hst⟩ := static_lookup bs0 bs h.symm bi brush0 hb
  obtain ⟨s1, hs1, hss⟩ := static_side_lookup brush0 b1 hst si side0 hs
  refine ⟨_, clearTested_lookup bs bi b1 hb1, ?_⟩
  simp only [List.getElem?_map, hs1, Option.map_some', Option.some.injEq]
  exact hss

theorem clearTested_static (bs : List bspbrush_t) :
    (SelectSplitSide.clearTested bs).map bspbrush_t.static = bs.map bspbrush_t.static := by
  unfold SelectSplitSide.clearTested
  rw [List.map_map]
  apply List.map_congr_left
  intro b _
  simp only [Function.comp, bspbrush_t.static, List.map_map]
  congr 1

/-- What the search leaves behind whatever it returns: the brushes are the
given ones up to transient fields, and the node keeps its ancestors and its
volume. -/
theorem SelectSplitSide_frame (E : Ext) (bs : List bspbrush_t) (node : node_t)
    (r : SelectResult) (h : SelectSplitSide E bs node = Except.ok r) :
    r.brushes.map bspbrush_t.static = bs.map bspbrush_t.static ∧
    r.node.parents = node.parents ∧ r.node.volume = node.volume ∧
    r.node.plane = node.plane ∧ (r.bestside = none → r.node = node) := by
  obtain ⟨p, st, ⟨⟨i1, -, -, -, -⟩, -⟩, hb, -, hbr, hnode⟩ :=
    SelectSplitSide_inv2 E bs node r h
  refine ⟨by rw [hbr, clearTested_static]; exact i1, ?_, ?_, ?_, ?_⟩
  · rcases hnode with ⟨-, hn⟩ | ⟨-, -, hn⟩
    · rw [hn]
    · rw [hn]; split_ifs <;> rfl
  · rcases hnode with ⟨-, hn⟩ | ⟨-, -, hn⟩
    · rw [hn]
    · rw [hn]; split_ifs <;> rfl
  · rcases hnode with ⟨-, hn⟩ | ⟨-, -, hn⟩
    · rw [hn]
    · rw [hn]; split_ifs <;> rfl
  · intro hnone
    rcases hnode with ⟨-, hn⟩ | ⟨hs, -, -⟩
    · exact hn
    · rw [hb] at hnone; exact absurd hnone hs

/-- What the search has established about the side it returns: it is side
`si` of brush `bi` of the given list with its `tested` flag cleared, it passed
every check of the search in the pass `p` in which the search stopped, and
every brush carries its classification against the positive plane of the
side. -/
theorem SelectSplitSide_best (E : Ext) (bs : List bspbrush_t) (node : node_t)
    (r : SelectResult) (bi si : Nat)
    (h : SelectSplitSide E bs node = Except.ok r) (hbest : r.bestside = some (bi, si)) :
    ∃ brush0 side0 brush volume p v,
      bs[bi]? = some brush0 ∧ brush0.sides[si]? = some side0 ∧
      r.brushes[bi]? = some brush ∧ brush.sides[si]? = some side0.static ∧
      side0.bevel = false ∧ side0.w ≠ [] ∧ side0.onnode = false ∧
      E.is_hintskip side0.texinfo = false ∧
      CheckPlaneAgainstParents E (from_plane side0.plane.toqplane3d true).1 node = false ∧
      node.volume = some volume ∧
      CheckPlaneAgainstVolume E (from_plane side0.plane.toqplane3d true).1 volume = true ∧
      p ∈ [0, 1, 2, 3] ∧ Scored.mk p bi si v ∈ r.scored ∧
      (r.node = if p > 0 then { node with detail_separator := true } else node) ∧
      side0.visible = decide (p < 2) ∧
      ∀ b ∈ r.brushes,
        b.side = classification E (from_plane side0.plane.toqplane3d true).1 b := by
  obtain ⟨p, st, ⟨⟨i1, i2, i3, i4, i5⟩, ⟨q1, q2⟩⟩, hb, hs, hbr, hnode⟩ :=
    SelectSplitSide_inv2 E bs node r h
  rw [hb] at hbest
  obtain ⟨-, pre, post, j2, -, -⟩ := i4 bi si hbest
  have hmem : Scored.mk p bi si st.bestvalue ∈ st.scored := by
    rw [j2]; simp
  obtain ⟨brush0, side0, volume, a1, a2, a3, a4, a5, a6, a7, a8, -⟩ := i5 _ hmem
  obtain ⟨brush1, side1, c1, c2, c3, c4⟩ := q1 _ hmem
  obtain ⟨brush2, side2, d1, d2, hall⟩ := q2 bi si hbest
  simp only at a1 a2 c1 c2 c4
  rw [a1] at c1 d1
  obtain rfl := Option.some.inj c1
  obtain rfl := Option.some.inj d1
  rw [a2] at c2 d2
  obtain rfl := Option.some.inj c2
  obtain rfl := Option.some.inj d2
  obtain ⟨brush, g1, g2⟩ := returned_side_lookup bs st.brushes bi si brush0 side0 i1 a1 a2
  rcases hnode with ⟨hn, -⟩ | ⟨-, hp, hnode⟩
  · rw [hn] at hbest; simp at hbest
  refine ⟨brush0, side0, brush, volume, p, st.bestvalue, a1, a2, by rw [hbr]; exact g1, g2,
    a3, a4, a5, a6, c3, a7, a8, hp, by rw [hs]; exact hmem, hnode, c4, ?_⟩
  intro b hbm
  rw [hbr] at hbm
  obtain ⟨b0, hb0, e1, e2⟩ := clearTested_mem st.brushes b hbm
  rw [e2, hall b0 hb0]
  exact classification_congr E _ _ _ e1.symm

/-- C11: every side returned by `SelectSplitSide` is not bevel, has a
non-empty winding, is not onnode, is not hintskip-textured, its positive
plane is not epsilon-equal to the plane of any ancestor of the node, and that
plane splits the node's volume into two non-empty brushes; the side was
scored in the pass `p` in which the search stopped, and it is visible exactly
when `p` is one of the first two passes (0 or 1). -/
theorem SelectSplitSide_returned_side (E : Ext) (bs : List bspbrush_t) (node : node_t)
    (r : SelectResult) (bi si : Nat)
    (h : SelectSplitSide E bs node = Except.ok r) (hbest : r.bestside = some (bi, si)) :
    ∃ brush side volume p v,
      r.brushes[bi]? = some brush ∧ brush.sides[si]? = some side ∧
      side.bevel = false ∧ side.w ≠ [] ∧ side.onnode = false ∧
      E.is_hintskip side.texinfo = false ∧
      (∀ a ∈ node.parents, E.epsilonEqual a.toqplane3d
        (from_plane side.plane.toqplane3d true).1.toqplane3d = false) ∧
      node.volume = some volume ∧
      (SplitBrush E volume (from_plane side.plane.toqplane3d true).1.toqplane3d).front.isSome
        = true ∧
      (SplitBrush E volume (from_plane side.plane.toqplane3d true).1.toqplane3d).back.isSome
        = true ∧
      p ∈ [0, 1, 2, 3] ∧ Scored.mk p bi si v ∈ r.scored ∧
      (r.node = if p > 0 then { node with detail_separator := true } else node) ∧
      (side.visible = true ↔ p < 2) := by
  obtain ⟨brush0, side0, brush, volume, p, v, -, -, g1, g2, a3, a4, a5, a6, c3, a7, a8, hp,
    hmem, hnode, c4, -⟩ := SelectSplitSide_best E bs node r bi si h hbest
  refine ⟨brush, side0.static, volume, p, v, g1, g2, a3, a4, a5, a6, ?_, a7, ?_, ?_, hp, hmem,
    hnode, ?_⟩
  · intro a ha
    have := c3
    simp only [CheckPlaneAgainstParents, List.any_eq_false] at this
    simpa using this a ha
  · have := a8
    simp only [CheckPlaneAgainstVolume, Bool.and_eq_true] at this
    exact this.1
  · have := a8
    simp only [CheckPlaneAgainstVolume, Bool.and_eq_true] at this
    exact this.2
  · show side0.visible = true ↔ p < 2
    rw [c4]
    simp

/-- C17: when `SelectSplitSide` returns a side, every brush `b` of the list it
leaves behind has its stored classification `b.side` equal to the result of
`TestBrushToPlanenum` for `b` and the positive plane of the returned side. -/
theorem SelectSplitSide_stored_classification (E : Ext) (bs : List bspbrush_t)
    (node : node_t) (r : SelectResult) (bi si : Nat)
    (h : SelectSplitSide E bs node = Except.ok r) (hbest : r.bestside = some (bi, si)) :
    ∃ brush side,
      r.brushes[bi]? = some brush ∧ brush.sides[si]? = some side ∧
      r.brushes.length = bs.length ∧
      ∀ b ∈ r.brushes, ∀ eb,
        b.side = (TestBrushToPlanenum E b (from_plane side.plane.toqplane3d true).1 eb).s := by
  obtain ⟨brush0, side0, brush, volume, p, v, -, -, g1, g2, -, -, -, -, -, -, -, -,
    -, -, -, hall⟩ := SelectSplitSide_best E bs node r bi si h hbest
  refine ⟨brush, side0.static, g1, g2, ?_, ?_⟩
  · have := congrArg List.length (SelectSplitSide_frame E bs node r h).1
    simpa using this
  · intro b hbm eb
    rw [TestBrushToPlanenum_eps]
    exact hall b hbm

/-! ## The pieces of SplitBrush and the lists of SplitBrushList -/

/-- Every brush that `SplitBrush` returns is the input brush itself or a
child built from the clipped sides of the input with its cap appended. -/
theorem SplitBrush.piece (E : Ext) (b : bspbrush_t) (p : qplane3d) (f : bspbrush_t)
    (h : (SplitBrush E b p).front = some f ∨ (SplitBrush E b p).back = some f) :
    f = b ∨ ∃ mid j, f = SplitBrush.withCap E p mid j
      (SplitBrush.child E b (SplitBrush.childSides E p j b.sides)) := by
  unfold SplitBrush at h
  simp only at h
  by_cases h1 : (SplitBrush.dists b p).1 < 1 / 10
  · rw [if_pos h1] at h
    rcases h with h | h <;> simp at h
    exact Or.inl h.symm
  rw [if_neg h1] at h
  by_cases h2 : (SplitBrush.dists b p).2 > -(1 / 10)
  · rw [if_pos h2] at h
    rcases h with h | h <;> simp at h
    exact Or.inl h.symm
  rw [if_neg h2] at h
  cases hm : SplitBrush.midwinding E b p with
  | none =>
    rw [hm] at h
    simp only at h
    cases hs : BrushMostlyOnSide b p <;> rw [hs] at h <;> simp only at h
    · rcases h with h | h <;> simp at h
      exact Or.inl h.symm
    · rcases h with h | h <;> simp at h
      exact Or.inl h.symm
  | some mid =>
    rw [hm] at h
    simp only at h
    unfold SplitBrush.real at h
    simp only [SplitBrush.checked_eq] at h
    by_cases c0 : (SplitBrush.childSides E p 0 b.sides).length < 3 ∨
        SplitBrush.bogus (E.update_bounds (SplitBrush.childSides E p 0 b.sides)) = true
    · rw [if_pos c0] at h
      simp only [Option.isSome_none, Bool.false_eq_true, if_false] at h
      rcases h with h | h
      · simp at h
      · split_ifs at h <;> simp only [Option.some.injEq] at h <;> exact Or.inl h.symm
    · rw [if_neg c0] at h
      by_cases c1 : (SplitBrush.childSides E p 1 b.sides).length < 3 ∨
          SplitBrush.bogus (E.update_bounds (SplitBrush.childSides E p 1 b.sides)) = true
      · rw [if_pos c1] at h
        simp only [Option.isSome_none, Bool.false_eq_true, if_false, Option.isSome_some,
          if_true] at h
        rcases h with h | h
        · simp only [Option.some.injEq] at h
          exact Or.inl h.symm
        · simp at h
      · rw [if_neg c1] at h
        simp only [SplitBrush.capped] at h
        rcases h with h | h
        · split_ifs at h
          simp only [Option.some.injEq] at h
          exact Or.inr ⟨mid, 0, h.symm⟩
        · split_ifs at h
          simp only [Option.some.injEq] at h
          exact Or.inr ⟨mid, 1, h.symm⟩

/-- A side of a brush returned by `SplitBrush` that is not onnode is a side of
the input brush, up to its winding. -/
theorem SplitBrush.piece_side (E : Ext) (b : bspbrush_t) (p : qplane3d) (f : bspbrush_t)
    (h : (SplitBrush E b p).front = some f ∨ (SplitBrush E b p).back = some f)
    (s : side_t) (hs : s ∈ f.sides) (hon : s.onnode = false) :
    ∃ s0 ∈ b.sides, ∃ w, s = { s0 with w := w } := by
  rcases SplitBrush.piece E b p f h with rfl | ⟨mid, j, rfl⟩
  · exact ⟨s, hs, s.w, rfl⟩
  · simp only [SplitBrush.withCap, SplitBrush.child, List.mem_append, List.mem_singleton] at hs
    rcases hs with hs | rfl
    · rw [SplitBrush.childSides_eq_filterMap] at hs
      simp only [List.mem_filterMap, Option.map_eq_some'] at hs
      obtain ⟨s0, hs0, cw, -, rfl⟩ := hs
      exact ⟨s0, hs0, cw, rfl⟩
    · simp [SplitBrush.cap] at hon

/-- A brush returned by `SplitBrush` has the original and the contents of the
input brush. -/
theorem SplitBrush.piece_original (E : Ext) (b : bspbrush_t) (p : qplane3d) (f : bspbrush_t)
    (h : (SplitBrush E b p).front = some f ∨ (SplitBrush E b p).back = some f) :
    f.original = b.original ∧ f.contents = b.contents := by
  rcases SplitBrush.piece E b p f h with rfl | ⟨mid, j, rfl⟩
  · exact ⟨rfl, rfl⟩
  · exact ⟨rfl, rfl⟩

theorem SplitBrushList.step_front (E : Ext) (node : node_t)
    (acc : twosided (List bspbrush_t)) (b : bspbrush_t) :
    (SplitBrushList.step E node acc b).front = acc.front ++
      (if b.side = PSIDE_BOTH then (SplitBrush E b node.plane.toqplane3d).front.toList
       else if b.side &&& PSIDE_FRONT ≠ 0 then [SplitBrushList.marked E node b] else []) := by
  unfold SplitBrushList.step SplitBrushList.marked
  simp only
  by_cases h : b.side = PSIDE_BOTH
  · rw [if_pos h, if_pos h]
    simp only
    cases (SplitBrush E b node.plane.toqplane3d).front <;> simp
  · rw [if_neg h, if_neg h]
    by_cases hf : b.side &&& PSIDE_FRONT ≠ 0
    · rw [if_pos hf, if_pos hf]
    · rw [if_neg hf, if_neg hf]
      split_ifs <;> simp

theorem SplitBrushList.step_back (E : Ext) (node : node_t)
    (acc : twosided (List bspbrush_t)) (b : bspbrush_t) :
    (SplitBrushList.step E node acc b).back = acc.back ++
      (if b.side = PSIDE_BOTH then (SplitBrush E b node.plane.toqplane3d).back.toList
       else if b.side &&& PSIDE_FRONT ≠ 0 then []
       else if b.side &&& PSIDE_BACK ≠ 0 then [SplitBrushList.marked E node b] else []) := by
  unfold SplitBrushList.step SplitBrushList.marked
  simp only
  by_cases h : b.side = PSIDE_BOTH
  · rw [if_pos h, if_pos h]
    simp only
    cases (SplitBrush E b node.plane.toqplane3d).back <;> simp
  · rw [if_neg h, if_neg h]
    by_cases hf : b.side &&& PSIDE_FRONT ≠ 0
    · rw [if_pos hf, if_pos hf]
      simp
    · rw [if_neg hf, if_neg hf]
      by_cases hk : b.side &&& PSIDE_BACK ≠ 0
      · rw [if_pos hk, if_pos hk]
      · rw [if_neg hk, if_neg hk]
        simp

theorem SplitBrushList.foldl_eq (E : Ext) (node : node_t) (bs : List bspbrush_t)
    (acc : twosided (List bspbrush_t)) :
    (bs.foldl (SplitBrushList.step E node) acc).front = acc.front ++
      bs.flatMap (fun b =>
        if b.side = PSIDE_BOTH then (SplitBrush E b node.plane.toqplane3d).front.toList
        else if b.side &&& PSIDE_FRONT ≠ 0 then [SplitBrushList.marked E node b] else []) ∧
    (bs.foldl (SplitBrushList.step E node) acc).back = acc.back ++
      bs.flatMap (fun b =>
        if b.side = PSIDE_BOTH then (SplitBrush E b node.plane.toqplane3d).back.toList
        else if b.side &&& PSIDE_FRONT ≠ 0 then []
        else if b.side &&& PSIDE_BACK ≠ 0 then [SplitBrushList.marked E node b] else []) := by
  induction bs generalizing acc with
  | nil => simp
  | cons b rest ih =>
    simp only [List.foldl_cons, List.flatMap_cons]
    obtain ⟨h1, h2⟩ := ih (SplitBrushList.step E node acc b)
    rw [h1, h2, SplitBrushList.step_front, SplitBrushList.step_back]
    simp only [List.append_assoc, and_self]

/-- The two lists of `SplitBrushList`, brush by brush: a brush classified BOTH
contributes the pieces of `SplitBrush`, any other brush goes, marked, to the
front list when its classification has the FRONT bit and else to the back
list when it has the BACK bit. -/
theorem SplitBrushList_eq (E : Ext) (bs : List bspbrush_t) (node : node_t) :
    (SplitBrushList E bs node).front =
      bs.flatMap (fun b =>
        if b.side = PSIDE_BOTH then (SplitBrush E b node.plane.toqplane3d).front.toList
        else if b.side &&& PSIDE_FRONT ≠ 0 then [SplitBrushList.marked E node b] else []) ∧
    (SplitBrushList E bs node).back =
      bs.flatMap (fun b =>
        if b.side = PSIDE_BOTH then (SplitBrush E b node.plane.toqplane3d).back.toList
        else if b.side &&& PSIDE_FRONT ≠ 0 then []
        else if b.side &&& PSIDE_BACK ≠ 0 then [SplitBrushList.marked E node b] else []) := by
  have := SplitBrushList.foldl_eq E node bs { front := [], back := [] }
  simpa [SplitBrushList] using this

/-- Every brush of a list of `SplitBrushList` is a piece of a brush classified
BOTH or a brush with another classification, marked. -/
theorem SplitBrushList_mem (E : Ext) (bs : List bspbrush_t) (node : node_t) (b1 : bspbrush_t)
    (h : b1 ∈ (SplitBrushList E bs node).front ∨ b1 ∈ (SplitBrushList E bs node).back) :
    ∃ b ∈ bs,
      (b.side = PSIDE_BOTH ∧
        ((SplitBrush E b node.plane.toqplane3d).front = some b1 ∨
         (SplitBrush E b node.plane.toqplane3d).back = some b1)) ∨
      (b.side ≠ PSIDE_BOTH ∧ b1 = SplitBrushList.marked E node b) := by
  obtain ⟨hf, hk⟩ := SplitBrushList_eq E bs node
  rw [hf, hk] at h
  simp only [List.mem_flatMap] at h
  rcases h with ⟨b, hb, hm⟩ | ⟨b, hb, hm⟩
  · refine ⟨b, hb, ?_⟩
    by_cases hs : b.side = PSIDE_BOTH
    · rw [if_pos hs] at hm
      left
      refine ⟨hs, Or.inl ?_⟩
      simpa [Option.mem_toList] using hm
    · rw [if_neg hs] at hm
      right
      split_ifs at hm
      · simp only [List.mem_singleton] at hm
        exact ⟨hs, hm⟩
      · simp at hm
  · refine ⟨b, hb, ?_⟩
    by_cases hs : b.side = PSIDE_BOTH
    · rw [if_pos hs] at hm
      left
      refine ⟨hs, Or.inr ?_⟩
      simpa [Option.mem_toList] using hm
    · rw [if_neg hs] at hm
      right
      split_ifs at hm
      · simp at hm
      · simp only [List.mem_singleton] at hm
        exact ⟨hs, hm⟩
      · simp at hm

/-! ## One step of BuildTree_r -/

/-- The classification of a brush against a plane is FRONT|FACING or
BACK|FACING when a side of the brush is epsilon-equal to the plane, and
otherwise the classification of its bounds, which has no FACING bit. -/
theorem classification_cases (E : Ext) (plane : qbsp_plane_t) (b : bspbrush_t) :
    ((∃ s ∈ b.sides, E.epsilonEqual s.plane.toqplane3d plane.toqplane3d = true) ∧
      (classification E plane b = 5 ∨ classification E plane b = 6)) ∨
    ((∀ s ∈ b.sides, E.epsilonEqual s.plane.toqplane3d plane.toqplane3d = false) ∧
      classification E plane b = BoxOnPlaneSide b.bounds plane ∧
      classification E plane b &&& PSIDE_FACING = 0) := by
  cases hfind : b.sides.find? (fun s => E.epsilonEqual s.plane.toqplane3d plane.toqplane3d) with
  | some side =>
    left
    obtain ⟨h1, h2, h3⟩ := TestBrushToPlanenum.facing_result E b plane 0 side hfind
    refine ⟨⟨side, List.mem_of_find?_eq_some hfind, ?_⟩, ?_⟩
    · have := List.find?_some hfind
      simpa using this
    · unfold classification
      rw [h1]
      simp only
      split_ifs
      · exact Or.inl h2
      · exact Or.inr h3
  | none =>
    right
    have hall : ∀ s ∈ b.sides, E.epsilonEqual s.plane.toqplane3d plane.toqplane3d = false := by
      intro s hs
      have := List.find?_eq_none.1 hfind s hs
      simpa using this
    have hf := TestBrushToPlanenum.facing_none E plane b.sides hall
    have hc : classification E plane b = BoxOnPlaneSide b.bounds plane := by
      unfold classification TestBrushToPlanenum
      rw [hf]
      simp only
      split_ifs <;> rfl
    exact ⟨hall, hc, by rw [hc]; exact BoxOnPlaneSide_no_facing _ _⟩

/-- A brush whose classification has no FACING bit has no side epsilon-equal
to the plane. -/
theorem classification_no_facing (E : Ext) (plane : qbsp_plane_t) (b : bspbrush_t)
    (h : classification E plane b &&& PSIDE_FACING = 0) :
    ∀ s ∈ b.sides, E.epsilonEqual s.plane.toqplane3d plane.toqplane3d = false := by
  rcases classification_cases E plane b with ⟨-, h1 | h1⟩ | ⟨h1, -, -⟩
  · rw [h1] at h; exact absurd h (by decide)
  · rw [h1] at h; exact absurd h (by decide)
  · exact h1

/-- The pointer that the search returns is null exactly when there is no
best side. -/
theorem SelectResult.side_eq (E : Ext) (bs : List bspbrush_t) (node : node_t)
    (r : SelectResult) (h : SelectSplitSide E bs node = Except.ok r) :
    (r.bestside = none ∧ r.side = none) ∨
    (∃ bi si brush0 side0, r.bestside = some (bi, si) ∧ bs[bi]? = some brush0 ∧
      brush0.sides[si]? = some side0 ∧ r.side = some side0.static) := by
  cases hb : r.bestside with
  | none =>
    left
    exact ⟨rfl, by simp [SelectResult.side, hb]⟩
  | some bsi =>
    right
    obtain ⟨bi, si⟩ := bsi
    obtain ⟨brush0, side0, brush, volume, p, v, a1, a2, g1, g2, -⟩ :=
      SelectSplitSide_best E bs node r bi si h hb
    refine ⟨bi, si, brush0, side0, rfl, a1, a2, ?_⟩
    simp only [SelectResult.side, hb, g1, g2]

/-- What a step of `BuildTree_r` at a splitplane node does, in terms of the
brushes `bs` and the node it is called for. -/
theorem BuildTree_r.split_facts (E : Ext) (bs : List bspbrush_t) (node : node_t)
    (r : SelectResult) (bestside : side_t)
    (h : SelectSplitSide E bs node = Except.ok r) (hs : r.side = some bestside) :
    ∃ bi si brush0 side0 volume f k,
      r.bestside = some (bi, si) ∧
      bs[bi]? = some brush0 ∧ brush0.sides[si]? = some side0 ∧ bestside = side0.static ∧
      side0.bevel = false ∧ side0.w ≠ [] ∧ side0.onnode = false ∧
      E.is_hintskip side0.texinfo = false ∧
      CheckPlaneAgainstParents E (from_plane side0.plane.toqplane3d true).1 node = false ∧
      node.volume = some volume ∧
      (SplitBrush E volume (from_plane side0.plane.toqplane3d true).1.toqplane3d).front
        = some f ∧
      (SplitBrush E volume (from_plane side0.plane.toqplane3d true).1.toqplane3d).back
        = some k ∧
      r.brushes.map bspbrush_t.static = bs.map bspbrush_t.static ∧
      (∀ b ∈ r.brushes,
        b.side = classification E (from_plane side0.plane.toqplane3d true).1 b) ∧
      BuildTree_r.split E r bestside = Except.ok
        { node := { r.node with plane := (from_plane side0.plane.toqplane3d true).1 },
          side := bestside,
          front := (BuildTree_r.newnode
              { r.node with plane := (from_plane side0.plane.toqplane3d true).1 } (some f),
            (SplitBrushList E r.brushes
              { r.node with plane := (from_plane side0.plane.toqplane3d true).1 }).front),
          back := (BuildTree_r.newnode
              { r.node with plane := (from_plane side0.plane.toqplane3d true).1 } (some k),
            (SplitBrushList E r.brushes
              { r.node with plane := (from_plane side0.plane.toqplane3d true).1 }).back) } ∧
      r.node.parents = node.parents := by
  rcases SelectResult.side_eq E bs node r h with ⟨-, hn⟩ | ⟨bi, si, brush0, side0, hb, a1, a2, hsd⟩
  · rw [hn] at hs; simp at hs
  rw [hsd] at hs
  obtain rfl := Option.some.inj hs
  obtain ⟨brush0', side0', brush, volume, p, v, a1', a2', g1, g2, b1, b2, b3, b4, c3, a7, a8,
    hp, hmem, hnode, c4, hall⟩ := SelectSplitSide_best E bs node r bi si h hb
  rw [a1] at a1'
  obtain rfl := Option.some.inj a1'
  rw [a2] at a2'
  obtain rfl := Option.some.inj a2'
  obtain ⟨fr1, fr2, fr3, -, -⟩ := SelectSplitSide_frame E bs node r h
  have hv := a8
  simp only [CheckPlaneAgainstVolume, Bool.and_eq_true, Option.isSome_iff_exists] at hv
  obtain ⟨⟨f, hf⟩, ⟨k, hk⟩⟩ := hv
  refine ⟨bi, si, brush0, side0, volume, f, k, hb, a1, a2, rfl, b1, b2, b3, b4, c3, a7, hf, hk,
    fr1, hall, ?_, fr2⟩
  unfold BuildTree_r.split
  simp only [set_plane, side_t.static, fr3, a7, hf, hk]

theorem static_mem (bs bs0 : List bspbrush_t)
    (h : bs.map bspbrush_t.static = bs0.map bspbrush_t.static) (b : bspbrush_t) (hb : b ∈ bs) :
    ∃ b0 ∈ bs0, b0.static = b.static := by
  have h1 : b.static ∈ bs0.map bspbrush_t.static := by
    rw [← h]; exact List.mem_map_of_mem _ hb
  obtain ⟨b0, hmem0, hb0⟩ := List.mem_map.1 h1
  exact ⟨b0, hmem0, hb0⟩

theorem static_side_mem (b b0 : bspbrush_t) (h : b0.static = b.static) (s : side_t)
    (hs : s ∈ b.sides) : ∃ s0 ∈ b0.sides, s = { s0 with tested := s.tested } := by
  have hsides : b0.sides.map side_t.static = b.sides.map side_t.static := by
    have := congrArg bspbrush_t.sides h
    simpa [bspbrush_t.static] using this
  have h1 : s.static ∈ b0.sides.map side_t.static := by
    rw [hsides]; exact List.mem_map_of_mem _ hs
  obtain ⟨s0, hmem0, hs0⟩ := List.mem_map.1 h1
  refine ⟨s0, hmem0, ?_⟩
  simp only [side_t.static, side_t.mk.injEq] at hs0
  obtain ⟨h1, h2, h3, h4, h5, h6, h7, -⟩ := hs0
  cases s
  cases s0
  simp_all

theorem static_fields (b b0 : bspbrush_t) (h : b0.static = b.static) :
    b0.original = b.original ∧ b0.contents = b.contents ∧ b0.bounds = b.bounds := by
  simp only [bspbrush_t.static, bspbrush_t.mk.injEq] at h
  exact ⟨h.1, h.2.1, h.2.2.2.2.1⟩

/-- Every brush of the two lists that a step of `BuildTree_r` hands to the
children comes from a brush of the list of the step, with its original and
contents; each of its sides that is not onnode is a side of that brush up to
winding and `tested` flag, and its plane is not epsilon-equal to the plane of
the node. -/
theorem BuildTree_r.child_brush (E : Ext) (bs rbs : List bspbrush_t) (node1 : node_t)
    (hst : rbs.map bspbrush_t.static = bs.map bspbrush_t.static)
    (hall : ∀ b ∈ rbs, b.side = classification E node1.plane b)
    (b1 : bspbrush_t)
    (hb1 : b1 ∈ (SplitBrushList E rbs node1).front ∨ b1 ∈ (SplitBrushList E rbs node1).back) :
    ∃ b0 ∈ bs, b1.original = b0.original ∧ b1.contents = b0.contents ∧
      ∀ s1 ∈ b1.sides, s1.onnode = false →
        (∃ s0 ∈ b0.sides, ∃ w t, s1 = { s0 with w := w, tested := t }) ∧
        E.epsilonEqual s1.plane.toqplane3d node1.plane.toqplane3d = false := by
  obtain ⟨b, hb, hcase⟩ := SplitBrushList_mem E rbs node1 b1 hb1
  obtain ⟨b0, hb0, hbs⟩ := static_mem rbs bs hst b hb
  obtain ⟨f1, f2, -⟩ := static_fields b b0 hbs
  refine ⟨b0, hb0, ?_⟩
  rcases hcase with ⟨hboth, hpiece⟩ | ⟨hnb, rfl⟩
  · obtain ⟨g1, g2⟩ := SplitBrush.piece_original E b _ b1 hpiece
    refine ⟨by rw [g1, f1], by rw [g2, f2], ?_⟩
    intro s1 hs1 hon
    obtain ⟨s, hs, w, rfl⟩ := SplitBrush.piece_side E b _ b1 hpiece s1 hs1 hon
    obtain ⟨s0, hs0, hs0e⟩ := static_side_mem b b0 hbs s hs
    refine ⟨⟨s0, hs0, w, s.tested, ?_⟩, ?_⟩
    · rw [hs0e]
    · have hc : classification E node1.plane b &&& PSIDE_FACING = 0 := by
        rw [← hall b hb, hboth]; decide
      exact classification_no_facing E node1.plane b hc s hs
  · by_cases hfac : b.side &&& PSIDE_FACING ≠ 0
    · simp only [SplitBrushList.marked, if_pos hfac]
      refine ⟨f1.symm, f2.symm, ?_⟩
      intro s1 hs1 hon
      simp only [SplitBrushList.markOnNode, List.mem_map] at hs1
      obtain ⟨s, hs, hs1e⟩ := hs1
      by_cases he : E.epsilonEqual s.plane.toqplane3d node1.plane.toqplane3d = true
      · rw [if_pos he] at hs1e
        rw [← hs1e] at hon
        simp at hon
      · rw [if_neg he] at hs1e
        subst hs1e
        obtain ⟨s0, hs0, hs0e⟩ := static_side_mem b b0 hbs s hs
        refine ⟨⟨s0, hs0, s0.w, s.tested, ?_⟩, by simpa using he⟩
        rw [hs0e]
    · simp only [SplitBrushList.marked, if_neg hfac]
      refine ⟨f1.symm, f2.symm, ?_⟩
      intro s1 hs1 hon
      obtain ⟨s0, hs0, hs0e⟩ := static_side_mem b b0 hbs s1 hs1
      refine ⟨⟨s0, hs0, s0.w, s1.tested, ?_⟩, ?_⟩
      · rw [hs0e]
      · have hc : classification E node1.plane b &&& PSIDE_FACING = 0 := by
          rw [← hall b hb]; simpa using hfac
        exact classification_no_facing E node1.plane b hc s1 hs1

/-! ## Induction over the calls of BuildTree_r -/

/-- How a call of `BuildTree_r` that completes has run: the search returned no
side and `LeafNode` made the leaf, or it returned a side and the two child
calls completed. -/
theorem BuildTree_r_done (E : Ext) (G : gamedef_t) (fuel : Nat) (node : node_t)
    (bs : List bspbrush_t) (stats stats1 : bspstats_t) (t : nodetree)
    (h : BuildTree_r E G fuel node bs stats = BuildResult.done t stats1) :
    ∃ fuel1 r, fuel = fuel1 + 1 ∧ SelectSplitSide E bs node = Except.ok r ∧
      ((r.side = none ∧
        LeafNode G r.node r.brushes { stats with c_leafs := stats.c_leafs + 1 } =
          Except.ok (t, stats1)) ∨
       (∃ bestside s t0 t1 stats2,
          r.side = some bestside ∧ BuildTree_r.split E r bestside = Except.ok s ∧
          BuildTree_r E G fuel1 s.front.1 s.front.2
            { stats with
              c_nodes := stats.c_nodes + 1,
              c_nonvis := if !bestside.visible then stats.c_nonvis + 1 else stats.c_nonvis }
            = BuildResult.done t0 stats2 ∧
          BuildTree_r E G fuel1 s.back.1 s.back.2 stats2 = BuildResult.done t1 stats1 ∧
          t = nodetree.interior s.node s.side t0 t1)) := by
  cases fuel with
  | zero => simp [BuildTree_r] at h
  | succ fuel1 =>
    refine ⟨fuel1, ?_⟩
    unfold BuildTree_r at h
    cases hsel : SelectSplitSide E bs node with
    | error e => rw [hsel] at h; simp at h
    | ok r =>
      rw [hsel] at h
      simp only at h
      refine ⟨r, rfl, rfl, ?_⟩
      cases hside : r.side with
      | none =>
        rw [hside] at h
        simp only at h
        left
        cases hl : LeafNode G r.node r.brushes { stats with c_leafs := stats.c_leafs + 1 } with
        | error e => rw [hl] at h; simp at h
        | ok res =>
          obtain ⟨leaf, st⟩ := res
          rw [hl] at h
          simp only [BuildResult.done.injEq] at h
          rw [h.1, h.2]
          exact ⟨rfl, rfl⟩
      | some bestside =>
        rw [hside] at h
        simp only at h
        right
        cases hsp : BuildTree_r.split E r bestside with
        | error e => rw [hsp] at h; simp at h
        | ok s =>
          rw [hsp] at h
          simp only at h
          cases hf : BuildTree_r E G fuel1 s.front.1 s.front.2
              { stats with
                c_nodes := stats.c_nodes + 1,
                c_nonvis := if !bestside.visible then stats.c_nonvis + 1
                  else stats.c_nonvis } with
          | fatal e => rw [hf] at h; simp at h
          | outOfFuel => rw [hf] at h; simp at h
          | done t0 stats2 =>
            rw [hf] at h
            simp only at h
            cases hk : BuildTree_r E G fuel1 s.back.1 s.back.2 stats2 with
            | fatal e => rw [hk] at h; simp at h
            | outOfFuel => rw [hk] at h; simp at h
            | done t1 stats3 =>
              rw [hk] at h
              simp only [BuildResult.done.injEq] at h
              refine ⟨bestside, s, t0, t1, stats2, rfl, hsp, hf, ?_, h.1.symm⟩
              rw [← h.2]; exact hk

/-- The induction principle of `BuildTree_r`: a property `J` of the calls
that holds of the first call and that every step hands on to both child
calls holds of every call, and a property `T` of the trees that holds of
every leaf and that an interior node inherits from its children holds of the
tree that the call builds. -/
theorem BuildTree_r_induct (E : Ext) (G : gamedef_t)
    (J : node_t → List bspbrush_t → Prop) (T : node_t → List bspbrush_t → nodetree → Prop)
    (hleaf : ∀ node bs r leaf stats stats1, J node bs →
      SelectSplitSide E bs node = Except.ok r → r.side = none →
      LeafNode G r.node r.brushes stats = Except.ok (leaf, stats1) → T node bs leaf)
    (hstep : ∀ node bs r bestside s, J node bs →
      SelectSplitSide E bs node = Except.ok r → r.side = some bestside →
      BuildTree_r.split E r bestside = Except.ok s →
      J s.front.1 s.front.2 ∧ J s.back.1 s.back.2)
    (hint : ∀ node bs r bestside s t0 t1, J node bs →
      SelectSplitSide E bs node = Except.ok r → r.side = some bestside →
      BuildTree_r.split E r bestside = Except.ok s →
      T s.front.1 s.front.2 t0 → T s.back.1 s.back.2 t1 →
      T node bs (nodetree.interior s.node s.side t0 t1))
    (fuel : Nat) (node : node_t) (bs : List bspbrush_t) (stats stats1 : bspstats_t)
    (t : nodetree) (hJ : J node bs)
    (h : BuildTree_r E G fuel node bs stats = BuildResult.done t stats1) : T node bs t := by
  induction fuel generalizing node bs stats stats1 t with
  | zero => simp [BuildTree_r] at h
  | succ fuel ih =>
    obtain ⟨fuel1, r, hfu, hsel, hcase⟩ := BuildTree_r_done E G _ node bs stats stats1 t h
    obtain rfl : fuel = fuel1 := by omega
    rcases hcase with ⟨hside, hl⟩ | ⟨bestside, s, t0, t1, stats2, hside, hsp, hf, hk, rfl⟩
    · exact hleaf node bs r t _ stats1 hJ hsel hside hl
    · obtain ⟨j0, j1⟩ := hstep node bs r bestside s hJ hsel hside hsp
      exact hint node bs r bestside s t0 t1 hJ hsel hside hsp
        (ih _ _ _ _ _ j0 hf) (ih _ _ _ _ _ j1 hk)

/-- A property of the calls that every step hands on to both child calls
holds of every call made. -/
theorem BuildTree_r.Calls_inv (E : Ext) (J : node_t → List bspbrush_t → Prop)
    (hstep : ∀ node bs r bestside s, J node bs →
      SelectSplitSide E bs node = Except.ok r → r.side = some bestside →
      BuildTree_r.split E r bestside = Except.ok s →
      J s.front.1 s.front.2 ∧ J s.back.1 s.back.2)
    (node : node_t) (bs : List bspbrush_t) (node1 : node_t) (bs1 : List bspbrush_t)
    (hJ : J node bs) (hc : BuildTree_r.Calls E node bs node1 bs1) : J node1 bs1 := by
  induction hc with
  | self node bs => exact hJ
  | front node bs r bestside s node1 bs1 hsel hside hsp _ ih =>
    exact ih (hstep node bs r bestside s hJ hsel hside hsp).1
  | back node bs r bestside s node1 bs1 hsel hside hsp _ ih =>
    exact ih (hstep node bs r bestside s hJ hsel hside hsp).2

/-- A fatal error of `BuildTree_r` is raised by the search or by `LeafNode`
in one of the calls made. -/
theorem BuildTree_r_fatal (E : Ext) (G : gamedef_t) (fuel : Nat) (node : node_t)
    (bs : List bspbrush_t) (stats : bspstats_t) (e : String)
    (h : BuildTree_r E G fuel node bs stats = BuildResult.fatal e) :
    ∃ node1 bs1, BuildTree_r.Calls E node bs node1 bs1 ∧
      (SelectSplitSide E bs1 node1 = Except.error e ∨
       ∃ r stats1, SelectSplitSide E bs1 node1 = Except.ok r ∧ r.side = none ∧
         LeafNode G r.node r.brushes stats1 = Except.error e) := by
  induction fuel generalizing node bs stats with
  | zero => simp [BuildTree_r] at h
  | succ fuel ih =>
    unfold BuildTree_r at h
    cases hsel : SelectSplitSide E bs node with
    | error e1 =>
      rw [hsel] at h
      simp only [BuildResult.fatal.injEq] at h
      rw [h] at hsel
      exact ⟨node, bs, BuildTree_r.Calls.self node bs, Or.inl hsel⟩
    | ok r =>
      rw [hsel] at h
      simp only at h
      cases hside : r.side with
      | none =>
        rw [hside] at h
        simp only at h
        cases hl : LeafNode G r.node r.brushes { stats with c_leafs := stats.c_leafs + 1 } with
        | error e1 =>
          rw [hl] at h
          simp only [BuildResult.fatal.injEq] at h
          rw [h] at hl
          exact ⟨node, bs, BuildTree_r.Calls.self node bs, Or.inr ⟨r, _, hsel, hside, hl⟩⟩
        | ok res =>
          obtain ⟨leaf, st⟩ := res
          rw [hl] at h
          simp at h
      | some bestside =>
        rw [hside] at h
        simp only at h
        obtain ⟨bi, si, brush0, side0, volume, f, k, -, -, -, -, -, -, -, -, -, -, -, -, -, -,
          hsp, -⟩ := BuildTree_r.split_facts E bs node r bestside hsel hside
        rw [hsp] at h
        simp only at h
        generalize hstats : ({ stats with
            c_nodes := stats.c_nodes + 1,
            c_nonvis := if !bestside.visible then stats.c_nonvis + 1
              else stats.c_nonvis } : bspstats_t) = st1 at h
        cases hf : BuildTree_r E G fuel _ _ st1 with
        | fatal e1 =>
          rw [hf] at h
          simp only [BuildResult.fatal.injEq] at h
          rw [h] at hf
          obtain ⟨node1, bs1, hc, hr⟩ := ih _ _ _ hf
          exact ⟨node1, bs1, BuildTree_r.Calls.front node bs r bestside _ node1 bs1 hsel hside
            hsp hc, hr⟩
        | outOfFuel => rw [hf] at h; simp at h
        | done t0 stats2 =>
          rw [hf] at h
          simp only at h
          cases hk : BuildTree_r E G fuel _ _ stats2 with
          | fatal e1 =>
            rw [hk] at h
            simp only [BuildResult.fatal.injEq] at h
            rw [h] at hk
            obtain ⟨node1, bs1, hc, hr⟩ := ih _ _ _ hk
            exact ⟨node1, bs1, BuildTree_r.Calls.back node bs r bestside _ node1 bs1 hsel hside
              hsp hc, hr⟩
          | outOfFuel => rw [hk] at h; simp at h
          | done t1 stats3 => rw [hk] at h; simp at h

/-! ## The trees of BuildTree_r -/

theorem LeafNode_interiors (G : gamedef_t) (node : node_t) (bs : List bspbrush_t)
    (stats stats1 : bspstats_t) (leaf : nodetree) (above : List qbsp_plane_t)
    (h : LeafNode G node bs stats = Except.ok (leaf, stats1)) : leaf.interiors above = [] := by
  unfold LeafNode at h
  simp only at h
  cases ho : LeafNode.originals bs [] with
  | error e => rw [ho] at h; simp at h
  | ok os =>
    rw [ho] at h
    simp only [Except.ok.injEq, Prod.mk.injEq] at h
    rw [← h.1]
    rfl

/-- C12: in every tree that `BuildTree_r` completes, no interior node's plane
is epsilon-equal to the plane of any of its ancestors (the interior nodes
above it in the tree and the ancestors of the node the build started at). -/
theorem BuildTree_r_no_ancestor_plane (E : Ext) (G : gamedef_t) (fuel : Nat) (node : node_t)
    (bs : List bspbrush_t) (stats stats1 : bspstats_t) (t : nodetree)
    (h : BuildTree_r E G fuel node bs stats = BuildResult.done t stats1) :
    ∀ x ∈ t.interiors node.parents, ∀ a ∈ x.2.2,
      E.epsilonEqual a.toqplane3d x.1.plane.toqplane3d = false := by
  refine BuildTree_r_induct E G (fun _ _ => True)
    (fun node _ t => ∀ x ∈ t.interiors node.parents, ∀ a ∈ x.2.2,
      E.epsilonEqual a.toqplane3d x.1.plane.toqplane3d = false)
    ?_ ?_ ?_ fuel node bs stats stats1 t trivial h
  · intro node bs r leaf stats stats1 _ _ _ hl x hx
    rw [LeafNode_interiors G _ _ _ _ leaf _ hl] at hx
    simp at hx
  · intro node bs r bestside s _ _ _ _
    exact ⟨trivial, trivial⟩
  · intro node bs r bestside s t0 t1 _ hsel hside hsp h0 h1 x hx
    obtain ⟨bi, si, brush0, side0, volume, f, k, -, -, -, -, -, -, -, -, hcheck, -, -, -, -, -,
      hsp2, hpar⟩ := BuildTree_r.split_facts E bs node r bestside hsel hside
    rw [hsp2] at hsp
    simp only [Except.ok.injEq] at hsp
    subst hsp
    simp only [nodetree.interiors, List.mem_cons, List.mem_append] at hx
    simp only [BuildTree_r.newnode, hpar] at h0 h1
    rcases hx with rfl | hx | hx
    · intro a ha
      simp only [CheckPlaneAgainstParents, List.any_eq_false] at hcheck
      simpa using hcheck a ha
    · exact h0 x hx
    · exact h1 x hx

/-- C15: every interior node created by `BuildTree_r` has as its plane the
positive canonical form of the plane of some side of some brush of the list
given to the first call, and its chosen side is that side up to its winding
and its `tested` flag; the chosen side is never a cap side made by
`SplitBrush`. -/
theorem BuildTree_r_planes_from_input (E : Ext) (G : gamedef_t) (fuel : Nat) (node : node_t)
    (bs : List bspbrush_t) (stats stats1 : bspstats_t) (t : nodetree)
    (h : BuildTree_r E G fuel node bs stats = BuildResult.done t stats1) :
    ∀ x ∈ t.interiors node.parents,
      (∃ b0 ∈ bs, ∃ s0 ∈ b0.sides,
        x.1.plane = (from_plane s0.plane.toqplane3d true).1 ∧
        ∃ w, x.2.1 = { s0 with w := w, tested := false }) ∧
      ∀ split mid i, x.2.1 ≠ SplitBrush.cap E split mid i := by
  refine BuildTree_r_induct E G
    (fun _ bs1 => ∀ b ∈ bs1, ∀ s ∈ b.sides, s.onnode = false →
      ∃ b0 ∈ bs, ∃ s0 ∈ b0.sides, ∃ w t, s = { s0 with w := w, tested := t })
    (fun node1 _ t => ∀ x ∈ t.interiors node1.parents,
      (∃ b0 ∈ bs, ∃ s0 ∈ b0.sides,
        x.1.plane = (from_plane s0.plane.toqplane3d true).1 ∧
        ∃ w, x.2.1 = { s0 with w := w, tested := false }) ∧
      ∀ split mid i, x.2.1 ≠ SplitBrush.cap E split mid i)
    ?_ ?_ ?_ fuel node bs stats stats1 t ?_ h
  · intro node bs r leaf stats stats1 _ _ _ hl x hx
    rw [LeafNode_interiors G _ _ _ _ leaf _ hl] at hx
    simp at hx
  · intro node1 bs1 r bestside s hJ hsel hside hsp
    obtain ⟨bi, si, brush0, side0, volume, f, k, -, -, -, -, -, -, -, -, -, -, -, -, hst, hall,
      hsp2, -⟩ := BuildTree_r.split_facts E bs1 node1 r bestside hsel hside
    rw [hsp2] at hsp
    simp only [Except.ok.injEq] at hsp
    subst hsp
    simp only
    have key : ∀ b1, (b1 ∈ (SplitBrushList E r.brushes
          { r.node with plane := (from_plane side0.plane.toqplane3d true).1 }).front ∨
        b1 ∈ (SplitBrushList E r.brushes
          { r.node with plane := (from_plane side0.plane.toqplane3d true).1 }).back) →
        ∀ s ∈ b1.sides, s.onnode = false →
          ∃ b0 ∈ bs, ∃ s0 ∈ b0.sides, ∃ w t, s = { s0 with w := w, tested := t } := by
      intro b1 hb1 s hs hon
      obtain ⟨b, hb, -, -, hsides⟩ := BuildTree_r.child_brush E bs1 r.brushes
        { r.node with plane := (from_plane side0.plane.toqplane3d true).1 } hst hall b1 hb1
      obtain ⟨⟨s', hs', w, t, rfl⟩, -⟩ := hsides s hs hon
      obtain ⟨b0, hb0, s0, hs0, w0, t0, rfl⟩ := hJ b hb s' hs' hon
      exact ⟨b0, hb0, s0, hs0, w, t, rfl⟩
    exact ⟨fun b1 hb1 => key b1 (Or.inl hb1), fun b1 hb1 => key b1 (Or.inr hb1)⟩
  · intro node1 bs1 r bestside s t0 t1 hJ hsel hside hsp h0 h1 x hx
    obtain ⟨bi, si, brush0, side0, volume, f, k, -, hb0, hs0, hbest, -, -, hon, -, -, -, -, -,
      -, -, hsp2, hpar⟩ := BuildTree_r.split_facts E bs1 node1 r bestside hsel hside
    rw [hsp2] at hsp
    simp only [Except.ok.injEq] at hsp
    subst hsp
    simp only [nodetree.interiors, List.mem_cons, List.mem_append] at hx
    simp only [BuildTree_r.newnode, hpar] at h0 h1
    rcases hx with rfl | hx | hx
    · obtain ⟨b0, hb0m, s0, hs0m, w, t, rfl⟩ :=
        hJ brush0 (List.getElem?_mem hb0) side0 (List.getElem?_mem hs0) hon
      refine ⟨⟨b0, hb0m, s0, hs0m, rfl, w, ?_⟩, ?_⟩
      · rw [hbest]; rfl
      · intro split mid i hcap
        have := congrArg side_t.onnode hcap
        rw [hbest] at this
        simp only [side_t.static, SplitBrush.cap] at this
        rw [hon] at this
        simp at this
    · exact h0 x hx
    · exact h1 x hx
  · intro b hb s hs _
    exact ⟨b, hb, s, hs, s.w, s.tested, rfl⟩

theorem LeafNode.originals_error (bs : List bspbrush_t) (acc : List Nat) (e : String)
    (h : LeafNode.originals bs acc = Except.error e) :
    e = "null original" ∧ ∃ b ∈ bs, b.original = none := by
  induction bs generalizing acc with
  | nil => simp [LeafNode.originals] at h
  | cons b rest ih =>
    unfold LeafNode.originals at h
    cases ho : b.original with
    | none =>
      rw [ho] at h
      simp only [Except.error.injEq] at h
      exact ⟨h.symm, b, List.mem_cons_self _ _, ho⟩
    | some o =>
      rw [ho] at h
      obtain ⟨h1, b1, hb1, h2⟩ := ih _ h
      exact ⟨h1, b1, List.mem_cons_of_mem _ hb1, h2⟩

/-- The only fatal error of `LeafNode` is the failed assertion on a brush
without original. -/
theorem LeafNode_error (G : gamedef_t) (node : node_t) (bs : List bspbrush_t)
    (stats : bspstats_t) (e : String) (h : LeafNode G node bs stats = Except.error e) :
    e = "null original" ∧ ∃ b ∈ bs, b.original = none := by
  unfold LeafNode at h
  simp only at h
  cases ho : LeafNode.originals bs [] with
  | error e1 =>
    rw [ho] at h
    simp only [Except.error.injEq] at h
    rw [h] at ho
    exact LeafNode.originals_error bs [] e ho
  | ok os => rw [ho] at h; simp at h

theorem BuildTree_r.freshPlanes_step (E : Ext)
    (hsym : ∀ p q, E.epsilonEqual p q = E.epsilonEqual q p)
    (node : node_t) (bs : List bspbrush_t) (r : SelectResult) (bestside : side_t)
    (s : BuildTree_r.Split) (hJ : BuildTree_r.freshPlanes E node bs)
    (hsel : SelectSplitSide E bs node = Except.ok r) (hside : r.side = some bestside)
    (hsp : BuildTree_r.split E r bestside = Except.ok s) :
    BuildTree_r.freshPlanes E s.front.1 s.front.2 ∧
    BuildTree_r.freshPlanes E s.back.1 s.back.2 := by
  obtain ⟨bi, si, brush0, side0, volume, f, k, -, -, -, -, -, -, -, -, -, -, -, -, hst, hall,
    hsp2, hpar⟩ := BuildTree_r.split_facts E bs node r bestside hsel hside
  rw [hsp2] at hsp
  simp only [Except.ok.injEq] at hsp
  subst hsp
  simp only
  have key : ∀ b1, (b1 ∈ (SplitBrushList E r.brushes
        { r.node with plane := (from_plane side0.plane.toqplane3d true).1 }).front ∨
      b1 ∈ (SplitBrushList E r.brushes
        { r.node with plane := (from_plane side0.plane.toqplane3d true).1 }).back) →
      ∀ s ∈ b1.sides, s.onnode = false →
        s.plane.canonical ∧
        ∀ a ∈ (from_plane side0.plane.toqplane3d true).1 :: node.parents,
          E.epsilonEqual a.toqplane3d s.plane.toqplane3d = false := by
    intro b1 hb1 s hs hon
    obtain ⟨b, hb, -, -, hsides⟩ := BuildTree_r.child_brush E bs r.brushes
      { r.node with plane := (from_plane side0.plane.toqplane3d true).1 } hst hall b1 hb1
    obtain ⟨⟨s', hs', w, t, rfl⟩, hne⟩ := hsides s hs hon
    obtain ⟨c1, c2⟩ := hJ b hb s' hs' hon
    refine ⟨c1, ?_⟩
    intro a ha
    rcases List.mem_cons.1 ha with rfl | ha
    · rw [hsym]; exact hne
    · exact c2 a ha
  constructor
  · intro b1 hb1 s hs hon
    simp only [BuildTree_r.newnode, hpar]
    exact key b1 (Or.inl hb1) s hs hon
  · intro b1 hb1 s hs hon
    simp only [BuildTree_r.newnode, hpar]
    exact key b1 (Or.inr hb1) s hs hon

theorem BuildTree_r.freshPlanes_check (E : Ext) (node : node_t) (bs : List bspbrush_t)
    (hJ : BuildTree_r.freshPlanes E node bs) :
    (∀ b ∈ bs, ∀ s ∈ b.sides, s.onnode = false →
      CheckPlaneAgainstParents E (from_plane s.plane.toqplane3d true).1 node = false) ∧
    SelectSplitSide E bs node ≠ Except.error "Tried parent" := by
  have h1 : ∀ b ∈ bs, ∀ s ∈ b.sides, s.onnode = false →
      CheckPlaneAgainstParents E (from_plane s.plane.toqplane3d true).1 node = false := by
    intro b hb s hs hon
    obtain ⟨c1, c2⟩ := hJ b hb s hs hon
    unfold qbsp_plane_t.canonical at c1
    rw [c1]
    simp only [CheckPlaneAgainstParents, List.any_eq_false]
    intro a ha
    simpa using c2 a ha
  refine ⟨h1, ?_⟩
  intro herr
  rcases SelectSplitSide_error_cases E bs node _ herr with ⟨he, -⟩ | ⟨he, -⟩ |
    ⟨-, b, hb, s, hs, hon, hc⟩
  · simp at he
  · simp at he
  · rw [h1 b hb s hs hon] at hc
    simp at hc

/-- C13: in a build started by `BuildTree_r` at a root without parent, on
brushes whose side planes are stored in canonical positive form, and with an
epsilon comparison of planes that is symmetric: in every call made, no side
that is not onnode (the only sides the search can reach as candidates) has a
positive plane epsilon-equal to the plane of an ancestor of the node, the
search does not raise "Tried parent", and so the build never ends with that
fatal error. -/
theorem BuildTree_r_never_tried_parent (E : Ext) (G : gamedef_t) (node : node_t)
    (bs : List bspbrush_t)
    (hsym : ∀ p q, E.epsilonEqual p q = E.epsilonEqual q p)
    (hroot : node.parents = [])
    (hcanon : ∀ b ∈ bs, ∀ s ∈ b.sides, s.plane.canonical) :
    (∀ node1 bs1, BuildTree_r.Calls E node bs node1 bs1 →
      (∀ b ∈ bs1, ∀ s ∈ b.sides, s.onnode = false →
        CheckPlaneAgainstParents E (from_plane s.plane.toqplane3d true).1 node1 = false) ∧
      SelectSplitSide E bs1 node1 ≠ Except.error "Tried parent") ∧
    ∀ fuel stats, BuildTree_r E G fuel node bs stats ≠ BuildResult.fatal "Tried parent" := by
  have h0 : BuildTree_r.freshPlanes E node bs := by
    intro b hb s hs _
    refine ⟨hcanon b hb s hs, ?_⟩
    rw [hroot]
    intro a ha
    simp at ha
  have hcalls : ∀ node1 bs1, BuildTree_r.Calls E node bs node1 bs1 →
      BuildTree_r.freshPlanes E node1 bs1 := by
    intro node1 bs1 hc
    exact BuildTree_r.Calls_inv E (BuildTree_r.freshPlanes E)
      (fun node bs r bestside s hJ hsel hside hsp =>
        BuildTree_r.freshPlanes_step E hsym node bs r bestside s hJ hsel hside hsp)
      node bs node1 bs1 h0 hc
  refine ⟨fun node1 bs1 hc => BuildTree_r.freshPlanes_check E node1 bs1 (hcalls node1 bs1 hc),
    ?_⟩
  intro fuel stats hf
  obtain ⟨node1, bs1, hc, hr⟩ := BuildTree_r_fatal E G fuel node bs stats _ hf
  rcases hr with hr | ⟨r, stats1, -, -, hl⟩
  · exact (BuildTree_r.freshPlanes_check E node1 bs1 (hcalls node1 bs1 hc)).2 hr
  · have := (LeafNode_error G _ _ _ _ hl).1
    simp at this

/-! ## The build of a single brush -/

theorem SelectSplitSide_nil (E : Ext) (node : node_t) :
    SelectSplitSide E [] node =
      Except.ok { bestside := none, brushes := [], node := node, scored := [] } := by
  simp [SelectSplitSide, SelectSplitSide.passLoop, SelectSplitSide.brushLoop,
    SelectSplitSide.clearTested]

theorem BuildTree_r_leaf_eq (E : Ext) (G : gamedef_t) (fuel : Nat) (node : node_t)
    (bs : List bspbrush_t) (stats stats1 : bspstats_t) (r : SelectResult) (t : nodetree)
    (hsel : SelectSplitSide E bs node = Except.ok r) (hside : r.side = none)
    (hl : LeafNode G r.node r.brushes { stats with c_leafs := stats.c_leafs + 1 } =
      Except.ok (t, stats1)) :
    BuildTree_r E G (fuel + 1) node bs stats = BuildResult.done t stats1 := by
  unfold BuildTree_r
  rw [hsel]
  simp only
  rw [hside]
  simp only
  rw [hl]

theorem BuildTree_r_interior_eq (E : Ext) (G : gamedef_t) (fuel : Nat) (node : node_t)
    (bs : List bspbrush_t) (stats stats2 stats3 : bspstats_t) (r : SelectResult)
    (bestside : side_t) (s : BuildTree_r.Split) (t0 t1 : nodetree)
    (hsel : SelectSplitSide E bs node = Except.ok r) (hside : r.side = some bestside)
    (hsp : BuildTree_r.split E r bestside = Except.ok s)
    (hf : BuildTree_r E G fuel s.front.1 s.front.2
      { stats with
        c_nodes := stats.c_nodes + 1,
        c_nonvis := if !bestside.visible then stats.c_nonvis + 1 else stats.c_nonvis }
      = BuildResult.done t0 stats2)
    (hk : BuildTree_r E G fuel s.back.1 s.back.2 stats2 = BuildResult.done t1 stats3) :
    BuildTree_r E G (fuel + 1) node bs stats =
      BuildResult.done (nodetree.interior s.node s.side t0 t1) stats3 := by
  conv_lhs => unfold BuildTree_r
  rw [hsel]
  simp only
  rw [hside]
  simp only
  rw [hsp]
  simp only
  rw [hf]
  simp only
  rw [hk]

/-- The call of `BuildTree_r` for an empty brush list makes a leaf with empty
contents and no original brushes. -/
theorem BuildTree_r_nil (E : Ext) (G : gamedef_t) (fuel : Nat) (node : node_t)
    (stats : bspstats_t) :
    BuildTree_r E G (fuel + 1) node [] stats =
      BuildResult.done (nodetree.leaf node G.create_empty_contents [] [])
        { stats with c_leafs := stats.c_leafs + 1,
                     leafstats := stats.leafstats ++ [G.create_empty_contents] } := by
  apply BuildTree_r_leaf_eq E G fuel node [] stats _ _ _ (SelectSplitSide_nil E node)
  · rfl
  · rfl

theorem shape_static (s : side_t) : s.static.shape = s.shape := rfl

theorem static_shape (b b0 : bspbrush_t) (h : b0.static = b.static) :
    b0.sides.map side_t.shape = b.sides.map side_t.shape ∧ b0.freeSides = b.freeSides := by
  have hsides : b0.sides.map side_t.static = b.sides.map side_t.static := by
    have := congrArg bspbrush_t.sides h
    simpa [bspbrush_t.static] using this
  constructor
  · have := congrArg (List.map side_t.shape) hsides
    simpa [List.map_map, Function.comp_def, shape_static] using this
  · have := congrArg (List.countP (fun s => !s.onnode)) hsides
    simpa [bspbrush_t.freeSides, List.countP_map, Function.comp_def, side_t.static] using this

theorem markOnNode_shape (E : Ext) (plane : qbsp_plane_t) (sides : List side_t) :
    (SplitBrushList.markOnNode E plane sides).map side_t.shape = sides.map side_t.shape := by
  unfold SplitBrushList.markOnNode
  rw [List.map_map]
  apply List.map_congr_left
  intro s _
  simp only [Function.comp]
  split_ifs <;> rfl

theorem markOnNode_count_le (E : Ext) (plane : qbsp_plane_t) (sides : List side_t) :
    (SplitBrushList.markOnNode E plane sides).countP (fun s => !s.onnode) ≤
      sides.countP (fun s => !s.onnode) := by
  induction sides with
  | nil => simp [SplitBrushList.markOnNode]
  | cons s rest ih =>
    simp only [SplitBrushList.markOnNode, List.map_cons, List.countP_cons] at ih ⊢
    have : (if (!(if E.epsilonEqual s.plane.toqplane3d plane.toqplane3d = true then
          { s with onnode := true } else s).onnode) = true then 1 else 0) ≤
        (if (!s.onnode) = true then 1 else 0) := by
      by_cases he : E.epsilonEqual s.plane.toqplane3d plane.toqplane3d = true
      · rw [if_pos he]; simp
      · rw [if_neg he]
    omega

theorem markOnNode_count_lt (E : Ext) (plane : qbsp_plane_t) (sides : List side_t)
    (h : ∃ s ∈ sides, s.onnode = false ∧
      E.epsilonEqual s.plane.toqplane3d plane.toqplane3d = true) :
    (SplitBrushList.markOnNode E plane sides).countP (fun s => !s.onnode) <
      sides.countP (fun s => !s.onnode) := by
  induction sides with
  | nil => obtain ⟨s, hs, -⟩ := h; simp at hs
  | cons s rest ih =>
    obtain ⟨s1, hs1, hon, heq⟩ := h
    have hle := markOnNode_count_le E plane rest
    simp only [SplitBrushList.markOnNode, List.map_cons, List.countP_cons] at ih hle ⊢
    rcases List.mem_cons.1 hs1 with rfl | hs1
    · rw [if_pos heq]
      simp only [Bool.not_true, Bool.false_eq_true, if_false, hon, Bool.not_false, if_true]
      omega
    · have := ih ⟨s1, hs1, hon, heq⟩
      have h2 : (if (!(if E.epsilonEqual s.plane.toqplane3d plane.toqplane3d = true then
            { s with onnode := true } else s).onnode) = true then 1 else 0) ≤
          (if (!s.onnode) = true then 1 else 0) := by
        by_cases he : E.epsilonEqual s.plane.toqplane3d plane.toqplane3d = true
        · rw [if_pos he]; simp
        · rw [if_neg he]
      omega

theorem singleton_static (rbs : List bspbrush_t) (b1 : bspbrush_t)
    (h : rbs.map bspbrush_t.static = [b1].map bspbrush_t.static) :
    ∃ rb, rbs = [rb] ∧ rb.static = b1.static := by
  cases rbs with
  | nil => simp at h
  | cons rb rest =>
    cases rest with
    | nil =>
      simp only [List.map_cons, List.map_nil, List.cons.injEq, and_true] at h
      exact ⟨rb, rfl, h⟩
    | cons rb2 rest2 => simp at h

/-- The leaf that `LeafNode` makes of a single brush with an original. -/
theorem LeafNode_single (G : gamedef_t) (node : node_t) (rb : bspbrush_t) (o : Nat)
    (stats : bspstats_t) (ho : rb.original = some o) :
    LeafNode G node [rb] stats =
      Except.ok (nodetree.leaf node (G.combine_contents G.create_empty_contents rb.contents)
        [o] [rb],
        { stats with leafstats := stats.leafstats ++
            [G.combine_contents G.create_empty_contents rb.contents] }) := by
  simp [LeafNode, LeafNode.originals, ho]

theorem bspbrush_t.unsplitOf_trans (b2 b1 b : bspbrush_t) (h21 : b2.unsplitOf b1)
    (h1 : b1.unsplitOf b) : b2.unsplitOf b := by
  obtain ⟨a1, a2, a3, a4⟩ := h21
  obtain ⟨c1, c2, c3, c4⟩ := h1
  exact ⟨a1.trans c1, a2.trans c2, a3.trans c3, a4.trans c4⟩

theorem bspbrush_t.unsplitOf_static (rb b1 : bspbrush_t) (h : rb.static = b1.static) :
    rb.unsplitOf b1 := by
  obtain ⟨g1, g2, g3⟩ := static_fields b1 rb h
  obtain ⟨g4, -⟩ := static_shape b1 rb h
  exact ⟨g3, g1, g2, g4⟩

/-- The brush that `SplitBrushList` passes on is the brush it was given, not
split, and it has fewer sides that are not onnode when one of them is
epsilon-equal to the plane of the node and the classification has the FACING
bit. -/
theorem SplitBrushList.marked_facts (E : Ext) (node : node_t) (rb : bspbrush_t) :
    (SplitBrushList.marked E node rb).unsplitOf rb ∧
    ((rb.side &&& PSIDE_FACING ≠ 0 ∧ ∃ s ∈ rb.sides, s.onnode = false ∧
        E.epsilonEqual s.plane.toqplane3d node.plane.toqplane3d = true) →
      (SplitBrushList.marked E node rb).freeSides < rb.freeSides) := by
  unfold SplitBrushList.marked
  by_cases hfac : rb.side &&& PSIDE_FACING ≠ 0
  · rw [if_pos hfac]
    refine ⟨⟨rfl, rfl, rfl, markOnNode_shape E node.plane rb.sides⟩, ?_⟩
    intro h
    exact markOnNode_count_lt E node.plane rb.sides h.2
  · rw [if_neg hfac]
    exact ⟨⟨rfl, rfl, rfl, rfl⟩, fun h => absurd h.1 hfac⟩

/-- A step of `BuildTree_r` at a splitplane node whose list is a single
brush: the brush is handed, not split and with fewer sides that are not
onnode, to one child, and the other child gets the empty list. -/
theorem BuildTree_r.single_step (E : Ext)
    (hrefl : ∀ p, E.epsilonEqual p p = true)
    (hsym : ∀ p q, E.epsilonEqual p q = E.epsilonEqual q p)
    (node : node_t) (b1 : bspbrush_t) (r : SelectResult) (bestside : side_t)
    (hsel : SelectSplitSide E [b1] node = Except.ok r) (hside : r.side = some bestside)
    (hfresh : BuildTree_r.freshPlanes E node [b1]) :
    ∃ s b2, BuildTree_r.split E r bestside = Except.ok s ∧
      b2.unsplitOf b1 ∧ b2.freeSides < b1.freeSides ∧
      s.front.1.volume.isSome = true ∧ s.back.1.volume.isSome = true ∧
      BuildTree_r.freshPlanes E s.front.1 s.front.2 ∧
      BuildTree_r.freshPlanes E s.back.1 s.back.2 ∧
      ((s.front.2 = [b2] ∧ s.back.2 = []) ∨ (s.front.2 = [] ∧ s.back.2 = [b2])) := by
  obtain ⟨bi, si, brush0, side0, volume, f, k, -, hb0, hs0, hbest, -, -, hon, -, -, -, -,
    -, hst, hall, hsp, hpar⟩ := BuildTree_r.split_facts E [b1] node r bestside hsel hside
  obtain ⟨j0, j1⟩ := BuildTree_r.freshPlanes_step E hsym node [b1] r bestside _ hfresh
    hsel hside hsp
  obtain ⟨rb, hrb, hrbs⟩ := singleton_static r.brushes b1 hst
  have hbm : brush0 = b1 := by
    have := List.getElem?_mem hb0
    simpa using this
  subst hbm
  have hsm : side0 ∈ brush0.sides := List.getElem?_mem hs0
  obtain ⟨hcan, -⟩ := hfresh brush0 (List.mem_singleton_self _) side0 hsm hon
  unfold qbsp_plane_t.canonical at hcan
  obtain ⟨s1, hs1, hs1e⟩ := static_side_mem brush0 rb hrbs side0 hsm
  have hplane : s1.plane = side0.plane := by rw [hs1e]
  have hon1 : s1.onnode = false := by rw [hs1e] at hon; exact hon
  generalize hP : (from_plane side0.plane.toqplane3d true).1 = P at *
  have heq : E.epsilonEqual s1.plane.toqplane3d P.toqplane3d = true := by
    rw [hplane, hcan]; exact hrefl _
  have hcls : rb.side = 5 ∨ rb.side = 6 := by
    rw [hall rb (by rw [hrb]; exact List.mem_singleton_self _)]
    rcases classification_cases E P rb with ⟨-, h56⟩ | ⟨hno, -, -⟩
    · exact h56
    · rw [hno s1 hs1] at heq; simp at heq
  have hfac : rb.side &&& PSIDE_FACING ≠ 0 := by
    rcases hcls with h5 | h6
    · rw [h5]; decide
    · rw [h6]; decide
  have hnb : rb.side ≠ PSIDE_BOTH := by
    rcases hcls with h5 | h6
    · rw [h5]; decide
    · rw [h6]; decide
  generalize hn1 : ({ r.node with plane := P } : node_t) = node1 at *
  have hn1p : node1.plane = P := by rw [← hn1]
  obtain ⟨m1, m2⟩ := SplitBrushList.marked_facts E node1 rb
  have hlt := m2 ⟨hfac, s1, hs1, hon1, by rw [hn1p]; exact heq⟩
  obtain ⟨-, g5⟩ := static_shape brush0 rb hrbs
  obtain ⟨lf, lk⟩ := SplitBrushList_eq E r.brushes node1
  rw [hrb] at lf lk
  simp only [List.flatMap_cons, List.flatMap_nil, List.append_nil] at lf lk
  rw [if_neg hnb] at lf lk
  refine ⟨_, SplitBrushList.marked E node1 rb, hsp,
    bspbrush_t.unsplitOf_trans _ rb brush0 m1 (bspbrush_t.unsplitOf_static rb brush0 hrbs),
    by rw [← g5]; exact hlt, by simp [BuildTree_r.newnode], by simp [BuildTree_r.newnode],
    j0, j1, ?_⟩
  simp only
  rw [hrb]
  rcases hcls with h5 | h6
  · have hfr : rb.side &&& PSIDE_FRONT ≠ 0 := by rw [h5]; decide
    rw [if_pos hfr] at lf lk
    exact Or.inl ⟨lf, lk⟩
  · have hfr : ¬ rb.side &&& PSIDE_FRONT ≠ 0 := by rw [h6]; decide
    have hbk : rb.side &&& PSIDE_BACK ≠ 0 := by rw [h6]; decide
    rw [if_neg hfr] at lf lk
    rw [if_pos hbk] at lk
    exact Or.inr ⟨lf, lk⟩

/-- The build of a single brush that is handed down unsplit: with more fuel
than the brush has sides that are not onnode, `BuildTree_r` completes; the
tree has at most that many interior nodes, one leaf made from the brush, and
every other leaf is empty. -/
theorem BuildTree_r_single_aux (E : Ext) (G : gamedef_t)
    (hrefl : ∀ p, E.epsilonEqual p p = true)
    (hsym : ∀ p q, E.epsilonEqual p q = E.epsilonEqual q p)
    (b : bspbrush_t) (o : Nat) (fuel : Nat) :
    ∀ (m : Nat) (node : node_t) (b1 : bspbrush_t) (stats : bspstats_t),
      m < fuel → b1.freeSides ≤ m → b1.original = some o → node.volume.isSome = true →
      BuildTree_r.freshPlanes E node [b1] → b1.unsplitOf b →
      ∃ t stats1, BuildTree_r E G fuel node [b1] stats = BuildResult.done t stats1 ∧
        (∀ above, (t.interiors above).length ≤ m) ∧
        ∃ pre post b2,
          t.leaves = pre ++
            (G.combine_contents G.create_empty_contents b.contents, [o], [b2]) :: post ∧
          (∀ x ∈ pre ++ post, x = (G.create_empty_contents, [], [])) ∧
          b2.unsplitOf b := by
  induction fuel with
  | zero => intro m node b1 stats hm; omega
  | succ fuel ih =>
    intro m node b1 stats hm hfree ho hvol hfresh hun
    cases hsel : SelectSplitSide E [b1] node with
    | error e =>
      exfalso
      rcases SelectSplitSide_error_cases E [b1] node e hsel with ⟨-, b3, hb3, hn⟩ | ⟨-, hv⟩ |
        ⟨he, -⟩
      · simp only [List.mem_singleton] at hb3
        subst hb3
        rw [ho] at hn
        simp at hn
      · rw [hv] at hvol
        simp at hvol
      · rw [he] at hsel
        exact (BuildTree_r.freshPlanes_check E node [b1] hfresh).2 hsel
    | ok r =>
      cases hside : r.side with
      | none =>
        obtain ⟨fr1, -⟩ := SelectSplitSide_frame E [b1] node r hsel
        obtain ⟨rb, hrb, hrbs⟩ := singleton_static r.brushes b1 fr1
        have hrbun := bspbrush_t.unsplitOf_trans rb b1 b
          (bspbrush_t.unsplitOf_static rb b1 hrbs) hun
        have hl := LeafNode_single G r.node rb o { stats with c_leafs := stats.c_leafs + 1 }
          (by rw [hrbun.2.1, ← hun.2.1, ho])
        rw [← hrb] at hl
        refine ⟨_, _, BuildTree_r_leaf_eq E G fuel node [b1] stats _ r _ hsel hside hl, ?_, ?_⟩
        · intro above
          simp [nodetree.interiors]
        · refine ⟨[], [], rb, ?_, ?_, hrbun⟩
          · simp only [nodetree.leaves, List.nil_append, hrb, hrbun.2.2.1]
          · intro x hx; simp at hx
      | some bestside =>
        obtain ⟨s, b2, hsp, hb2un, hlt, hvf, hvk, j0, j1, hlists⟩ :=
          BuildTree_r.single_step E hrefl hsym node b1 r bestside hsel hside hfresh
        have hb2o : b2.original = some o := by rw [hb2un.2.1, ho]
        have hb2b := bspbrush_t.unsplitOf_trans b2 b1 b hb2un hun
        obtain ⟨fuel1, rfl⟩ : ∃ fuel1, fuel = fuel1 + 1 := ⟨fuel - 1, by omega⟩
        rcases hlists with ⟨lf, lk⟩ | ⟨lf, lk⟩
        · rw [lf] at j0
          obtain ⟨t0, stats2, hrun, hint, pre, post, b3, hleaves, hempty, hb3⟩ :=
            ih (m - 1) s.front.1 b2
              { stats with
                c_nodes := stats.c_nodes + 1,
                c_nonvis := if !bestside.visible then stats.c_nonvis + 1
                  else stats.c_nonvis }
              (by omega) (by omega) hb2o hvf j0 hb2b
          rw [← lf] at hrun
          have hrun1 : BuildTree_r E G (fuel1 + 1) s.back.1 s.back.2 stats2 =
              BuildResult.done (nodetree.leaf s.back.1 G.create_empty_contents [] [])
                { stats2 with c_leafs := stats2.c_leafs + 1,
                              leafstats := stats2.leafstats ++ [G.create_empty_contents] } := by
            rw [lk]; exact BuildTree_r_nil E G fuel1 s.back.1 stats2
          refine ⟨_, _, BuildTree_r_interior_eq E G (fuel1 + 1) node [b1] stats stats2 _ r
            bestside s t0 _ hsel hside hsp hrun hrun1, ?_, ?_⟩
          · intro above
            simp only [nodetree.interiors, List.length_cons, List.length_append,
              List.length_nil, Nat.add_zero]
            have := hint (s.node.plane :: above)
            omega
          · refine ⟨pre, post ++ [(G.create_empty_contents, [], [])], b3, ?_, ?_, hb3⟩
            · simp only [nodetree.leaves, hleaves, List.append_assoc, List.cons_append]
            · intro x hx
              simp only [List.mem_append, List.mem_singleton] at hx hempty
              rcases hx with hx | hx | hx
              · exact hempty x (Or.inl hx)
              · exact hempty x (Or.inr hx)
              · exact hx
        · rw [lk] at j1
          obtain ⟨st1, hst1⟩ : ∃ st1 : bspstats_t, st1 =
              { stats with
                c_nodes := stats.c_nodes + 1,
                c_nonvis := if !bestside.visible then stats.c_nonvis + 1
                  else stats.c_nonvis } := ⟨_, rfl⟩
          have hrun0 : BuildTree_r E G (fuel1 + 1) s.front.1 s.front.2 st1 =
              BuildResult.done (nodetree.leaf s.front.1 G.create_empty_contents [] [])
                { st1 with c_leafs := st1.c_leafs + 1,
                           leafstats := st1.leafstats ++ [G.create_empty_contents] } := by
            rw [lf]; exact BuildTree_r_nil E G fuel1 s.front.1 st1
          rw [hst1] at hrun0
          obtain ⟨t1, stats3, hrun, hint, pre, post, b3, hleaves, hempty, hb3⟩ :=
            ih (m - 1) s.back.1 b2 _ (by omega) (by omega) hb2o hvk j1 hb2b
          rw [← lk] at hrun
          refine ⟨_, _, BuildTree_r_interior_eq E G (fuel1 + 1) node [b1] stats _ stats3 r
            bestside s _ t1 hsel hside hsp hrun0 hrun, ?_, ?_⟩
          · intro above
            simp only [nodetree.interiors, List.length_cons, List.length_append,
              List.length_nil, Nat.zero_add]
            have := hint (s.node.plane :: above)
            omega
          · refine ⟨(G.create_empty_contents, [], []) :: pre, post, b3, ?_, ?_, hb3⟩
            · simp only [nodetree.leaves, hleaves, List.cons_append, List.nil_append,
                List.singleton_append]
            · intro x hx
              simp only [List.mem_append, List.mem_cons] at hx hempty
              rcases hx with (hx | hx) | hx
              · exact hx
              · exact hempty x (Or.inl hx)
              · exact hempty x (Or.inr hx)

/-! ## Evaluations of the build and of the search -/

theorem BuildResult.get_done (r : BuildResult) (h : r.isDone = true) :
    r = BuildResult.done r.get.1 r.get.2 := by
  cases r with
  | done t s => rfl
  | fatal e => simp [BuildResult.isDone] at h
  | outOfFuel => simp [BuildResult.isDone] at h

theorem except_ok_of_isSome {α : Type} (e : Except String α) (d : α)
    (h : e.toOption.isSome = true) : e = Except.ok (e.toOption.getD d) := by
  cases e with
  | error s => simp [Except.toOption] at h
  | ok a => rfl

theorem refEpsilonEqual_refl (p : qplane3d) : refExt.epsilonEqual p p = true := by
  simp [refExt, refEpsilonEqual]

theorem refEpsilonEqual_symm (p q : qplane3d) :
    refExt.epsilonEqual p q = refExt.epsilonEqual q p := by
  simp only [refExt, refEpsilonEqual, abs_sub_comm]

set_option maxRecDepth 100000 in
/-- The build of `twoSide` at the node `rootNode` completes with the tree and
the counters `builtTwo`. -/
theorem builtTwo_run :
    BuildTree_r refExt refGame 3 rootNode [twoSide] bspstats_t.zero =
      BuildResult.done builtTwo.1 builtTwo.2 :=
  BuildResult.get_done _ (by decide!)

set_option maxRecDepth 100000 in
/-- The tree `builtTwo` has two interior nodes, the second below the first. -/
theorem builtTwo_shape :
    (builtTwo.1.interiors []).map (fun x => (x.1.plane.normal, x.1.plane.dist, x.2.2.length)) =
      [(⟨1, 0, 0⟩, 8, 0), (⟨0, 1, 0⟩, -10, 1)] := by
  decide!

set_option maxRecDepth 100000 in
/-- The search on `plainX`, `plainY`, hint brush at the node `rootNode`
returns `searchRoot`. -/
theorem searchRoot_run :
    SelectSplitSide refExt [plainX, plainY, hintBrush] rootNode = Except.ok searchRoot :=
  except_ok_of_isSome _ _ (by decide!)

set_option maxRecDepth 100000 in
theorem searchRoot_best : searchRoot.bestside = some (2, 2) := by
  decide!

/-! ## Witnesses -/

/-- Witness of C11: the search on `plainX`, `plainY`, hint brush at the node
`rootNode` returns side 2 of brush 2. -/
theorem SelectSplitSide_returned_side_witness :
    ∃ brush side volume p v,
      searchRoot.brushes[2]? = some brush ∧ brush.sides[2]? = some side ∧
      side.bevel = false ∧ side.w ≠ [] ∧ side.onnode = false ∧
      refExt.is_hintskip side.texinfo = false ∧
      (∀ a ∈ rootNode.parents, refExt.epsilonEqual a.toqplane3d
        (from_plane side.plane.toqplane3d true).1.toqplane3d = false) ∧
      rootNode.volume = some volume ∧
      (SplitBrush refExt volume
        (from_plane side.plane.toqplane3d true).1.toqplane3d).front.isSome = true ∧
      (SplitBrush refExt volume
        (from_plane side.plane.toqplane3d true).1.toqplane3d).back.isSome = true ∧
      p ∈ [0, 1, 2, 3] ∧ Scored.mk p 2 2 v ∈ searchRoot.scored ∧
      (searchRoot.node = if p > 0 then { rootNode with detail_separator := true }
        else rootNode) ∧
      (side.visible = true ↔ p < 2) :=
  SelectSplitSide_returned_side refExt [plainX, plainY, hintBrush] rootNode searchRoot 2 2
    searchRoot_run searchRoot_best

/-- Witness of C17: the search on `plainX`, `plainY`, hint brush at the node
`rootNode`, which returns side 2 of brush 2. -/
theorem SelectSplitSide_stored_classification_witness :
    ∃ brush side,
      searchRoot.brushes[2]? = some brush ∧ brush.sides[2]? = some side ∧
      searchRoot.brushes.length = [plainX, plainY, hintBrush].length ∧
      ∀ b ∈ searchRoot.brushes, ∀ eb,
        b.side =
          (TestBrushToPlanenum refExt b (from_plane side.plane.toqplane3d true).1 eb).s :=
  SelectSplitSide_stored_classification refExt [plainX, plainY, hintBrush] rootNode
    searchRoot 2 2 searchRoot_run searchRoot_best

/-- Witness of C12: the tree built of `twoSide` at the node `rootNode`, whose
second interior node lies below the first. -/
theorem BuildTree_r_no_ancestor_plane_witness :
    BuildTree_r refExt refGame 3 rootNode [twoSide] bspstats_t.zero =
      BuildResult.done builtTwo.1 builtTwo.2 ∧
    (builtTwo.1.interiors []).map (fun x => (x.1.plane.normal, x.1.plane.dist, x.2.2.length)) =
      [(⟨1, 0, 0⟩, 8, 0), (⟨0, 1, 0⟩, -10, 1)] ∧
    ∀ x ∈ builtTwo.1.interiors rootNode.parents, ∀ a ∈ x.2.2,
      refExt.epsilonEqual a.toqplane3d x.1.plane.toqplane3d = false :=
  ⟨builtTwo_run, builtTwo_shape,
    BuildTree_r_no_ancestor_plane refExt refGame 3 rootNode [twoSide] bspstats_t.zero
      builtTwo.2 builtTwo.1 builtTwo_run⟩

/-- Witness of C15: the tree built of `twoSide` at the node `rootNode`. -/
theorem BuildTree_r_planes_from_input_witness :
    BuildTree_r refExt refGame 3 rootNode [twoSide] bspstats_t.zero =
      BuildResult.done builtTwo.1 builtTwo.2 ∧
    ∀ x ∈ builtTwo.1.interiors rootNode.parents,
      (∃ b0 ∈ [twoSide], ∃ s0 ∈ b0.sides,
        x.1.plane = (from_plane s0.plane.toqplane3d true).1 ∧
        ∃ w, x.2.1 = { s0 with w := w, tested := false }) ∧
      ∀ split mid i, x.2.1 ≠ SplitBrush.cap refExt split mid i :=
  ⟨builtTwo_run,
    BuildTree_r_planes_from_input refExt refGame 3 rootNode [twoSide] bspstats_t.zero
      builtTwo.2 builtTwo.1 builtTwo_run⟩

set_option maxRecDepth 100000 in
/-- Witness of C13: the build of `twoSide` at the node `rootNode`. -/
theorem BuildTree_r_never_tried_parent_witness :
    (∀ node1 bs1, BuildTree_r.Calls refExt rootNode [twoSide] node1 bs1 →
      (∀ b ∈ bs1, ∀ s ∈ b.sides, s.onnode = false →
        CheckPlaneAgainstParents refExt (from_plane s.plane.toqplane3d true).1 node1 = false) ∧
      SelectSplitSide refExt bs1 node1 ≠ Except.error "Tried parent") ∧
    ∀ fuel stats,
      BuildTree_r refExt refGame fuel rootNode [twoSide] stats ≠
        BuildResult.fatal "Tried parent" :=
  BuildTree_r_never_tried_parent refExt refGame rootNode [twoSide] refEpsilonEqual_symm rfl
    (by decide!)

/-- C16: for an input list of exactly one brush with `n` sides, planes stored
in canonical positive form, with an original, built from a root without
parent that has a volume, and with an epsilon comparison of planes that is
reflexive and symmetric: with more than `n` nested calls allowed,
`BuildTree_r` completes; the tree has at most `n` interior nodes; exactly one
leaf is made from the brush, it holds the brush not split (its sides are the
sides of the input with their windings, up to the flags `onnode` and
`tested`), records the original of the brush and has as contents the empty
contents combined with the contents of the brush; every other leaf has empty
contents, no original brushes and no brush. -/
theorem BuildTree_r_single_brush (E : Ext) (G : gamedef_t) (node : node_t) (b : bspbrush_t)
    (o : Nat) (fuel : Nat) (stats : bspstats_t)
    (hrefl : ∀ p, E.epsilonEqual p p = true)
    (hsym : ∀ p q, E.epsilonEqual p q = E.epsilonEqual q p)
    (hroot : node.parents = []) (hvol : node.volume.isSome = true)
    (ho : b.original = some o) (hcanon : ∀ s ∈ b.sides, s.plane.canonical)
    (hfuel : b.sides.length < fuel) :
    ∃ t stats1, BuildTree_r E G fuel node [b] stats = BuildResult.done t stats1 ∧
      (t.interiors node.parents).length ≤ b.sides.length ∧
      ∃ pre post b2,
        t.leaves = pre ++
          (G.combine_contents G.create_empty_contents b.contents, [o], [b2]) :: post ∧
        (∀ x ∈ pre ++ post, x = (G.create_empty_contents, [], [])) ∧
        b2.unsplitOf b := by
  have hfresh : BuildTree_r.freshPlanes E node [b] := by
    intro b1 hb1 s hs _
    simp only [List.mem_singleton] at hb1
    subst hb1
    refine ⟨hcanon s hs, ?_⟩
    rw [hroot]
    intro a ha
    simp at ha
  obtain ⟨t, stats1, hrun, hint, hleaves⟩ :=
    BuildTree_r_single_aux E G hrefl hsym b o fuel b.sides.length node b stats hfuel
      (by unfold bspbrush_t.freeSides; exact List.countP_le_length _) ho hvol hfresh
      ⟨rfl, rfl, rfl, rfl⟩
  exact ⟨t, stats1, hrun, hint node.parents, hleaves⟩

set_option maxRecDepth 100000 in
/-- Witness of C16: the build of the brush `twoSide`, which has 6 sides, at
the node `rootNode`. -/
theorem BuildTree_r_single_brush_witness :
    ∃ t stats1,
      BuildTree_r refExt refGame 7 rootNode [twoSide] bspstats_t.zero =
        BuildResult.done t stats1 ∧
      (t.interiors rootNode.parents).length ≤ twoSide.sides.length ∧
      ∃ pre post b2,
        t.leaves = pre ++
          (refGame.combine_contents refGame.create_empty_contents twoSide.contents, [0], [b2])
            :: post ∧
        (∀ x ∈ pre ++ post, x = (refGame.create_empty_contents, [], [])) ∧
        b2.unsplitOf twoSide :=
  BuildTree_r_single_brush refExt refGame rootNode twoSide 0 7 bspstats_t.zero
    refEpsilonEqual_refl refEpsilonEqual_symm rfl rfl (by decide!) (by decide!) (by decide!)

set_option maxRecDepth 100000 in
/-- Witness of C14: the brush `plainX`, which has a side on the plane
`x = 8`. -/
theorem TestBrushToPlanenum_facing_no_splits_witness :
    (TestBrushToPlanenum refExt plainX planeX8 0).s &&& PSIDE_FACING ≠ 0 ∧
    (TestBrushToPlanenum refExt plainX planeX8 0).numsplits = 0 :=
  ⟨by decide!, (TestBrushToPlanenum_facing_no_splits refExt).1 plainX planeX8 0 (by decide!)⟩

set_option maxRecDepth 100000 in
/-- Witness of C18: the brush `plainX`, whose side 0 is on the plane `x = 8`
and not flipped. -/
theorem TestBrushToPlanenum_first_equal_side_witness :
    plainX.sides.find?
        (fun s => refExt.epsilonEqual s.plane.toqplane3d planeX8.toqplane3d) =
      some (plainX.sides.getD 0 side_t.zero) ∧
    (TestBrushToPlanenum refExt plainX planeX8 0 =
      { s := if (plainX.sides.getD 0 side_t.zero).plane_flipped = true
          then PSIDE_FRONT ||| PSIDE_FACING else PSIDE_BACK ||| PSIDE_FACING,
        numsplits := 0, hintsplit := false, epsilonbrush := 0 } ∧
    PSIDE_FRONT ||| PSIDE_FACING = 5 ∧ PSIDE_BACK ||| PSIDE_FACING = 6 ∧
    refExt.epsilonEqual (plainX.sides.getD 0 side_t.zero).plane.toqplane3d
      planeX8.toqplane3d = true ∧
    ((plainX.sides.getD 0 side_t.zero).plane_flipped = false →
      (plainX.sides.getD 0 side_t.zero).outwardNormal =
        (plainX.sides.getD 0 side_t.zero).plane.normal)) :=
  ⟨by decide!, TestBrushToPlanenum_first_equal_side refExt plainX planeX8 0
    (plainX.sides.getD 0 side_t.zero) (by decide!)⟩

set_option maxRecDepth 100000 in
/-- Witness of C19: the cube `visCube` against the plane `slantPlane`, which
cuts through it. -/
theorem TestBrushToPlanenum_both_witness :
    (∀ s ∈ visCube.sides,
      refExt.epsilonEqual s.plane.toqplane3d slantPlane.toqplane3d = false) ∧
    BoxOnPlaneSide visCube.bounds slantPlane = PSIDE_BOTH ∧
    (TestBrushToPlanenum refExt visCube slantPlane 0).s = PSIDE_BOTH ∧
    (TestBrushToPlanenum refExt visCube slantPlane 0).numsplits =
      (visCube.sides.countP (splitsSide refExt slantPlane) : Int) ∧
    ((TestBrushToPlanenum refExt visCube slantPlane 0).hintsplit = true ↔
      ∃ s ∈ visCube.sides,
        splitsSide refExt slantPlane s = true ∧ refExt.is_hint s.texinfo = true) :=
  ⟨by decide!, by decide!,
    TestBrushToPlanenum_both refExt visCube slantPlane 0 (by decide!) (by decide!)⟩

set_option maxRecDepth 100000 in
/-- Witness of C20 (amended): the cube `visCube` against the plane
`x = 31/2`; every vertex in front of the plane lies 1/2 in front of it. -/
theorem TestBrushToPlanenum_epsilonbrush_witness :
    ((((∃ pt ∈ scannedPoints visCube.sides, 0 < planeDist nearPlane pt) ∧
          ∀ pt ∈ scannedPoints visCube.sides, planeDist nearPlane pt < 1) ∨
        ((∃ pt ∈ scannedPoints visCube.sides, planeDist nearPlane pt < 0) ∧
          ∀ pt ∈ scannedPoints visCube.sides, -1 < planeDist nearPlane pt)) →
      (TestBrushToPlanenum refExt visCube nearPlane 0).epsilonbrush = 0 + 1) ∧
    (¬ (((∃ pt ∈ scannedPoints visCube.sides, 0 < planeDist nearPlane pt) ∧
          ∀ pt ∈ scannedPoints visCube.sides, planeDist nearPlane pt < 1) ∨
        ((∃ pt ∈ scannedPoints visCube.sides, planeDist nearPlane pt < 0) ∧
          ∀ pt ∈ scannedPoints visCube.sides, -1 < planeDist nearPlane pt)) →
      (TestBrushToPlanenum refExt visCube nearPlane 0).epsilonbrush = 0) ∧
    ((TestBrushToPlanenum refExt visCube nearPlane 0).epsilonbrush = 0 + 1 →
      ∃ pt ∈ scannedPoints visCube.sides,
        (0 < planeDist nearPlane pt ∧ planeDist nearPlane pt < 1) ∨
        (-1 < planeDist nearPlane pt ∧ planeDist nearPlane pt < 0)) :=
  TestBrushToPlanenum_epsilonbrush refExt visCube nearPlane 0 (by decide!) (by decide!)

set_option maxRecDepth 100000 in
/-- C20 as stated fails: the cube `visCube` against the plane `slantPlane` is
in the BOTH case, its vertex (0,16,0) lies at the signed distance 1/2 from the
plane, strictly between 0 and 1, yet `epsilonbrush` is not incremented: the
largest distance in front is 101/10 and the largest behind is 123/10. -/
theorem TestBrushToPlanenum_epsilonbrush_counterexample :
    (∀ s ∈ visCube.sides,
      refExt.epsilonEqual s.plane.toqplane3d slantPlane.toqplane3d = false) ∧
    BoxOnPlaneSide visCube.bounds slantPlane = PSIDE_BOTH ∧
    (⟨0, 16, 0⟩ : qvec3d) ∈ scannedPoints visCube.sides ∧
    planeDist slantPlane ⟨0, 16, 0⟩ = 1 / 2 ∧
    (TestBrushToPlanenum refExt visCube slantPlane 0).epsilonbrush = 0 := by
  refine ⟨by decide!, by decide!, by decide!, by decide!, by decide!⟩

/-! ## Canonicalisation of planes -/

/-- The function `from_plane` case by case: the first component, in X, Y, Z
order, that is exactly 1 or −1 makes the plane axial; without one the plane
keeps its normal up to the flip. -/
theorem from_plane_eq (q : qplane3d) (flip : Bool) :
    from_plane q flip =
      if q.normal.x = 1 then
        ({ normal := ⟨1, 0, 0⟩, dist := q.dist, type := plane_type_t.PLANE_X }, false)
      else if q.normal.x = -1 then
        ({ normal := ⟨if flip then 1 else -1, 0, 0⟩, dist := if flip then -q.dist else q.dist,
           type := plane_type_t.PLANE_X }, flip)
      else if q.normal.y = 1 then
        ({ normal := ⟨0, 1, 0⟩, dist := q.dist, type := plane_type_t.PLANE_Y }, false)
      else if q.normal.y = -1 then
        ({ normal := ⟨0, if flip then 1 else -1, 0⟩, dist := if flip then -q.dist else q.dist,
           type := plane_type_t.PLANE_Y }, flip)
      else if q.normal.z = 1 then
        ({ normal := ⟨0, 0, 1⟩, dist := q.dist, type := plane_type_t.PLANE_Z }, false)
      else if q.normal.z = -1 then
        ({ normal := ⟨0, 0, if flip then 1 else -1⟩, dist := if flip then -q.dist else q.dist,
           type := plane_type_t.PLANE_Z }, flip)
      else from_plane_any { toqplane3d := q } flip := by
  obtain ⟨⟨x, y, z⟩, d⟩ := q
  unfold from_plane
  simp only [from_plane_axis, Nat.cast_ofNat, Nat.cast_zero, Nat.cast_one, qvec3d.get]
  by_cases hx1 : x = 1
  · subst hx1; simp [qvec3d.set, axisType]
  by_cases hx2 : x = -1
  · subst hx2; cases flip <;> simp [qvec3d.set, axisType] <;> norm_num
  by_cases hy1 : y = 1
  · subst hy1; simp [qvec3d.set, axisType, hx1, hx2]
  by_cases hy2 : y = -1
  · subst hy2; cases flip <;> simp [qvec3d.set, axisType, hx1, hx2] <;> norm_num
  by_cases hz1 : z = 1
  · subst hz1; simp [qvec3d.set, axisType, hx1, hx2, hy1, hy2]
  by_cases hz2 : z = -1
  · subst hz2; cases flip <;> simp [qvec3d.set, axisType, hx1, hx2, hy1, hy2] <;> norm_num
  simp only [hx1, hx2, hy1, hy2, hz1, hz2, if_false]

theorem dominantAxis_eq (n : qvec3d) :
    dominantAxis n =
      if |n.x| ≥ |n.y| ∧ |n.x| ≥ |n.z| then 0
      else if |n.y| ≥ |n.x| ∧ |n.y| ≥ |n.z| then 1 else 2 := by
  obtain ⟨x, y, z⟩ := n
  simp only [dominantAxis, List.find?_cons, List.find?_nil, qvec3d.get, List.mem_cons,
    List.mem_singleton, List.not_mem_nil, or_false, forall_eq_or_imp, forall_eq,
    Nat.cast_zero, Nat.cast_one, Nat.cast_ofNat, le_refl, true_and, and_true, ge_iff_le]
  by_cases h0 : |y| ≤ |x| ∧ |z| ≤ |x|
  · simp [h0]
  · by_cases h1 : |x| ≤ |y| ∧ |z| ≤ |y|
    · simp [h0, h1]
    · simp [h0, h1]
      split <;> simp_all

theorem from_plane_any_eq (q : qplane3d) (flip : Bool) :
    from_plane_any { toqplane3d := q } flip =
      if flip = true ∧ q.normal.get (dominantAxis q.normal) < 0 then
        ({ toqplane3d := q.neg,
           type := if dominantAxis q.normal = 0 then plane_type_t.PLANE_ANYX
             else if dominantAxis q.normal = 1 then plane_type_t.PLANE_ANYY
             else plane_type_t.PLANE_ANYZ }, true)
      else
        ({ toqplane3d := q,
           type := if dominantAxis q.normal = 0 then plane_type_t.PLANE_ANYX
             else if dominantAxis q.normal = 1 then plane_type_t.PLANE_ANYY
             else plane_type_t.PLANE_ANYZ }, false) := by
  obtain ⟨⟨x, y, z⟩, d⟩ := q
  rw [dominantAxis_eq]
  unfold from_plane_any
  simp only
  by_cases h0 : |x| ≥ |y| ∧ |x| ≥ |z|
  · simp only [h0, and_self, if_true, qvec3d.get, Nat.cast_zero, qbsp_plane_t.neg]
  · by_cases h1 : |y| ≥ |x| ∧ |y| ≥ |z|
    · simp only [h0, h1, and_self, if_true, if_false, qvec3d.get, Nat.cast_one,
        qbsp_plane_t.neg]
      rfl
    · simp only [h0, h1, if_false, qvec3d.get, Nat.cast_ofNat, qbsp_plane_t.neg]
      rfl

theorem dominantAxis_neg (n : qvec3d) : dominantAxis n.neg = dominantAxis n := by
  rw [dominantAxis_eq, dominantAxis_eq]
  simp only [qvec3d.neg, abs_neg]

theorem dominantAxis_cases (n : qvec3d) :
    dominantAxis n = 0 ∨ dominantAxis n = 1 ∨ dominantAxis n = 2 := by
  rw [dominantAxis_eq]
  split_ifs <;> simp

theorem get_neg (n : qvec3d) (i : Int) : n.neg.get i = -n.get i := by
  unfold qvec3d.get qvec3d.neg
  split <;> simp

/-- C28: canonicalisation is idempotent: for every plane and either value of
`flip`, `from_plane` applied to the plane returned by `from_plane` returns the
same plane (normal, distance and type), and with `flip = true` the second
application reports `was_flipped = false`. -/
theorem from_plane_idempotent (p : qplane3d) (flip : Bool) :
    (from_plane (from_plane p flip).1.toqplane3d flip).1 = (from_plane p flip).1 ∧
    (from_plane (from_plane p true).1.toqplane3d true).2 = false := by
  have key : ∀ flip : Bool,
      (from_plane (from_plane p flip).1.toqplane3d flip).1 = (from_plane p flip).1 ∧
      (flip = true → (from_plane (from_plane p flip).1.toqplane3d flip).2 = false) := by
    intro flip
    rw [from_plane_eq p flip]
    by_cases hx1 : p.normal.x = 1
    · rw [if_pos hx1, from_plane_eq]; simp
    rw [if_neg hx1]
    by_cases hx2 : p.normal.x = -1
    · rw [if_pos hx2, from_plane_eq]; cases flip <;> (simp; try norm_num)
    rw [if_neg hx2]
    by_cases hy1 : p.normal.y = 1
    · rw [if_pos hy1, from_plane_eq]; simp
    rw [if_neg hy1]
    by_cases hy2 : p.normal.y = -1
    · rw [if_pos hy2, from_plane_eq]; cases flip <;> (simp; try norm_num)
    rw [if_neg hy2]
    by_cases hz1 : p.normal.z = 1
    · rw [if_pos hz1, from_plane_eq]; simp
    rw [if_neg hz1]
    by_cases hz2 : p.normal.z = -1
    · rw [if_pos hz2, from_plane_eq]; cases flip <;> (simp; try norm_num)
    rw [if_neg hz2, from_plane_any_eq]
    by_cases hf : flip = true ∧ p.normal.get (dominantAxis p.normal) < 0
    · rw [if_pos hf]
      simp only
      have n1 : ¬ p.neg.normal.x = 1 := by
        simp only [qplane3d.neg, qvec3d.neg]; intro h; apply hx2; linarith
      have n2 : ¬ p.neg.normal.x = -1 := by
        simp only [qplane3d.neg, qvec3d.neg]; intro h; apply hx1; linarith
      have n3 : ¬ p.neg.normal.y = 1 := by
        simp only [qplane3d.neg, qvec3d.neg]; intro h; apply hy2; linarith
      have n4 : ¬ p.neg.normal.y = -1 := by
        simp only [qplane3d.neg, qvec3d.neg]; intro h; apply hy1; linarith
      have n5 : ¬ p.neg.normal.z = 1 := by
        simp only [qplane3d.neg, qvec3d.neg]; intro h; apply hz2; linarith
      have n6 : ¬ p.neg.normal.z = -1 := by
        simp only [qplane3d.neg, qvec3d.neg]; intro h; apply hz1; linarith
      rw [from_plane_eq, if_neg n1, if_neg n2, if_neg n3, if_neg n4, if_neg n5, if_neg n6,
        from_plane_any_eq]
      have hd : dominantAxis p.neg.normal = dominantAxis p.normal := by
        simp only [qplane3d.neg]; exact dominantAxis_neg _
      have hnn : ¬ (flip = true ∧ p.neg.normal.get (dominantAxis p.neg.normal) < 0) := by
        rw [hd]
        simp only [qplane3d.neg, get_neg]
        intro h
        linarith [hf.2, h.2]
      rw [if_neg hnn, hd]
      exact ⟨rfl, fun _ => rfl⟩
    · rw [if_neg hf]
      simp only
      rw [from_plane_eq, if_neg hx1, if_neg hx2, if_neg hy1, if_neg hy2, if_neg hz1,
        if_neg hz2, from_plane_any_eq, if_neg hf]
      exact ⟨rfl, fun _ => rfl⟩
  exact ⟨(key flip).1, (key true).2 rfl⟩

/-- C27: for every plane `p` with unit normal, `from_plane` with `flip = true`
returns `p` itself (same normal and distance) when `was_flipped` is false and
the negated plane when `was_flipped` is true; `was_flipped` is true exactly
when the component of the normal on the dominant axis (largest magnitude,
first in X, Y, Z order on ties) is negative; the returned normal has the same
dominant axis and is non-negative on it. -/
theorem from_plane_unit_flip (p : qplane3d)
    (h : p.normal.x ^ 2 + p.normal.y ^ 2 + p.normal.z ^ 2 = 1) :
    ((from_plane p true).2 = false → (from_plane p true).1.toqplane3d = p) ∧
    ((from_plane p true).2 = true → (from_plane p true).1.toqplane3d = p.neg) ∧
    ((from_plane p true).2 = true ↔ p.normal.get (dominantAxis p.normal) < 0) ∧
    dominantAxis (from_plane p true).1.normal = dominantAxis p.normal ∧
    0 ≤ (from_plane p true).1.normal.get (dominantAxis p.normal) := by
  obtain ⟨⟨x, y, z⟩, d⟩ := p
  simp only at h
  rw [from_plane_eq]
  simp only
  by_cases hx1 : x = 1
  · have hy : y = 0 := sq_sum_zero_left y z (by rw [hx1] at h; linarith)
    have hz : z = 0 := sq_sum_zero_right y z (by rw [hx1] at h; linarith)
    subst hx1 hy hz
    simp [dominantAxis_eq, qvec3d.get]
  rw [if_neg hx1]
  by_cases hx2 : x = -1
  · have hy : y = 0 := sq_sum_zero_left y z (by rw [hx2] at h; linarith)
    have hz : z = 0 := sq_sum_zero_right y z (by rw [hx2] at h; linarith)
    subst hx2 hy hz
    simp [dominantAxis_eq, qvec3d.get, qplane3d.neg, qvec3d.neg]
  rw [if_neg hx2]
  by_cases hy1 : y = 1
  · have hx : x = 0 := sq_sum_zero_left x z (by rw [hy1] at h; linarith)
    have hz : z = 0 := sq_sum_zero_right x z (by rw [hy1] at h; linarith)
    subst hy1 hx hz
    norm_num [dominantAxis_eq, qvec3d.get]
  rw [if_neg hy1]
  by_cases hy2 : y = -1
  · have hx : x = 0 := sq_sum_zero_left x z (by rw [hy2] at h; linarith)
    have hz : z = 0 := sq_sum_zero_right x z (by rw [hy2] at h; linarith)
    subst hy2 hx hz
    norm_num [dominantAxis_eq, qvec3d.get, qplane3d.neg, qvec3d.neg]
  rw [if_neg hy2]
  by_cases hz1 : z = 1
  · have hx : x = 0 := sq_sum_zero_left x y (by rw [hz1] at h; linarith)
    have hy : y = 0 := sq_sum_zero_right x y (by rw [hz1] at h; linarith)
    subst hz1 hx hy
    norm_num [dominantAxis_eq, qvec3d.get]
  rw [if_neg hz1]
  by_cases hz2 : z = -1
  · have hx : x = 0 := sq_sum_zero_left x y (by rw [hz2] at h; linarith)
    have hy : y = 0 := sq_sum_zero_right x y (by rw [hz2] at h; linarith)
    subst hz2 hx hy
    norm_num [dominantAxis_eq, qvec3d.get, qplane3d.neg, qvec3d.neg]
  rw [if_neg hz2, from_plane_any_eq]
  by_cases hf : (true = true) ∧
      (⟨⟨x, y, z⟩, d⟩ : qplane3d).normal.get (dominantAxis (⟨⟨x, y, z⟩, d⟩ : qplane3d).normal) < 0
  · rw [if_pos hf]
    simp only [qplane3d.neg, dominantAxis_neg, get_neg]
    refine ⟨by simp, by simp, by simpa using hf.2, trivial, ?_⟩
    have := hf.2
    simp only at this
    linarith
  · rw [if_neg hf]
    simp only
    refine ⟨by simp, by simp, ?_, trivial, ?_⟩
    · simp only [Bool.false_eq_true, false_iff]
      intro hlt
      exact hf ⟨rfl, hlt⟩
    · by_contra hneg
      exact hf ⟨rfl, lt_of_not_le hneg⟩

/-- Witness of C27: the plane with normal (−3/5, 4/5, 0) at distance 2, whose
dominant axis is y with a positive component, so it is not flipped. -/
theorem from_plane_unit_flip_witness :
    (-3 / 5 : vec_t) ^ 2 + (4 / 5) ^ 2 + 0 ^ 2 = 1 ∧
    ((from_plane ⟨⟨-3 / 5, 4 / 5, 0⟩, 2⟩ true).2 = false →
      (from_plane ⟨⟨-3 / 5, 4 / 5, 0⟩, 2⟩ true).1.toqplane3d = ⟨⟨-3 / 5, 4 / 5, 0⟩, 2⟩) ∧
    ((from_plane ⟨⟨-3 / 5, 4 / 5, 0⟩, 2⟩ true).2 = true →
      (from_plane ⟨⟨-3 / 5, 4 / 5, 0⟩, 2⟩ true).1.toqplane3d =
        (⟨⟨-3 / 5, 4 / 5, 0⟩, 2⟩ : qplane3d).neg) ∧
    ((from_plane ⟨⟨-3 / 5, 4 / 5, 0⟩, 2⟩ true).2 = true ↔
      (⟨-3 / 5, 4 / 5, 0⟩ : qvec3d).get (dominantAxis ⟨-3 / 5, 4 / 5, 0⟩) < 0) ∧
    dominantAxis (from_plane ⟨⟨-3 / 5, 4 / 5, 0⟩, 2⟩ true).1.normal =
      dominantAxis ⟨-3 / 5, 4 / 5, 0⟩ ∧
    0 ≤ (from_plane ⟨⟨-3 / 5, 4 / 5, 0⟩, 2⟩ true).1.normal.get
      (dominantAxis ⟨-3 / 5, 4 / 5, 0⟩) :=
  ⟨by norm_num, from_plane_unit_flip ⟨⟨-3 / 5, 4 / 5, 0⟩, 2⟩ (by norm_num)⟩

theorem from_plane_normal_near_x (x y z d : vec_t) (hy : |y| ≤ 1 / 1000000)
    (hz : |z| ≤ 1 / 1000000) (hx : 1 / 2 ≤ |x|) :
    (from_plane ⟨⟨x, y, z⟩, d⟩ true).1.normal =
      if x = 1 ∨ x = -1 then ⟨1, 0, 0⟩ else if x < 0 then ⟨-x, -y, -z⟩ else ⟨x, y, z⟩ := by
  have hy1 := abs_le.1 hy
  have hz1 := abs_le.1 hz
  have hd : dominantAxis ⟨x, y, z⟩ = 0 := by
    rw [dominantAxis_eq, if_pos]
    simp only
    exact ⟨by linarith, by linarith⟩
  rw [from_plane_eq, from_plane_any_eq]
  simp only [hd, qvec3d.get]
  by_cases hx1 : x = 1
  · simp [hx1]
  by_cases hx2 : x = -1
  · simp [hx2]; norm_num
  have n1 : ¬ y = 1 := by intro h; rw [h] at hy1; linarith [hy1.2]
  have n2 : ¬ y = -1 := by intro h; rw [h] at hy1; linarith [hy1.1]
  have n3 : ¬ z = 1 := by intro h; rw [h] at hz1; linarith [hz1.2]
  have n4 : ¬ z = -1 := by intro h; rw [h] at hz1; linarith [hz1.1]
  simp only [hx1, hx2, n1, n2, n3, n4, if_false, or_self, true_and]
  by_cases hneg : x < 0
  · simp [hneg, qplane3d.neg, qvec3d.neg]
  · simp [hneg]

theorem from_plane_normal_near_y (x y z d : vec_t) (hx : |x| ≤ 1 / 1000000)
    (hz : |z| ≤ 1 / 1000000) (hy : 1 / 2 ≤ |y|) :
    (from_plane ⟨⟨x, y, z⟩, d⟩ true).1.normal =
      if y = 1 ∨ y = -1 then ⟨0, 1, 0⟩ else if y < 0 then ⟨-x, -y, -z⟩ else ⟨x, y, z⟩ := by
  have hx1 := abs_le.1 hx
  have hz1 := abs_le.1 hz
  have hd : dominantAxis ⟨x, y, z⟩ = 1 := by
    rw [dominantAxis_eq, if_neg, if_pos]
    · simp only
      exact ⟨by linarith, by linarith⟩
    · simp only
      intro h
      linarith [h.1]
  rw [from_plane_eq, from_plane_any_eq]
  simp only [hd, qvec3d.get]
  have n1 : ¬ x = 1 := by intro h; rw [h] at hx1; linarith [hx1.2]
  have n2 : ¬ x = -1 := by intro h; rw [h] at hx1; linarith [hx1.1]
  have n3 : ¬ z = 1 := by intro h; rw [h] at hz1; linarith [hz1.2]
  have n4 : ¬ z = -1 := by intro h; rw [h] at hz1; linarith [hz1.1]
  by_cases hy1 : y = 1
  · simp [hy1, n1, n2]
  by_cases hy2 : y = -1
  · simp [hy2, n1, n2]; norm_num
  simp only [hy1, hy2, n1, n2, n3, n4, if_false, or_self, true_and]
  by_cases hneg : y < 0
  · simp [hneg, qplane3d.neg, qvec3d.neg]
  · simp [hneg]

theorem from_plane_normal_near_z (x y z d : vec_t) (hx : |x| ≤ 1 / 1000000)
    (hy : |y| ≤ 1 / 1000000) (hz : 1 / 2 ≤ |z|) :
    (from_plane ⟨⟨x, y, z⟩, d⟩ true).1.normal =
      if z = 1 ∨ z = -1 then ⟨0, 0, 1⟩ else if z < 0 then ⟨-x, -y, -z⟩ else ⟨x, y, z⟩ := by
  have hx1 := abs_le.1 hx
  have hy1 := abs_le.1 hy
  have hd : dominantAxis ⟨x, y, z⟩ = 2 := by
    rw [dominantAxis_eq, if_neg, if_neg]
    · simp only
      intro h
      linarith [h.2]
    · simp only
      intro h
      linarith [h.2]
  rw [from_plane_eq, from_plane_any_eq]
  simp only [hd, qvec3d.get]
  have n1 : ¬ x = 1 := by intro h; rw [h] at hx1; linarith [hx1.2]
  have n2 : ¬ x = -1 := by intro h; rw [h] at hx1; linarith [hx1.1]
  have n3 : ¬ y = 1 := by intro h; rw [h] at hy1; linarith [hy1.2]
  have n4 : ¬ y = -1 := by intro h; rw [h] at hy1; linarith [hy1.1]
  by_cases hz1 : z = 1
  · simp [hz1, n1, n2, n3, n4]
  by_cases hz2 : z = -1
  · simp [hz2, n1, n2, n3, n4]; norm_num
  simp only [hz1, hz2, n1, n2, n3, n4, if_false, or_self, true_and]
  by_cases hneg : z < 0
  · simp [hneg, qplane3d.neg, qvec3d.neg]
  · simp [hneg]

theorem near_half (a s : ℚ) (hs : s = 1 ∨ s = -1) (h : |a - s| ≤ 1 / 1000000) :
    1 / 2 ≤ |a| ∧ (s = 1 → 0 < a) ∧ (s = -1 → a < 0) ∧ a ≠ -s := by
  have h1 := abs_le.1 h
  rcases hs with rfl | rfl
  · have : 0 < a := by linarith [h1.1]
    refine ⟨by rw [abs_of_pos this]; linarith [h1.1], fun _ => this, by norm_num, ?_⟩
    intro h2; linarith
  · have : a < 0 := by linarith [h1.2]
    refine ⟨by rw [abs_of_neg this]; linarith [h1.2], by norm_num, fun _ => this, ?_⟩
    intro h2; linarith

/-- C26 (amended): for every plane whose normal is within 10⁻⁶ of a
coordinate axis, in the positive or the negative direction, `from_plane` with
`flip = true` returns a normal that is strictly positive on that axis.  When
the component on that axis is exactly 1 or −1 the returned normal is exactly
the positive unit vector of the axis; otherwise nothing is snapped: every
component keeps its magnitude, so another component is zero only if it was
zero. -/
theorem from_plane_near_axis (q : qplane3d) (i : Int) (s : vec_t)
    (hi : i ∈ ([0, 1, 2] : List Int)) (hs : s = 1 ∨ s = -1)
    (hnear : nearAxis q.normal i s) :
    0 < (from_plane q true).1.normal.get i ∧
    (q.normal.get i = s →
      (from_plane q true).1.normal.get i = 1 ∧
      ∀ j ∈ ([0, 1, 2] : List Int), j ≠ i → (from_plane q true).1.normal.get j = 0) ∧
    (q.normal.get i ≠ s →
      ∀ j ∈ ([0, 1, 2] : List Int),
        |(from_plane q true).1.normal.get j| = |q.normal.get j|) := by
  obtain ⟨⟨x, y, z⟩, d⟩ := q
  obtain ⟨h1, h2⟩ := hnear
  simp only [List.mem_cons, List.mem_singleton, List.not_mem_nil, or_false] at hi
  simp only [List.mem_cons, List.mem_singleton, List.not_mem_nil, or_false, forall_eq_or_imp,
    forall_eq, qvec3d.get] at h2 ⊢
  rcases hi with rfl | rfl | rfl
  · simp only [qvec3d.get] at h1 ⊢
    simp only [ne_eq, not_true_eq_false, false_implies, true_and, one_ne_zero,
      not_false_eq_true, true_implies, OfNat.ofNat_ne_zero, OfNat.ofNat_ne_one] at h2 ⊢
    obtain ⟨hy, hz⟩ := h2
    obtain ⟨g1, g2, g3, g4⟩ := near_half x s hs h1
    rw [from_plane_normal_near_x x y z d hy hz g1]
    by_cases hx : x = 1 ∨ x = -1
    · rw [if_pos hx]
      simp only [zero_lt_one, and_self, implies_true, true_and]
      intro hne
      rcases hs with rfl | rfl
      · rcases hx with hx | hx
        · exact absurd hx hne
        · exact absurd hx (by simpa using g4)
      · rcases hx with hx | hx
        · exact absurd hx (by simpa using g4)
        · exact absurd hx hne
    · rw [if_neg hx]
      push_neg at hx
      rcases hs with rfl | rfl
      · have hpos := g2 rfl
        rw [if_neg (not_lt.2 hpos.le)]
        exact ⟨hpos, fun h => absurd h hx.1, fun _ => ⟨rfl, rfl, rfl⟩⟩
      · have hneg := g3 rfl
        rw [if_pos hneg]
        simp only [abs_neg]
        exact ⟨by linarith, fun h => absurd h hx.2, fun _ => ⟨trivial, trivial, trivial⟩⟩
  · simp only [qvec3d.get] at h1 ⊢
    simp only [ne_eq, not_true_eq_false, false_implies, true_and, and_true, one_ne_zero,
      zero_ne_one, not_false_eq_true, true_implies, OfNat.ofNat_ne_zero,
      OfNat.ofNat_ne_one] at h2 ⊢
    obtain ⟨hx0, hz⟩ := h2
    obtain ⟨g1, g2, g3, g4⟩ := near_half y s hs h1
    rw [from_plane_normal_near_y x y z d hx0 hz g1]
    by_cases hx : y = 1 ∨ y = -1
    · rw [if_pos hx]
      simp only [zero_lt_one, and_self, implies_true, true_and]
      intro hne
      rcases hs with rfl | rfl
      · rcases hx with hx | hx
        · exact absurd hx hne
        · exact absurd hx (by simpa using g4)
      · rcases hx with hx | hx
        · exact absurd hx (by simpa using g4)
        · exact absurd hx hne
    · rw [if_neg hx]
      push_neg at hx
      rcases hs with rfl | rfl
      · have hpos := g2 rfl
        rw [if_neg (not_lt.2 hpos.le)]
        exact ⟨hpos, fun h => absurd h hx.1, fun _ => ⟨rfl, rfl, rfl⟩⟩
      · have hneg := g3 rfl
        rw [if_pos hneg]
        simp only [abs_neg]
        exact ⟨by linarith, fun h => absurd h hx.2, fun _ => ⟨trivial, trivial, trivial⟩⟩
  · simp only [qvec3d.get] at h1 ⊢
    simp only [ne_eq, not_true_eq_false, false_implies, true_and, and_true, one_ne_zero,
      zero_ne_one, not_false_eq_true, true_implies, OfNat.ofNat_ne_zero,
      OfNat.ofNat_ne_one, OfNat.zero_ne_ofNat, OfNat.one_ne_ofNat] at h2 ⊢
    obtain ⟨hx0, hy⟩ := h2
    obtain ⟨g1, g2, g3, g4⟩ := near_half z s hs h1
    rw [from_plane_normal_near_z x y z d hx0 hy g1]
    by_cases hx : z = 1 ∨ z = -1
    · rw [if_pos hx]
      simp only [zero_lt_one, and_self, implies_true, true_and]
      intro hne
      rcases hs with rfl | rfl
      · rcases hx with hx | hx
        · exact absurd hx hne
        · exact absurd hx (by simpa using g4)
      · rcases hx with hx | hx
        · exact absurd hx (by simpa using g4)
        · exact absurd hx hne
    · rw [if_neg hx]
      push_neg at hx
      rcases hs with rfl | rfl
      · have hpos := g2 rfl
        rw [if_neg (not_lt.2 hpos.le)]
        exact ⟨hpos, fun h => absurd h hx.1, fun _ => ⟨rfl, rfl, rfl⟩⟩
      · have hneg := g3 rfl
        rw [if_pos hneg]
        simp only [abs_neg]
        exact ⟨by linarith, fun h => absurd h hx.2, fun _ => ⟨trivial, trivial, trivial⟩⟩

/-- Witness of C26 (amended): the plane `tiltedPlane`, whose unit normal is
within 10⁻⁶ of the X axis without being on it. -/
theorem from_plane_near_axis_witness :
    nearAxis tiltedPlane.normal 0 1 ∧
    0 < (from_plane tiltedPlane true).1.normal.get 0 ∧
    (tiltedPlane.normal.get 0 = 1 →
      (from_plane tiltedPlane true).1.normal.get 0 = 1 ∧
      ∀ j ∈ ([0, 1, 2] : List Int), j ≠ 0 → (from_plane tiltedPlane true).1.normal.get j = 0) ∧
    (tiltedPlane.normal.get 0 ≠ 1 →
      ∀ j ∈ ([0, 1, 2] : List Int),
        |(from_plane tiltedPlane true).1.normal.get j| = |tiltedPlane.normal.get j|) :=
  ⟨by decide!, from_plane_near_axis tiltedPlane 0 1 (by decide) (Or.inl rfl) (by decide!)⟩

/-- C26 as stated fails: the normal of `tiltedPlane` is a unit vector within
10⁻⁶ of the X axis, yet the plane that `from_plane` returns with `flip = true`
keeps the Y component 20000000/100000000000001 of the normal, which is not
zero: only a component that is exactly 1 or −1 makes the plane axial. -/
theorem from_plane_near_axis_counterexample :
    nearAxis tiltedPlane.normal 0 1 ∧
    tiltedPlane.normal.x ^ 2 + tiltedPlane.normal.y ^ 2 + tiltedPlane.normal.z ^ 2 = 1 ∧
    (from_plane tiltedPlane true).1.normal.get 1 = 20000000 / 100000000000001 ∧
    (from_plane tiltedPlane true).1.normal.get 1 ≠ 0 := by
  refine ⟨by decide!, by decide!, by decide!, by decide!⟩

/-! ## WindingIsTiny -/

theorem WindingIsTiny.loop_spec (w : winding_t) (size : vec_t) (fuel : Nat) :
    ∀ i edges, edges ≤ 2 → w.length - i ≤ fuel →
      WindingIsTiny.loop w size fuel i edges =
        decide (edges + (List.range' i (w.length - i)).countP (edgeLonger w size) ≤ 2) := by
  induction fuel with
  | zero =>
    intro i edges he hf
    have h0 : w.length - i = 0 := by omega
    simp [WindingIsTiny.loop, h0, he]
  | succ fuel ih =>
    intro i edges he hf
    unfold WindingIsTiny.loop
    by_cases hi : i < w.length
    · rw [if_pos hi]
      have hr : List.range' i (w.length - i) = i :: List.range' (i + 1) (w.length - (i + 1)) := by
        have : w.length - i = (w.length - (i + 1)) + 1 := by omega
        rw [this, List.range'_succ]
      rw [hr, List.countP_cons]
      simp only
      by_cases hp : edgeLonger w size i = true
      · have hp2 : qv.lengthGt ((w.getD ((i + 1) % w.length) ⟨0, 0, 0⟩).sub
            (w.getD i ⟨0, 0, 0⟩)) size = true := hp
        rw [if_pos hp2]
        simp only [hp, if_true]
        by_cases h3 : edges + 1 = 3
        · rw [if_pos h3]
          symm
          rw [decide_eq_false_iff_not]
          omega
        · rw [if_neg h3, ih (i + 1) (edges + 1) (by omega) (by omega)]
          congr 1
          rw [eq_iff_iff]
          constructor <;> intro h <;> omega
      · have hp2 : ¬ qv.lengthGt ((w.getD ((i + 1) % w.length) ⟨0, 0, 0⟩).sub
            (w.getD i ⟨0, 0, 0⟩)) size = true := hp
        rw [if_neg hp2]
        simp only [hp, Bool.false_eq_true, if_false, Nat.add_zero]
        exact ih (i + 1) edges he (by omega)
    · rw [if_neg hi]
      have h0 : w.length - i = 0 := by omega
      simp [h0, he]

theorem longEdges_le (w : winding_t) (size : vec_t) : longEdges w size ≤ w.length := by
  unfold longEdges
  have := List.countP_le_length (edgeLonger w size) (l := List.range w.length)
  simpa using this

/-- C29: for every winding `w` and `size`, `WindingIsTiny` is true exactly
when at most two of the edges of `w`, taken cyclically between consecutive
points, are longer than `size`; in particular every winding with fewer than
three points is tiny. -/
theorem WindingIsTiny_iff (w : winding_t) (size : vec_t) :
    (WindingIsTiny w size = true ↔ longEdges w size ≤ 2) ∧
    (w.length < 3 → WindingIsTiny w size = true) := by
  have h : WindingIsTiny w size = decide (longEdges w size ≤ 2) := by
    unfold WindingIsTiny longEdges
    rw [WindingIsTiny.loop_spec w size w.length 0 0 (by omega) (by omega)]
    simp [List.range_eq_range']
  refine ⟨by rw [h]; simp, ?_⟩
  intro hlen
  rw [h]
  have := longEdges_le w size
  simp only [decide_eq_true_eq]
  omega

/-! ## BrushMostlyOnSide -/

theorem foldl_flatMap_points {α : Type} (f : α → qvec3d → α) (sides : List side_t) (a : α) :
    sides.foldl (fun acc face => face.w.foldl f acc) a =
      (sides.flatMap (fun face => face.w)).foldl f a := by
  induction sides generalizing a with
  | nil => rfl
  | cons s rest ih => simp only [List.foldl_cons, List.flatMap_cons, List.foldl_append, ih]

theorem frontExtent_snoc (plane : qplane3d) (l : List qvec3d) (pt : qvec3d) :
    frontExtent plane (l ++ [pt]) = max (frontExtent plane l) (pointDist plane pt) := by
  simp [frontExtent, List.foldl_append]

theorem backExtent_snoc (plane : qplane3d) (l : List qvec3d) (pt : qvec3d) :
    backExtent plane (l ++ [pt]) = max (backExtent plane l) (-pointDist plane pt) := by
  simp [backExtent, List.foldl_append]

/-- The loop of `BrushMostlyOnSide` over a list of points: the running
maximum is the larger of the two extents, every point lies at most that far
from the plane, and the running side is the side of the first point that lies
that far from the plane, or FRONT when no point is off the plane. -/
theorem BrushMostlyOnSide.fold_spec (plane : qplane3d) (l : List qvec3d) :
    (l.foldl (BrushMostlyOnSide.step plane) (0, planeside_t.SIDE_FRONT)).1 =
      max (frontExtent plane l) (backExtent plane l) ∧
    0 ≤ (l.foldl (BrushMostlyOnSide.step plane) (0, planeside_t.SIDE_FRONT)).1 ∧
    (∀ v ∈ l, |pointDist plane v| ≤
      (l.foldl (BrushMostlyOnSide.step plane) (0, planeside_t.SIDE_FRONT)).1) ∧
    ((l.foldl (BrushMostlyOnSide.step plane) (0, planeside_t.SIDE_FRONT)).1 = 0 →
      (l.foldl (BrushMostlyOnSide.step plane) (0, planeside_t.SIDE_FRONT)).2 =
        planeside_t.SIDE_FRONT) ∧
    (0 < (l.foldl (BrushMostlyOnSide.step plane) (0, planeside_t.SIDE_FRONT)).1 →
      ∃ v, l.find? (fun v => decide (|pointDist plane v| =
          (l.foldl (BrushMostlyOnSide.step plane) (0, planeside_t.SIDE_FRONT)).1)) = some v ∧
        (l.foldl (BrushMostlyOnSide.step plane) (0, planeside_t.SIDE_FRONT)).2 =
          if 0 < pointDist plane v then planeside_t.SIDE_FRONT
          else planeside_t.SIDE_BACK) := by
  induction l using List.reverseRecOn with
  | nil => simp [frontExtent, backExtent]
  | append_singleton l pt ih =>
    obtain ⟨h1, h2, h3, h4, h5⟩ := ih
    rw [List.foldl_append, List.foldl_cons, List.foldl_nil, frontExtent_snoc, backExtent_snoc]
    generalize hA : l.foldl (BrushMostlyOnSide.step plane) (0, planeside_t.SIDE_FRONT) = A at *
    obtain ⟨m, sd⟩ := A
    simp only at h1 h2 h3 h4 h5
    have hM : max (max (frontExtent plane l) (pointDist plane pt))
        (max (backExtent plane l) (-pointDist plane pt)) = max m |pointDist plane pt| := by
      rw [h1, abs_eq_max_neg, max_max_max_comm]
    rw [hM]
    unfold BrushMostlyOnSide.step
    simp only
    by_cases hd : pointDist plane pt > m
    · -- a new maximum in front
      have hpos : 0 < pointDist plane pt := lt_of_le_of_lt h2 hd
      have hnb : ¬ -pointDist plane pt > pointDist plane pt := by linarith
      have hd2 : qv.dot pt plane.normal - plane.dist > m := hd
      have hnb2 : ¬ -(qv.dot pt plane.normal - plane.dist) >
          qv.dot pt plane.normal - plane.dist := hnb
      simp only [hd2, if_true, hnb2, if_false]
      have habs : |pointDist plane pt| = pointDist plane pt := abs_of_pos hpos
      refine ⟨?_, ?_, ?_, ?_, ?_⟩
      · rw [habs, max_eq_right hd.le]; rfl
      · exact hpos.le
      · intro v hv
        rcases List.mem_append.1 hv with hv | hv
        · exact le_trans (h3 v hv) hd.le
        · simp only [List.mem_singleton] at hv
          rw [hv, habs]; rfl
      · intro h0
        exfalso
        have : pointDist plane pt = 0 := h0
        linarith
      · intro _
        refine ⟨pt, ?_, ?_⟩
        · rw [List.find?_append]
          have hnone : l.find? (fun v => decide (|pointDist plane v| =
              qv.dot pt plane.normal - plane.dist)) = none := by
            rw [List.find?_eq_none]
            intro v hv
            have := h3 v hv
            simp only [decide_eq_true_eq]
            intro he
            have : |pointDist plane v| = pointDist plane pt := he
            linarith
          rw [hnone]
          simp only [Option.none_or, List.find?_cons, List.find?_nil]
          have : |pointDist plane pt| = qv.dot pt plane.normal - plane.dist := habs
          simp [this]
        · rw [if_pos hpos]
    · have hd2 : ¬ qv.dot pt plane.normal - plane.dist > m := hd
      simp only [hd2, if_false]
      by_cases hb : -pointDist plane pt > m
      · -- a new maximum behind
        have hneg : pointDist plane pt < 0 := by linarith
        have hb2 : -(qv.dot pt plane.normal - plane.dist) > m := hb
        simp only [hb2, if_true]
        have habs : |pointDist plane pt| = -pointDist plane pt := abs_of_neg hneg
        refine ⟨?_, ?_, ?_, ?_, ?_⟩
        · rw [habs, max_eq_right hb.le]; rfl
        · have : 0 ≤ -pointDist plane pt := by linarith
          exact this
        · intro v hv
          rcases List.mem_append.1 hv with hv | hv
          · exact le_trans (h3 v hv) hb.le
          · simp only [List.mem_singleton] at hv
            rw [hv, habs]; rfl
        · intro h0
          exfalso
          have : -pointDist plane pt = 0 := h0
          linarith
        · intro _
          refine ⟨pt, ?_, ?_⟩
          · rw [List.find?_append]
            have hnone : l.find? (fun v => decide (|pointDist plane v| =
                -(qv.dot pt plane.normal - plane.dist))) = none := by
              rw [List.find?_eq_none]
              intro v hv
              have := h3 v hv
              simp only [decide_eq_true_eq]
              intro he
              have : |pointDist plane v| = -pointDist plane pt := he
              linarith
            rw [hnone]
            simp only [Option.none_or, List.find?_cons, List.find?_nil]
            have : |pointDist plane pt| = -(qv.dot pt plane.normal - plane.dist) := habs
            simp [this]
          · rw [if_neg (not_lt.2 hneg.le)]
      · -- no new maximum
        have hb2 : ¬ -(qv.dot pt plane.normal - plane.dist) > m := hb
        simp only [hb2, if_false]
        have hle : |pointDist plane pt| ≤ m := by
          rw [abs_le]
          constructor <;> linarith
        refine ⟨?_, h2, ?_, h4, ?_⟩
        · rw [max_eq_left hle]
        · intro v hv
          rcases List.mem_append.1 hv with hv | hv
          · exact h3 v hv
          · simp only [List.mem_singleton] at hv
            rw [hv]; exact hle
        · intro hm
          obtain ⟨v, hv, hs⟩ := h5 hm
          refine ⟨v, ?_, hs⟩
          rw [List.find?_append, hv]
          rfl

theorem foldl_max_ge (l : List ℚ) (c : ℚ) :
    c ≤ l.foldl max c ∧ ∀ a ∈ l, a ≤ l.foldl max c := by
  induction l generalizing c with
  | nil => simp
  | cons b rest ih =>
    simp only [List.foldl_cons, List.mem_cons, forall_eq_or_imp]
    obtain ⟨h1, h2⟩ := ih (max c b)
    exact ⟨le_trans (le_max_left c b) h1, le_trans (le_max_right c b) h1, h2⟩

theorem frontExtent_ge (plane : qplane3d) (l : List qvec3d) :
    0 ≤ frontExtent plane l ∧ ∀ v ∈ l, pointDist plane v ≤ frontExtent plane l := by
  obtain ⟨h1, h2⟩ := foldl_max_ge (l.map (fun pt => pointDist plane pt)) 0
  exact ⟨h1, fun v hv => h2 _ (List.mem_map_of_mem _ hv)⟩

theorem backExtent_ge (plane : qplane3d) (l : List qvec3d) :
    0 ≤ backExtent plane l ∧ ∀ v ∈ l, -pointDist plane v ≤ backExtent plane l := by
  obtain ⟨h1, h2⟩ := foldl_max_ge (l.map (fun pt => -pointDist plane pt)) 0
  exact ⟨h1, fun v hv => h2 _ (List.mem_map_of_mem (fun pt => -pointDist plane pt) hv)⟩

theorem BrushMostlyOnSide_eq (brush : bspbrush_t) (plane : qplane3d) :
    BrushMostlyOnSide brush plane =
      ((brushPoints brush).foldl (BrushMostlyOnSide.step plane)
        (0, planeside_t.SIDE_FRONT)).2 := by
  unfold BrushMostlyOnSide brushPoints
  rw [foldl_flatMap_points]

/-- C30: `BrushMostlyOnSide` returns the side of the winding vertex that lies
farthest from the plane: with `F` the largest positive distance and `B` the
largest distance behind the plane over all vertices of all sides (0 when
none), it returns SIDE_FRONT if `F > B` and SIDE_BACK if `B > F`; if
`F = B > 0` it returns the side of the first vertex, in side, then point
order, that lies at that distance from the plane; if no vertex is off the
plane it returns SIDE_FRONT. -/
theorem BrushMostlyOnSide_farthest (brush : bspbrush_t) (plane : qplane3d) :
    (backExtent plane (brushPoints brush) < frontExtent plane (brushPoints brush) →
      BrushMostlyOnSide brush plane = planeside_t.SIDE_FRONT) ∧
    (frontExtent plane (brushPoints brush) < backExtent plane (brushPoints brush) →
      BrushMostlyOnSide brush plane = planeside_t.SIDE_BACK) ∧
    (frontExtent plane (brushPoints brush) = backExtent plane (brushPoints brush) →
      0 < frontExtent plane (brushPoints brush) →
      ∃ v, (brushPoints brush).find? (fun v => decide (|pointDist plane v| =
          frontExtent plane (brushPoints brush))) = some v ∧
        BrushMostlyOnSide brush plane =
          if 0 < pointDist plane v then planeside_t.SIDE_FRONT
          else planeside_t.SIDE_BACK) ∧
    (frontExtent plane (brushPoints brush) = 0 → backExtent plane (brushPoints brush) = 0 →
      BrushMostlyOnSide brush plane = planeside_t.SIDE_FRONT) := by
  rw [BrushMostlyOnSide_eq]
  obtain ⟨h1, h2, h3, h4, h5⟩ := BrushMostlyOnSide.fold_spec plane (brushPoints brush)
  obtain ⟨f0, f1⟩ := frontExtent_ge plane (brushPoints brush)
  obtain ⟨b0, b1⟩ := backExtent_ge plane (brushPoints brush)
  generalize ((brushPoints brush).foldl (BrushMostlyOnSide.step plane)
    (0, planeside_t.SIDE_FRONT)) = A at *
  generalize frontExtent plane (brushPoints brush) = F at *
  generalize backExtent plane (brushPoints brush) = B at *
  refine ⟨?_, ?_, ?_, ?_⟩
  · intro hlt
    rw [max_eq_left hlt.le] at h1
    obtain ⟨v, hv, hs⟩ := h5 (by rw [h1]; linarith)
    rw [hs, if_pos]
    have hmem := List.mem_of_find?_eq_some hv
    have habs := List.find?_some hv
    simp only [decide_eq_true_eq] at habs
    have hb := b1 v hmem
    by_contra hn
    rw [abs_of_nonpos (not_lt.1 hn)] at habs
    linarith
  · intro hlt
    rw [max_eq_right hlt.le] at h1
    obtain ⟨v, hv, hs⟩ := h5 (by rw [h1]; linarith)
    rw [hs, if_neg]
    have hmem := List.mem_of_find?_eq_some hv
    have habs := List.find?_some hv
    simp only [decide_eq_true_eq] at habs
    have hf := f1 v hmem
    intro hp
    rw [abs_of_pos hp] at habs
    linarith
  · intro heq hpos
    rw [← heq, max_self] at h1
    obtain ⟨v, hv, hs⟩ := h5 (by rw [h1]; exact hpos)
    rw [h1] at hv
    exact ⟨v, hv, hs⟩
  · intro hf hb
    rw [hf, hb, max_self] at h1
    exact h4 h1

set_option maxRecDepth 100000 in
/-- Witness of C30: the cube (0,0,0)–(16,16,16) against the plane `x = 8`,
with vertices 8 in front and 8 behind; the first vertex lies in front. -/
theorem BrushMostlyOnSide_farthest_witness :
    frontExtent (planeX 8) (brushPoints cube16) = 8 ∧
    backExtent (planeX 8) (brushPoints cube16) = 8 ∧
    BrushMostlyOnSide cube16 (planeX 8) = planeside_t.SIDE_FRONT ∧
    (frontExtent (planeX 8) (brushPoints cube16) = backExtent (planeX 8) (brushPoints cube16) →
      0 < frontExtent (planeX 8) (brushPoints cube16) →
      ∃ v, (brushPoints cube16).find? (fun v => decide (|pointDist (planeX 8) v| =
          frontExtent (planeX 8) (brushPoints cube16))) = some v ∧
        BrushMostlyOnSide cube16 (planeX 8) =
          if 0 < pointDist (planeX 8) v then planeside_t.SIDE_FRONT
          else planeside_t.SIDE_BACK) :=
  ⟨by decide!, by decide!, by decide!, (BrushMostlyOnSide_farthest cube16 (planeX 8)).2.2.1⟩

set_option maxRecDepth 100000 in
/-- Witness of C29: the square winding of the face `x = 16` of the cube
(0,0,0)–(16,16,16), whose four edges are longer than 0.2, is not tiny. -/
theorem WindingIsTiny_iff_witness :
    longEdges [⟨16, 16, 16⟩, ⟨16, 16, 0⟩, ⟨16, 0, 0⟩, ⟨16, 0, 16⟩] (2 / 10) = 4 ∧
    (WindingIsTiny [⟨16, 16, 16⟩, ⟨16, 16, 0⟩, ⟨16, 0, 0⟩, ⟨16, 0, 16⟩] (2 / 10) = true ↔
      longEdges [⟨16, 16, 16⟩, ⟨16, 16, 0⟩, ⟨16, 0, 0⟩, ⟨16, 0, 16⟩] (2 / 10) ≤ 2) ∧
    (([⟨16, 16, 16⟩, ⟨16, 16, 0⟩, ⟨16, 0, 0⟩, ⟨16, 0, 16⟩] : winding_t).length < 3 →
      WindingIsTiny [⟨16, 16, 16⟩, ⟨16, 16, 0⟩, ⟨16, 0, 0⟩, ⟨16, 0, 16⟩] (2 / 10) = true) :=
  ⟨by decide!, WindingIsTiny_iff _ _⟩

/-! ## The order of the lists of SplitBrushList -/

theorem flatMap_toList {α β : Type} (f : α → Option β) (l : List α) :
    l.flatMap (fun a => (f a).toList) = l.filterMap f := by
  induction l with
  | nil => rfl
  | cons a rest ih =>
    simp only [List.flatMap_cons, List.filterMap_cons, ih]
    cases f a <;> simp

/-- C21: `SplitBrushList` preserves the input order: each of its two lists is
the input list with every brush replaced by the element it contributes to
that list, or dropped when it contributes none (`List.filterMap`), so the
elements stand in the order of the brushes they come from and each input
brush contributes at most one element to each list. -/
theorem SplitBrushList_order (E : Ext) (bs : List bspbrush_t) (node : node_t) :
    (SplitBrushList E bs node).front = bs.filterMap (SplitBrushList.frontOf E node) ∧
    (SplitBrushList E bs node).back = bs.filterMap (SplitBrushList.backOf E node) ∧
    (SplitBrushList E bs node).front.length ≤ bs.length ∧
    (SplitBrushList E bs node).back.length ≤ bs.length := by
  obtain ⟨hf, hk⟩ := SplitBrushList_eq E bs node
  have h1 : (SplitBrushList E bs node).front = bs.filterMap (SplitBrushList.frontOf E node) := by
    rw [hf, ← flatMap_toList]
    congr 1
    funext b
    unfold SplitBrushList.frontOf
    split_ifs <;> rfl
  have h2 : (SplitBrushList E bs node).back = bs.filterMap (SplitBrushList.backOf E node) := by
    rw [hk, ← flatMap_toList]
    congr 1
    funext b
    unfold SplitBrushList.backOf
    split_ifs <;> rfl
  refine ⟨h1, h2, ?_, ?_⟩
  · rw [h1]; exact List.length_filterMap_le _ _
  · rw [h2]; exact List.length_filterMap_le _ _

/-- C22: after `SelectSplitSide` returns, with or without a side, the sides of
every brush of the list are the sides it had before the call with `tested`
set to false: every side has `tested = false` and no other field of a side
has changed. -/
theorem SelectSplitSide_tested_cleared (E : Ext) (bs : List bspbrush_t) (node : node_t)
    (r : SelectResult) (h : SelectSplitSide E bs node = Except.ok r) :
    r.brushes.map (fun b => b.sides) =
      bs.map (fun b => b.sides.map (fun s => { s with tested := false })) ∧
    ∀ b ∈ r.brushes, ∀ s ∈ b.sides, s.tested = false := by
  obtain ⟨p, st, ⟨⟨i1, -, -, -, -⟩, -⟩, -, -, hbr, -⟩ := SelectSplitSide_inv2 E bs node r h
  constructor
  · rw [hbr]
    have := congrArg (List.map bspbrush_t.sides) i1
    simp only [List.map_map] at this
    simp only [SelectSplitSide.clearTested, List.map_map]
    exact this
  · intro b hb s hs
    rw [hbr] at hb
    simp only [SelectSplitSide.clearTested, List.mem_map] at hb
    obtain ⟨b0, -, rfl⟩ := hb
    simp only [List.mem_map] at hs
    obtain ⟨s0, -, rfl⟩ := hs
    rfl

/-- Witness of C22: the search on `plainX`, `plainY`, hint brush at the node
`rootNode`. -/
theorem SelectSplitSide_tested_cleared_witness :
    searchRoot.brushes.map (fun b => b.sides) =
      [plainX, plainY, hintBrush].map
        (fun b => b.sides.map (fun s => { s with tested := false })) ∧
    ∀ b ∈ searchRoot.brushes, ∀ s ∈ b.sides, s.tested = false :=
  SelectSplitSide_tested_cleared refExt [plainX, plainY, hintBrush] rootNode searchRoot
    searchRoot_run

/-! ## The search with the detail class of the brushes -/

theorem SelectSplitSide.sideLoop_guard (E : Ext) (node : node_t)
    (P : Nat → SelectState → Prop) (Q : Nat → Nat → Prop)
    (hstep : ∀ p bi si st st1, P p st → Q p bi →
      SelectSplitSide.trySide E node p bi si st = Except.ok st1 → P p st1)
    (p bi : Nat) (sis : List Nat) (st st1 : SelectState) (hP : P p st) (hQ : Q p bi)
    (h : SelectSplitSide.sideLoop E node p bi sis st = Except.ok st1) : P p st1 := by
  induction sis generalizing st with
  | nil =>
    simp only [SelectSplitSide.sideLoop, Except.ok.injEq] at h
    rw [← h]; exact hP
  | cons si rest ih =>
    unfold SelectSplitSide.sideLoop at h
    cases h1 : SelectSplitSide.trySide E node p bi si st with
    | error e => rw [h1] at h; simp at h
    | ok st2 =>
      rw [h1] at h
      exact ih st2 (hstep p bi si st st2 hP hQ h1) h

theorem SelectSplitSide.tryBrush_guard (E : Ext) (node : node_t)
    (P : Nat → SelectState → Prop) (Q : Nat → Nat → Prop)
    (hguard : ∀ p bi st brush o, P p st → st.brushes[bi]? = some brush →
      brush.original = some o →
      ¬ ((p % 2 = 1 ∧ E.is_any_detail (E.original_contents o) = false) ∨
         (p % 2 ≠ 1 ∧ E.is_any_detail (E.original_contents o) = true)) → Q p bi)
    (hstep : ∀ p bi si st st1, P p st → Q p bi →
      SelectSplitSide.trySide E node p bi si st = Except.ok st1 → P p st1)
    (p bi : Nat) (st st1 : SelectState) (hP : P p st)
    (h : SelectSplitSide.tryBrush E node p bi st = Except.ok st1) : P p st1 := by
  unfold SelectSplitSide.tryBrush at h
  cases hb : st.brushes[bi]? with
  | none => rw [hb] at h; simp only [Except.ok.injEq] at h; rw [← h]; exact hP
  | some brush =>
    rw [hb] at h
    simp only at h
    cases ho : brush.original with
    | none => rw [ho] at h; simp at h
    | some o =>
      rw [ho] at h
      simp only at h
      by_cases hd : (p % 2 = 1 ∧ E.is_any_detail (E.original_contents o) = false) ∨
          (p % 2 ≠ 1 ∧ E.is_any_detail (E.original_contents o) = true)
      · rw [if_pos hd] at h
        simp only [Except.ok.injEq] at h; rw [← h]; exact hP
      · rw [if_neg hd] at h
        exact SelectSplitSide.sideLoop_guard E node P Q hstep p bi _ st st1 hP
          (hguard p bi st brush o hP hb ho hd) h

theorem SelectSplitSide.brushLoop_guard (E : Ext) (node : node_t)
    (P : Nat → SelectState → Prop) (Q : Nat → Nat → Prop)
    (hguard : ∀ p bi st brush o, P p st → st.brushes[bi]? = some brush →
      brush.original = some o →
      ¬ ((p % 2 = 1 ∧ E.is_any_detail (E.original_contents o) = false) ∨
         (p % 2 ≠ 1 ∧ E.is_any_detail (E.original_contents o) = true)) → Q p bi)
    (hstep : ∀ p bi si st st1, P p st → Q p bi →
      SelectSplitSide.trySide E node p bi si st = Except.ok st1 → P p st1)
    (p : Nat) (bis : List Nat) (st st1 : SelectState) (hP : P p st)
    (h : SelectSplitSide.brushLoop E node p bis st = Except.ok st1) : P p st1 := by
  induction bis generalizing st with
  | nil =>
    simp only [SelectSplitSide.brushLoop, Except.ok.injEq] at h
    rw [← h]; exact hP
  | cons bi rest ih =>
    unfold SelectSplitSide.brushLoop at h
    cases h1 : SelectSplitSide.tryBrush E node p bi st with
    | error e => rw [h1] at h; simp at h
    | ok st2 =>
      rw [h1] at h
      exact ih st2 (SelectSplitSide.tryBrush_guard E node P Q hguard hstep p bi st st2 hP h1) h

theorem SelectSplitSide.passLoop_guard (E : Ext) (node : node_t)
    (P : Nat → SelectState → Prop) (Q : Nat → Nat → Prop)
    (hpass : ∀ p q st, P p st → st.bestside = none → P q st)
    (hguard : ∀ p bi st brush o, P p st → st.brushes[bi]? = some brush →
      brush.original = some o →
      ¬ ((p % 2 = 1 ∧ E.is_any_detail (E.original_contents o) = false) ∨
         (p % 2 ≠ 1 ∧ E.is_any_detail (E.original_contents o) = true)) → Q p bi)
    (hstep : ∀ p bi si st st1, P p st → Q p bi →
      SelectSplitSide.trySide E node p bi si st = Except.ok st1 → P p st1)
    (passes : List Nat) (p0 : Nat) (st st1 : SelectState) (found : Option Nat)
    (hP : P p0 st) (hn : st.bestside = none)
    (h : SelectSplitSide.passLoop E node passes st = Except.ok (st1, found)) :
    (found = none ∧ st1.bestside = none ∧ P p0 st1) ∨
    (∃ p ∈ passes, found = some p ∧ st1.bestside ≠ none ∧ P p st1) := by
  induction passes generalizing st with
  | nil =>
    simp only [SelectSplitSide.passLoop, Except.ok.injEq, Prod.mk.injEq] at h
    left
    rw [← h.1, ← h.2]
    exact ⟨rfl, hn, hP⟩
  | cons p rest ih =>
    unfold SelectSplitSide.passLoop at h
    cases h1 : SelectSplitSide.brushLoop E node p (List.range st.brushes.length) st with
    | error e => rw [h1] at h; simp at h
    | ok st2 =>
      rw [h1] at h
      simp only at h
      have hP2 := SelectSplitSide.brushLoop_guard E node P Q hguard hstep p _ st st2
        (hpass p0 p st hP hn) h1
      by_cases hs : st2.bestside.isSome = true
      · rw [if_pos hs] at h
        simp only [Except.ok.injEq, Prod.mk.injEq] at h
        right
        refine ⟨p, List.mem_cons_self _ _, h.2.symm, ?_, ?_⟩
        · rw [← h.1]
          intro hnone
          rw [hnone] at hs
          simp at hs
        · rw [← h.1]; exact hP2
      · rw [if_neg hs] at h
        have hn2 : st2.bestside = none := by
          cases hb : st2.bestside with
          | none => rfl
          | some x => rw [hb] at hs; simp at hs
        rcases ih st2 (hpass p p0 st2 hP2 hn2) hn2 h with h3 | ⟨q, hq, h3⟩
        · exact Or.inl h3
        · exact Or.inr ⟨q, List.mem_cons_of_mem _ hq, h3⟩

/-- The induction principle of the search with the detail class: like
`SelectSplitSide_induct`, and a scoring round may use a fact `Q` about the
pass and the brush that follows from the brush having passed the detail test
of the pass. -/
theorem SelectSplitSide_induct_guard (E : Ext) (node : node_t)
    (P : Nat → SelectState → Prop) (Q : Nat → Nat → Prop)
    (hpass : ∀ p q st, P p st → st.bestside = none → P q st)
    (hguard : ∀ p bi st brush o, P p st → st.brushes[bi]? = some brush →
      brush.original = some o →
      ¬ ((p % 2 = 1 ∧ E.is_any_detail (E.original_contents o) = false) ∨
         (p % 2 ≠ 1 ∧ E.is_any_detail (E.original_contents o) = true)) → Q p bi)
    (hstep : ∀ p bi si st st1, P p st → Q p bi →
      SelectSplitSide.trySide E node p bi si st = Except.ok st1 → P p st1)
    (bs : List bspbrush_t) (r : SelectResult)
    (h : SelectSplitSide E bs node = Except.ok r)
    (h0 : P 0 (SelectSplitSide.init bs)) :
    ∃ p st, P p st ∧ r.bestside = st.bestside ∧ r.scored = st.scored := by
  unfold SelectSplitSide at h
  cases h1 : SelectSplitSide.passLoop E node [0, 1, 2, 3]
      { brushes := bs, bestside := none, bestvalue := -99999, bestsplits := 0, scored := [] } with
  | error e => rw [h1] at h; simp at h
  | ok res =>
    obtain ⟨st, found⟩ := res
    rw [h1] at h
    simp only [Except.ok.injEq] at h
    rcases SelectSplitSide.passLoop_guard E node P Q hpass hguard hstep _ 0 _ st found h0 rfl
      h1 with ⟨hf, hn, hP⟩ | ⟨p, hp, hf, hn, hP⟩
    · exact ⟨0, st, hP, by rw [← h], by rw [← h]⟩
    · exact ⟨p, st, hP, by rw [← h], by rw [← h]⟩

/-- The third invariant holds of the state that the search ends in. -/
theorem SelectSplitSide_inv3 (E : Ext) (bs : List bspbrush_t) (node : node_t)
    (r : SelectResult) (h : SelectSplitSide E bs node = Except.ok r) :
    ∀ e ∈ r.scored, passBrush E bs e.pass e.bi := by
  have hpass : ∀ p q st,
      (SelectSplitSide.Inv E node bs p st ∧ SelectSplitSide.Inv3 E bs st) →
      st.bestside = none →
      (SelectSplitSide.Inv E node bs q st ∧ SelectSplitSide.Inv3 E bs st) := by
    intro p q st hP hn
    exact ⟨SelectSplitSide.Inv_pass E node bs p q st hP.1 hn, hP.2⟩
  have hguard : ∀ p bi st brush o,
      (SelectSplitSide.Inv E node bs p st ∧ SelectSplitSide.Inv3 E bs st) →
      st.brushes[bi]? = some brush → brush.original = some o →
      ¬ ((p % 2 = 1 ∧ E.is_any_detail (E.original_contents o) = false) ∨
         (p % 2 ≠ 1 ∧ E.is_any_detail (E.original_contents o) = true)) →
      passBrush E bs p bi := by
    intro p bi st brush o hP hb ho hd
    obtain ⟨i1, -⟩ := hP.1
    obtain ⟨brush0, hb0, hbs⟩ := static_lookup st.brushes bs i1 bi brush hb
    obtain ⟨f1, -, -⟩ := static_fields brush brush0 hbs
    refine ⟨brush0, o, hb0, by rw [f1, ho], ?_⟩
    push_neg at hd
    cases hdet : E.is_any_detail (E.original_contents o) with
    | false =>
      symm
      rw [decide_eq_false_iff_not]
      intro hp
      exact absurd hdet (by simpa using hd.1 hp)
    | true =>
      symm
      rw [decide_eq_true_iff]
      by_contra hp
      exact absurd hdet (by simpa using hd.2 hp)
  have hstep : ∀ p bi si st st1,
      (SelectSplitSide.Inv E node bs p st ∧ SelectSplitSide.Inv3 E bs st) →
      passBrush E bs p bi →
      SelectSplitSide.trySide E node p bi si st = Except.ok st1 →
      (SelectSplitSide.Inv E node bs p st1 ∧ SelectSplitSide.Inv3 E bs st1) := by
    intro p bi si st st1 hP hQ hs
    refine ⟨SelectSplitSide.trySide_inv E node bs p bi si st st1 hP.1 hs, ?_⟩
    rcases SelectSplitSide.trySide_scored E node p bi si st st1 hs with rfl |
      ⟨brush, side, volume, acc, tested, -, -, -, -, -, -, -, rfl⟩
    · exact hP.2
    · intro e he
      have hsc : (SelectSplitSide.score p bi si
          (SelectSplitSide.value E (from_plane side.plane.toqplane3d true).1 side acc)
          acc.splits tested st).scored = st.scored ++ [Scored.mk p bi si
            (SelectSplitSide.value E (from_plane side.plane.toqplane3d true).1 side acc)] := by
        unfold SelectSplitSide.score
        simp only
        split_ifs <;> rfl
      rw [hsc] at he
      simp only [List.mem_append, List.mem_singleton] at he
      rcases he with he | rfl
      · exact hP.2 e he
      · exact hQ
  have h0 : SelectSplitSide.Inv E node bs 0 (SelectSplitSide.init bs) ∧
      SelectSplitSide.Inv3 E bs (SelectSplitSide.init bs) := by
    refine ⟨⟨rfl, ?_, ?_, ?_, ?_⟩, ?_⟩
    · intro e he; simp [SelectSplitSide.init] at he
    · intro _; rfl
    · intro bi si hb; simp [SelectSplitSide.init] at hb
    · intro e he; simp [SelectSplitSide.init] at he
    · intro e he; simp [SelectSplitSide.init] at he
  obtain ⟨p, st, hP, -, hs⟩ := SelectSplitSide_induct_guard E node
    (fun p st => SelectSplitSide.Inv E node bs p st ∧ SelectSplitSide.Inv3 E bs st)
    (fun p bi => passBrush E bs p bi) hpass hguard hstep bs r h h0
  rw [hs]
  exact hP.2

/-- C23: when `SelectSplitSide` returns no side it leaves the node as it was.
When it returns side `si` of brush `bi`, the side was found in a pass `p` of
the four passes; `p` is the first pass exactly when the side is visible and
the original contents of its brush are not detail; if `p` is the first pass
the node is left as it was, and otherwise `detail_separator` is set to true
and nothing else of the node is changed. -/
theorem SelectSplitSide_detail_separator (E : Ext) (bs : List bspbrush_t) (node : node_t)
    (r : SelectResult) (h : SelectSplitSide E bs node = Except.ok r) :
    (r.bestside = none → r.node = node) ∧
    (∀ bi si, r.bestside = some (bi, si) →
      ∃ brush side o p v,
        bs[bi]? = some brush ∧ brush.sides[si]? = some side ∧ brush.original = some o ∧
        p ∈ [0, 1, 2, 3] ∧ Scored.mk p bi si v ∈ r.scored ∧
        (p = 0 ↔ side.visible = true ∧ E.is_any_detail (E.original_contents o) = false) ∧
        (p = 0 → r.node = node) ∧
        (p ≠ 0 → r.node = { node with detail_separator := true })) := by
  refine ⟨(SelectSplitSide_frame E bs node r h).2.2.2.2, ?_⟩
  intro bi si hbest
  obtain ⟨brush0, side0, brush, volume, p, v, a1, a2, -, -, -, -, -, -, -, -, -, hp, hmem,
    hnode, hvis, -⟩ := SelectSplitSide_best E bs node r bi si h hbest
  obtain ⟨brush1, o, c1, c2, c3⟩ := SelectSplitSide_inv3 E bs node r h _ hmem
  simp only at c1 c3
  rw [a1] at c1
  obtain rfl := Option.some.inj c1
  refine ⟨brush0, side0, o, p, v, a1, a2, c2, hp, hmem, ?_, ?_, ?_⟩
  · rw [hvis, c3]
    simp only [List.mem_cons, List.mem_singleton, List.not_mem_nil, or_false] at hp
    rcases hp with rfl | rfl | rfl | rfl <;> simp
  · intro h0
    rw [hnode, h0]
    simp
  · intro h0
    rw [hnode, if_pos (Nat.pos_of_ne_zero h0)]

set_option maxRecDepth 100000 in
/-- The search on `detailX` at the node `rootNode` returns `searchDetail`. -/
theorem searchDetail_run :
    SelectSplitSide refExt [detailX] rootNode = Except.ok searchDetail :=
  except_ok_of_isSome _ _ (by decide!)

set_option maxRecDepth 100000 in
/-- Witness of C23: the search on the detail brush `detailX` at the node
`rootNode` returns side 0 of the brush, found in the second pass, and sets
`detail_separator`. -/
theorem SelectSplitSide_detail_separator_witness :
    (searchDetail.bestside = some (0, 0) ∧ searchDetail.node.detail_separator = true ∧
      rootNode.detail_separator = false) ∧
    (searchDetail.bestside = none → searchDetail.node = rootNode) ∧
    (∀ bi si, searchDetail.bestside = some (bi, si) →
      ∃ brush side o p v,
        [detailX][bi]? = some brush ∧ brush.sides[si]? = some side ∧
        brush.original = some o ∧
        p ∈ [0, 1, 2, 3] ∧ Scored.mk p bi si v ∈ searchDetail.scored ∧
        (p = 0 ↔ side.visible = true ∧
          refExt.is_any_detail (refExt.original_contents o) = false) ∧
        (p = 0 → searchDetail.node = rootNode) ∧
        (p ≠ 0 → searchDetail.node = { rootNode with detail_separator := true })) :=
  ⟨by decide!,
    SelectSplitSide_detail_separator refExt [detailX] rootNode searchDetail searchDetail_run⟩

/-! ## LeafNode and BrushBSP -/

theorem LeafNode.originals_ok (bs : List bspbrush_t) (acc : List Nat)
    (hall : ∀ b ∈ bs, b.original ≠ none) :
    ∃ os, LeafNode.originals bs acc = Except.ok (acc ++ os) ∧
      os.map some = bs.map (fun b => b.original) := by
  induction bs generalizing acc with
  | nil => exact ⟨[], by simp [LeafNode.originals], rfl⟩
  | cons b rest ih =>
    unfold LeafNode.originals
    cases ho : b.original with
    | none => exact absurd ho (hall b (List.mem_cons_self _ _))
    | some o =>
      obtain ⟨os, h1, h2⟩ := ih (acc ++ [o]) (fun b1 hb1 => hall b1 (List.mem_cons_of_mem _ hb1))
      refine ⟨o :: os, ?_, ?_⟩
      · simp only [h1, List.append_assoc, List.singleton_append]
      · simp only [List.map_cons, h2, ho]

/-- C24: for brushes that all have an original, `LeafNode` makes the node a
leaf whose contents are the left fold of `combine_contents` over the contents
of the brushes in list order, starting from `create_empty_contents()`, and
whose original brushes are the originals of the brushes in list order; the
contents are handed to `count_contents_in_stats`.  For an empty brush list
the contents are the empty contents and no brush is recorded. -/
theorem LeafNode_contents (G : gamedef_t) (leafnode : node_t) (brushes : List bspbrush_t)
    (stats : bspstats_t) (hall : ∀ b ∈ brushes, b.original ≠ none) :
    (∃ originals,
      LeafNode G leafnode brushes stats =
        Except.ok (nodetree.leaf leafnode
          (brushes.foldl (fun c b => G.combine_contents c b.contents) G.create_empty_contents)
          originals brushes,
          { stats with leafstats := stats.leafstats ++
            [brushes.foldl (fun c b => G.combine_contents c b.contents)
              G.create_empty_contents] }) ∧
      originals.map some = brushes.map (fun b => b.original)) ∧
    LeafNode G leafnode [] stats =
      Except.ok (nodetree.leaf leafnode G.create_empty_contents [] [],
        { stats with leafstats := stats.leafstats ++ [G.create_empty_contents] }) := by
  constructor
  · obtain ⟨os, h1, h2⟩ := LeafNode.originals_ok brushes [] hall
    refine ⟨os, ?_, h2⟩
    unfold LeafNode
    simp only [h1, List.nil_append]
  · rfl

set_option maxRecDepth 100000 in
/-- Witness of C24: the leaf made of the brushes `twoSide` (contents 7,
original 0) and `detailX` (contents 0, original 1). -/
theorem LeafNode_contents_witness :
    (∃ originals,
      LeafNode refGame rootNode [twoSide, detailX] bspstats_t.zero =
        Except.ok (nodetree.leaf rootNode
          ([twoSide, detailX].foldl (fun c b => refGame.combine_contents c b.contents)
            refGame.create_empty_contents)
          originals [twoSide, detailX],
          { bspstats_t.zero with leafstats := bspstats_t.zero.leafstats ++
            [[twoSide, detailX].foldl (fun c b => refGame.combine_contents c b.contents)
              refGame.create_empty_contents] }) ∧
      originals.map some = [twoSide, detailX].map (fun b => b.original)) ∧
    LeafNode refGame rootNode [] bspstats_t.zero =
      Except.ok (nodetree.leaf rootNode refGame.create_empty_contents [] [],
        { bspstats_t.zero with
          leafstats := bspstats_t.zero.leafstats ++ [refGame.create_empty_contents] }) :=
  LeafNode_contents refGame rootNode [twoSide, detailX] bspstats_t.zero (by decide!)

/-- C25: for an empty brush list `BrushBSP` returns a tree whose head node is
not a leaf: it is the node made for the empty list, without parent, with the
plane of normal (0,0,1) and distance 0, and with exactly two children, both
leaves with the empty contents, no original brushes, and the head node as
their parent; the bounds of the tree and of the head node are the bounds of
the entity. -/
theorem BrushBSP_empty (E : Ext) (G : gamedef_t) (B : BoundsExt) (fuel : Nat)
    (entity_bounds : aabb3d) :
    ∃ root child,
      BrushBSP E G B fuel entity_bounds [] =
        BrushBSP.Result.done
          { bounds := entity_bounds,
            headnode := headnode_t.stub root entity_bounds
              (nodetree.leaf child G.create_empty_contents [] [])
              (nodetree.leaf child G.create_empty_contents [] []) } ∧
      root.plane.normal = ⟨0, 0, 1⟩ ∧ root.plane.dist = 0 ∧ root.parents = [] ∧
      child.parents = root.plane :: root.parents :=
  ⟨BrushBSP.stubnode, BuildTree_r.newnode BrushBSP.stubnode none, rfl, rfl, rfl, rfl, rfl⟩

theorem SplitBrushList.eq_filterMap (E : Ext) (bs : List bspbrush_t) (node : node_t) :
    (SplitBrushList E bs node).front = bs.filterMap (SplitBrushList.frontOf E node) ∧
    (SplitBrushList E bs node).back = bs.filterMap (SplitBrushList.backOf E node) := by
  obtain ⟨hf, hk⟩ := SplitBrushList_eq E bs node
  constructor
  · rw [hf, ← flatMap_toList]
    congr 1
    funext b
    unfold SplitBrushList.frontOf
    split_ifs <;> rfl
  · rw [hk, ← flatMap_toList]
    congr 1
    funext b
    unfold SplitBrushList.backOf
    split_ifs <;> rfl

theorem toUint32_int (m : Int) (h0 : 0 ≤ m) (h1 : m < 4294967296) :
    toUint32 (m : vec_t) = some m.toNat := by
  unfold toUint32
  have hq : (0 : vec_t) ≤ (m : vec_t) := by exact_mod_cast h0
  simp only [hq, if_true, Int.floor_intCast]
  rw [if_pos ⟨h0, h1⟩]

theorem toUint32_nonneg (x : vec_t) (h0 : 0 ≤ x) (h1 : x < 4294967296) :
    toUint32 x = some ⌊x⌋.toNat := by
  unfold toUint32
  simp only [h0, if_true]
  have hf0 : 0 ≤ ⌊x⌋ := Int.floor_nonneg.mpr h0
  have hf1 : ⌊x⌋ < 4294967296 := by
    apply Int.floor_lt.mpr
    exact_mod_cast h1
  rw [if_pos ⟨hf0, hf1⟩]

theorem neg_emod_nat (n w : Nat) (hw : 0 < w) :
    (((w - n % w) % w : Nat) : Int) = (-(n : Int)) % (w : Int) := by
  have hlt : n % w < w := Nat.mod_lt n hw
  have hsub : ((w - n % w : Nat) : Int) = (w : Int) - ((n : Int) % (w : Int)) := by
    rw [Nat.cast_sub (le_of_lt hlt)]
    simp
  rw [Int.natCast_mod, hsub]
  have h2 : (w : Int) - (n : Int) % (w : Int) = -(n : Int) + (w : Int) * (1 + (n : Int) / (w : Int)) := by
    have := Int.emod_add_ediv (n : Int) (w : Int)
    linarith
  rw [h2, Int.add_mul_emod_self_left]

theorem clamp_texcoord_eq (inp : vec_t) (width : Nat) (hw : 1 ≤ width)
    (hlo : -4294967295 ≤ inp) (hhi : inp < 4294967296) :
    clamp_texcoord inp width = some (floorMod inp width) := by
  have hw0 : width ≠ 0 := by omega
  unfold clamp_texcoord floorMod
  rw [if_neg hw0]
  by_cases hpos : inp ≥ 0
  · rw [if_pos hpos, toUint32_nonneg inp hpos hhi]
    simp only [Option.map_some']
    congr 1
    have hf0 : 0 ≤ ⌊inp⌋ := Int.floor_nonneg.mpr hpos
    obtain ⟨n, hn⟩ := Int.eq_ofNat_of_zero_le hf0
    rw [hn]
    simp only [Int.toNat_ofNat]
    rw [← Int.natCast_mod, Int.toNat_ofNat]
  · rw [if_neg hpos]
    have hneg : inp < 0 := lt_of_not_ge hpos
    have habs : |inp| = -inp := abs_of_neg hneg
    have hceil : ⌈|inp|⌉ = -⌊inp⌋ := by rw [habs, Int.ceil_neg]
    have hfl : -4294967295 ≤ ⌊inp⌋ := by
      apply Int.le_floor.mpr
      exact_mod_cast hlo
    have hfn : ⌊inp⌋ < 0 := by
      apply Int.floor_lt.mpr
      exact_mod_cast hneg
    have hm0 : 0 ≤ -⌊inp⌋ := by omega
    have hm1 : -⌊inp⌋ < 4294967296 := by omega
    simp only [hceil]
    rw [toUint32_int (-⌊inp⌋) hm0 hm1]
    simp only [Option.map_some']
    congr 1
    obtain ⟨n, hn⟩ := Int.eq_ofNat_of_zero_le hm0
    have hfloor : ⌊inp⌋ = -(n : Int) := by omega
    rw [hn, hfloor]
    simp only [Int.toNat_ofNat]
    rw [← neg_emod_nat n width (by omega), Int.toNat_ofNat]

theorem floorMod_lt (inp : vec_t) (width : Nat) (hw : 1 ≤ width) : floorMod inp width < width := by
  unfold floorMod
  have hw0 : (0 : Int) < (width : Int) := by exact_mod_cast hw
  have h1 := Int.emod_lt_of_pos ⌊inp⌋ hw0
  have h0 := Int.emod_nonneg ⌊inp⌋ (ne_of_gt hw0)
  omega

theorem floorMod_add (inp : vec_t) (width : Nat) (k : Int) :
    floorMod (inp + (k : vec_t) * (width : vec_t)) width = floorMod inp width := by
  unfold floorMod
  have h : inp + (k : vec_t) * (width : vec_t) = inp + ((k * (width : Int) : Int) : vec_t) := by
    push_cast
    ring
  rw [h, Int.floor_add_int, Int.add_mul_emod_self]

/-- C34 (amended): for every width ≥ 1 and every texture coordinate `in` with
−(2³² − 1) ≤ in < 2³², `clamp_texcoord(in, width)` is defined and equals
`floor(in) mod width` (the remainder that is not negative); the result lies in
[0, width − 1], and it is unchanged when an integer multiple of `width` is
added to `in` and the sum is in the same range. -/
theorem clamp_texcoord_floor_mod (inp : vec_t) (width : Nat) (hw : 1 ≤ width)
    (hlo : -4294967295 ≤ inp) (hhi : inp < 4294967296) :
    clamp_texcoord inp width = some (floorMod inp width) ∧
    floorMod inp width < width ∧
    ∀ k : Int, -4294967295 ≤ inp + (k : vec_t) * (width : vec_t) →
      inp + (k : vec_t) * (width : vec_t) < 4294967296 →
      clamp_texcoord (inp + (k : vec_t) * (width : vec_t)) width = clamp_texcoord inp width := by
  refine ⟨clamp_texcoord_eq inp width hw hlo hhi, floorMod_lt inp width hw, ?_⟩
  intro k h1 h2
  rw [clamp_texcoord_eq _ width hw h1 h2, clamp_texcoord_eq inp width hw hlo hhi,
    floorMod_add]

/-- C34, the claim as stated fails: the coordinate −(2³² − 1/2) has magnitude
below 2³², its `floor mod 3` is 2, but `ceil(fabs(in))` is 2³², which does not
fit a `uint32_t`, so the conversion, and with it the result, is undefined. -/
theorem clamp_texcoord_floor_mod_counterexample :
    |(-8589934591 / 2 : vec_t)| < 4294967296 ∧ floorMod (-8589934591 / 2) 3 = 2 ∧
    clamp_texcoord (-8589934591 / 2) 3 = none ∧
    clamp_texcoord (-8589934591 / 2) 3 ≠ some (floorMod (-8589934591 / 2) 3) := by
  decide!

/-- C34 (amended), at the coordinate −5/2 and width 4: the pixel index is 1,
as for the coordinate −5/2 + 3·4. -/
theorem clamp_texcoord_floor_mod_witness :
    clamp_texcoord (-5 / 2) 4 = some 1 ∧
    (clamp_texcoord (-5 / 2) 4 = some (floorMod (-5 / 2) 4) ∧
     floorMod (-5 / 2) 4 < 4 ∧
     ∀ k : Int, -4294967295 ≤ (-5 / 2 : vec_t) + (k : vec_t) * ((4 : Nat) : vec_t) →
      (-5 / 2 : vec_t) + (k : vec_t) * ((4 : Nat) : vec_t) < 4294967296 →
      clamp_texcoord ((-5 / 2 : vec_t) + (k : vec_t) * ((4 : Nat) : vec_t)) 4 =
        clamp_texcoord (-5 / 2) 4) :=
  ⟨by decide!, clamp_texcoord_floor_mod (-5 / 2) 4 (by decide) (by norm_num) (by norm_num)⟩

theorem BoxOnPlaneSide_eq (bounds : aabb3d) (plane : qbsp_plane_t) :
    BoxOnPlaneSide bounds plane =
      if plane.type.toInt < plane_type_t.PLANE_ANYX.toInt then BoxOnPlaneSide.axial bounds plane
      else BoxOnPlaneSide.general bounds plane := rfl

theorem mul_le_corner (n lo hi a : ℚ) (h1 : lo ≤ a) (h2 : a ≤ hi) :
    n * a ≤ n * (if n < 0 then lo else hi) := by
  by_cases hn : n < 0
  · rw [if_pos hn]
    exact mul_le_mul_of_nonpos_left h1 (le_of_lt hn)
  · rw [if_neg hn]
    exact mul_le_mul_of_nonneg_left h2 (le_of_not_lt hn)

theorem corner_le_mul (n lo hi a : ℚ) (h1 : lo ≤ a) (h2 : a ≤ hi) :
    n * (if n < 0 then hi else lo) ≤ n * a := by
  by_cases hn : n < 0
  · rw [if_pos hn]
    exact mul_le_mul_of_nonpos_left h2 (le_of_lt hn)
  · rw [if_neg hn]
    exact mul_le_mul_of_nonneg_left h1 (le_of_not_lt hn)

theorem BoxOnPlaneSide.corners_contains (bounds : aabb3d) (plane : qbsp_plane_t)
    (hx : bounds.mins.x ≤ bounds.maxs.x) (hy : bounds.mins.y ≤ bounds.maxs.y)
    (hz : bounds.mins.z ≤ bounds.maxs.z) :
    bounds.contains (BoxOnPlaneSide.corners bounds plane).1 ∧
    bounds.contains (BoxOnPlaneSide.corners bounds plane).2 := by
  unfold aabb3d.contains BoxOnPlaneSide.corners
  simp only
  refine ⟨⟨?_, ?_, ?_, ?_, ?_, ?_⟩, ⟨?_, ?_, ?_, ?_, ?_, ?_⟩⟩ <;> split_ifs <;>
    first | exact le_refl _ | assumption

theorem BoxOnPlaneSide.corners_extreme (bounds : aabb3d) (plane : qbsp_plane_t) (pt : qvec3d)
    (h : bounds.contains pt) :
    planeDist plane (BoxOnPlaneSide.corners bounds plane).2 ≤ planeDist plane pt ∧
    planeDist plane pt ≤ planeDist plane (BoxOnPlaneSide.corners bounds plane).1 := by
  obtain ⟨hx0, hx1, hy0, hy1, hz0, hz1⟩ := h
  unfold planeDist qv.dot BoxOnPlaneSide.corners
  simp only
  have a1 := mul_le_corner plane.normal.x _ _ _ hx0 hx1
  have a2 := mul_le_corner plane.normal.y _ _ _ hy0 hy1
  have a3 := mul_le_corner plane.normal.z _ _ _ hz0 hz1
  have b1 := corner_le_mul plane.normal.x _ _ _ hx0 hx1
  have b2 := corner_le_mul plane.normal.y _ _ _ hy0 hy1
  have b3 := corner_le_mul plane.normal.z _ _ _ hz0 hz1
  constructor <;> linarith

theorem BoxOnPlaneSide.general_dists (bounds : aabb3d) (plane : qbsp_plane_t) :
    BoxOnPlaneSide.general bounds plane =
      (if planeDist plane (BoxOnPlaneSide.corners bounds plane).2 < PLANESIDE_EPSILON then
        (if planeDist plane (BoxOnPlaneSide.corners bounds plane).1 ≥ PLANESIDE_EPSILON
          then PSIDE_FRONT else 0) ||| PSIDE_BACK
      else (if planeDist plane (BoxOnPlaneSide.corners bounds plane).1 ≥ PLANESIDE_EPSILON
          then PSIDE_FRONT else 0)) := by
  have hc : ∀ c : qvec3d, qv.dot plane.normal c = qv.dot c plane.normal := by
    intro c
    unfold qv.dot
    ring
  unfold BoxOnPlaneSide.general planeDist
  simp only [hc]

theorem BoxOnPlaneSide.general_front (bounds : aabb3d) (plane : qbsp_plane_t) :
    (BoxOnPlaneSide.general bounds plane &&& PSIDE_FRONT ≠ 0 ↔
      planeDist plane (BoxOnPlaneSide.corners bounds plane).1 ≥ PLANESIDE_EPSILON) ∧
    (BoxOnPlaneSide.general bounds plane &&& PSIDE_BACK ≠ 0 ↔
      planeDist plane (BoxOnPlaneSide.corners bounds plane).2 < PLANESIDE_EPSILON) := by
  rw [BoxOnPlaneSide.general_dists]
  by_cases h1 : planeDist plane (BoxOnPlaneSide.corners bounds plane).1 ≥ PLANESIDE_EPSILON <;>
    by_cases h2 : planeDist plane (BoxOnPlaneSide.corners bounds plane).2 < PLANESIDE_EPSILON <;>
    simp [h1, h2, PSIDE_FRONT, PSIDE_BACK]

/-- C35: for a plane whose type is not axial and a box with mins ≤ maxs, the
result of `BoxOnPlaneSide` has the FRONT bit exactly when some point of the
box has signed distance ≥ 0.001 from the plane, and the BACK bit exactly when
some point of the box has signed distance < 0.001: the two corners it selects
lie in the box and attain the largest and the smallest signed distance over
the whole box. -/
theorem BoxOnPlaneSide_general_bits (bounds : aabb3d) (plane : qbsp_plane_t)
    (ht : plane_type_t.PLANE_ANYX.toInt ≤ plane.type.toInt)
    (hx : bounds.mins.x ≤ bounds.maxs.x) (hy : bounds.mins.y ≤ bounds.maxs.y)
    (hz : bounds.mins.z ≤ bounds.maxs.z) :
    (BoxOnPlaneSide bounds plane &&& PSIDE_FRONT ≠ 0 ↔
      ∃ pt, bounds.contains pt ∧ planeDist plane pt ≥ 1 / 1000) ∧
    (BoxOnPlaneSide bounds plane &&& PSIDE_BACK ≠ 0 ↔
      ∃ pt, bounds.contains pt ∧ planeDist plane pt < 1 / 1000) ∧
    bounds.contains (BoxOnPlaneSide.corners bounds plane).1 ∧
    bounds.contains (BoxOnPlaneSide.corners bounds plane).2 ∧
    ∀ pt, bounds.contains pt →
      planeDist plane (BoxOnPlaneSide.corners bounds plane).2 ≤ planeDist plane pt ∧
      planeDist plane pt ≤ planeDist plane (BoxOnPlaneSide.corners bounds plane).1 := by
  have hgen : BoxOnPlaneSide bounds plane = BoxOnPlaneSide.general bounds plane := by
    rw [BoxOnPlaneSide_eq, if_neg (not_lt.mpr ht)]
  have hin := BoxOnPlaneSide.corners_contains bounds plane hx hy hz
  have hbits := BoxOnPlaneSide.general_front bounds plane
  have heps : PLANESIDE_EPSILON = 1 / 1000 := rfl
  rw [hgen]
  refine ⟨?_, ?_, hin.1, hin.2, fun pt hpt => BoxOnPlaneSide.corners_extreme bounds plane pt hpt⟩
  · rw [hbits.1, heps]
    constructor
    · intro h
      exact ⟨_, hin.1, h⟩
    · rintro ⟨pt, hpt, hd⟩
      exact le_trans hd (BoxOnPlaneSide.corners_extreme bounds plane pt hpt).2
  · rw [hbits.2, heps]
    constructor
    · intro h
      exact ⟨_, hin.2, h⟩
    · rintro ⟨pt, hpt, hd⟩
      exact lt_of_le_of_lt (BoxOnPlaneSide.corners_extreme bounds plane pt hpt).1 hd

/-- C35, on the cube (0,0,0)–(16,16,16) and the plane with normal (3/5, 4/5, 0)
at distance 123/10: the result is BOTH. -/
theorem BoxOnPlaneSide_general_bits_witness :
    BoxOnPlaneSide cube16Bounds slantPlane = PSIDE_BOTH ∧
    ((BoxOnPlaneSide cube16Bounds slantPlane &&& PSIDE_FRONT ≠ 0 ↔
      ∃ pt, cube16Bounds.contains pt ∧ planeDist slantPlane pt ≥ 1 / 1000) ∧
    (BoxOnPlaneSide cube16Bounds slantPlane &&& PSIDE_BACK ≠ 0 ↔
      ∃ pt, cube16Bounds.contains pt ∧ planeDist slantPlane pt < 1 / 1000) ∧
    cube16Bounds.contains (BoxOnPlaneSide.corners cube16Bounds slantPlane).1 ∧
    cube16Bounds.contains (BoxOnPlaneSide.corners cube16Bounds slantPlane).2 ∧
    ∀ pt, cube16Bounds.contains pt →
      planeDist slantPlane (BoxOnPlaneSide.corners cube16Bounds slantPlane).2 ≤
        planeDist slantPlane pt ∧
      planeDist slantPlane pt ≤
        planeDist slantPlane (BoxOnPlaneSide.corners cube16Bounds slantPlane).1) :=
  ⟨by decide!, BoxOnPlaneSide_general_bits cube16Bounds slantPlane (by decide)
    (by decide!) (by decide!) (by decide!)⟩

theorem BoxOnPlaneSide.axial_unit (bounds : aabb3d) (plane : qbsp_plane_t) (i : Nat)
    (hi : i < 3) (ht : plane.type = axisType i) (hn : plane.normal = axisVec i 1) :
    BoxOnPlaneSide.axial bounds plane =
      (if bounds.mins.get i < plane.dist - PLANESIDE_EPSILON then
        (if bounds.maxs.get i > plane.dist + PLANESIDE_EPSILON then PSIDE_FRONT else 0)
          ||| PSIDE_BACK
      else (if bounds.maxs.get i > plane.dist + PLANESIDE_EPSILON then PSIDE_FRONT else 0)) ∧
    BoxOnPlaneSide.general bounds plane =
      (if bounds.mins.get i < plane.dist + PLANESIDE_EPSILON then
        (if bounds.maxs.get i ≥ plane.dist + PLANESIDE_EPSILON then PSIDE_FRONT else 0)
          ||| PSIDE_BACK
      else (if bounds.maxs.get i ≥ plane.dist + PLANESIDE_EPSILON then PSIDE_FRONT else 0)) := by
  have hcases : i = 0 ∨ i = 1 ∨ i = 2 := by omega
  unfold BoxOnPlaneSide.axial BoxOnPlaneSide.general BoxOnPlaneSide.corners qv.dot
  rw [hn, ht]
  have h10 : ¬ (1 : ℚ) < 0 := by norm_num
  rcases hcases with h | h | h <;> subst h <;>
    simp [axisType, axisVec, qvec3d.set, qvec3d.get, plane_type_t.toInt, PSIDE_FRONT,
      sub_lt_iff_lt_add, le_sub_iff_add_le, add_comm, h10]

theorem BoxOnPlaneSide.bits_inj (f1 b1 f2 b2 : Prop) [Decidable f1] [Decidable b1]
    [Decidable f2] [Decidable b2] :
    ((if b1 then (if f1 then PSIDE_FRONT else 0) ||| PSIDE_BACK
        else (if f1 then PSIDE_FRONT else 0)) =
      (if b2 then (if f2 then PSIDE_FRONT else 0) ||| PSIDE_BACK
        else (if f2 then PSIDE_FRONT else 0))) ↔ ((f1 ↔ f2) ∧ (b1 ↔ b2)) := by
  by_cases h1 : f1 <;> by_cases h2 : f2 <;> by_cases h3 : b1 <;> by_cases h4 : b2 <;>
    simp [h1, h2, h3, h4, PSIDE_FRONT, PSIDE_BACK]

theorem BoxOnPlaneSide_axial_iff_general (bounds : aabb3d) (plane : qbsp_plane_t) (i : Nat)
    (hi : i < 3) (ht : plane.type = axisType i) (hn : plane.normal = axisVec i 1) :
    BoxOnPlaneSide.axial bounds plane = BoxOnPlaneSide.general bounds plane ↔
      bounds.maxs.get i ≠ plane.dist + PLANESIDE_EPSILON ∧
      ¬ (plane.dist - PLANESIDE_EPSILON ≤ bounds.mins.get i ∧
          bounds.mins.get i < plane.dist + PLANESIDE_EPSILON) := by
  obtain ⟨ha, hg⟩ := BoxOnPlaneSide.axial_unit bounds plane i hi ht hn
  rw [ha, hg, BoxOnPlaneSide.bits_inj]
  have heps : (0 : ℚ) < PLANESIDE_EPSILON := by unfold PLANESIDE_EPSILON; norm_num
  constructor
  · rintro ⟨hf, hb⟩
    refine ⟨?_, ?_⟩
    · intro hc
      have := hf.mpr (le_of_eq hc.symm)
      linarith
    · rintro ⟨h1, h2⟩
      have := hb.mpr h2
      linarith
  · rintro ⟨hf, hb⟩
    refine ⟨⟨fun h => le_of_lt h, fun h => lt_of_le_of_ne h (Ne.symm hf)⟩,
      ⟨fun h => by linarith, fun h => ?_⟩⟩
    by_contra hc
    exact hb ⟨le_of_not_lt hc, h⟩

theorem BrushVolume.corner_snoc (l : List side_t) (a : side_t) :
    BrushVolume.corner (l ++ [a]) =
      match a.w with
      | [] => BrushVolume.corner l
      | p :: _ => some p := by
  unfold BrushVolume.corner
  rw [List.foldl_append]
  rfl

theorem BrushVolume.corner_eq_last (sides : List side_t) :
    BrushVolume.corner sides =
      ((sides.filter (fun face => decide (face.w ≠ []))).getLast?).bind
        (fun face => face.w.head?) := by
  induction sides using List.reverseRecOn with
  | nil => rfl
  | append_singleton l a ih =>
    rw [BrushVolume.corner_snoc, List.filter_append, ih]
    cases hw : a.w with
    | nil => simp [List.filter, hw]
    | cons p rest => simp [List.filter, hw]

theorem BrushVolume.sum_fold (E : Ext) (corner : qvec3d) (sides : List side_t) (acc : vec_t) :
    sides.foldl (fun volume side =>
      if side.w.length = 0 then volume
      else
        let plane := Face_Plane side
        let d := -(qv.dot corner plane.normal - plane.dist)
        let area := E.area side.w
        volume + d * area) acc =
    acc + ((sides.filter (fun side => decide (side.w ≠ []))).map (fun side =>
      E.area side.w * ((Face_Plane side).dist - qv.dot corner (Face_Plane side).normal))).sum := by
  induction sides generalizing acc with
  | nil => simp
  | cons a rest ih =>
    rw [List.foldl_cons, ih]
    by_cases hw : a.w = []
    · simp [hw]
    · have hl : ¬ a.w.length = 0 := fun h => hw (List.length_eq_zero.mp h)
      simp only [hl, if_false, List.filter_cons, hw, ne_eq, not_false_eq_true, decide_True,
        if_true, List.map_cons, List.sum_cons]
      ring

theorem BrushVolume_eq_tetraSum (E : Ext) (brush : bspbrush_t) :
    BrushVolume E brush =
      match BrushVolume.corner brush.sides with
      | none => 0
      | some corner => BrushVolume.tetraSum E brush.sides corner := by
  unfold BrushVolume
  cases BrushVolume.corner brush.sides with
  | none => rfl
  | some corner =>
    simp only
    rw [BrushVolume.sum_fold, zero_add]
    rfl

/-- C36, the code takes another corner: on the cube (0,0,0)–(16,16,16) without
the winding of its face on `y = 16`, the first vertex of the first side with a
winding is (16,16,16) and the volume in the words of the claim is 4096, but
the corner loop of `BrushVolume` has no `break` and ends with the first vertex
of the last side with a winding, (16,0,0), for which the result is 8192/3. -/
theorem BrushVolume_last_corner :
    BrushVolume.firstCorner openCube.sides = some ⟨16, 16, 16⟩ ∧
    BrushVolume.corner openCube.sides = some ⟨16, 0, 0⟩ ∧
    claimVolume refExt openCube = 4096 ∧
    BrushVolume refExt openCube = 8192 / 3 ∧
    BrushVolume refExt openCube ≠ claimVolume refExt openCube := by
  decide!

theorem BrushVolume.of_refBox (E : Ext) (x0 y0 z0 x1 y1 z1 : vec_t)
    (hx : x0 < x1) (hy : y0 < y1) (hz : z0 < z1)
    (hE : ∀ s ∈ (refBox x0 y0 z0 x1 y1 z1).sides, E.area s.w = rectArea s.w) :
    BrushVolume E (refBox x0 y0 z0 x1 y1 z1) = (x1 - x0) * (y1 - y0) * (z1 - z0) := by
  have hx' : |x1 - x0| = x1 - x0 := abs_of_pos (by linarith)
  have hy' : |y1 - y0| = y1 - y0 := abs_of_pos (by linarith)
  have hz' : |z1 - z0| = z1 - z0 := abs_of_pos (by linarith)
  have hx'' : |x0 - x1| = x1 - x0 := by rw [abs_sub_comm]; exact hx'
  have hy'' : |y0 - y1| = y1 - y0 := by rw [abs_sub_comm]; exact hy'
  have hz'' : |z0 - z1| = z1 - z0 := by rw [abs_sub_comm]; exact hz'
  simp only [refBox, List.mem_cons, List.mem_singleton, forall_eq_or_imp, forall_eq,
    List.not_mem_nil, false_implies, forall_const, and_true, boxSide, rectArea, axialLength,
    qvec3d.sub, sub_self, abs_zero, add_zero, zero_add, hx', hy', hz', hx'', hy'', hz''] at hE
  obtain ⟨h0, h1, h2, h3, h4, h5⟩ := hE
  rw [BrushVolume_eq_tetraSum]
  simp [refBox, BrushVolume.corner, BrushVolume.tetraSum, boxSide, Face_Plane, h0, h1, h2, h3,
    h4, h5, qplane3d.neg, qvec3d.neg, qv.dot, axisVec, qvec3d.set]
  ring

/-- C31: for an axial box brush with mins < maxs whose six sides carry their
rectangular face windings and outward axial planes, and an area function that
gives each of these rectangles the product of its edge lengths, `BrushVolume`
returns the product of the three extents. -/
theorem BrushVolume_box (E : Ext) (x0 y0 z0 x1 y1 z1 : vec_t)
    (hx : x0 < x1) (hy : y0 < y1) (hz : z0 < z1)
    (hE : ∀ s ∈ (refBox x0 y0 z0 x1 y1 z1).sides, E.area s.w = rectArea s.w) :
    BrushVolume E (refBox x0 y0 z0 x1 y1 z1) = (x1 - x0) * (y1 - y0) * (z1 - z0) :=
  BrushVolume.of_refBox E x0 y0 z0 x1 y1 z1 hx hy hz hE

/-- C31, on the cube (0,0,0)–(16,16,16), which is the brush that
`BrushFromBounds` builds for these bounds: with the triangle-fan area its
volume is 4096. -/
theorem BrushVolume_box_witness :
    BrushVolume refExt cube16 = 4096 ∧
    BrushFromBounds refExt cube16Bounds = refBox 0 0 0 16 16 16 ∧
    BrushVolume refExt (refBox 0 0 0 16 16 16) = (16 - 0) * (16 - 0) * (16 - 0) :=
  ⟨by decide!, BrushFromBounds_refBox.1,
    BrushVolume_box refExt 0 0 0 16 16 16 (by norm_num) (by norm_num) (by norm_num)
      (by decide!)⟩

theorem SplitBrush.cap_flags (E : Ext) (split : qplane3d) (mid : winding_t) (i : Nat) :
    (SplitBrush.cap E split mid i).onnode = true ∧
    (SplitBrush.cap E split mid i).visible = false ∧
    (SplitBrush.cap E split mid i).tested = false ∧
    (SplitBrush.cap E split mid i).texinfo = E.skip_texinfo ∧
    ∀ pass, SelectSplitSide.skips E pass (SplitBrush.cap E split mid i) = true := by
  refine ⟨rfl, rfl, rfl, rfl, ?_⟩
  intro pass
  simp [SelectSplitSide.skips, SplitBrush.cap]

theorem SelectSplitSide_scored_free (E : Ext) (bs : List bspbrush_t) (node : node_t)
    (r : SelectResult) (h : SelectSplitSide E bs node = Except.ok r) :
    (∀ e ∈ r.scored, ∀ brush side, bs[e.bi]? = some brush → brush.sides[e.si]? = some side →
      side.onnode = false) ∧
    ∀ s, r.side = some s → s.onnode = false := by
  constructor
  · intro e he brush side hb hs
    obtain ⟨p, st, hinv, _, hsc⟩ := SelectSplitSide_inv E bs node r h
    rw [hsc] at he
    obtain ⟨brush1, side1, _, hb1, hs1, _, _, hon, _⟩ := hinv.2.2.2.2 e he
    rw [hb] at hb1
    cases hb1
    rw [hs] at hs1
    cases hs1
    exact hon
  · intro s hs
    rcases SelectResult.side_eq E bs node r h with ⟨_, hn⟩ | ⟨bi, si, brush0, side0, hbest, hb, hsd, hside⟩
    · rw [hn] at hs
      cases hs
    · obtain ⟨brush0', side0', _, _, _, _, hb', hsd', _, _, _, _, hon, _⟩ :=
        SelectSplitSide_best E bs node r bi si h hbest
      rw [hb] at hb'
      cases hb'
      rw [hsd] at hsd'
      cases hsd'
      rw [hside] at hs
      cases hs
      exact hon

/-- C32: when `SplitBrush` returns two pieces, the last side of each is the
cap on the split plane, and a cap has onnode = true, visible = false,
tested = false and the skip texinfo; the side loop of `SelectSplitSide` skips
it in every pass, and no candidate that a search scores or returns is a
cap. -/
theorem SplitBrush_cap_never_candidate (E : Ext) (brush : bspbrush_t) (p : qplane3d)
    (f k : bspbrush_t)
    (hf : (SplitBrush E brush p).front = some f)
    (hk : (SplitBrush E brush p).back = some k) :
    ∃ mid,
      SplitBrush.midwinding E brush p = some mid ∧
      f.sides.getLast? = some (SplitBrush.cap E p mid 0) ∧
      k.sides.getLast? = some (SplitBrush.cap E p mid 1) ∧
      ∀ i,
        (SplitBrush.cap E p mid i).onnode = true ∧
        (SplitBrush.cap E p mid i).visible = false ∧
        (SplitBrush.cap E p mid i).tested = false ∧
        (SplitBrush.cap E p mid i).texinfo = E.skip_texinfo ∧
        (∀ pass, SelectSplitSide.skips E pass (SplitBrush.cap E p mid i) = true) ∧
        ∀ bs node r, SelectSplitSide E bs node = Except.ok r →
          (∀ e ∈ r.scored, ∀ b side, bs[e.bi]? = some b → b.sides[e.si]? = some side →
            side ≠ SplitBrush.cap E p mid i) ∧
          r.side ≠ some (SplitBrush.cap E p mid i) := by
  obtain ⟨mid, c0, c1, hm, _, _, hf', hk', _, _⟩ := SplitBrush.both_some E brush p f k hf hk
  refine ⟨mid, hm, ?_, ?_, ?_⟩
  · rw [hf']
    simp [SplitBrush.withCap]
  · rw [hk']
    simp [SplitBrush.withCap]
  · intro i
    obtain ⟨h1, h2, h3, h4, h5⟩ := SplitBrush.cap_flags E p mid i
    refine ⟨h1, h2, h3, h4, h5, ?_⟩
    intro bs node r hsel
    obtain ⟨ha, hb⟩ := SelectSplitSide_scored_free E bs node r hsel
    constructor
    · intro e he b side hb1 hs1 hcap
      have := ha e he b side hb1 hs1
      rw [hcap, h1] at this
      cases this
    · intro hcap
      have := hb _ hcap
      rw [h1] at this
      cases this

/-- C32, on the cube (0,0,0)–(16,16,16) split at `x = 8`. -/
theorem SplitBrush_cap_never_candidate_witness :
    (SplitBrush refExt cube16 (planeX 8)).front = some cube16Front ∧
    (SplitBrush refExt cube16 (planeX 8)).back = some cube16Back ∧
    ∃ mid,
      SplitBrush.midwinding refExt cube16 (planeX 8) = some mid ∧
      cube16Front.sides.getLast? = some (SplitBrush.cap refExt (planeX 8) mid 0) ∧
      cube16Back.sides.getLast? = some (SplitBrush.cap refExt (planeX 8) mid 1) ∧
      ∀ i,
        (SplitBrush.cap refExt (planeX 8) mid i).onnode = true ∧
        (SplitBrush.cap refExt (planeX 8) mid i).visible = false ∧
        (SplitBrush.cap refExt (planeX 8) mid i).tested = false ∧
        (SplitBrush.cap refExt (planeX 8) mid i).texinfo = refExt.skip_texinfo ∧
        (∀ pass, SelectSplitSide.skips refExt pass (SplitBrush.cap refExt (planeX 8) mid i)
          = true) ∧
        ∀ bs node r, SelectSplitSide refExt bs node = Except.ok r →
          (∀ e ∈ r.scored, ∀ b side, bs[e.bi]? = some b → b.sides[e.si]? = some side →
            side ≠ SplitBrush.cap refExt (planeX 8) mid i) ∧
          r.side ≠ some (SplitBrush.cap refExt (planeX 8) mid i) :=
  have hf : (SplitBrush refExt cube16 (planeX 8)).front = some cube16Front := by decide!
  have hk : (SplitBrush refExt cube16 (planeX 8)).back = some cube16Back := by decide!
  ⟨hf, hk, SplitBrush_cap_never_candidate refExt cube16 (planeX 8) cube16Front cube16Back hf hk⟩

theorem SplitBrush.real_rejected (E : Ext) (brush : bspbrush_t) (p : qplane3d) (mid : winding_t)
    (hr0 : (SplitBrush.childSides E p 0 brush.sides).length < 3 ∨
      SplitBrush.bogus (E.update_bounds (SplitBrush.childSides E p 0 brush.sides)) = true)
    (hr1 : (SplitBrush.childSides E p 1 brush.sides).length < 3 ∨
      SplitBrush.bogus (E.update_bounds (SplitBrush.childSides E p 1 brush.sides)) = true) :
    SplitBrush.real E brush p mid = { front := none, back := none } := by
  unfold SplitBrush.real
  rw [SplitBrush.checked_eq, SplitBrush.checked_eq, if_pos hr0, if_pos hr1]
  rfl

theorem SplitBrushList.without (E : Ext) (node : node_t) (brush : bspbrush_t)
    (pre post : List bspbrush_t) (hside : brush.side = PSIDE_BOTH)
    (h : SplitBrush E brush node.plane.toqplane3d = { front := none, back := none }) :
    (SplitBrushList E (pre ++ brush :: post) node).front =
      (SplitBrushList E (pre ++ post) node).front ∧
    (SplitBrushList E (pre ++ brush :: post) node).back =
      (SplitBrushList E (pre ++ post) node).back := by
  have hf : SplitBrushList.frontOf E node brush = none := by
    unfold SplitBrushList.frontOf
    rw [if_pos hside, h]
  have hb : SplitBrushList.backOf E node brush = none := by
    unfold SplitBrushList.backOf
    rw [if_pos hside, h]
  obtain ⟨a1, a2⟩ := SplitBrushList.eq_filterMap E (pre ++ brush :: post) node
  obtain ⟨b1, b2⟩ := SplitBrushList.eq_filterMap E (pre ++ post) node
  rw [a1, a2, b1, b2]
  simp [List.filterMap_append, List.filterMap_cons, hf, hb]

/-- C33: if `SplitBrush` splits for real (the brush reaches 0.1 to both sides
of the plane and the mid-winding exists and is not tiny) and both children
are rejected before the cap is added (each has fewer than 3 sides or a bound
coordinate outside [−4096, 4096]), it returns nothing on both sides; and
`SplitBrushList`, for a node with this plane and the brush classified BOTH,
puts no piece of the brush in either list: the lists are those of the brush
list without it. -/
theorem SplitBrush_both_rejected (E : Ext) (brush : bspbrush_t) (p : qplane3d)
    (mid : winding_t)
    (h1 : ¬ (SplitBrush.dists brush p).1 < 1 / 10)
    (h2 : ¬ (SplitBrush.dists brush p).2 > -(1 / 10))
    (hm : SplitBrush.midwinding E brush p = some mid)
    (hr0 : (SplitBrush.childSides E p 0 brush.sides).length < 3 ∨
      SplitBrush.bogus (E.update_bounds (SplitBrush.childSides E p 0 brush.sides)) = true)
    (hr1 : (SplitBrush.childSides E p 1 brush.sides).length < 3 ∨
      SplitBrush.bogus (E.update_bounds (SplitBrush.childSides E p 1 brush.sides)) = true) :
    SplitBrush E brush p = { front := none, back := none } ∧
    ∀ (node : node_t) (pre post : List bspbrush_t),
      node.plane.toqplane3d = p → brush.side = PSIDE_BOTH →
      (SplitBrushList E (pre ++ brush :: post) node).front =
        (SplitBrushList E (pre ++ post) node).front ∧
      (SplitBrushList E (pre ++ brush :: post) node).back =
        (SplitBrushList E (pre ++ post) node).back := by
  have hs : SplitBrush E brush p = { front := none, back := none } := by
    rw [SplitBrush.eq_real E brush p mid h1 h2 hm]
    exact SplitBrush.real_rejected E brush p mid hr0 hr1
  refine ⟨hs, ?_⟩
  intro node pre post hp hside
  apply SplitBrushList.without E node brush pre post hside
  rw [hp]
  exact hs

/-- C33, on the bar (-5000,0,0)–(5000,16,16) and the plane `x = 0`: both
halves have bogus bounds, and the bar, classified BOTH, vanishes from the
lists of the node `slabNode`, whose plane is `x = 0`. -/
theorem SplitBrush_both_rejected_witness :
    SplitBrushList refExt [wideBar] slabNode = { front := [], back := [] } ∧
    SplitBrush refExt wideBar (planeX 0) = { front := none, back := none } ∧
    ∀ (node : node_t) (pre post : List bspbrush_t),
      node.plane.toqplane3d = planeX 0 → wideBar.side = PSIDE_BOTH →
      (SplitBrushList refExt (pre ++ wideBar :: post) node).front =
        (SplitBrushList refExt (pre ++ post) node).front ∧
      (SplitBrushList refExt (pre ++ wideBar :: post) node).back =
        (SplitBrushList refExt (pre ++ post) node).back :=
  ⟨by decide!,
    SplitBrush_both_rejected refExt wideBar (planeX 0) wideBarMid (by decide!) (by decide!)
      (by decide!) (by decide!) (by decide!)⟩

theorem BrushBSP_eq_rootnode (E : Ext) (G : gamedef_t) (B : BoundsExt) (fuel : Nat)
    (entity_bounds : aabb3d) (brushlist : List bspbrush_t) (h : brushlist.isEmpty = false) :
    BrushBSP E G B fuel entity_bounds brushlist =
      match BuildTree_r E G fuel (BrushBSP.rootnode E B brushlist) brushlist
          { leafstats := [], c_nodes := 0, c_nonvis := 0, c_leafs := 0 } with
      | BuildResult.done tree _ =>
        BrushBSP.Result.done
          { bounds := brushlist.foldl (fun acc b => B.add acc b.bounds) B.empty,
            headnode := headnode_t.built tree }
      | BuildResult.fatal e => BrushBSP.Result.fatal e
      | BuildResult.outOfFuel => BrushBSP.Result.outOfFuel := by
  unfold BrushBSP
  simp only [h, Bool.false_eq_true, if_false]
  rfl

theorem BuildTree_r.split_nodes (E : Ext) (r : SelectResult) (bestside : side_t)
    (s : BuildTree_r.Split) (h : BuildTree_r.split E r bestside = Except.ok s) :
    ∃ volume, r.node.volume = some volume ∧
      s.node = { r.node with plane := (set_plane bestside.plane.toqplane3d true).1 } ∧
      s.side = bestside ∧
      s.front.1 = BuildTree_r.newnode s.node (SplitBrush E volume s.node.plane.toqplane3d).front ∧
      s.back.1 = BuildTree_r.newnode s.node (SplitBrush E volume s.node.plane.toqplane3d).back ∧
      s.front.2 = (SplitBrushList E r.brushes s.node).front ∧
      s.back.2 = (SplitBrushList E r.brushes s.node).back := by
  unfold BuildTree_r.split at h
  simp only at h
  split at h
  · cases h
  · rename_i volume hv
    simp only [Except.ok.injEq] at h
    subst h
    exact ⟨volume, hv, rfl, rfl, rfl, rfl, rfl, rfl⟩

theorem BuildTree_r.Calls_volume (E : Ext) (node : node_t) (bs : List bspbrush_t)
    (node1 : node_t) (bs1 : List bspbrush_t) (hroot : node.volume.isSome = true)
    (hc : BuildTree_r.Calls E node bs node1 bs1) : node1.volume.isSome = true := by
  refine BuildTree_r.Calls_inv E (fun n _ => n.volume.isSome = true) ?_ node bs node1 bs1 hroot hc
  intro n b r bestside s _ hsel hside hsp
  obtain ⟨bi, si, brush0, side0, volume, f, k, _, _, _, _, _, _, _, _, _, _, hf, hk, _, _,
    hsplit, _⟩ := BuildTree_r.split_facts E b n r bestside hsel hside
  rw [hsplit] at hsp
  simp only [Except.ok.injEq] at hsp
  subst hsp
  exact ⟨rfl, rfl⟩

theorem BuildTree_r.step_volumes (E : Ext) (node : node_t) (bs : List bspbrush_t)
    (r : SelectResult) (bestside : side_t)
    (hsel : SelectSplitSide E bs node = Except.ok r) (hside : r.side = some bestside) :
    ∃ volume f k s, node.volume = some volume ∧
      CheckPlaneAgainstVolume E (set_plane bestside.plane.toqplane3d true).1 volume = true ∧
      BuildTree_r.split E r bestside = Except.ok s ∧
      s.node.plane = (set_plane bestside.plane.toqplane3d true).1 ∧
      SplitBrush E volume s.node.plane.toqplane3d = { front := some f, back := some k } ∧
      s.front.1.volume = some f ∧ s.back.1.volume = some k := by
  obtain ⟨bi, si, brush0, side0, volume, f, k, hbest, hb0, hs0, hbs, _, _, _, _, _, hvol, hf, hk,
    _, _, hsplit, _⟩ := BuildTree_r.split_facts E bs node r bestside hsel hside
  have hplane : bestside.plane = side0.plane := by rw [hbs]; rfl
  refine ⟨volume, f, k, _, hvol, ?_, hsplit, ?_, ?_, rfl, rfl⟩
  · rw [hplane]
    unfold CheckPlaneAgainstVolume set_plane
    simp only
    rw [hf, hk]
    rfl
  · rw [hplane]
    rfl
  · show SplitBrush E volume (from_plane side0.plane.toqplane3d true).1.toqplane3d = _
    rw [← hf, ← hk]

/-- C39: the head node that `BrushBSP` hands to `BuildTree_r` has a volume,
and every node that `BuildTree_r` visits from a root with a volume has one:
at each node where the search returns a side, the plane that the node gets is
the plane that passed `CheckPlaneAgainstVolume` on the node's volume, so both
pieces of `SplitBrush(node.volume, node.plane)` exist and each child receives
one as its volume. -/
theorem BuildTree_r_volume (E : Ext) (node : node_t) (bs : List bspbrush_t)
    (node1 : node_t) (bs1 : List bspbrush_t) (hroot : node.volume.isSome = true)
    (hc : BuildTree_r.Calls E node bs node1 bs1) :
    (∀ B brushlist, (BrushBSP.rootnode E B brushlist).volume.isSome = true) ∧
    node1.volume.isSome = true ∧
    ∀ r bestside, SelectSplitSide E bs1 node1 = Except.ok r → r.side = some bestside →
      ∃ volume f k s, node1.volume = some volume ∧
        CheckPlaneAgainstVolume E (set_plane bestside.plane.toqplane3d true).1 volume = true ∧
        BuildTree_r.split E r bestside = Except.ok s ∧
        s.node.plane = (set_plane bestside.plane.toqplane3d true).1 ∧
        SplitBrush E volume s.node.plane.toqplane3d = { front := some f, back := some k } ∧
        s.front.1.volume = some f ∧ s.back.1.volume = some k :=
  ⟨fun _ _ => rfl, BuildTree_r.Calls_volume E node bs node1 bs1 hroot hc,
    fun r bestside hsel hside => BuildTree_r.step_volumes E node1 bs1 r bestside hsel hside⟩

/-- C39, at the root `rootNode` of the build of `twoSide`, whose volume is the
box (-64,-64,-64)–(64,64,64). -/
theorem BuildTree_r_volume_witness :
    rootNode.volume.isSome = true ∧
    ((∀ B brushlist, (BrushBSP.rootnode refExt B brushlist).volume.isSome = true) ∧
    rootNode.volume.isSome = true ∧
    ∀ r bestside, SelectSplitSide refExt [twoSide] rootNode = Except.ok r →
      r.side = some bestside →
      ∃ volume f k s, rootNode.volume = some volume ∧
        CheckPlaneAgainstVolume refExt (set_plane bestside.plane.toqplane3d true).1 volume
          = true ∧
        BuildTree_r.split refExt r bestside = Except.ok s ∧
        s.node.plane = (set_plane bestside.plane.toqplane3d true).1 ∧
        SplitBrush refExt volume s.node.plane.toqplane3d = { front := some f, back := some k } ∧
        s.front.1.volume = some f ∧ s.back.1.volume = some k) :=
  ⟨rfl, BuildTree_r_volume refExt rootNode [twoSide] rootNode [twoSide] rfl
    (BuildTree_r.Calls.self rootNode [twoSide])⟩

theorem LeafNode_ok (G : gamedef_t) (node : node_t) (bs : List bspbrush_t)
    (stats stats1 : bspstats_t) (t : nodetree)
    (h : LeafNode G node bs stats = Except.ok (t, stats1)) :
    (∃ c o, t = nodetree.leaf node c o bs) ∧
    stats1.c_nodes = stats.c_nodes ∧ stats1.c_nonvis = stats.c_nonvis ∧
    stats1.c_leafs = stats.c_leafs := by
  unfold LeafNode at h
  simp only at h
  split at h
  · cases h
  · simp only [Except.ok.injEq, Prod.mk.injEq] at h
    obtain ⟨h1, h2⟩ := h
    subst h1 h2
    exact ⟨⟨_, _, rfl⟩, rfl, rfl, rfl⟩

theorem BuildTree_r.counters_of_done (E : Ext) (G : gamedef_t) (fuel : Nat) :
    ∀ (node : node_t) (bs : List bspbrush_t) (stats stats1 : bspstats_t) (t : nodetree),
      BuildTree_r E G fuel node bs stats = BuildResult.done t stats1 →
      t.root.parents = node.parents ∧ t.parented ∧
      t.numLeafs = t.numNodes + 1 ∧ t.numNonvis ≤ t.numNodes ∧
      stats1.c_nodes = stats.c_nodes + t.numNodes ∧
      stats1.c_leafs = stats.c_leafs + t.numLeafs ∧
      stats1.c_nonvis = stats.c_nonvis + t.numNonvis := by
  induction fuel with
  | zero =>
    intro node bs stats stats1 t h
    obtain ⟨fuel1, _, hf, _⟩ := BuildTree_r_done E G 0 node bs stats stats1 t h
    omega
  | succ n ih =>
    intro node bs stats stats1 t h
    obtain ⟨fuel1, r, hfuel, hsel, hcase⟩ := BuildTree_r_done E G (n + 1) node bs stats stats1 t h
    have hn : n = fuel1 := by omega
    subst hn
    obtain ⟨_, hpar, _, _, _⟩ := SelectSplitSide_frame E bs node r hsel
    rcases hcase with ⟨_, hl⟩ | ⟨bestside, s, t0, t1, stats2, hside, hsp, h0, h1, ht⟩
    · obtain ⟨⟨c, o, ht⟩, hc1, hc2, hc3⟩ := LeafNode_ok G r.node r.brushes _ stats1 t hl
      subst ht
      refine ⟨hpar, trivial, rfl, le_refl _, ?_, ?_, ?_⟩
      · rw [hc1]
        simp [nodetree.numNodes]
      · rw [hc3]
        simp [nodetree.numLeafs]
      · rw [hc2]
        simp [nodetree.numNonvis]
    · obtain ⟨volume, _, hnode, hsd, hfn, hbn, _, _⟩ := BuildTree_r.split_nodes E r bestside s hsp
      obtain ⟨a1, a2, a3, a4, a5, a6, a7⟩ := ih _ _ _ _ _ h0
      obtain ⟨b1, b2, b3, b4, b5, b6, b7⟩ := ih _ _ _ _ _ h1
      subst ht
      have hsp' : s.node.parents = node.parents := by rw [hnode]; exact hpar
      refine ⟨hsp', ⟨?_, ?_, a2, b2⟩, ?_, ?_, ?_, ?_, ?_⟩
      · rw [a1, hfn]
        rfl
      · rw [b1, hbn]
        rfl
      · simp only [nodetree.numLeafs, nodetree.numNodes]
        omega
      · simp only [nodetree.numNonvis, nodetree.numNodes]
        split_ifs <;> omega
      · rw [b5, a5]
        simp only [nodetree.numNodes]
        push_cast
        ring
      · rw [b6, a6]
        simp only [nodetree.numLeafs]
        push_cast
        ring
      · rw [b7, a7, hsd]
        simp only [nodetree.numNonvis]
        cases bestside.visible <;> simp <;> ring

/-- C40: when `BuildTree_r` completes, the tree is a full binary tree in which
the root has the ancestors of the node it was called for and both children of
every interior node have that node as their parent; it has one leaf more than
interior nodes; and the counters have grown by the number of interior nodes
(`c_nodes`), of leaves (`c_leafs`) and of interior nodes whose side is not
visible (`c_nonvis`).  Started from zero counters, as `BrushBSP` does, this
gives c_leafs = c_nodes + 1 and 0 ≤ c_nonvis ≤ c_nodes. -/
theorem BuildTree_r_counters (E : Ext) (G : gamedef_t) (fuel : Nat) (node : node_t)
    (bs : List bspbrush_t) (stats stats1 : bspstats_t) (t : nodetree)
    (h : BuildTree_r E G fuel node bs stats = BuildResult.done t stats1) :
    t.root.parents = node.parents ∧ t.parented ∧
    t.numLeafs = t.numNodes + 1 ∧ t.numNonvis ≤ t.numNodes ∧
    stats1.c_nodes = stats.c_nodes + t.numNodes ∧
    stats1.c_leafs = stats.c_leafs + t.numLeafs ∧
    stats1.c_nonvis = stats.c_nonvis + t.numNonvis ∧
    (stats.c_nodes = 0 → stats.c_leafs = 0 → stats.c_nonvis = 0 →
      stats1.c_leafs = stats1.c_nodes + 1 ∧ 0 ≤ stats1.c_nonvis ∧
      stats1.c_nonvis ≤ stats1.c_nodes) := by
  obtain ⟨a1, a2, a3, a4, a5, a6, a7⟩ :=
    BuildTree_r.counters_of_done E G fuel node bs stats stats1 t h
  refine ⟨a1, a2, a3, a4, a5, a6, a7, ?_⟩
  intro h1 h2 h3
  rw [a5, a6, a7, h1, h2, h3, a3]
  refine ⟨?_, ?_, ?_⟩
  · push_cast
    ring
  · positivity
  · simp only [zero_add]
    exact_mod_cast a4

/-- C40, on the build of `twoSide` at the node `rootNode` from zero counters:
two interior nodes and three leaves. -/
theorem BuildTree_r_counters_witness :
    BuildTree_r refExt refGame 3 rootNode [twoSide] bspstats_t.zero =
      BuildResult.done builtTwo.1 builtTwo.2 ∧
    (builtTwo.2.c_nodes = 2 ∧ builtTwo.2.c_leafs = 3) ∧
    (builtTwo.1.root.parents = rootNode.parents ∧ builtTwo.1.parented ∧
    builtTwo.1.numLeafs = builtTwo.1.numNodes + 1 ∧
    builtTwo.1.numNonvis ≤ builtTwo.1.numNodes ∧
    builtTwo.2.c_nodes = bspstats_t.zero.c_nodes + builtTwo.1.numNodes ∧
    builtTwo.2.c_leafs = bspstats_t.zero.c_leafs + builtTwo.1.numLeafs ∧
    builtTwo.2.c_nonvis = bspstats_t.zero.c_nonvis + builtTwo.1.numNonvis ∧
    (bspstats_t.zero.c_nodes = 0 → bspstats_t.zero.c_leafs = 0 →
      bspstats_t.zero.c_nonvis = 0 →
      builtTwo.2.c_leafs = builtTwo.2.c_nodes + 1 ∧ 0 ≤ builtTwo.2.c_nonvis ∧
      builtTwo.2.c_nonvis ≤ builtTwo.2.c_nodes)) :=
  ⟨builtTwo_run, by decide!,
    BuildTree_r_counters refExt refGame 3 rootNode [twoSide] bspstats_t.zero builtTwo.2
      builtTwo.1 builtTwo_run⟩

theorem BuildTree_r_outOfFuel (E : Ext) (G : gamedef_t) (fuel : Nat) (node : node_t)
    (bs : List bspbrush_t) (stats : bspstats_t)
    (h : BuildTree_r E G fuel node bs stats = BuildResult.outOfFuel) :
    fuel = 0 ∨ ∃ fuel1 r bestside s stats1, fuel = fuel1 + 1 ∧
      SelectSplitSide E bs node = Except.ok r ∧ r.side = some bestside ∧
      BuildTree_r.split E r bestside = Except.ok s ∧
      (BuildTree_r E G fuel1 s.front.1 s.front.2 stats1 = BuildResult.outOfFuel ∨
       BuildTree_r E G fuel1 s.back.1 s.back.2 stats1 = BuildResult.outOfFuel) := by
  cases fuel with
  | zero => exact Or.inl rfl
  | succ fuel1 =>
    right
    unfold BuildTree_r at h
    cases hsel : SelectSplitSide E bs node with
    | error e => rw [hsel] at h; simp at h
    | ok r =>
      rw [hsel] at h
      simp only at h
      cases hside : r.side with
      | none =>
        rw [hside] at h
        simp only at h
        cases hl : LeafNode G r.node r.brushes { stats with c_leafs := stats.c_leafs + 1 } with
        | error e => rw [hl] at h; simp at h
        | ok res =>
          obtain ⟨leaf, st⟩ := res
          rw [hl] at h
          simp at h
      | some bestside =>
        rw [hside] at h
        simp only at h
        cases hsp : BuildTree_r.split E r bestside with
        | error e => rw [hsp] at h; simp at h
        | ok s =>
          rw [hsp] at h
          simp only at h
          cases hf : BuildTree_r E G fuel1 s.front.1 s.front.2
              { stats with
                c_nodes := stats.c_nodes + 1,
                c_nonvis := if !bestside.visible then stats.c_nonvis + 1
                  else stats.c_nonvis } with
          | fatal e => rw [hf] at h; simp at h
          | outOfFuel => exact ⟨fuel1, r, bestside, s, _, rfl, rfl, hside, hsp, Or.inl hf⟩
          | done t0 stats2 =>
            rw [hf] at h
            simp only at h
            cases hk : BuildTree_r E G fuel1 s.back.1 s.back.2 stats2 with
            | fatal e => rw [hk] at h; simp at h
            | outOfFuel => exact ⟨fuel1, r, bestside, s, _, rfl, rfl, hside, hsp, Or.inr hk⟩
            | done t1 stats3 => rw [hk] at h; simp at h

theorem SplitBrush.childSides_free (E : Ext) (split : qplane3d) (j : Nat)
    (sides : List side_t) :
    (SplitBrush.childSides E split j sides).countP (fun s => !s.onnode) ≤
      sides.countP (fun s => !s.onnode) := by
  induction sides with
  | nil => simp [SplitBrush.childSides]
  | cons face rest ih =>
    unfold SplitBrush.childSides
    cases hc : (E.clip face.w split 0 false).get j with
    | none =>
      simp only
      rw [List.countP_cons]
      omega
    | some cw =>
      simp only
      rw [List.countP_cons, List.countP_cons]
      simp only
      omega

theorem SplitBrush.piece_free (E : Ext) (b : bspbrush_t) (p : qplane3d) (f : bspbrush_t)
    (h : (SplitBrush E b p).front = some f ∨ (SplitBrush E b p).back = some f) :
    f.freeSides ≤ b.freeSides := by
  rcases SplitBrush.piece E b p f h with rfl | ⟨mid, j, rfl⟩
  · exact le_refl _
  · unfold bspbrush_t.freeSides SplitBrush.withCap SplitBrush.child
    simp only [List.countP_append]
    have hcap : [SplitBrush.cap E p mid j].countP (fun s => !s.onnode) = 0 := by
      simp [SplitBrush.cap]
    rw [hcap, add_zero]
    exact SplitBrush.childSides_free E p j b.sides

theorem SplitBrushList.marked_free (E : Ext) (node : node_t) (b : bspbrush_t) :
    (SplitBrushList.marked E node b).freeSides ≤ b.freeSides := by
  unfold SplitBrushList.marked
  split_ifs
  · exact markOnNode_count_le E node.plane b.sides
  · exact le_refl _

theorem SplitBrushList.frontOf_free (E : Ext) (node : node_t) (b : bspbrush_t) :
    ((SplitBrushList.frontOf E node b).map bspbrush_t.freeSides).getD 0 ≤ b.freeSides := by
  unfold SplitBrushList.frontOf
  split_ifs
  · cases hf : (SplitBrush E b node.plane.toqplane3d).front with
    | none => simp
    | some f => simpa using SplitBrush.piece_free E b _ f (Or.inl hf)
  · simpa using SplitBrushList.marked_free E node b
  · simp

theorem SplitBrushList.backOf_free (E : Ext) (node : node_t) (b : bspbrush_t) :
    ((SplitBrushList.backOf E node b).map bspbrush_t.freeSides).getD 0 ≤ b.freeSides := by
  unfold SplitBrushList.backOf
  split_ifs
  · cases hf : (SplitBrush E b node.plane.toqplane3d).back with
    | none => simp
    | some f => simpa using SplitBrush.piece_free E b _ f (Or.inr hf)
  · simp
  · simpa using SplitBrushList.marked_free E node b
  · simp

theorem freeTotal_filterMap (f : bspbrush_t → Option bspbrush_t) (l : List bspbrush_t) :
    freeTotal (l.filterMap f) = (l.map (fun b => ((f b).map bspbrush_t.freeSides).getD 0)).sum := by
  unfold freeTotal
  induction l with
  | nil => rfl
  | cons a rest ih =>
    rw [List.filterMap_cons]
    cases hf : f a with
    | none => simp [hf, ih]
    | some c => simp [hf, ih]

theorem freeTotal_static (bs1 bs2 : List bspbrush_t)
    (h : bs1.map bspbrush_t.static = bs2.map bspbrush_t.static) :
    freeTotal bs1 = freeTotal bs2 := by
  have hfs : ∀ b : bspbrush_t, b.freeSides = b.static.freeSides := by
    intro b
    exact (static_shape b b.static (by simp [bspbrush_t.static, side_t.static])).2.symm
  unfold freeTotal
  have h1 : bs1.map bspbrush_t.freeSides = (bs1.map bspbrush_t.static).map bspbrush_t.freeSides := by
    rw [List.map_map]
    exact List.map_congr_left (fun b _ => hfs b)
  have h2 : bs2.map bspbrush_t.freeSides = (bs2.map bspbrush_t.static).map bspbrush_t.freeSides := by
    rw [List.map_map]
    exact List.map_congr_left (fun b _ => hfs b)
  rw [h1, h2, h]

theorem BuildTree_r.split_decrease (E : Ext) (hrefl : ∀ p, E.epsilonEqual p p = true)
    (node : node_t) (bs : List bspbrush_t) (r : SelectResult) (bestside : side_t)
    (s : BuildTree_r.Split) (hcanon : canonSides bs)
    (hsel : SelectSplitSide E bs node = Except.ok r) (hside : r.side = some bestside)
    (hsp : BuildTree_r.split E r bestside = Except.ok s) :
    freeTotal s.front.2 < freeTotal bs ∧ freeTotal s.back.2 < freeTotal bs ∧
    canonSides s.front.2 ∧ canonSides s.back.2 := by
  obtain ⟨bi, si, brush0, side0, volume, f, k, hbest, hb0, hs0, hbs, -, -, hon, -, -, -, -,
    -, hst, hall, hsplit, -⟩ := BuildTree_r.split_facts E bs node r bestside hsel hside
  obtain ⟨brush0', side0', rb, -, -, -, hb0', hs0', hrb, hrbs, -⟩ :=
    SelectSplitSide_best E bs node r bi si hsel hbest
  rw [hb0] at hb0'
  cases hb0'
  rw [hs0] at hs0'
  cases hs0'
  rw [hsplit] at hsp
  simp only [Except.ok.injEq] at hsp
  subst hsp
  have hcan := hcanon brush0 (List.getElem?_mem hb0) side0 (List.getElem?_mem hs0) hon
  unfold qbsp_plane_t.canonical at hcan
  generalize hP : (from_plane side0.plane.toqplane3d true).1 = P at *
  generalize hn1 : ({ r.node with plane := P } : node_t) = node1 at *
  have hn1p : node1.plane = P := by rw [← hn1]
  have hrbm : rb ∈ r.brushes := List.getElem?_mem hrb
  have hs1m : side0.static ∈ rb.sides := List.getElem?_mem hrbs
  have hon1 : side0.static.onnode = false := hon
  have heq : E.epsilonEqual side0.static.plane.toqplane3d P.toqplane3d = true := by
    show E.epsilonEqual side0.plane.toqplane3d P.toqplane3d = true
    rw [hcan]
    exact hrefl _
  have hcls : rb.side = 5 ∨ rb.side = 6 := by
    rw [hall rb hrbm]
    rcases classification_cases E P rb with ⟨-, h56⟩ | ⟨hno, -, -⟩
    · exact h56
    · rw [hno _ hs1m] at heq
      simp at heq
  have hfac : rb.side &&& PSIDE_FACING ≠ 0 := by
    rcases hcls with h5 | h6
    · rw [h5]; decide
    · rw [h6]; decide
  have hnb : rb.side ≠ PSIDE_BOTH := by
    rcases hcls with h5 | h6
    · rw [h5]; decide
    · rw [h6]; decide
  have hlt := (SplitBrushList.marked_facts E node1 rb).2
    ⟨hfac, side0.static, hs1m, hon1, by rw [hn1p]; exact heq⟩
  have hpos : 0 < rb.freeSides := by
    unfold bspbrush_t.freeSides
    rw [List.countP_pos_iff]
    exact ⟨side0.static, hs1m, by simp [hon1]⟩
  have hfront : ((SplitBrushList.frontOf E node1 rb).map bspbrush_t.freeSides).getD 0 <
      rb.freeSides := by
    unfold SplitBrushList.frontOf
    rw [if_neg hnb]
    split_ifs
    · simpa using hlt
    · simpa using hpos
  have hback : ((SplitBrushList.backOf E node1 rb).map bspbrush_t.freeSides).getD 0 <
      rb.freeSides := by
    unfold SplitBrushList.backOf
    rw [if_neg hnb]
    split_ifs
    · simpa using hpos
    · simpa using hlt
    · simpa using hpos
  obtain ⟨o1, o2⟩ := SplitBrushList.eq_filterMap E r.brushes node1
  have htot : freeTotal r.brushes = freeTotal bs := freeTotal_static r.brushes bs hst
  have hchild : ∀ b1, b1 ∈ (SplitBrushList E r.brushes node1).front ∨
      b1 ∈ (SplitBrushList E r.brushes node1).back →
      ∀ s1 ∈ b1.sides, s1.onnode = false → s1.plane.canonical := by
    intro b1 hb1 s1 hs1 hs1on
    obtain ⟨b0, hb0m, -, -, hsd⟩ := BuildTree_r.child_brush E bs r.brushes node1 hst
      (by rw [hn1p]; exact hall) b1 hb1
    obtain ⟨⟨s0, hs0m, w, t, he⟩, -⟩ := hsd s1 hs1 hs1on
    have h0on : s0.onnode = false := by
      rw [he] at hs1on
      exact hs1on
    have := hcanon b0 hb0m s0 hs0m h0on
    rw [he]
    exact this
  refine ⟨?_, ?_, ?_, ?_⟩
  · show freeTotal (SplitBrushList E r.brushes node1).front < freeTotal bs
    rw [o1, freeTotal_filterMap, ← htot]
    exact List.sum_lt_sum _ _ (fun b _ => SplitBrushList.frontOf_free E node1 b)
      ⟨rb, hrbm, hfront⟩
  · show freeTotal (SplitBrushList E r.brushes node1).back < freeTotal bs
    rw [o2, freeTotal_filterMap, ← htot]
    exact List.sum_lt_sum _ _ (fun b _ => SplitBrushList.backOf_free E node1 b)
      ⟨rb, hrbm, hback⟩
  · intro b1 hb1
    exact hchild b1 (Or.inl hb1)
  · intro b1 hb1
    exact hchild b1 (Or.inr hb1)

theorem BuildTree_r.fuel_suffices (E : Ext) (G : gamedef_t)
    (hrefl : ∀ p, E.epsilonEqual p p = true) (fuel : Nat) :
    ∀ (m : Nat) (node : node_t) (bs : List bspbrush_t) (stats : bspstats_t),
      freeTotal bs ≤ m → m < fuel → canonSides bs →
      BuildTree_r E G fuel node bs stats ≠ BuildResult.outOfFuel ∧
      ∀ t stats1, BuildTree_r E G fuel node bs stats = BuildResult.done t stats1 →
        t.depth ≤ m := by
  induction fuel with
  | zero =>
    intro m node bs stats _ hm
    omega
  | succ n ih =>
    intro m node bs stats hle hm hcanon
    constructor
    · intro hout
      rcases BuildTree_r_outOfFuel E G (n + 1) node bs stats hout with h0 |
        ⟨fuel1, r, bestside, s, stats1, hfuel, hsel, hside, hsp, hcase⟩
      · omega
      · have hn : n = fuel1 := by omega
        subst hn
        obtain ⟨d1, d2, c1, c2⟩ := BuildTree_r.split_decrease E hrefl node bs r bestside s
          hcanon hsel hside hsp
        rcases hcase with hf | hk
        · exact (ih (m - 1) s.front.1 s.front.2 stats1 (by omega) (by omega) c1).1 hf
        · exact (ih (m - 1) s.back.1 s.back.2 stats1 (by omega) (by omega) c2).1 hk
    · intro t stats1 h
      obtain ⟨fuel1, r, hfuel, hsel, hcase⟩ := BuildTree_r_done E G (n + 1) node bs stats stats1 t h
      have hn : n = fuel1 := by omega
      subst hn
      rcases hcase with ⟨-, hl⟩ | ⟨bestside, s, t0, t1, stats2, hside, hsp, h0, h1, ht⟩
      · obtain ⟨⟨c, o, ht⟩, -⟩ := LeafNode_ok G r.node r.brushes _ stats1 t hl
        subst ht
        simp [nodetree.depth]
      · obtain ⟨d1, d2, c1, c2⟩ := BuildTree_r.split_decrease E hrefl node bs r bestside s
          hcanon hsel hside hsp
        have e0 := (ih (m - 1) s.front.1 s.front.2 _ (by omega) (by omega) c1).2 t0 stats2 h0
        have e1 := (ih (m - 1) s.back.1 s.back.2 _ (by omega) (by omega) c2).2 t1 stats1 h1
        subst ht
        simp only [nodetree.depth]
        have := max_le e0 e1
        omega

theorem BoxOnPlaneSide.axial_le_general (bounds : aabb3d) (plane : qbsp_plane_t) (i : Nat)
    (hi : i < 3) (ht : plane.type = axisType i) (hn : plane.normal = axisVec i 1) :
    (BoxOnPlaneSide.axial bounds plane &&& PSIDE_FRONT ≠ 0 →
      BoxOnPlaneSide.general bounds plane &&& PSIDE_FRONT ≠ 0) ∧
    (BoxOnPlaneSide.axial bounds plane &&& PSIDE_BACK ≠ 0 →
      BoxOnPlaneSide.general bounds plane &&& PSIDE_BACK ≠ 0) := by
  obtain ⟨ha, hg⟩ := BoxOnPlaneSide.axial_unit bounds plane i hi ht hn
  rw [ha, hg]
  have heps : (0 : ℚ) < PLANESIDE_EPSILON := by unfold PLANESIDE_EPSILON; norm_num
  generalize bounds.mins.get (i : Int) = lo
  generalize bounds.maxs.get (i : Int) = hi'
  generalize plane.dist = d
  by_cases h1 : lo < d - PLANESIDE_EPSILON <;> by_cases h2 : lo < d + PLANESIDE_EPSILON <;>
    by_cases h3 : hi' > d + PLANESIDE_EPSILON <;> by_cases h4 : hi' ≥ d + PLANESIDE_EPSILON <;>
    first
    | (exfalso; linarith)
    | simp [h1, h2, h3, h4, PSIDE_FRONT, PSIDE_BACK]

theorem mem_freePlanes (bs : List bspbrush_t) (P : qbsp_plane_t) :
    P ∈ freePlanes bs ↔
      ∃ b ∈ bs, ∃ s ∈ b.sides, s.onnode = false ∧ (from_plane s.plane.toqplane3d true).1 = P := by
  unfold freePlanes
  simp only [List.mem_flatMap, List.mem_map, List.mem_filter, Bool.not_eq_eq_eq_not,
    Bool.not_true]
  constructor
  · rintro ⟨b, hb, s, ⟨hs, hon⟩, rfl⟩
    exact ⟨b, hb, s, hs, hon, rfl⟩
  · rintro ⟨b, hb, s, hs, hon, rfl⟩
    exact ⟨b, hb, s, ⟨hs, hon⟩, rfl⟩

theorem freePlanes_length (bs : List bspbrush_t) : (freePlanes bs).length = freeTotal bs := by
  unfold freePlanes freeTotal
  induction bs with
  | nil => rfl
  | cons b rest ih =>
    simp only [List.flatMap_cons, List.length_append, List.length_map, List.map_cons,
      List.sum_cons, ih]
    congr 1
    unfold bspbrush_t.freeSides
    rw [List.countP_eq_length_filter]

theorem BuildTree_r.untried_le (node : node_t) (bs : List bspbrush_t) :
    BuildTree_r.untried node bs ≤ freeTotal bs := by
  unfold BuildTree_r.untried
  calc ((freePlanes bs).toFinset \ node.parents.toFinset).card
      ≤ (freePlanes bs).toFinset.card := Finset.card_le_card Finset.sdiff_subset
    _ ≤ (freePlanes bs).length := List.toFinset_card_le _
    _ = freeTotal bs := freePlanes_length bs

theorem BuildTree_r.split_untried (E : Ext) (hrefl : ∀ p, E.epsilonEqual p p = true)
    (node : node_t) (bs : List bspbrush_t) (r : SelectResult) (bestside : side_t)
    (s : BuildTree_r.Split)
    (hsel : SelectSplitSide E bs node = Except.ok r) (hside : r.side = some bestside)
    (hsp : BuildTree_r.split E r bestside = Except.ok s) :
    BuildTree_r.untried s.front.1 s.front.2 < BuildTree_r.untried node bs ∧
    BuildTree_r.untried s.back.1 s.back.2 < BuildTree_r.untried node bs := by
  obtain ⟨bi, si, brush0, side0, volume, f, k, hbest, hb0, hs0, hbs, -, -, hon, -, hpar, -, -,
    -, hst, hall, hsplit, hrp⟩ := BuildTree_r.split_facts E bs node r bestside hsel hside
  rw [hsplit] at hsp
  simp only [Except.ok.injEq] at hsp
  subst hsp
  generalize hP : (from_plane side0.plane.toqplane3d true).1 = P at *
  generalize hn1 : ({ r.node with plane := P } : node_t) = node1 at *
  have hn1p : node1.plane = P := by rw [← hn1]
  have hn1par : node1.parents = node.parents := by rw [← hn1]; exact hrp
  have hPmem : P ∈ freePlanes bs := by
    rw [mem_freePlanes]
    exact ⟨brush0, List.getElem?_mem hb0, side0, List.getElem?_mem hs0, hon, hP⟩
  have hPnot : P ∉ node.parents := by
    intro hmem
    unfold CheckPlaneAgainstParents at hpar
    rw [List.any_eq_false] at hpar
    have := hpar P hmem
    rw [hrefl] at this
    exact this rfl
  have hsub : ∀ bs1, (∀ b1 ∈ bs1, b1 ∈ (SplitBrushList E r.brushes node1).front ∨
      b1 ∈ (SplitBrushList E r.brushes node1).back) →
      ∀ Q ∈ freePlanes bs1, Q ∈ freePlanes bs := by
    intro bs1 hbs1 Q hQ
    rw [mem_freePlanes] at hQ ⊢
    obtain ⟨b1, hb1, s1, hs1, hs1on, hQe⟩ := hQ
    obtain ⟨b0, hb0m, -, -, hsd⟩ := BuildTree_r.child_brush E bs r.brushes node1 hst
      (by rw [hn1p]; exact hall) b1 (hbs1 b1 hb1)
    obtain ⟨⟨s0, hs0m, w, t, he⟩, -⟩ := hsd s1 hs1 hs1on
    refine ⟨b0, hb0m, s0, hs0m, ?_, ?_⟩
    · rw [he] at hs1on
      exact hs1on
    · rw [← hQe, he]
  have hlt : ∀ bs1, (∀ Q ∈ freePlanes bs1, Q ∈ freePlanes bs) →
      ∀ vol, BuildTree_r.untried (BuildTree_r.newnode node1 vol) bs1 <
        BuildTree_r.untried node bs := by
    intro bs1 hQ vol
    unfold BuildTree_r.untried
    apply Finset.card_lt_card
    rw [Finset.ssubset_iff_of_subset]
    · refine ⟨P, ?_, ?_⟩
      · simp only [Finset.mem_sdiff, List.mem_toFinset]
        exact ⟨hPmem, hPnot⟩
      · simp only [Finset.mem_sdiff, List.mem_toFinset, BuildTree_r.newnode, hn1p,
          List.mem_cons, true_or, not_true_eq_false, and_false, not_false_eq_true]
    · intro Q
      simp only [Finset.mem_sdiff, List.mem_toFinset, BuildTree_r.newnode, hn1p, hn1par,
        List.mem_cons, not_or]
      rintro ⟨h1, -, h3⟩
      exact ⟨hQ Q h1, h3⟩
  exact ⟨hlt _ (hsub _ (fun b1 hb1 => Or.inl hb1)) _, hlt _ (hsub _ (fun b1 hb1 => Or.inr hb1)) _⟩

theorem BuildTree_r.untried_suffices (E : Ext) (G : gamedef_t)
    (hrefl : ∀ p, E.epsilonEqual p p = true) (fuel : Nat) :
    ∀ (m : Nat) (node : node_t) (bs : List bspbrush_t) (stats : bspstats_t),
      BuildTree_r.untried node bs ≤ m → m < fuel →
      BuildTree_r E G fuel node bs stats ≠ BuildResult.outOfFuel ∧
      ∀ t stats1, BuildTree_r E G fuel node bs stats = BuildResult.done t stats1 →
        t.depth ≤ m := by
  induction fuel with
  | zero =>
    intro m node bs stats _ hm
    omega
  | succ n ih =>
    intro m node bs stats hle hm
    constructor
    · intro hout
      rcases BuildTree_r_outOfFuel E G (n + 1) node bs stats hout with h0 |
        ⟨fuel1, r, bestside, s, stats1, hfuel, hsel, hside, hsp, hcase⟩
      · omega
      · have hn : n = fuel1 := by omega
        subst hn
        obtain ⟨d1, d2⟩ := BuildTree_r.split_untried E hrefl node bs r bestside s
          hsel hside hsp
        rcases hcase with hf | hk
        · exact (ih (m - 1) s.front.1 s.front.2 stats1 (by omega) (by omega)).1 hf
        · exact (ih (m - 1) s.back.1 s.back.2 stats1 (by omega) (by omega)).1 hk
    · intro t stats1 h
      obtain ⟨fuel1, r, hfuel, hsel, hcase⟩ := BuildTree_r_done E G (n + 1) node bs stats stats1 t h
      have hn : n = fuel1 := by omega
      subst hn
      rcases hcase with ⟨-, hl⟩ | ⟨bestside, s, t0, t1, stats2, hside, hsp, h0, h1, ht⟩
      · obtain ⟨⟨c, o, ht⟩, -⟩ := LeafNode_ok G r.node r.brushes _ stats1 t hl
        subst ht
        simp [nodetree.depth]
      · obtain ⟨d1, d2⟩ := BuildTree_r.split_untried E hrefl node bs r bestside s
          hsel hside hsp
        have e0 := (ih (m - 1) s.front.1 s.front.2 _ (by omega) (by omega)).2 t0 stats2 h0
        have e1 := (ih (m - 1) s.back.1 s.back.2 _ (by omega) (by omega)).2 t1 stats1 h1
        subst ht
        simp only [nodetree.depth]
        have := max_le e0 e1
        omega

/-- C38 (amended): with a reflexive plane comparison, `BuildTree_r` terminates
on every brush list: with more fuel than the input brushes have sides that
are not onnode the call ends, with a tree or a fatal error, and no path from
the root of the tree to a leaf has more interior nodes than the input brushes
have such sides.  What is strictly smaller in each child than in the parent
is the number of different planes of such sides that no ancestor has; the
number of sides that are not onnode is strictly smaller in each child's list
when the planes of these sides are stored in canonical positive form, which
the children's lists then have again. -/
theorem BuildTree_r_terminates (E : Ext) (G : gamedef_t) (fuel : Nat) (node : node_t)
    (bs : List bspbrush_t) (stats : bspstats_t)
    (hrefl : ∀ p, E.epsilonEqual p p = true) (hfuel : freeTotal bs < fuel) :
    BuildTree_r E G fuel node bs stats ≠ BuildResult.outOfFuel ∧
    (∀ t stats1, BuildTree_r E G fuel node bs stats = BuildResult.done t stats1 →
      t.depth ≤ freeTotal bs) ∧
    BuildTree_r.untried node bs ≤ freeTotal bs ∧
    ∀ r bestside s, SelectSplitSide E bs node = Except.ok r → r.side = some bestside →
      BuildTree_r.split E r bestside = Except.ok s →
      BuildTree_r.untried s.front.1 s.front.2 < BuildTree_r.untried node bs ∧
      BuildTree_r.untried s.back.1 s.back.2 < BuildTree_r.untried node bs ∧
      (canonSides bs →
        freeTotal s.front.2 < freeTotal bs ∧ freeTotal s.back.2 < freeTotal bs ∧
        canonSides s.front.2 ∧ canonSides s.back.2) := by
  have hle := BuildTree_r.untried_le node bs
  obtain ⟨h1, h2⟩ := BuildTree_r.untried_suffices E G hrefl fuel (freeTotal bs) node bs stats
    hle hfuel
  refine ⟨h1, h2, hle, ?_⟩
  intro r bestside s hsel hside hsp
  obtain ⟨u1, u2⟩ := BuildTree_r.split_untried E hrefl node bs r bestside s hsel hside hsp
  exact ⟨u1, u2, fun hcanon =>
    BuildTree_r.split_decrease E hrefl node bs r bestside s hcanon hsel hside hsp⟩

/-- C38 (amended), on the build of `twoSide`, which has two sides that are not
onnode, at the node `rootNode`: the build ends with a tree of depth 2. -/
theorem BuildTree_r_terminates_witness :
    BuildTree_r refExt refGame 3 rootNode [twoSide] bspstats_t.zero =
      BuildResult.done builtTwo.1 builtTwo.2 ∧
    (freeTotal [twoSide] = 2 ∧ builtTwo.1.depth = 2 ∧ canonSides [twoSide]) ∧
    (BuildTree_r refExt refGame 3 rootNode [twoSide] bspstats_t.zero ≠ BuildResult.outOfFuel ∧
    (∀ t stats1, BuildTree_r refExt refGame 3 rootNode [twoSide] bspstats_t.zero =
        BuildResult.done t stats1 →
      t.depth ≤ freeTotal [twoSide]) ∧
    BuildTree_r.untried rootNode [twoSide] ≤ freeTotal [twoSide] ∧
    ∀ r bestside s, SelectSplitSide refExt [twoSide] rootNode = Except.ok r →
      r.side = some bestside →
      BuildTree_r.split refExt r bestside = Except.ok s →
      BuildTree_r.untried s.front.1 s.front.2 < BuildTree_r.untried rootNode [twoSide] ∧
      BuildTree_r.untried s.back.1 s.back.2 < BuildTree_r.untried rootNode [twoSide] ∧
      (canonSides [twoSide] →
        freeTotal s.front.2 < freeTotal [twoSide] ∧ freeTotal s.back.2 < freeTotal [twoSide] ∧
        canonSides s.front.2 ∧ canonSides s.back.2)) :=
  ⟨builtTwo_run, by decide!,
    BuildTree_r_terminates refExt refGame 3 rootNode [twoSide] bspstats_t.zero
      refEpsilonEqual_refl (by decide!)⟩

/-- C38 as stated fails: the brush `flipX` has one side that is not onnode,
whose plane is stored as normal (-1,0,0) at distance -8.  At the node
`rootNode` the search returns this side and the node gets the plane `x = 8`;
the stored plane is not epsilon-equal to it, so the brush is classified BACK
by its bounds, not FACING, and goes to the back child as it is: the back
child's list has as many sides that are not onnode as the parent's, one.  The
build ends at the back child with the fatal error "Tried parent". -/
theorem BuildTree_r_terminates_counterexample :
    SelectSplitSide refExt [flipX] rootNode = Except.ok searchFlip ∧
    searchFlip.side = some flipSide ∧
    BuildTree_r.split refExt searchFlip flipSide = Except.ok flipSplit ∧
    freeTotal [flipX] = 1 ∧ freeTotal flipSplit.back.2 = 1 ∧
    ¬ freeTotal flipSplit.back.2 < freeTotal [flipX] ∧
    BuildTree_r refExt refGame 5 rootNode [flipX] bspstats_t.zero =
      BuildResult.fatal "Tried parent" := by
  refine ⟨except_ok_of_toOption _ _ (by decide!), by decide!,
    except_ok_of_toOption _ _ (by decide!), by decide!, by decide!, by decide!, by decide!⟩

theorem from_plane_face_dist (q : qplane3d) (r : qbsp_plane_t × Bool)
    (hr : from_plane q true = r) :
    (if r.2 = true then r.1.toqplane3d.neg else r.1.toqplane3d).dist = q.dist := by
  rw [from_plane_eq] at hr
  by_cases h1 : q.normal.x = 1
  · rw [if_pos h1] at hr
    subst hr
    simp
  rw [if_neg h1] at hr
  by_cases h2 : q.normal.x = -1
  · rw [if_pos h2] at hr
    subst hr
    simp [qplane3d.neg]
  rw [if_neg h2] at hr
  by_cases h3 : q.normal.y = 1
  · rw [if_pos h3] at hr
    subst hr
    simp
  rw [if_neg h3] at hr
  by_cases h4 : q.normal.y = -1
  · rw [if_pos h4] at hr
    subst hr
    simp [qplane3d.neg]
  rw [if_neg h4] at hr
  by_cases h5 : q.normal.z = 1
  · rw [if_pos h5] at hr
    subst hr
    simp
  rw [if_neg h5] at hr
  by_cases h6 : q.normal.z = -1
  · rw [if_pos h6] at hr
    subst hr
    simp [qplane3d.neg]
  rw [if_neg h6, from_plane_any_eq] at hr
  by_cases h7 : (true = true ∧ q.normal.get (dominantAxis q.normal) < 0)
  · rw [if_pos h7] at hr
    subst hr
    simp [qplane3d.neg, qvec3d.neg]
  · rw [if_neg h7] at hr
    subst hr
    simp

theorem Face_Plane_set_plane_dist (q : qplane3d) (s : side_t)
    (hp : s.plane = (set_plane q true).1) (hf : s.plane_flipped = (set_plane q true).2) :
    (Face_Plane s).dist = q.dist := by
  unfold Face_Plane
  rw [hp, hf]
  exact from_plane_face_dist q (set_plane q true) rfl

theorem Face_Plane_cap_dist (E : Ext) (p : qplane3d) (mid : winding_t) (i : Nat) :
    (Face_Plane (SplitBrush.cap E p mid i)).dist = if i = 0 then -p.dist else p.dist := by
  rw [Face_Plane_set_plane_dist (if decide (i = 0) = true then p.neg else p)
    (SplitBrush.cap E p mid i) rfl rfl]
  by_cases h : i = 0
  · simp [h, qplane3d.neg]
  · simp [h]

theorem closedSides.sum_linear (a d nx ny nz : side_t → vec_t) (cx cy cz : vec_t)
    (l : List side_t) :
    (l.map (fun s => a s * (d s - (cx * nx s + cy * ny s + cz * nz s)))).sum =
      (l.map (fun s => a s * d s)).sum - cx * (l.map (fun s => a s * nx s)).sum
        - cy * (l.map (fun s => a s * ny s)).sum - cz * (l.map (fun s => a s * nz s)).sum := by
  induction l with
  | nil => simp
  | cons s rest ih =>
    simp only [List.map_cons, List.sum_cons, ih]
    ring

theorem closedSides.sum_filter (E : Ext) (hempty : E.area [] = 0) (X : side_t → vec_t)
    (l : List side_t) :
    ((l.filter (fun side => decide (side.w ≠ []))).map (fun s => E.area s.w * X s)).sum =
      (l.map (fun s => E.area s.w * X s)).sum := by
  induction l with
  | nil => rfl
  | cons s rest ih =>
    by_cases hw : s.w = []
    · have hd : ¬ decide (s.w ≠ []) = true := by simp [hw]
      rw [@List.filter_cons_of_neg side_t (fun side => decide (side.w ≠ [])) s rest hd, ih]
      simp only [List.map_cons, List.sum_cons, hw, hempty, zero_mul, zero_add]
    · have hd : decide (s.w ≠ []) = true := by simp [hw]
      rw [@List.filter_cons_of_pos side_t (fun side => decide (side.w ≠ [])) s rest hd]
      simp only [List.map_cons, List.sum_cons, ih]

theorem BrushVolume.tetraSum_closed (E : Ext) (hempty : E.area [] = 0) (sides : List side_t)
    (hc : closedSides E sides) (corner : qvec3d) :
    BrushVolume.tetraSum E sides corner =
      (sides.map (fun s => E.area s.w * (Face_Plane s).dist)).sum / 3 := by
  unfold BrushVolume.tetraSum
  rw [closedSides.sum_filter E hempty
    (fun s => (Face_Plane s).dist - qv.dot corner (Face_Plane s).normal)]
  have h := closedSides.sum_linear (fun s => E.area s.w) (fun s => (Face_Plane s).dist)
    (fun s => (Face_Plane s).normal.x) (fun s => (Face_Plane s).normal.y)
    (fun s => (Face_Plane s).normal.z) corner.x corner.y corner.z sides
  unfold qv.dot
  obtain ⟨c1, c2, c3⟩ := hc
  rw [h, c1, c2, c3]
  ring

theorem BrushVolume_closed (E : Ext) (hempty : E.area [] = 0) (brush : bspbrush_t)
    (hc : closedSides E brush.sides) :
    BrushVolume E brush =
      (brush.sides.map (fun s => E.area s.w * (Face_Plane s).dist)).sum / 3 := by
  rw [BrushVolume_eq_tetraSum]
  cases hcor : BrushVolume.corner brush.sides with
  | some corner => exact BrushVolume.tetraSum_closed E hempty brush.sides hc corner
  | none =>
    simp only
    rw [BrushVolume.corner_eq_last] at hcor
    have hnil : brush.sides.filter (fun face => decide (face.w ≠ [])) = [] := by
      cases hl : (brush.sides.filter (fun face => decide (face.w ≠ []))).getLast? with
      | none => exact List.getLast?_eq_none_iff.mp hl
      | some face =>
        rw [hl] at hcor
        simp only [Option.some_bind] at hcor
        have hmem := List.mem_of_getLast?_eq_some hl
        rw [List.mem_filter] at hmem
        have hw : face.w ≠ [] := by simpa using hmem.2
        cases hfw : face.w with
        | nil => exact absurd hfw hw
        | cons a rest => rw [hfw] at hcor; simp at hcor
    rw [← closedSides.sum_filter E hempty (fun s => (Face_Plane s).dist), hnil]
    simp

theorem SplitBrush.childSides_sum (E : Ext) (split : qplane3d) (j : Nat)
    (sides : List side_t) :
    ((SplitBrush.childSides E split j sides).map
      (fun s => E.area s.w * (Face_Plane s).dist)).sum =
    (sides.map (fun face => SplitBrush.pieceArea E split j face * (Face_Plane face).dist)).sum := by
  induction sides with
  | nil => simp [SplitBrush.childSides]
  | cons face rest ih =>
    have hfp : ∀ cw : winding_t, Face_Plane { face with w := cw } = Face_Plane face :=
      fun _ => rfl
    unfold SplitBrush.childSides
    simp only [List.map_cons, List.sum_cons]
    cases hcl : (E.clip face.w split 0 false).get j with
    | none =>
      have hpa : SplitBrush.pieceArea E split j face = 0 := by
        unfold SplitBrush.pieceArea
        rw [hcl]
      simp only [hpa, zero_mul, zero_add]
      exact ih
    | some cw =>
      have hpa : SplitBrush.pieceArea E split j face = E.area cw := by
        unfold SplitBrush.pieceArea
        rw [hcl]
      simp only [List.map_cons, List.sum_cons, hpa, hfp, ih]

theorem SplitBrush.volume_sum (E : Ext) (brush : bspbrush_t) (p : qplane3d)
    (f k : bspbrush_t)
    (hf : (SplitBrush E brush p).front = some f)
    (hk : (SplitBrush E brush p).back = some k)
    (hempty : E.area [] = 0)
    (hflip : ∀ mid, SplitBrush.midwinding E brush p = some mid →
      E.area (E.flip mid) = E.area mid)
    (hclip : ∀ face ∈ brush.sides,
      SplitBrush.pieceArea E p 0 face + SplitBrush.pieceArea E p 1 face = E.area face.w)
    (hb : closedSides E brush.sides) (hfc : closedSides E f.sides)
    (hkc : closedSides E k.sides) :
    BrushVolume E f + BrushVolume E k = BrushVolume E brush ∧ 2 ≤ BrushVolume E brush := by
  obtain ⟨mid, c0, c1, hm, h0, h1, hf', hk', hv0, hv1⟩ := SplitBrush.both_some E brush p f k hf hk
  have hs0 := (SplitBrush.checked_some E brush _ c0 h0).2.2.2.2.1
  have hs1 := (SplitBrush.checked_some E brush _ c1 h1).2.2.2.2.1
  have hfs : f.sides = SplitBrush.childSides E p 0 brush.sides ++ [SplitBrush.cap E p mid 0] := by
    rw [hf', ← hs0]
    rfl
  have hks : k.sides = SplitBrush.childSides E p 1 brush.sides ++ [SplitBrush.cap E p mid 1] := by
    rw [hk', ← hs1]
    rfl
  have hsum : BrushVolume E f + BrushVolume E k = BrushVolume E brush := by
    rw [BrushVolume_closed E hempty f hfc, BrushVolume_closed E hempty k hkc,
      BrushVolume_closed E hempty brush hb, hfs, hks]
    simp only [List.map_append, List.sum_append, List.map_cons, List.map_nil, List.sum_cons,
      List.sum_nil, add_zero, SplitBrush.childSides_sum, Face_Plane_cap_dist]
    have hcapw0 : (SplitBrush.cap E p mid 0).w = E.flip mid := by simp [SplitBrush.cap]
    have hcapw1 : (SplitBrush.cap E p mid 1).w = mid := by simp [SplitBrush.cap]
    rw [hcapw0, hcapw1, hflip mid hm]
    have hadd : (brush.sides.map (fun s => E.area s.w * (Face_Plane s).dist)).sum =
        (brush.sides.map (fun face =>
          SplitBrush.pieceArea E p 0 face * (Face_Plane face).dist)).sum +
        (brush.sides.map (fun face =>
          SplitBrush.pieceArea E p 1 face * (Face_Plane face).dist)).sum := by
      rw [← List.sum_map_add]
      congr 1
      apply List.map_congr_left
      intro face hface
      rw [← hclip face hface]
      ring
    rw [hadd]
    simp only [if_true, one_ne_zero, if_false]
    ring
  refine ⟨hsum, ?_⟩
  rw [← hsum]
  have a0 := le_of_not_lt hv0
  have a1 := le_of_not_lt hv1
  linarith

theorem candidatePlane_eq (bs0 : List bspbrush_t) (bi si : Nat) (brush : bspbrush_t)
    (side : side_t) (hb : bs0[bi]? = some brush) (hs : brush.sides[si]? = some side) :
    candidatePlane bs0 bi si = (from_plane side.plane.toqplane3d true).1 := by
  unfold candidatePlane
  simp only [List.getD_eq_getElem?_getD, hb, hs, Option.getD_some]

theorem markTested_lookup (E : Ext) (plane : qbsp_plane_t) (sides : List side_t) (si : Nat)
    (side1 : side_t) (h : (SelectSplitSide.markTested E plane sides)[si]? = some side1) :
    ∃ side, sides[si]? = some side ∧
      (side1.tested = true → side.tested = true ∨
        E.epsilonEqual side.plane.toqplane3d plane.toqplane3d = true) := by
  unfold SelectSplitSide.markTested at h
  rw [List.getElem?_map] at h
  cases hs : sides[si]? with
  | none => rw [hs] at h; simp at h
  | some side =>
    rw [hs] at h
    simp only [Option.map_some', Option.some.injEq] at h
    refine ⟨side, rfl, ?_⟩
    intro ht
    by_cases he : E.epsilonEqual side.plane.toqplane3d plane.toqplane3d = true
    · exact Or.inr he
    · rw [if_neg he] at h
      rw [← h] at ht
      exact Or.inl ht

theorem testBrush_tested (E : Ext) (plane : qbsp_plane_t) (acc acc1 : TestAcc)
    (test test1 : bspbrush_t)
    (h : SelectSplitSide.testBrush E plane acc test = Except.ok (acc1, test1)) :
    ∀ (si : Nat) (side1 : side_t), test1.sides[si]? = some side1 →
      ∃ side, test.sides[si]? = some side ∧
        (side1.tested = true → side.tested = true ∨
          E.epsilonEqual side.plane.toqplane3d plane.toqplane3d = true) := by
  unfold SelectSplitSide.testBrush at h
  simp only at h
  split at h
  · simp at h
  · simp only [Except.ok.injEq, Prod.mk.injEq] at h
    obtain ⟨-, h⟩ := h
    subst h
    intro si side1 hs
    simp only at hs
    by_cases hf : decide ((TestBrushToPlanenum E test plane acc.epsilonbrush).s &&&
        PSIDE_FACING ≠ 0) = true
    · rw [if_pos hf] at hs
      exact markTested_lookup E plane test.sides si side1 hs
    · rw [if_neg hf] at hs
      exact ⟨side1, hs, fun ht => Or.inl ht⟩

theorem testAll_tested (E : Ext) (plane : qbsp_plane_t) (bs : List bspbrush_t) :
    ∀ (acc acc1 : TestAcc) (bs1 : List bspbrush_t),
      SelectSplitSide.testAll E plane bs acc = Except.ok (acc1, bs1) →
      ∀ (bi : Nat) (brush1 : bspbrush_t), bs1[bi]? = some brush1 →
        ∃ brush, bs[bi]? = some brush ∧
          ∀ (si : Nat) (side1 : side_t), brush1.sides[si]? = some side1 →
            ∃ side, brush.sides[si]? = some side ∧
              (side1.tested = true → side.tested = true ∨
                E.epsilonEqual side.plane.toqplane3d plane.toqplane3d = true) := by
  induction bs with
  | nil =>
    intro acc acc1 bs1 h bi brush1 hb
    simp only [SelectSplitSide.testAll, Except.ok.injEq, Prod.mk.injEq] at h
    rw [← h.2] at hb
    simp at hb
  | cons test rest ih =>
    intro acc acc1 bs1 h bi brush1 hb
    unfold SelectSplitSide.testAll at h
    cases h1 : SelectSplitSide.testBrush E plane acc test with
    | error e => rw [h1] at h; simp at h
    | ok res =>
      obtain ⟨acc2, test1⟩ := res
      rw [h1] at h
      simp only at h
      cases h2 : SelectSplitSide.testAll E plane rest acc2 with
      | error e => rw [h2] at h; simp at h
      | ok res2 =>
        obtain ⟨acc3, rest1⟩ := res2
        rw [h2] at h
        simp only [Except.ok.injEq, Prod.mk.injEq] at h
        obtain ⟨-, h⟩ := h
        subst h
        cases bi with
        | zero =>
          simp only [List.getElem?_cons_zero, Option.some.injEq] at hb
          subst hb
          exact ⟨test, by simp, testBrush_tested E plane acc acc2 test test1 h1⟩
        | succ n =>
          simp only [List.getElem?_cons_succ] at hb ⊢
          exact ih acc2 acc3 rest1 h2 n brush1 hb

theorem score_fields (p bi si : Nat) (value splits : Int) (tested : List bspbrush_t)
    (st : SelectState) :
    (SelectSplitSide.score p bi si value splits tested st).scored =
      st.scored ++ [Scored.mk p bi si value] ∧
    ∀ (bj : Nat) (b1 : bspbrush_t),
      (SelectSplitSide.score p bi si value splits tested st).brushes[bj]? = some b1 →
      ∃ t, tested[bj]? = some t ∧ b1.sides = t.sides := by
  unfold SelectSplitSide.score
  simp only
  split_ifs
  · refine ⟨rfl, ?_⟩
    intro bj b1 hb
    simp only [List.getElem?_map] at hb
    cases ht : tested[bj]? with
    | none => rw [ht] at hb; simp at hb
    | some t =>
      rw [ht] at hb
      simp only [Option.map_some', Option.some.injEq] at hb
      exact ⟨t, rfl, by rw [← hb]⟩
  · refine ⟨rfl, ?_⟩
    intro bj b1 hb
    exact ⟨b1, hb, rfl⟩

theorem score_static (p bi si : Nat) (value splits : Int) (tested : List bspbrush_t)
    (st : SelectState) :
    (SelectSplitSide.score p bi si value splits tested st).brushes.map bspbrush_t.static =
      tested.map bspbrush_t.static := by
  unfold SelectSplitSide.score
  simp only
  split_ifs
  · exact map_side_static tested
  · rfl

theorem planeScored_mono (E : Ext) (bs0 : List bspbrush_t) (sc1 sc2 : List Scored)
    (h : ∀ e ∈ sc1, e ∈ sc2) (bi si : Nat) (hp : planeScored E bs0 sc1 bi si) :
    planeScored E bs0 sc2 bi si := by
  obtain ⟨e, he, rest⟩ := hp
  exact ⟨e, h e he, rest⟩

theorem accounted_mono (E : Ext) (bs0 : List bspbrush_t) (sc1 sc2 : List Scored)
    (h : ∀ e ∈ sc1, e ∈ sc2) (bi si : Nat) (hp : accounted E bs0 sc1 bi si) :
    accounted E bs0 sc2 bi si := by
  obtain ⟨e, he, h1⟩ := hp
  exact ⟨e, h e he, h1⟩

theorem planeScored_accounted (E : Ext) (bs0 : List bspbrush_t) (sc : List Scored)
    (bi si : Nat) (hp : planeScored E bs0 sc bi si) : accounted E bs0 sc bi si := by
  obtain ⟨e, he, h1⟩ := hp
  exact ⟨e, he, Or.inr h1⟩

theorem static_original (brush brush0 : bspbrush_t) (h : brush0.static = brush.static) :
    brush0.original = brush.original := by
  have := congrArg bspbrush_t.original h
  simpa [bspbrush_t.static] using this

theorem SelectSplitSide.trySide_forward (E : Ext) (node : node_t) (p bi si : Nat)
    (st st1 : SelectState) (brush : bspbrush_t) (side : side_t) (volume : bspbrush_t)
    (hb : st.brushes[bi]? = some brush) (hs : brush.sides[si]? = some side)
    (hskip : SelectSplitSide.skips E p side = false) (hv : node.volume = some volume)
    (hc : CheckPlaneAgainstVolume E (from_plane side.plane.toqplane3d true).1 volume = true)
    (h : SelectSplitSide.trySide E node p bi si st = Except.ok st1) :
    ∃ acc tested,
      SelectSplitSide.testAll E (from_plane side.plane.toqplane3d true).1 st.brushes
        TestAcc.zero = Except.ok (acc, tested) ∧
      st1 = SelectSplitSide.score p bi si
        (SelectSplitSide.value E (from_plane side.plane.toqplane3d true).1 side acc)
        acc.splits tested st := by
  unfold SelectSplitSide.trySide at h
  rw [hb] at h
  simp only [hs, hskip, hv, hc, Bool.not_true, Bool.false_eq_true, if_false] at h
  by_cases hp : CheckPlaneAgainstParents E (from_plane side.plane.toqplane3d true).1 node = true
  · rw [if_pos hp] at h
    simp at h
  · rw [if_neg hp] at h
    cases ht : SelectSplitSide.testAll E (from_plane side.plane.toqplane3d true).1 st.brushes
        TestAcc.zero with
    | error e => rw [ht] at h; simp at h
    | ok res =>
      obtain ⟨acc, tested⟩ := res
      rw [ht] at h
      simp only [Except.ok.injEq] at h
      exact ⟨acc, tested, rfl, h.symm⟩

theorem SelectSplitSide.trySide_inv4 (E : Ext) (node : node_t) (bs0 : List bspbrush_t)
    (p bi si : Nat) (st st1 : SelectState) (hinv : SelectSplitSide.Inv4 E bs0 st)
    (h : SelectSplitSide.trySide E node p bi si st = Except.ok st1) :
    SelectSplitSide.Inv4 E bs0 st1 ∧ (∀ e ∈ st.scored, e ∈ st1.scored) := by
  rcases SelectSplitSide.trySide_ok E node p bi si st st1 h with h1 | h1
  · rw [h1]
    exact ⟨hinv, fun e he => he⟩
  · obtain ⟨brush, side, volume, acc, tested, hb, hs, hskip, hv, hc, ht, hst⟩ := h1
    obtain ⟨hsc, hbr⟩ := score_fields p bi si
      (SelectSplitSide.value E (from_plane side.plane.toqplane3d true).1 side acc)
      acc.splits tested st
    have hmono : ∀ e ∈ st.scored, e ∈ st1.scored := by
      intro e he
      rw [hst, hsc]
      exact List.mem_append_left _ he
    refine ⟨⟨?_, ?_⟩, hmono⟩
    · rw [hst, score_static, testAll_static E _ st.brushes TestAcc.zero acc tested ht]
      exact hinv.1
    · intro bj sj b1 s1 hb1 hs1 ht1
      rw [hst] at hb1
      obtain ⟨t, htb, hts⟩ := hbr bj b1 hb1
      obtain ⟨brush2, hb2, hall⟩ :=
        testAll_tested E _ st.brushes TestAcc.zero acc tested ht bj t htb
      rw [hts] at hs1
      obtain ⟨side2, hs2, himp⟩ := hall sj s1 hs1
      rcases himp ht1 with h2 | h2
      · rcases hinv.2 bj sj brush2 side2 hb2 hs2 h2 with h3 | h3
        · exact Or.inl h3
        · exact Or.inr (planeScored_mono E bs0 st.scored st1.scored hmono bj sj h3)
      · right
        obtain ⟨brush0, hb0, hst0⟩ := static_lookup st.brushes bs0 hinv.1 bi brush hb
        obtain ⟨side0, hs0, hss0⟩ := static_side_lookup brush brush0 hst0 si side hs
        obtain ⟨brush3, hb3, hst3⟩ := static_lookup st.brushes bs0 hinv.1 bj brush2 hb2
        obtain ⟨side3, hs3, hss3⟩ := static_side_lookup brush2 brush3 hst3 sj side2 hs2
        have hp0 := (static_side_fields side side0 hss0).1
        have hp3 := (static_side_fields side2 side3 hss3).1
        refine ⟨Scored.mk p bi si
          (SelectSplitSide.value E (from_plane side.plane.toqplane3d true).1 side acc), ?_,
          brush3, side3, hb3, hs3, ?_⟩
        · rw [hst, hsc]
          simp
        · rw [candidatePlane_eq bs0 bi si brush0 side0 hb0 hs0, hp0, hp3]
          exact h2

theorem skips_eq_false (E : Ext) (p : Nat) (side : side_t)
    (h1 : side.bevel = false) (h2 : side.w ≠ []) (h3 : side.onnode = false)
    (h4 : side.tested = false) (h5 : E.is_hintskip side.texinfo = false)
    (h6 : side.visible = decide (p < 2)) : SelectSplitSide.skips E p side = false := by
  unfold SelectSplitSide.skips
  have hl : ¬ side.w.length = 0 := fun hl => h2 (List.length_eq_zero.mp hl)
  rw [h1, h3, h4, h5, h6]
  simp [hl]

theorem SelectSplitSide.trySide_account (E : Ext) (node : node_t) (bs0 : List bspbrush_t)
    (p bi si : Nat) (st st1 : SelectState) (hinv : SelectSplitSide.Inv4 E bs0 st)
    (h : SelectSplitSide.trySide E node p bi si st = Except.ok st1)
    (hw : SelectSplitSide.wanted E node bs0 p bi si) :
    entryTested bs0 bi si ∨ accounted E bs0 st1.scored bi si := by
  obtain ⟨hinv1, hmono⟩ := SelectSplitSide.trySide_inv4 E node bs0 p bi si st st1 hinv h
  obtain ⟨brush0, side0, volume, o, hb0, hs0, -, -, w1, w2, w3, w4, w5, hv, hc⟩ := hw
  obtain ⟨brush, hb, hst⟩ := static_lookup bs0 st.brushes hinv.1.symm bi brush0 hb0
  obtain ⟨side, hs, hss⟩ := static_side_lookup brush0 brush hst si side0 hs0
  obtain ⟨f1, f2, f3, f4, f5, f6, -⟩ := static_side_fields side0 side hss
  by_cases ht : side.tested = true
  · rcases hinv.2 bi si brush side hb hs ht with h3 | h3
    · exact Or.inl h3
    · exact Or.inr (planeScored_accounted E bs0 st1.scored bi si
        (planeScored_mono E bs0 st.scored st1.scored hmono bi si h3))
  · have ht0 : side.tested = false := by simpa using ht
    have hskip : SelectSplitSide.skips E p side = false :=
      skips_eq_false E p side (by rw [f2]; exact w1) (by rw [f3]; exact w2)
        (by rw [f4]; exact w3) ht0 (by rw [f5]; exact w4) (by rw [f6]; exact w5)
    obtain ⟨acc, tested, -, hst1⟩ := SelectSplitSide.trySide_forward E node p bi si st st1
      brush side volume hb hs hskip hv (by rw [f1]; exact hc) h
    right
    refine ⟨Scored.mk p bi si
      (SelectSplitSide.value E (from_plane side.plane.toqplane3d true).1 side acc), ?_,
      Or.inl ⟨rfl, rfl⟩⟩
    rw [hst1, (score_fields p bi si _ acc.splits tested st).1]
    simp

theorem SelectSplitSide.sideLoop_account (E : Ext) (node : node_t) (bs0 : List bspbrush_t)
    (p bi : Nat) (sis : List Nat) :
    ∀ (st st1 : SelectState), SelectSplitSide.Inv4 E bs0 st →
      SelectSplitSide.sideLoop E node p bi sis st = Except.ok st1 →
      SelectSplitSide.Inv4 E bs0 st1 ∧ (∀ e ∈ st.scored, e ∈ st1.scored) ∧
      ∀ si ∈ sis, SelectSplitSide.wanted E node bs0 p bi si →
        entryTested bs0 bi si ∨ accounted E bs0 st1.scored bi si := by
  induction sis with
  | nil =>
    intro st st1 hinv h
    simp only [SelectSplitSide.sideLoop, Except.ok.injEq] at h
    subst h
    exact ⟨hinv, fun e he => he, fun si hsi => absurd hsi (List.not_mem_nil si)⟩
  | cons si0 rest ih =>
    intro st st1 hinv h
    unfold SelectSplitSide.sideLoop at h
    cases h1 : SelectSplitSide.trySide E node p bi si0 st with
    | error e => rw [h1] at h; simp at h
    | ok st2 =>
      rw [h1] at h
      simp only at h
      obtain ⟨hinv2, hmono2⟩ := SelectSplitSide.trySide_inv4 E node bs0 p bi si0 st st2 hinv h1
      obtain ⟨hinv1, hmono1, hall⟩ := ih st2 st1 hinv2 h
      refine ⟨hinv1, fun e he => hmono1 e (hmono2 e he), ?_⟩
      intro si hsi hw
      rcases List.mem_cons.mp hsi with heq | hmem
      · subst heq
        rcases SelectSplitSide.trySide_account E node bs0 p bi si st st2 hinv h1 hw with h3 | h3
        · exact Or.inl h3
        · exact Or.inr (accounted_mono E bs0 st2.scored st1.scored hmono1 bi si h3)
      · exact hall si hmem hw

theorem SelectSplitSide.tryBrush_account (E : Ext) (node : node_t) (bs0 : List bspbrush_t)
    (p bi : Nat) (st st1 : SelectState) (hinv : SelectSplitSide.Inv4 E bs0 st)
    (h : SelectSplitSide.tryBrush E node p bi st = Except.ok st1) :
    SelectSplitSide.Inv4 E bs0 st1 ∧ (∀ e ∈ st.scored, e ∈ st1.scored) ∧
    (∀ si, SelectSplitSide.wanted E node bs0 p bi si →
      entryTested bs0 bi si ∨ accounted E bs0 st1.scored bi si) ∧
    (∀ brush0, bs0[bi]? = some brush0 → ∃ o, brush0.original = some o) := by
  unfold SelectSplitSide.tryBrush at h
  cases hb : st.brushes[bi]? with
  | none =>
    rw [hb] at h
    simp only [Except.ok.injEq] at h
    subst h
    have hnone : ∀ brush0, bs0[bi]? = some brush0 → False := by
      intro brush0 hb0
      obtain ⟨brush, hb1, -⟩ := static_lookup bs0 st.brushes hinv.1.symm bi brush0 hb0
      rw [hb] at hb1
      simp at hb1
    refine ⟨hinv, fun e he => he, ?_, fun brush0 hb0 => (hnone brush0 hb0).elim⟩
    intro si hw
    obtain ⟨brush0, -, -, -, hb0, -⟩ := hw
    exact (hnone brush0 hb0).elim
  | some brush =>
    rw [hb] at h
    simp only at h
    obtain ⟨brush1, hb1, hst1⟩ := static_lookup st.brushes bs0 hinv.1 bi brush hb
    have horig := static_original brush brush1 hst1
    cases ho : brush.original with
    | none => rw [ho] at h; simp at h
    | some o =>
      rw [ho] at h
      simp only at h
      have hor : ∀ brush0, bs0[bi]? = some brush0 → ∃ o, brush0.original = some o := by
        intro brush0 hb0
        rw [hb1] at hb0
        simp only [Option.some.injEq] at hb0
        subst hb0
        exact ⟨o, by rw [horig, ho]⟩
      by_cases hc : (p % 2 = 1 ∧ E.is_any_detail (E.original_contents o) = false) ∨
          (p % 2 ≠ 1 ∧ E.is_any_detail (E.original_contents o) = true)
      · rw [if_pos hc] at h
        simp only [Except.ok.injEq] at h
        subst h
        refine ⟨hinv, fun e he => he, ?_, hor⟩
        intro si hw
        obtain ⟨brush0, side0, volume, o0, hb0, -, ho0, hd, -⟩ := hw
        rw [hb1] at hb0
        simp only [Option.some.injEq] at hb0
        subst hb0
        rw [horig, ho] at ho0
        simp only [Option.some.injEq] at ho0
        subst ho0
        exfalso
        rcases hc with ⟨c1, c2⟩ | ⟨c1, c2⟩
        · rw [c2] at hd
          simp [c1] at hd
        · rw [c2] at hd
          simp [c1] at hd
      · rw [if_neg hc] at h
        obtain ⟨hinv1, hmono, hall⟩ := SelectSplitSide.sideLoop_account E node bs0 p bi
          (List.range brush.sides.length) st st1 hinv h
        refine ⟨hinv1, hmono, ?_, hor⟩
        intro si hw
        refine hall si ?_ hw
        obtain ⟨brush0, side0, volume, o0, hb0, hs0, -⟩ := hw
        rw [hb1] at hb0
        simp only [Option.some.injEq] at hb0
        subst hb0
        obtain ⟨side, hs, -⟩ := static_side_lookup brush1 brush hst1.symm si side0 hs0
        rw [List.mem_range]
        exact (List.getElem?_eq_some_iff.mp hs).1

theorem SelectSplitSide.brushLoop_account (E : Ext) (node : node_t) (bs0 : List bspbrush_t)
    (p : Nat) (bis : List Nat) :
    ∀ (st st1 : SelectState), SelectSplitSide.Inv4 E bs0 st →
      SelectSplitSide.brushLoop E node p bis st = Except.ok st1 →
      SelectSplitSide.Inv4 E bs0 st1 ∧ (∀ e ∈ st.scored, e ∈ st1.scored) ∧
      ∀ bi ∈ bis,
        (∀ si, SelectSplitSide.wanted E node bs0 p bi si →
          entryTested bs0 bi si ∨ accounted E bs0 st1.scored bi si) ∧
        (∀ brush0, bs0[bi]? = some brush0 → ∃ o, brush0.original = some o) := by
  induction bis with
  | nil =>
    intro st st1 hinv h
    simp only [SelectSplitSide.brushLoop, Except.ok.injEq] at h
    subst h
    exact ⟨hinv, fun e he => he, fun bi hbi => absurd hbi (List.not_mem_nil bi)⟩
  | cons bi0 rest ih =>
    intro st st1 hinv h
    unfold SelectSplitSide.brushLoop at h
    cases h1 : SelectSplitSide.tryBrush E node p bi0 st with
    | error e => rw [h1] at h; simp at h
    | ok st2 =>
      rw [h1] at h
      simp only at h
      obtain ⟨hinv2, hmono2, hacc2, hor2⟩ :=
        SelectSplitSide.tryBrush_account E node bs0 p bi0 st st2 hinv h1
      obtain ⟨hinv1, hmono1, hall⟩ := ih st2 st1 hinv2 h
      refine ⟨hinv1, fun e he => hmono1 e (hmono2 e he), ?_⟩
      intro bi hbi
      rcases List.mem_cons.mp hbi with heq | hmem
      · subst heq
        refine ⟨?_, hor2⟩
        intro si hw
        rcases hacc2 si hw with h3 | h3
        · exact Or.inl h3
        · exact Or.inr (accounted_mono E bs0 st2.scored st1.scored hmono1 bi si h3)
      · exact hall bi hmem

theorem SelectSplitSide.passLoop_account (E : Ext) (node : node_t) (bs0 : List bspbrush_t)
    (passes : List Nat) :
    ∀ (st st1 : SelectState) (found : Option Nat), SelectSplitSide.Inv4 E bs0 st →
      SelectSplitSide.passLoop E node passes st = Except.ok (st1, found) →
      st1.bestside = none →
      (∀ e ∈ st.scored, e ∈ st1.scored) ∧
      ∀ p ∈ passes,
        (∀ bi si, SelectSplitSide.wanted E node bs0 p bi si →
          entryTested bs0 bi si ∨ accounted E bs0 st1.scored bi si) ∧
        (∀ (bi : Nat) (brush0 : bspbrush_t), bs0[bi]? = some brush0 →
          ∃ o, brush0.original = some o) := by
  induction passes with
  | nil =>
    intro st st1 found hinv h hn
    simp only [SelectSplitSide.passLoop, Except.ok.injEq, Prod.mk.injEq] at h
    obtain ⟨h, -⟩ := h
    subst h
    exact ⟨fun e he => he, fun p hp => absurd hp (List.not_mem_nil p)⟩
  | cons p0 rest ih =>
    intro st st1 found hinv h hn
    unfold SelectSplitSide.passLoop at h
    cases h1 : SelectSplitSide.brushLoop E node p0 (List.range st.brushes.length) st with
    | error e => rw [h1] at h; simp at h
    | ok st2 =>
      rw [h1] at h
      simp only at h
      obtain ⟨hinv2, hmono2, hall2⟩ := SelectSplitSide.brushLoop_account E node bs0 p0
        (List.range st.brushes.length) st st2 hinv h1
      by_cases hsome : st2.bestside.isSome = true
      · rw [if_pos hsome] at h
        simp only [Except.ok.injEq, Prod.mk.injEq] at h
        obtain ⟨h, -⟩ := h
        subst h
        rw [hn] at hsome
        simp at hsome
      · rw [if_neg hsome] at h
        obtain ⟨hmono1, hall1⟩ := ih st2 st1 found hinv2 h hn
        refine ⟨fun e he => hmono1 e (hmono2 e he), ?_⟩
        intro p hp
        rcases List.mem_cons.mp hp with heq | hmem
        · subst heq
          have hlen : st.brushes.length = bs0.length := by
            have := congrArg List.length hinv.1
            simpa using this
          have hin : ∀ (bi : Nat) (brush0 : bspbrush_t), bs0[bi]? = some brush0 →
              bi ∈ List.range st.brushes.length := by
            intro bi brush0 hb0
            rw [List.mem_range, hlen]
            exact (List.getElem?_eq_some_iff.mp hb0).1
          refine ⟨?_, ?_⟩
          · intro bi si hw
            obtain ⟨brush0, -, -, -, hb0, -⟩ := id hw
            rcases (hall2 bi (hin bi brush0 hb0)).1 si hw with h3 | h3
            · exact Or.inl h3
            · exact Or.inr (accounted_mono E bs0 st2.scored st1.scored hmono1 bi si h3)
          · intro bi brush0 hb0
            exact (hall2 bi (hin bi brush0 hb0)).2 brush0 hb0
        · exact hall1 p hmem

theorem SelectSplitSide.Inv4_init (E : Ext) (bs : List bspbrush_t) :
    SelectSplitSide.Inv4 E bs
      { brushes := bs, bestside := none, bestvalue := -99999, bestsplits := 0, scored := [] } := by
  refine ⟨rfl, ?_⟩
  intro bi si brush side hb hs ht
  exact Or.inl ⟨brush, side, hb, hs, ht⟩

theorem SelectSplitSide.none_accounted (E : Ext) (bs : List bspbrush_t) (node : node_t)
    (r : SelectResult) (h : SelectSplitSide E bs node = Except.ok r)
    (hn : r.bestside = none) (bi si : Nat) (hv : validCandidate E node bs bi si)
    (ht : ¬ entryTested bs bi si) : accounted E bs r.scored bi si := by
  unfold SelectSplitSide at h
  cases h1 : SelectSplitSide.passLoop E node [0, 1, 2, 3]
      { brushes := bs, bestside := none, bestvalue := -99999, bestsplits := 0,
        scored := [] } with
  | error e => rw [h1] at h; simp at h
  | ok res =>
    obtain ⟨st, found⟩ := res
    rw [h1] at h
    simp only [Except.ok.injEq] at h
    subst h
    simp only at hn ⊢
    obtain ⟨-, hall⟩ := SelectSplitSide.passLoop_account E node bs [0, 1, 2, 3] _ st found
      (SelectSplitSide.Inv4_init E bs) h1 hn
    obtain ⟨brush, side, volume, hb, hs, v1, v2, v3, v4, v5, v6⟩ := hv
    obtain ⟨o, ho⟩ := (hall 0 (by simp)).2 bi brush hb
    have key : ∀ p, p ∈ [0, 1, 2, 3] →
        E.is_any_detail (E.original_contents o) = decide (p % 2 = 1) →
        side.visible = decide (p < 2) → accounted E bs st.scored bi si := by
      intro p hp hd hvis
      rcases (hall p hp).1 bi si
        ⟨brush, side, volume, o, hb, hs, ho, hd, v1, v2, v3, v4, hvis, v5, v6⟩ with h3 | h3
      · exact absurd h3 ht
      · exact h3
    cases hd : E.is_any_detail (E.original_contents o) <;> cases hvis : side.visible
    · exact key 2 (by simp) (by rw [hd]; decide) (by rw [hvis]; decide)
    · exact key 0 (by simp) (by rw [hd]; decide) (by rw [hvis]; decide)
    · exact key 3 (by simp) (by rw [hd]; decide) (by rw [hvis]; decide)
    · exact key 1 (by simp) (by rw [hd]; decide) (by rw [hvis]; decide)

/-- C9 (amended): `SelectSplitSide` returns no side exactly when none of the
candidates it scores gets a value above −99999.  The candidates it scores are
valid candidates (not bevel, non-empty winding, not onnode, not
hintskip-textured, positive plane splitting the node's volume into two
non-empty parts), so it returns no side when there is no valid candidate.  A
side it returns is a valid candidate that was scored above −99999.  When it
returns no side, every valid candidate whose `tested` flag is clear on entry
is accounted for by a scored candidate with a value of at most −99999: it was
scored itself, or its plane is epsilon-equal to the positive plane of that
scored candidate; the value is the value formula of the search or the hint
clamp −9999999. -/
theorem SelectSplitSide_none_iff (E : Ext) (bs : List bspbrush_t) (node : node_t)
    (r : SelectResult) (h : SelectSplitSide E bs node = Except.ok r) :
    (r.bestside = none ↔ ∀ e ∈ r.scored, e.value ≤ -99999) ∧
    (∀ e ∈ r.scored, validCandidate E node bs e.bi e.si) ∧
    ((∀ bi si, ¬ validCandidate E node bs bi si) → r.bestside = none) ∧
    (∀ bi si, r.bestside = some (bi, si) →
      validCandidate E node bs bi si ∧
      ∃ e ∈ r.scored, e.bi = bi ∧ e.si = si ∧ -99999 < e.value ∧ scoredOk E node bs e) ∧
    (r.bestside = none → ∀ bi si, validCandidate E node bs bi si → ¬ entryTested bs bi si →
      ∃ e ∈ r.scored, e.value ≤ -99999 ∧ scoredOk E node bs e ∧ accountedBy E bs e bi si) := by
  obtain ⟨h1, h2, h3⟩ := SelectSplitSide.none_iff_scored E bs node r h
  obtain ⟨p, st, ⟨-, -, -, i4, i5⟩, hb, hs⟩ := SelectSplitSide_inv E bs node r h
  refine ⟨h1, h2, h3, ?_, ?_⟩
  · intro bi si hbest
    rw [hb] at hbest
    obtain ⟨j1, pre, post, j2, -, -⟩ := i4 bi si hbest
    have hmem : Scored.mk p bi si st.bestvalue ∈ r.scored := by
      rw [hs, j2]
      simp
    exact ⟨h2 _ hmem, _, hmem, rfl, rfl, j1, i5 _ (by rw [← hs]; exact hmem)⟩
  · intro hn bi si hv ht
    obtain ⟨e, he, hacc⟩ := SelectSplitSide.none_accounted E bs node r h hn bi si hv ht
    exact ⟨e, he, h1.mp hn e he, i5 e (by rw [← hs]; exact he), hacc⟩

set_option maxRecDepth 100000 in
/-- Witness of C9 (amended): the search on `plainXon`, hint brush at the node
`lowNode` returns no side; its one valid candidate, side 0 of `plainXon`, was
scored −9999999. -/
theorem SelectSplitSide_none_iff_witness :
    SelectSplitSide refExt [plainXon, hintBrush] lowNode = Except.ok searchLow ∧
    (searchLow.bestside = none ↔ ∀ e ∈ searchLow.scored, e.value ≤ -99999) ∧
    (∀ e ∈ searchLow.scored, validCandidate refExt lowNode [plainXon, hintBrush] e.bi e.si) ∧
    ((∀ bi si, ¬ validCandidate refExt lowNode [plainXon, hintBrush] bi si) →
      searchLow.bestside = none) ∧
    (∀ bi si, searchLow.bestside = some (bi, si) →
      validCandidate refExt lowNode [plainXon, hintBrush] bi si ∧
      ∃ e ∈ searchLow.scored, e.bi = bi ∧ e.si = si ∧ -99999 < e.value ∧
        scoredOk refExt lowNode [plainXon, hintBrush] e) ∧
    (searchLow.bestside = none → ∀ bi si,
      validCandidate refExt lowNode [plainXon, hintBrush] bi si →
      ¬ entryTested [plainXon, hintBrush] bi si →
      ∃ e ∈ searchLow.scored, e.value ≤ -99999 ∧
        scoredOk refExt lowNode [plainXon, hintBrush] e ∧
        accountedBy refExt [plainXon, hintBrush] e bi si) :=
  (fun h => ⟨h, SelectSplitSide_none_iff refExt [plainXon, hintBrush] lowNode searchLow h⟩)
    (except_ok_of_toOption _ _ (by decide!))

end Qbsp
